import Mathlib

/-!
# noytech-ga-optimizer: two-level optimisation engine

A shallow embedding of the Go sources under `internal/services/optimizer`
(`logic`, `ga_level1`, `ga_level2`, `service.go`) together with the properties
proved about them.

Modelling conventions

* `int` is `Int`, `uint32` is `Nat`.
* The code is embedded in two layers.  In the first, `float64` values are exact
  rationals (`ℚ`) and a Go map that is built and then iterated (`terminalShipments`)
  is an association list visited in insertion order.  The properties of control
  flow, errors, grouping and the genetic search are stated in this layer.
* In the second layer (namespace `float64`) the cost functions and the two
  evaluators are embedded again over `F64`, a model of IEEE 754 binary64 with
  round-to-nearest-even, overflow to infinity, subnormal numbers and NaN, every
  operation rounded on its own; and each `range` over `terminalShipments` visits the
  map in an order given by a parameter of type `MapOrder`, which may be any
  permutation.  The properties that depend on a rounded value or on the order of
  iteration are stated in this layer: the value of a last-mile or line-haul cost, of
  the per-km rate, the vehicle chosen for a group, and the agreement of two
  evaluations.
* A Go map that is only read (`distances`) is a function into `Option`; looking a
  key up in a missing inner map behaves like Go's lookup in a nil map.
* `error` results and run-time panics are values of `Except Err`.
* `[]bool` masks live in a store of backing arrays, because crossover may hand a
  parent's slice to a child and mutation writes in place.
* `math/rand` is a stream of raw draws from which `Intn`, `Float64` and `Float32`
  are derived as in the Go library.
-/

set_option autoImplicit false

/-! ## `float64` -/

/-- A `float64` value: a finite number, an infinity or a NaN.  The sign of a zero is
not tracked; the embedded code divides only by constants and by a difference it has
tested to be non-zero, so it never tells the two zeros apart. -/
inductive F64 where
  | fin (q : ℚ)
  | posInf
  | negInf
  | nan
  deriving DecidableEq, Repr

namespace F64

/-- The power `2 ^ k` for an integer exponent. -/
def pow2 (k : Int) : ℚ :=
  if 0 ≤ k then ((2 ^ k.toNat : Nat) : ℚ) else 1 / ((2 ^ (-k).toNat : Nat) : ℚ)

/-- The loop that counts the halvings of `n` down to 1, bounded by `fuel`. -/
def bitsAux : Nat → Nat → Nat
  | 0, _ => 0
  | fuel + 1, n => if n < 2 then 0 else bitsAux fuel (n / 2) + 1

/-- The position of the leading bit of `n`: the greatest `k` with `2 ^ k <= n`. -/
def natLog2 (n : Nat) : Nat := bitsAux n n

/-- The binary exponent of `q > 0`: the greatest `e` with `2 ^ e <= q`. -/
def floorLog2 (q : ℚ) : Int :=
  if pow2 ((natLog2 q.num.natAbs : Int) - (natLog2 q.den : Int)) ≤ q then
    (natLog2 q.num.natAbs : Int) - (natLog2 q.den : Int)
  else (natLog2 q.num.natAbs : Int) - (natLog2 q.den : Int) - 1

/-- The integer nearest to `x`, a tie going to the even neighbour. -/
def rne (x : ℚ) : Int :=
  if x - ⌊x⌋ < 1 / 2 then ⌊x⌋
  else if 1 / 2 < x - ⌊x⌋ then ⌊x⌋ + 1
  else if ⌊x⌋ % 2 = 0 then ⌊x⌋ else ⌊x⌋ + 1

/-- The spacing of the `float64` values around `q > 0`: `2 ^ (e - 52)` for the
binary exponent `e` of `q`, and `2 ^ (-1074)` below `2 ^ (-1022)`. -/
def ulp (q : ℚ) : ℚ := pow2 (max (floorLog2 q) (-1022) - 52)

/-- The multiple of the spacing nearest to `q > 0`, a tie going to the even
multiple. -/
def grid (q : ℚ) : ℚ := (rne (q / ulp q) : ℚ) * ulp q

/-- The `float64` nearest to `q > 0` (ties to even), `+Inf` from `2 ^ 1024` on. -/
def nearestPos (q : ℚ) : F64 := if grid q < pow2 1024 then fin (grid q) else posInf

/-- Unary minus. -/
def neg : F64 → F64
  | fin q => fin (-q)
  | posInf => negInf
  | negInf => posInf
  | nan => nan

/-- The result of rounding the real number `q` to `float64`: the nearest value, a
tie going to the even mantissa, and an infinity on overflow. -/
def nearest (q : ℚ) : F64 :=
  if q = 0 then fin 0 else if 0 < q then nearestPos q else neg (nearestPos (-q))

/-- Whether `q` is a finite `float64` value: rounding leaves it unchanged. -/
def IsValue (q : ℚ) : Prop := nearest q = fin q

instance (q : ℚ) : Decidable (IsValue q) := by
  unfold IsValue
  infer_instance

/-- Go conversion `float64(n)` of an `int`. -/
def ofInt (n : Int) : F64 := nearest (n : ℚ)

/-- Go `x + y`. -/
def add : F64 → F64 → F64
  | fin a, fin b => nearest (a + b)
  | fin _, posInf => posInf
  | fin _, negInf => negInf
  | posInf, fin _ => posInf
  | posInf, posInf => posInf
  | negInf, fin _ => negInf
  | negInf, negInf => negInf
  | _, _ => nan

/-- Go `x - y`. -/
def sub (x y : F64) : F64 := add x (neg y)

/-- The infinity with the sign of `q`, NaN for zero: the product of an infinity
with the finite factor `q`. -/
def infTimes (positive : Bool) (q : ℚ) : F64 :=
  if q = 0 then nan else if (0 < q) = positive then posInf else negInf

/-- Go `x * y`. -/
def mul : F64 → F64 → F64
  | fin a, fin b => nearest (a * b)
  | fin a, posInf => infTimes true a
  | fin a, negInf => infTimes false a
  | posInf, fin b => infTimes true b
  | negInf, fin b => infTimes false b
  | posInf, posInf => posInf
  | negInf, negInf => posInf
  | posInf, negInf => negInf
  | negInf, posInf => negInf
  | _, _ => nan

/-- Go `x / y`; a zero divisor is taken as the positive zero. -/
def div : F64 → F64 → F64
  | fin a, fin b =>
    if b = 0 then (if a = 0 then nan else if 0 < a then posInf else negInf)
    else nearest (a / b)
  | fin _, posInf => fin 0
  | fin _, negInf => fin 0
  | posInf, fin b => if 0 ≤ b then posInf else negInf
  | negInf, fin b => if 0 ≤ b then negInf else posInf
  | _, _ => nan

/-- Go `x < y`: false when an operand is NaN. -/
def lt : F64 → F64 → Bool
  | fin a, fin b => decide (a < b)
  | fin _, posInf => true
  | negInf, fin _ => true
  | negInf, posInf => true
  | _, _ => false

/-- Go `x <= y`: false when an operand is NaN. -/
def le : F64 → F64 → Bool
  | fin a, fin b => decide (a ≤ b)
  | fin _, posInf => true
  | negInf, fin _ => true
  | negInf, posInf => true
  | posInf, posInf => true
  | negInf, negInf => true
  | _, _ => false

/-- Go `x == y`: false when an operand is NaN. -/
def eq : F64 → F64 → Bool
  | fin a, fin b => decide (a = b)
  | posInf, posInf => true
  | negInf, negInf => true
  | _, _ => false

/-- Go `math.Max`. -/
def Max (x y : F64) : F64 :=
  if x = posInf ∨ y = posInf then posInf
  else if x = nan ∨ y = nan then nan
  else if lt y x then x else y

end F64

/-! ## Errors -/

/-- Errors returned by the optimiser, one constructor per `fmt.Errorf` site, and
`panic` for run-time panics. -/
inductive Err where
  /-- `inter-city rates list is empty` -/
  | interRatesEmpty
  /-- `intra-city rates list is empty` -/
  | intraRatesEmpty
  /-- `terminals list is empty` -/
  | terminalsEmpty
  /-- `distance not found for route <terminal> -> <destination>` -/
  | distanceNotFound (terminalCity dest : String)
  /-- `failed to find inter-city rate for total weight .. and volume ..: <cause>` -/
  | findInterFailed (weightTons volumeM3 : ℚ) (cause : Err)
  /-- `failed to find intra-city rate for total weight .. and volume ..: <cause>` -/
  | findIntraFailed (weightTons volumeM3 : ℚ) (cause : Err)
  /-- The error `failed to find inter-city rate ..` with its two `float64` totals. -/
  | findInterFailed64 (weightTons volumeM3 : F64) (cause : Err)
  /-- The error `failed to find intra-city rate ..` with its two `float64` totals. -/
  | findIntraFailed64 (weightTons volumeM3 : F64) (cause : Err)
  /-- `no terminal covers destination <destination>` -/
  | noTerminalCovers (dest : String)
  /-- `level 1 GA failed: <cause>` -/
  | level1Failed (cause : Err)
  /-- `level 2 GA failed: <cause>` -/
  | level2Failed (cause : Err)
  /-- `exactly 2 delivery days are required, got <n>` -/
  | wrongDayCount (got : Nat)
  /-- `invalid delivery day(s): <days>. Allowed: mon, tue, wed, thu, fri, sat, sun` -/
  | invalidDeliveryDays (days : List String)
  /-- `optimization failed: failed to load <what>: <cause>` -/
  | loadFailed (what cause : String)
  /-- `optimization failed: no terminals found for direction: <direction>` -/
  | noTerminalsForDirection (direction : String)
  /-- `optimization failed: grouping failed: <cause>` -/
  | groupingFailed (cause : Err)
  /-- `optimization failed: no valid result produced` -/
  | noValidResult
  /-- A run-time panic (index out of range, nil dereference, explicit `panic`). -/
  | panic (msg : String)
  deriving DecidableEq, Repr

/-! ## `internal/models` -/

namespace models

/-- Go `models.Shipment`; `Date` is the calendar day as a day number. -/
structure Shipment where
  ID : String
  WeightKg : ℚ
  VolumeM3 : ℚ
  DestinationCity : String
  Date : Int := 0
  deriving DecidableEq, Repr

/-- Go `models.Terminal`. -/
structure Terminal where
  City : String
  Direction : String := ""
  DistanceFromMoscowKm : Int
  deriving DecidableEq, Repr

/-- Go `models.InterCityRate`. -/
structure InterCityRate where
  VolumeM3 : ℚ
  WeightTons : ℚ
  RatePerKm : ℚ
  deriving DecidableEq, Repr

/-- Go `models.IntraCityRate`. -/
structure IntraCityRate where
  VolumeM3 : ℚ
  WeightTons : ℚ
  RateFixed : ℚ
  deriving DecidableEq, Repr

end models

open models

/-- Go `map[string]int`: distances from one city. -/
abbrev DistMap := String → Option Int

/-- Go `map[string]map[string]int`: the distance matrix. -/
abbrev Distances := String → Option DistMap

/-- `distances[city]` used as a map: a missing key yields the nil map. -/
def Distances.sub (distances : Distances) (city : String) : DistMap :=
  match distances city with
  | some m => m
  | none => fun _ => none

/-- Go `math.MaxInt` on a 64-bit platform. -/
def MaxInt : Int := 9223372036854775807

/-- Go `1<<31 - 1`. -/
def MaxInt32 : Int := 2147483647

/-- Go `math.MaxFloat64`. -/
def MaxFloat64 : ℚ := 2 ^ 1024 - 2 ^ 971

/-! ## `api/proto` enumerations -/

namespace proto

/-- Modelled from the spec: the generated `proto.TransportType` enumeration is not
part of the sources; the five classes are those named by `transport_catalog.go`,
and `TRANSPORT_UNSPECIFIED` stands for the zero value. -/
inductive TransportType where
  | TRANSPORT_UNSPECIFIED
  | TRANSPORT_1_5T_10M3
  | TRANSPORT_3T_20M3
  | TRANSPORT_5T_36M3
  | TRANSPORT_10T_45M3
  | TRANSPORT_20T_86M3
  deriving DecidableEq, Repr

/-- Modelled from the spec: the generated `proto.SelectionType` enumeration, with
the values named in `selection.go` and `validation.go`.  The Go type is an `int32`;
`UNRECOGNIZED` stands for every number that is none of the declared values. -/
inductive SelectionType where
  | SELECTION_UNSPECIFIED
  | SELECTION_TOURNAMENT
  | SELECTION_ROULETTE
  | SELECTION_RANK
  | UNRECOGNIZED
  deriving DecidableEq, Repr

/-- Modelled from the spec: the generated `proto.CrossoverType` enumeration, with
the values named in `crossover.go` and `validation.go`.  The Go type is an `int32`;
`UNRECOGNIZED` stands for every number that is none of the declared values. -/
inductive CrossoverType where
  | CROSSOVER_UNSPECIFIED
  | CROSSOVER_UNIFORM
  | CROSSOVER_SINGLE_POINT
  | CROSSOVER_TWO_POINT
  | UNRECOGNIZED
  deriving DecidableEq, Repr

/-- Modelled from the spec: the generated `proto.MutationType` enumeration, with
the values named in `mutation.go` and `validation.go`.  The Go type is an `int32`;
`UNRECOGNIZED` stands for every number that is none of the declared values. -/
inductive MutationType where
  | MUTATION_UNSPECIFIED
  | MUTATION_INVERSION
  | MUTATION_SWAP
  | UNRECOGNIZED
  deriving DecidableEq, Repr

/-- Modelled from the spec: the generated `proto.GASettings` message, with the
fields read by `RunGA` (`uint32` counters and the three method tags). -/
structure GASettings where
  NumGenerations : Nat
  NumIndividuals : Nat
  StoppingCriterion : Nat
  SelectionType : SelectionType
  CrossoverType : CrossoverType
  MutationType : MutationType
  deriving DecidableEq, Repr

end proto

/-! ## `sort.Slice` -/

/-- One pass of the inner loop of insertion sort.  `rev` is the already sorted
prefix, last element first; `x` moves left while `less x y` holds for its left
neighbour `y`. -/
def insertBack {α : Type} (less : α → α → Bool) (x : α) : List α → List α
  | [] => [x]
  | y :: rest => if less x y then y :: insertBack less x rest else x :: y :: rest

/-- Go `sort.Slice(data, less)`, as the insertion sort the library runs on short
slices.  On longer slices the library switches algorithm; the result is then still
a permutation sorted by `less`, possibly differing in the order of rows that
`less` does not separate. -/
def sortSlice {α : Type} (less : α → α → Bool) (data : List α) : List α :=
  (data.foldl (fun rev x => insertBack less x rev) []).reverse

/-! ## `optimizer/logic` -/

namespace logic

/-- The comparison both tariff lookups hand to `sort.Slice`: weight ascending,
equal weights by volume ascending. -/
def rateLess (w1 v1 w2 v2 : ℚ) : Bool :=
  if w1 = w2 then decide (v1 < v2) else decide (w1 < w2)

/-- Go `findInterCityRate`. -/
def findInterCityRate (weightTons volumeM3 : ℚ) (rates : List InterCityRate) :
    Except Err InterCityRate :=
  if rates.length = 0 then .error .interRatesEmpty
  else
    let sorted := sortSlice
      (fun a b => rateLess a.WeightTons a.VolumeM3 b.WeightTons b.VolumeM3) rates
    match sorted.find? (fun r => decide (weightTons ≤ r.WeightTons ∧ volumeM3 ≤ r.VolumeM3)) with
    | some r => .ok r
    | none =>
      match sorted.getLast? with
      | some last => .ok last
      | none => .error (.panic "index out of range")

/-- Go `findIntraCityRate`. -/
def findIntraCityRate (weightTons volumeM3 : ℚ) (rates : List IntraCityRate) :
    Except Err IntraCityRate :=
  if rates.length = 0 then .error .intraRatesEmpty
  else
    let sorted := sortSlice
      (fun a b => rateLess a.WeightTons a.VolumeM3 b.WeightTons b.VolumeM3) rates
    match sorted.find? (fun r => decide (weightTons ≤ r.WeightTons ∧ volumeM3 ≤ r.VolumeM3)) with
    | some r => .ok r
    | none =>
      match sorted.getLast? with
      | some last => .ok last
      | none => .error (.panic "index out of range")

/-- The running totals `(totalWeightTons, totalVolumeM3)` of a shipment list. -/
def totals (shipments : List Shipment) : ℚ × ℚ :=
  shipments.foldl (fun acc s => (acc.1 + s.WeightKg / 1000, acc.2 + s.VolumeM3)) (0, 0)

/-- The loop of step 2 of `CalculateLastMileCostForTerminal`: the value of
`allWithin100Km` when the loop ends, or the error of a missing distance. -/
def allWithin100Km (terminalCity : String) (distances : DistMap) :
    List Shipment → Except Err Bool
  | [] => .ok true
  | shipment :: rest =>
    match distances shipment.DestinationCity with
    | none => .error (.distanceNotFound terminalCity shipment.DestinationCity)
    | some distanceKm =>
      if distanceKm > 100 then .ok false else allWithin100Km terminalCity distances rest

/-- The loop of step 4 of `CalculateLastMileCostForTerminal`, started with the
running `totalCost`. -/
def routeCosts (ratePerKm : ℚ) (terminalCity : String) (distances : DistMap) :
    List Shipment → ℚ → Except Err ℚ
  | [], totalCost => .ok totalCost
  | shipment :: rest, totalCost =>
    match distances shipment.DestinationCity with
    | none => .error (.distanceNotFound terminalCity shipment.DestinationCity)
    | some distanceKm =>
      routeCosts ratePerKm terminalCity distances rest (totalCost + ratePerKm * (distanceKm : ℚ))

/-- Steps 3 and 4 of `CalculateLastMileCostForTerminal`. -/
def tariffCost (shipments : List Shipment) (terminalCity : String)
    (interCityRates : List InterCityRate) (intraCityRates : List IntraCityRate)
    (distances : DistMap) (totalWeightTons totalVolumeM3 : ℚ) : Except Err ℚ :=
  match findInterCityRate totalWeightTons totalVolumeM3 interCityRates with
  | .error e => .error (.findInterFailed totalWeightTons totalVolumeM3 e)
  | .ok interCityRate =>
    match findIntraCityRate totalWeightTons totalVolumeM3 intraCityRates with
    | .error e => .error (.findIntraFailed totalWeightTons totalVolumeM3 e)
    | .ok intraCityRate =>
      match routeCosts interCityRate.RatePerKm terminalCity distances shipments 0 with
      | .error e => .error e
      | .ok totalCost => .ok (totalCost + intraCityRate.RateFixed)

/-- Go `CalculateLastMileCostForTerminal`. -/
def CalculateLastMileCostForTerminal (shipments : List Shipment) (terminalCity : String)
    (interCityRates : List InterCityRate) (intraCityRates : List IntraCityRate)
    (distances : DistMap) : Except Err ℚ :=
  if shipments.length = 0 then .ok 0
  else
    let totalWeightTons := (totals shipments).1
    let totalVolumeM3 := (totals shipments).2
    if totalWeightTons > 5 / 2 then
      match allWithin100Km terminalCity distances shipments with
      | .error e => .error e
      | .ok true => .ok 7000
      | .ok false =>
        tariffCost shipments terminalCity interCityRates intraCityRates distances
          totalWeightTons totalVolumeM3
    else
      tariffCost shipments terminalCity interCityRates intraCityRates distances
        totalWeightTons totalVolumeM3

/-- Go `findMinMaxRate`. -/
def findMinMaxRate (rates : List InterCityRate) : ℚ × ℚ :=
  let mm := rates.foldl
    (fun (acc : ℚ × ℚ) r =>
      let min := if r.RatePerKm < acc.1 then r.RatePerKm else acc.1
      let max := if r.RatePerKm > acc.2 then r.RatePerKm else acc.2
      (min, max))
    (MaxFloat64, -MaxFloat64)
  if mm.1 = MaxFloat64 then (0, 0) else mm

/-- Go `findMinMaxDistance`. -/
def findMinMaxDistance (terminals : List Terminal) : ℚ × ℚ :=
  let mm := terminals.foldl
    (fun (acc : ℚ × ℚ) t =>
      let dist : ℚ := (t.DistanceFromMoscowKm : ℚ)
      let min := if dist < acc.1 then dist else acc.1
      let max := if dist > acc.2 then dist else acc.2
      (min, max))
    (MaxFloat64, -MaxFloat64)
  if mm.1 = MaxFloat64 then (0, 0) else mm

/-- Go `CalculateLinehaulCost`. -/
def CalculateLinehaulCost (terminal : Terminal) (terminals : List Terminal)
    (interCityRates : List InterCityRate) : Except Err ℚ :=
  if interCityRates.length = 0 then .error .interRatesEmpty
  else if terminals.length = 0 then .error .terminalsEmpty
  else
    let minRate := (findMinMaxRate interCityRates).1
    let maxRate := (findMinMaxRate interCityRates).2
    let minDest := (findMinMaxDistance terminals).1
    let maxDest := (findMinMaxDistance terminals).2
    let distance : ℚ := (terminal.DistanceFromMoscowKm : ℚ)
    if maxDest = minDest then
      .ok ((minRate + maxRate) / 2 * distance)
    else
      let rate := maxRate - (maxRate - minRate) * ((distance - minDest) / (maxDest - minDest))
      .ok (rate * distance)

/-- Go `logic.TransportSpec`. -/
structure TransportSpec where
  /-- Go field `Type` (a reserved word here). -/
  Typ : proto.TransportType
  CapTons : ℚ
  CapM3 : ℚ
  deriving DecidableEq, Repr

/-- Go `logic.AvailableTransports`. -/
def AvailableTransports : List TransportSpec :=
  [ { Typ := .TRANSPORT_1_5T_10M3, CapTons := 3 / 2, CapM3 := 10 },
    { Typ := .TRANSPORT_3T_20M3, CapTons := 3, CapM3 := 20 },
    { Typ := .TRANSPORT_5T_36M3, CapTons := 5, CapM3 := 36 },
    { Typ := .TRANSPORT_10T_45M3, CapTons := 10, CapM3 := 45 },
    { Typ := .TRANSPORT_20T_86M3, CapTons := 20, CapM3 := 86 } ]

end logic

/-! ## Code shared verbatim by both evaluators -/

/-- The store of `[]bool` backing arrays; a mask slice is an index into it. -/
structure MaskHeap where
  arrays : List (List Bool)
  deriving DecidableEq, Repr

namespace MaskHeap

/-- The contents of the slice at `ref`. -/
def read (heap : MaskHeap) (ref : Nat) : List Bool := heap.arrays.getD ref []

/-- Overwrite the contents of the slice at `ref` (writes never change the length). -/
def write (heap : MaskHeap) (ref : Nat) (bits : List Bool) : MaskHeap :=
  { arrays := heap.arrays.set ref bits }

/-- Allocate a new backing array (`make` or `append` onto an empty slice). -/
def alloc (heap : MaskHeap) (bits : List Bool) : Nat × MaskHeap :=
  (heap.arrays.length, { arrays := heap.arrays ++ [bits] })

end MaskHeap

/-- The body of the inner loop of the assignment step: the pair `(minDist, bestCity)`
after looking at terminal `t`. -/
def nearestStep (distances : Distances) (dest : String) (st : Int × String) (t : Terminal) :
    Int × String :=
  match distances t.City with
  | some distMap =>
    match distMap dest with
    | some d => if d < st.1 then (d, t.City) else st
    | none => st
  | none => st

/-- The inner loop of the assignment step: `bestCity` for one destination, when
`minDist` starts at `bound`. -/
def nearestTerminal (bound : Int) (activeTerminals : List Terminal) (distances : Distances)
    (dest : String) : String :=
  (activeTerminals.foldl (nearestStep distances dest) (bound, "")).2

/-- The Go map `terminalShipments`, in insertion order. -/
abbrev TerminalShipments := List (String × List Shipment)

/-- Go `terminalShipments[city] = append(terminalShipments[city], s)`. -/
def appendShipment : TerminalShipments → String → Shipment → TerminalShipments
  | [], city, s => [(city, [s])]
  | (c, l) :: rest, city, s =>
    if c = city then (c, l ++ [s]) :: rest else (c, l) :: appendShipment rest city s

/-- The last-mile loop: the sum of `CalculateLastMileCostForTerminal` over the
groups, stopping at the first error. -/
def lastMileLoop (interCityRates : List InterCityRate) (intraCityRates : List IntraCityRate)
    (distances : Distances) : TerminalShipments → ℚ → Except Err ℚ
  | [], lastMileCost => .ok lastMileCost
  | (city, sList) :: rest, lastMileCost =>
    match logic.CalculateLastMileCostForTerminal sList city interCityRates intraCityRates
        (distances.sub city) with
    | .error e => .error e
    | .ok cost => lastMileLoop interCityRates intraCityRates distances rest (lastMileCost + cost)

/-- The line-haul loop: the sum of `CalculateLinehaulCost` over `ts`, each priced
against the whole active set, stopping at the first error. -/
def linehaulLoop (activeTerminals : List Terminal) (interCityRates : List InterCityRate) :
    List Terminal → ℚ → Except Err ℚ
  | [], linehaulCost => .ok linehaulCost
  | t :: rest, linehaulCost =>
    match logic.CalculateLinehaulCost t activeTerminals interCityRates with
    | .error e => .error e
    | .ok cost => linehaulLoop activeTerminals interCityRates rest (linehaulCost + cost)

/-- The vehicle choice for aggregate `(totalWeightTons, totalVolumeM3)`: the chosen
catalog entry and whether the scan found a fitting class. -/
def chooseTransport (totalWeightTons totalVolumeM3 : ℚ) : logic.TransportSpec × Bool :=
  match logic.AvailableTransports.find?
      (fun tr => decide (totalWeightTons ≤ tr.CapTons ∧ totalVolumeM3 ≤ tr.CapM3)) with
  | some tr => (tr, true)
  | none => (logic.AvailableTransports.getLast (by simp [logic.AvailableTransports]), false)

/-- The body of the vehicle loop for one group, up to the route record: the new
value of `penalty` and the chosen transport type. -/
def groupVehicle (penalty : ℚ) (sList : List Shipment) : ℚ × proto.TransportType :=
  let totalWeightTons := (logic.totals sList).1
  let totalVolumeM3 := (logic.totals sList).2
  let chosen := chooseTransport totalWeightTons totalVolumeM3
  let penalty1 := if chosen.2 then penalty else penalty + 50000
  let utilWeight := totalWeightTons / chosen.1.CapTons
  let utilVolume := totalVolumeM3 / chosen.1.CapM3
  let utilization := max utilWeight utilVolume
  let penalty2 := if utilization < 3 / 5 then penalty1 + 10000 * (3 / 5 - utilization) else penalty1
  (penalty2, chosen.1.Typ)

/-! ## `optimizer/ga_level1`: evaluation -/

namespace ga_level1

/-- Go `ga_level1.CostBreakdown`. -/
structure CostBreakdown where
  LinehaulCost : ℚ := 0
  LastMileCost : ℚ := 0
  PenaltyCost : ℚ := 0
  TotalCost : ℚ := 0
  deriving DecidableEq, Repr

/-- Go `ga_level1.RouteWithShipments`. -/
structure RouteWithShipments where
  FromCity : String
  ToTerminal : String
  ShipmentIDs : List String
  Cost : ℚ
  TransportUsed : proto.TransportType
  deriving DecidableEq, Repr

/-- Go `ga_level1.Individual`; `TerminalMask` is the slice, an index into the mask
store.  The defaults are Go's zero values. -/
structure Individual where
  TerminalMask : Nat
  Fitness : ℚ := 0
  Cost : CostBreakdown := {}
  ActiveTerminals : List String := []
  Routes : List RouteWithShipments := []
  deriving DecidableEq, Repr

/-- Step 1 of `CalculateFitness`: the terminals whose mask bit is set; `i` is the
index of the first bit of `mask`.  Indexing `allTerminals` out of range panics. -/
def selectActive (allTerminals : List Terminal) : Nat → List Bool → Except Err (List Terminal)
  | _, [] => .ok []
  | i, active :: rest =>
    if active then
      match allTerminals[i]? with
      | none => .error (.panic "index out of range")
      | some t =>
        match selectActive allTerminals (i + 1) rest with
        | .error e => .error e
        | .ok ts => .ok (t :: ts)
    else selectActive allTerminals (i + 1) rest

/-- Step 2 of `CalculateFitness`: the groups and the penalty after the assignment
loop (`minDist` starts at `math.MaxInt`; an unassigned shipment costs `1e9`). -/
def assignShipments (activeTerminals : List Terminal) (distances : Distances)
    (shipments : List Shipment) : TerminalShipments × ℚ :=
  shipments.foldl
    (fun (acc : TerminalShipments × ℚ) s =>
      let bestCity := nearestTerminal MaxInt activeTerminals distances s.DestinationCity
      if bestCity = "" then (acc.1, acc.2 + 1000000000)
      else (appendShipment acc.1 bestCity s, acc.2))
    ([], 0)

/-- Step 5 of `CalculateFitness`: the vehicle loop over the groups, from the running
`penalty` and `routes`. -/
def vehicleLoop : TerminalShipments → ℚ → List RouteWithShipments →
    ℚ × List RouteWithShipments
  | [], penalty, routes => (penalty, routes)
  | (city, sList) :: rest, penalty, routes =>
    let r := groupVehicle penalty sList
    vehicleLoop rest r.1
      (routes ++ [{ FromCity := "Москва", ToTerminal := city,
                    ShipmentIDs := sList.map (fun s => s.ID), Cost := 0,
                    TransportUsed := r.2 }])

/-- Go `ga_level1.CalculateFitness`: the individual after scoring, or the error. -/
def CalculateFitness (heap : MaskHeap) (ind : Individual) (allTerminals : List Terminal)
    (shipments : List Shipment) (interCityRates : List InterCityRate)
    (intraCityRates : List IntraCityRate) (distances : Distances) : Except Err Individual :=
  match selectActive allTerminals 0 (heap.read ind.TerminalMask) with
  | .error e => .error e
  | .ok activeTerminals =>
    if activeTerminals.length = 0 then
      .ok { ind with Cost := { TotalCost := 1000000000000 }, Fitness := 1000000000000 }
    else
      let assigned := assignShipments activeTerminals distances shipments
      match lastMileLoop interCityRates intraCityRates distances assigned.1 0 with
      | .error e => .error e
      | .ok lastMileCost =>
        match linehaulLoop activeTerminals interCityRates activeTerminals 0 with
        | .error e => .error e
        | .ok linehaulCost =>
          let veh := vehicleLoop assigned.1 assigned.2 []
          let totalCost := linehaulCost + lastMileCost + veh.1
          .ok { ind with
                Cost := { LinehaulCost := linehaulCost, LastMileCost := lastMileCost,
                          PenaltyCost := veh.1, TotalCost := totalCost },
                Fitness := totalCost,
                ActiveTerminals := activeTerminals.map (fun t => t.City),
                Routes := veh.2 }

end ga_level1

/-! ## `optimizer/ga_level2` -/

namespace ga_level2

/-- Go `ga_level2.CostBreakdown`. -/
structure CostBreakdown where
  LinehaulCost : ℚ := 0
  LastMileCost : ℚ := 0
  PenaltyCost : ℚ := 0
  TotalCost : ℚ := 0
  deriving DecidableEq, Repr

/-- Go `ga_level2.RouteWithShipments`. -/
structure RouteWithShipments where
  FromCity : String
  ToTerminal : String
  ShipmentIDs : List String
  Cost : ℚ
  TransportUsed : proto.TransportType
  deriving DecidableEq, Repr

/-- Go `ga_level2.Individual`.  The defaults are Go's zero values. -/
structure Individual where
  Fitness : ℚ := 0
  Cost : CostBreakdown := {}
  ActiveTerminals : List String := []
  Routes : List RouteWithShipments := []
  deriving DecidableEq, Repr

/-- Step 1 of `CalculateFitnessLevel2`: the groups after the assignment loop
(`minDist` starts at `1<<31 - 1`), or the error of the first shipment left without
a terminal. -/
def assignShipments (activeTerminals : List Terminal) (distances : Distances) :
    List Shipment → TerminalShipments → Except Err TerminalShipments
  | [], terminalShipments => .ok terminalShipments
  | s :: rest, terminalShipments =>
    let bestCity := nearestTerminal MaxInt32 activeTerminals distances s.DestinationCity
    if bestCity = "" then .error (.noTerminalCovers s.DestinationCity)
    else assignShipments activeTerminals distances rest (appendShipment terminalShipments bestCity s)

/-- Step 4 of `CalculateFitnessLevel2`: the vehicle loop over the groups, from the
running `penalty` and `routes`. -/
def vehicleLoop : TerminalShipments → ℚ → List RouteWithShipments →
    ℚ × List RouteWithShipments
  | [], penalty, routes => (penalty, routes)
  | (city, sList) :: rest, penalty, routes =>
    let r := groupVehicle penalty sList
    vehicleLoop rest r.1
      (routes ++ [{ FromCity := "Москва", ToTerminal := city,
                    ShipmentIDs := sList.map (fun s => s.ID), Cost := 0,
                    TransportUsed := r.2 }])

/-- Go `ga_level2.CalculateFitnessLevel2`. -/
def CalculateFitnessLevel2 (activeTerminals : List Terminal) (shipments : List Shipment)
    (interCityRates : List InterCityRate) (intraCityRates : List IntraCityRate)
    (distances : Distances) : Except Err Individual :=
  match assignShipments activeTerminals distances shipments [] with
  | .error e => .error e
  | .ok terminalShipments =>
    match lastMileLoop interCityRates intraCityRates distances terminalShipments 0 with
    | .error e => .error e
    | .ok lastMileCost =>
      match linehaulLoop activeTerminals interCityRates activeTerminals 0 with
      | .error e => .error e
      | .ok linehaulCost =>
        let veh := vehicleLoop terminalShipments 0 []
        let totalCost := linehaulCost + lastMileCost + veh.1
        .ok { Cost := { LinehaulCost := linehaulCost, LastMileCost := lastMileCost,
                        PenaltyCost := veh.1, TotalCost := totalCost },
              Fitness := totalCost,
              ActiveTerminals := activeTerminals.map (fun t => t.City),
              Routes := veh.2 }

/-- Go `ga_level2.RunGALevel2`. -/
def RunGALevel2 (activeTerminals : List Terminal) (shipments : List Shipment)
    (interCityRates : List InterCityRate) (intraCityRates : List IntraCityRate)
    (distances : Distances) : Except Err Individual :=
  if activeTerminals.length = 0 then
    .ok { Cost := { TotalCost := 1000000000000 }, Fitness := 1000000000000 }
  else
    CalculateFitnessLevel2 activeTerminals shipments interCityRates intraCityRates distances

end ga_level2

/-! ## `math/rand` -/

/-- The random source: an arbitrary stream of raw draws and the read position. -/
structure Rng where
  draws : Nat → Nat
  pos : Nat

namespace Rng

/-- The next raw draw. -/
def next (rng : Rng) : Nat × Rng := (rng.draws rng.pos, { rng with pos := rng.pos + 1 })

/-- Go `rand.Intn(n)` for `n > 0`: a value in `[0, n)`. -/
def Intn (rng : Rng) (n : Nat) : Nat × Rng := ((rng.next).1 % n, (rng.next).2)

/-- Go `rand.Float64()`: a multiple of `2^-53` in `[0, 1)`. -/
def Float64 (rng : Rng) : ℚ × Rng := ((((rng.next).1 % 2 ^ 53 : Nat) : ℚ) / 2 ^ 53, (rng.next).2)

/-- Go `rand.Float32()`: a multiple of `2^-24` in `[0, 1)`. -/
def Float32 (rng : Rng) : ℚ × Rng := ((((rng.next).1 % 2 ^ 24 : Nat) : ℚ) / 2 ^ 24, (rng.next).2)

end Rng

/-! ## `optimizer/ga_level1`: the genetic search -/

namespace ga_level1

/-- Go `ga_level1.Population`. -/
structure Population where
  Individuals : List Individual
  AllTerminals : List Terminal
  deriving DecidableEq, Repr

/-- The inner loop of `NewRandomPopulation`: `n` bits, each `rand.Float32() < 0.3`. -/
def randomMask : Nat → Rng → List Bool × Rng
  | 0, rng => ([], rng)
  | n + 1, rng =>
    let bit := decide ((rng.Float32).1 < 3 / 10)
    let rest := randomMask n (rng.Float32).2
    (bit :: rest.1, rest.2)

/-- The outer loop of `NewRandomPopulation`: `size` fresh individuals. -/
def randomIndividuals (nTerminals : Nat) : Nat → MaskHeap → Rng →
    List Individual × MaskHeap × Rng
  | 0, heap, rng => ([], heap, rng)
  | size + 1, heap, rng =>
    let mask := randomMask nTerminals rng
    let slot := heap.alloc mask.1
    let rest := randomIndividuals nTerminals size slot.2 mask.2
    ({ TerminalMask := slot.1 } :: rest.1, rest.2.1, rest.2.2)

/-- Go `NewRandomPopulation`. -/
def NewRandomPopulation (size : Nat) (terminals : List Terminal) (heap : MaskHeap) (rng : Rng) :
    Population × MaskHeap × Rng :=
  let r := randomIndividuals terminals.length size heap rng
  ({ Individuals := r.1, AllTerminals := terminals }, r.2.1, r.2.2)

/-- The loop of `Population.Evaluate` over the individuals. -/
def evaluateLoop (heap : MaskHeap) (allTerminals : List Terminal) (shipments : List Shipment)
    (interCityRates : List InterCityRate) (intraCityRates : List IntraCityRate)
    (distances : Distances) : List Individual → Except Err (List Individual)
  | [] => .ok []
  | ind :: rest =>
    match CalculateFitness heap ind allTerminals shipments interCityRates intraCityRates
        distances with
    | .error e => .error e
    | .ok scored =>
      match evaluateLoop heap allTerminals shipments interCityRates intraCityRates distances
          rest with
      | .error e => .error e
      | .ok others => .ok (scored :: others)

/-- Go `Population.Evaluate`: the population with every individual scored. -/
def Population.Evaluate (p : Population) (heap : MaskHeap) (shipments : List Shipment)
    (interCityRates : List InterCityRate) (intraCityRates : List IntraCityRate)
    (distances : Distances) : Except Err Population :=
  match evaluateLoop heap p.AllTerminals shipments interCityRates intraCityRates distances
      p.Individuals with
  | .error e => .error e
  | .ok inds => .ok { p with Individuals := inds }

/-- Go `Population.GetBest`; indexing an empty population panics. -/
def Population.GetBest (p : Population) : Except Err Individual :=
  match p.Individuals with
  | [] => .error (.panic "index out of range")
  | first :: rest =>
    .ok (rest.foldl (fun best ind => if ind.Fitness < best.Fitness then ind else best) first)

/-- One round of `tournamentSelection`: three draws, lowest fitness wins, the
earlier draw on ties. -/
def tournamentRound (pop : List Individual) (rng : Rng) : Except Err (Individual × Rng) :=
  if pop.length = 0 then .error (.panic "invalid argument to Intn")
  else
    let d0 := rng.Intn pop.length
    let d1 := d0.2.Intn pop.length
    let d2 := d1.2.Intn pop.length
    match pop[d0.1]?, pop[d1.1]?, pop[d2.1]? with
    | some t0, some t1, some t2 =>
      .ok ([t1, t2].foldl (fun best p => if p.Fitness < best.Fitness then p else best) t0, d2.2)
    | _, _, _ => .error (.panic "index out of range")

/-- Go `tournamentSelection`. -/
def tournamentSelection (pop : List Individual) : Nat → Rng →
    Except Err (List (Option Individual) × Rng)
  | 0, rng => .ok ([], rng)
  | count + 1, rng =>
    match tournamentRound pop rng with
    | .error e => .error e
    | .ok r =>
      match tournamentSelection pop count r.2 with
      | .error e => .error e
      | .ok rest => .ok (some r.1 :: rest.1, rest.2)

/-- The inner loop of `rouletteWheelSelection`: the first individual at which the
running sum `cum` reaches `r`; `none` when it never does (the slot stays nil). -/
def rouletteScan (r : ℚ) : List Individual → ℚ → Option Individual
  | [], _ => none
  | p :: rest, cum =>
    if cum + 1 / (1 + p.Fitness) ≥ r then some p else rouletteScan r rest (cum + 1 / (1 + p.Fitness))

/-- Go `rouletteWheelSelection`.  A fitness of exactly `-1` divides by zero, which
`float64` answers with an infinity and `ℚ` with `0`. -/
def rouletteWheelSelection (pop : List Individual) : Nat → Rng → List (Option Individual) × Rng
  | 0, rng => ([], rng)
  | count + 1, rng =>
    let total := pop.foldl (fun total p => total + 1 / (1 + p.Fitness)) 0
    let f := rng.Float64
    let rest := rouletteWheelSelection pop count f.2
    (rouletteScan (f.1 * total) pop 0 :: rest.1, rest.2)

/-- The inner loop of `rankSelection` over `sorted`, `j` being the index of the
first element of the list and `n` the population size. -/
def rankScan (r : ℚ) (n : Nat) : List Individual → Nat → ℚ → Option Individual
  | [], _, _ => none
  | p :: rest, j, rank =>
    if rank + (((n : Int) - (j : Int) : Int) : ℚ) ≥ r then some p
    else rankScan r n rest (j + 1) (rank + (((n : Int) - (j : Int) : Int) : ℚ))

/-- Go `rankSelection`. -/
def rankSelection (pop : List Individual) : Nat → Rng → List (Option Individual) × Rng
  | 0, rng => ([], rng)
  | count + 1, rng =>
    let sorted := sortSlice (fun a b => decide (a.Fitness < b.Fitness)) pop
    let n := sorted.length
    let rankSum : ℚ := ((n * (n + 1) : Nat) : ℚ) / 2
    let f := rng.Float64
    let rest := rankSelection pop count f.2
    (rankScan (f.1 * rankSum) n sorted 0 0 :: rest.1, rest.2)

/-- Go `SelectParents`. -/
def SelectParents (pop : List Individual) (count : Nat) (method : proto.SelectionType)
    (rng : Rng) : Except Err (List (Option Individual) × Rng) :=
  match method with
  | .SELECTION_TOURNAMENT => tournamentSelection pop count rng
  | .SELECTION_ROULETTE => .ok (rouletteWheelSelection pop count rng)
  | .SELECTION_RANK => .ok (rankSelection pop count rng)
  | .SELECTION_UNSPECIFIED => .error (.panic "unsupported selection type")
  | .UNRECOGNIZED => .error (.panic "unsupported selection type")

/-- The loop of `uniformCrossover` on the contents of the two slices; reading
`b[i]` past the end of `b` panics. -/
def uniformBits : List Bool → List Bool → Rng → Except Err ((List Bool × List Bool) × Rng)
  | [], _, rng => .ok (([], []), rng)
  | x :: a, b, rng =>
    match b with
    | [] => .error (.panic "index out of range")
    | y :: b' =>
      match uniformBits a b' (rng.Float64).2 with
      | .error e => .error e
      | .ok r =>
        if (rng.Float64).1 < 1 / 2 then .ok ((x :: r.1.1, y :: r.1.2), r.2)
        else .ok ((y :: r.1.1, x :: r.1.2), r.2)

/-- Go `uniformCrossover`: the two children are new slices. -/
def uniformCrossover (a b : Nat) (heap : MaskHeap) (rng : Rng) :
    Except Err ((Nat × Nat) × MaskHeap × Rng) :=
  match uniformBits (heap.read a) (heap.read b) rng with
  | .error e => .error e
  | .ok r =>
    let c1 := heap.alloc r.1.1
    let c2 := c1.2.alloc r.1.2
    .ok ((c1.1, c2.1), c2.2, r.2)

/-- Go `singlePointCrossover`: for a mask of length at most one the parents' own
slices are returned. -/
def singlePointCrossover (a b : Nat) (heap : MaskHeap) (rng : Rng) :
    Except Err ((Nat × Nat) × MaskHeap × Rng) :=
  let abits := heap.read a
  let bbits := heap.read b
  if abits.length ≤ 1 then .ok ((a, b), heap, rng)
  else
    let d := rng.Intn (abits.length - 1)
    let i := d.1 + 1
    if i > bbits.length then .error (.panic "slice bounds out of range")
    else
      let c1 := heap.alloc (abits.take i ++ bbits.drop i)
      let c2 := c1.2.alloc (bbits.take i ++ abits.drop i)
      .ok ((c1.1, c2.1), c2.2, d.2)

/-- Go `twoPointCrossover`: for a mask of length at most two the parents' own
slices are returned. -/
def twoPointCrossover (a b : Nat) (heap : MaskHeap) (rng : Rng) :
    Except Err ((Nat × Nat) × MaskHeap × Rng) :=
  let abits := heap.read a
  let bbits := heap.read b
  let n := abits.length
  if n ≤ 2 then .ok ((a, b), heap, rng)
  else
    let d1 := rng.Intn n
    let d2 := d1.2.Intn n
    let i := if d1.1 > d2.1 then d2.1 else d1.1
    let j := if d1.1 > d2.1 then d1.1 else d2.1
    if j > bbits.length then .error (.panic "slice bounds out of range")
    else
      let c1 := heap.alloc (abits.take i ++ (bbits.take j).drop i ++ abits.drop j)
      let c2 := c1.2.alloc (bbits.take i ++ (abits.take j).drop i ++ bbits.drop j)
      .ok ((c1.1, c2.1), c2.2, d2.2)

/-- Go `Crossover`; a nil parent (an unfilled roulette or rank slot) panics on
dereference. -/
def Crossover (p1 p2 : Option Individual) (method : proto.CrossoverType) (heap : MaskHeap)
    (rng : Rng) : Except Err ((Individual × Individual) × MaskHeap × Rng) :=
  if method = .CROSSOVER_UNSPECIFIED ∨ method = .UNRECOGNIZED then
    .error (.panic "unsupported crossover type")
  else
    match p1, p2 with
    | some p1, some p2 =>
      let masks :=
        match method with
        | .CROSSOVER_UNIFORM => uniformCrossover p1.TerminalMask p2.TerminalMask heap rng
        | .CROSSOVER_SINGLE_POINT => singlePointCrossover p1.TerminalMask p2.TerminalMask heap rng
        | _ => twoPointCrossover p1.TerminalMask p2.TerminalMask heap rng
      match masks with
      | .error e => .error e
      | .ok r => .ok (({ TerminalMask := r.1.1 }, { TerminalMask := r.1.2 }), r.2.1, r.2.2)
    | _, _ => .error (.panic "nil pointer dereference")

/-- Go `mask[i], mask[j] = mask[j], mask[i]`. -/
def swapBits (mask : List Bool) (i j : Nat) : List Bool :=
  (mask.set i (mask.getD j false)).set j (mask.getD i false)

/-- The loop `for a, b := i, j; a < b; a, b = a+1, b-1` of `inversion`, by
recursion on `b`. -/
def inversionLoop : Nat → Nat → List Bool → List Bool
  | 0, _, mask => mask
  | b + 1, a, mask => if a < b + 1 then inversionLoop b (a + 1) (swapBits mask a (b + 1)) else mask

/-- Go `inversion`, on the contents of the slice. -/
def inversion (mask : List Bool) (rng : Rng) : List Bool × Rng :=
  if mask.length < 2 then (mask, rng)
  else
    let d1 := rng.Intn mask.length
    let d2 := d1.2.Intn mask.length
    let i := if d1.1 > d2.1 then d2.1 else d1.1
    let j := if d1.1 > d2.1 then d1.1 else d2.1
    (inversionLoop j i mask, d2.2)

/-- Go `swap`, on the contents of the slice. -/
def swap (mask : List Bool) (rng : Rng) : List Bool × Rng :=
  if mask.length < 2 then (mask, rng)
  else
    let d1 := rng.Intn mask.length
    let d2 := d1.2.Intn mask.length
    (swapBits mask d1.1 d2.1, d2.2)

/-- Go `Mutate`: the slice of `ind` is rewritten in place. -/
def Mutate (ind : Individual) (prob : ℚ) (method : proto.MutationType) (heap : MaskHeap)
    (rng : Rng) : Except Err (MaskHeap × Rng) :=
  let f := rng.Float64
  if f.1 > prob then .ok (heap, f.2)
  else
    match method with
    | .MUTATION_INVERSION =>
      let r := inversion (heap.read ind.TerminalMask) f.2
      .ok (heap.write ind.TerminalMask r.1, r.2)
    | .MUTATION_SWAP =>
      let r := swap (heap.read ind.TerminalMask) f.2
      .ok (heap.write ind.TerminalMask r.1, r.2)
    | .MUTATION_UNSPECIFIED => .error (.panic "unsupported mutation type")
    | .UNRECOGNIZED => .error (.panic "unsupported mutation type")

/-- The indices visited by `for i := 0; i < n; i += 2`. -/
def pairIndices (n : Nat) : List Nat := (List.range ((n + 1) / 2)).map (fun k => 2 * k)

/-- The body of the breeding loop of `RunGA` for index `i`: crossover of
`parents[i]` and `parents[(i+1) % len(parents)]`, mutation of both children, and
the two appends to `newPop`. -/
def breedStep (settings : proto.GASettings) (parents : List (Option Individual)) (i : Nat)
    (newPop : List Individual) (heap : MaskHeap) (rng : Rng) :
    Except Err (List Individual × MaskHeap × Rng) :=
  match parents[i]?, parents[(i + 1) % parents.length]? with
  | some p1, some p2 =>
    match Crossover p1 p2 settings.CrossoverType heap rng with
    | .error e => .error e
    | .ok c =>
      match Mutate c.1.1 (1 / 10) settings.MutationType c.2.1 c.2.2 with
      | .error e => .error e
      | .ok m1 =>
        match Mutate c.1.2 (1 / 10) settings.MutationType m1.1 m1.2 with
        | .error e => .error e
        | .ok m2 => .ok (newPop ++ [c.1.1, c.1.2], m2.1, m2.2)
  | _, _ => .error (.panic "index out of range")

/-- The breeding loop of `RunGA` over the indices `is`. -/
def breedLoop (settings : proto.GASettings) (parents : List (Option Individual)) :
    List Nat → List Individual → MaskHeap → Rng → Except Err (List Individual × MaskHeap × Rng)
  | [], newPop, heap, rng => .ok (newPop, heap, rng)
  | i :: is, newPop, heap, rng =>
    match breedStep settings parents i newPop heap rng with
    | .error e => .error e
    | .ok r => breedLoop settings parents is r.1 r.2.1 r.2.2

/-- The state of the generation loop of `RunGA`.  `evaluated` is a ghost record of
every population that `Evaluate` has scored so far, oldest first. -/
structure GAState where
  heap : MaskHeap
  rng : Rng
  pop : Population
  best : Individual
  noImprove : Nat
  evaluated : List (List Individual)

/-- The second half of the body of the generation loop (after the stagnation
test): selection, breeding, truncation, replacement and evaluation. -/
def nextGeneration (settings : proto.GASettings) (shipments : List Shipment)
    (interCityRates : List InterCityRate) (intraCityRates : List IntraCityRate)
    (distances : Distances) (st : GAState) : Except Err GAState :=
  match SelectParents st.pop.Individuals st.pop.Individuals.length settings.SelectionType
      st.rng with
  | .error e => .error e
  | .ok sel =>
    match breedLoop settings sel.1 (pairIndices sel.1.length) [] st.heap sel.2 with
    | .error e => .error e
    | .ok bred =>
      let newPop :=
        if bred.1.length > st.pop.Individuals.length then bred.1.take st.pop.Individuals.length
        else bred.1
      let pop : Population := { st.pop with Individuals := newPop }
      match pop.Evaluate bred.2.1 shipments interCityRates intraCityRates distances with
      | .error e => .error e
      | .ok scored =>
        .ok { st with heap := bred.2.1, rng := bred.2.2, pop := scored,
                      evaluated := st.evaluated ++ [scored.Individuals] }

/-- The generation loop of `RunGA`, `gens` iterations remaining. -/
def gaLoop (settings : proto.GASettings) (shipments : List Shipment)
    (interCityRates : List InterCityRate) (intraCityRates : List IntraCityRate)
    (distances : Distances) : Nat → GAState → Except Err GAState
  | 0, st => .ok st
  | gens + 1, st =>
    match st.pop.GetBest with
    | .error e => .error e
    | .ok currentBest =>
      let improved := decide (currentBest.Fitness < st.best.Fitness)
      let best := if improved then currentBest else st.best
      let noImprove := if improved then 0 else st.noImprove + 1
      if noImprove ≥ settings.StoppingCriterion then
        .ok { st with best := best, noImprove := noImprove }
      else
        match nextGeneration settings shipments interCityRates intraCityRates distances
            { st with best := best, noImprove := noImprove } with
        | .error e => .error e
        | .ok st' => gaLoop settings shipments interCityRates intraCityRates distances gens st'

/-- What `RunGA` hands back: the individual `best` points to, the mask store at
return time (through which `best.TerminalMask` is read), and the ghost record of
the evaluated populations. -/
structure GAResult where
  best : Individual
  heap : MaskHeap
  evaluated : List (List Individual)
  deriving DecidableEq, Repr

/-- Go `RunGA`, run on the random stream `rng` with an empty mask store. -/
def RunGA (rng : Rng) (settings : proto.GASettings) (terminals : List Terminal)
    (shipments : List Shipment) (interCityRates : List InterCityRate)
    (intraCityRates : List IntraCityRate) (distances : Distances) : Except Err GAResult :=
  let init := NewRandomPopulation settings.NumIndividuals terminals { arrays := [] } rng
  match init.1.Evaluate init.2.1 shipments interCityRates intraCityRates distances with
  | .error e => .error e
  | .ok pop =>
    match pop.GetBest with
    | .error e => .error e
    | .ok best =>
      match gaLoop settings shipments interCityRates intraCityRates distances
          settings.NumGenerations
          { heap := init.2.1, rng := init.2.2, pop := pop, best := best, noImprove := 0,
            evaluated := [pop.Individuals] } with
      | .error e => .error e
      | .ok st => .ok { best := st.best, heap := st.heap, evaluated := st.evaluated }

end ga_level1

/-! ## `optimizer/service.go`: one delivery day -/

namespace optimizer

/-- The loop of `Optimize` that turns the city names of the level-1 winner back
into terminals: for each name the first terminal of `filteredTerminals` with that
city, names without a match being skipped. -/
def lookupTerminals (filteredTerminals : List Terminal) (cities : List String) : List Terminal :=
  cities.filterMap (fun city => filteredTerminals.find? (fun t => decide (t.City = city)))

/-- The outcome of the body of the per-day loop of `Optimize`: the level-1 result
and the level-2 individual computed on the winner's active terminals. -/
structure DayRun where
  level1Result : ga_level1.GAResult
  level2Result : ga_level2.Individual
  deriving DecidableEq, Repr

/-- The body of the per-day loop of `Service.Optimize` up to the level-2 result:
`RunGA`, the reconstruction of the active terminals, `RunGALevel2`. -/
def optimizeDay (rng : Rng) (settings : proto.GASettings) (filteredTerminals : List Terminal)
    (dayShipments : List Shipment) (interCityRates : List InterCityRate)
    (intraCityRates : List IntraCityRate) (distances : Distances) : Except Err DayRun :=
  match ga_level1.RunGA rng settings filteredTerminals dayShipments interCityRates
      intraCityRates distances with
  | .error e => .error (.level1Failed e)
  | .ok level1Result =>
    match ga_level2.RunGALevel2
        (lookupTerminals filteredTerminals level1Result.best.ActiveTerminals)
        dayShipments interCityRates intraCityRates distances with
    | .error e => .error (.level2Failed e)
    | .ok level2Result => .ok { level1Result := level1Result, level2Result := level2Result }

end optimizer

/-! ## Vocabulary of the properties -/

/-- Terminal `t`, at `d` km from `dest`, is nearest to `dest` among the terminals
of `active` that have a distance entry for `dest`, and is the first of the equally
near ones in the order of `active`. -/
def FirstNearest (distances : Distances) (dest : String) (active : List Terminal)
    (t : Terminal) (d : Int) : Prop :=
  ∃ pre post, active = pre ++ t :: post ∧ distances.sub t.City dest = some d ∧
    (∀ u ∈ pre, ∀ du, distances.sub u.City dest = some du → d < du) ∧
    (∀ u ∈ post, ∀ du, distances.sub u.City dest = some du → d ≤ du)

/-- Some terminal of `active` has a distance entry for `dest` (the destination is
reachable). -/
def hasEntry (distances : Distances) (active : List Terminal) (dest : String) : Bool :=
  active.any (fun t => (distances.sub t.City dest).isSome)

/-- Some terminal of `active` has a distance entry for `dest` that is below `bound`. -/
def hasEntryBelow (bound : Int) (distances : Distances) (active : List Terminal)
    (dest : String) : Bool :=
  active.any (fun t =>
    match distances.sub t.City dest with
    | some d => decide (d < bound)
    | none => false)

/-- Grouping by a key: every shipment of the list is appended, in order, to the
group of its key.  Both assignment loops are instances of it. -/
def groupByKey (key : Shipment → String) (shipments : List Shipment)
    (acc : TerminalShipments) : TerminalShipments :=
  shipments.foldl (fun m s => appendShipment m (key s) s) acc

/-- Individual `ind` is the outcome of `CalculateFitness` on a freshly created
individual (only the mask set), for the given terminals, shipments, rates and
distances. -/
def ga_level1.ScoredOn (terminals : List Terminal) (shipments : List Shipment)
    (interCityRates : List InterCityRate) (intraCityRates : List IntraCityRate)
    (distances : Distances) (ind : ga_level1.Individual) : Prop :=
  ∃ (heap : MaskHeap) (mask : Nat),
    ga_level1.CalculateFitness heap { TerminalMask := mask } terminals shipments
      interCityRates intraCityRates distances = .ok ind

/-! ## Sample data -/

namespace Sample

/-- Two inter-city tariff rows `(volume, weight, rate per km)`. -/
def interCityRates : List InterCityRate :=
  [ { VolumeM3 := 10, WeightTons := 3, RatePerKm := 5 },
    { VolumeM3 := 5, WeightTons := 1, RatePerKm := 2 } ]

/-- One intra-city tariff row. -/
def intraCityRates : List IntraCityRate :=
  [ { VolumeM3 := 10, WeightTons := 3, RateFixed := 50 } ]

/-- Terminal `A`, 500 km from the hub. -/
def terminalA : Terminal := { City := "A", DistanceFromMoscowKm := 500 }

/-- Terminal `B`, 700 km from the hub. -/
def terminalB : Terminal := { City := "B", DistanceFromMoscowKm := 700 }

/-- Two candidate terminals. -/
def terminals : List Terminal := [terminalA, terminalB]

/-- The distance matrix: `A` reaches `X` (10 km); `B` reaches `X` and `Y` (3 km each). -/
def distances : Distances := fun city =>
  if city = "A" then some (fun dest => if dest = "X" then some 10 else none)
  else if city = "B" then some (fun dest => if dest = "X" ∨ dest = "Y" then some 3 else none)
  else none

/-- A shipment of one tonne to `X`. -/
def s1 : Shipment := { ID := "s1", WeightKg := 1000, VolumeM3 := 2, DestinationCity := "X" }

/-- A shipment of one tonne to `Y`. -/
def s2 : Shipment := { ID := "s2", WeightKg := 1000, VolumeM3 := 2, DestinationCity := "Y" }

/-- The shipments of the day. -/
def shipments : List Shipment := [s1, s2]

/-- A mask store holding the masks `A only`, `B only` and `A and B`. -/
def heap : MaskHeap := { arrays := [[true, false], [false, true], [true, true]] }

/-- The score of the mask `A only`: `s2` finds no terminal and costs `1e9`. -/
def scoredA : ga_level1.Individual :=
  { TerminalMask := 0,
    Fitness := 1000001820,
    Cost := { LinehaulCost := 1750, LastMileCost := 70, PenaltyCost := 1000000000,
              TotalCost := 1000001820 },
    ActiveTerminals := ["A"],
    Routes := [{ FromCity := "Москва", ToTerminal := "A", ShipmentIDs := ["s1"], Cost := 0,
                 TransportUsed := .TRANSPORT_1_5T_10M3 }] }

/-- The score of the mask `A and B`: both shipments go to `B`. -/
def scoredAB : ga_level1.Individual :=
  { TerminalMask := 2,
    Fitness := 3980,
    Cost := { LinehaulCost := 3900, LastMileCost := 80, PenaltyCost := 0, TotalCost := 3980 },
    ActiveTerminals := ["A", "B"],
    Routes := [{ FromCity := "Москва", ToTerminal := "B", ShipmentIDs := ["s1", "s2"], Cost := 0,
                 TransportUsed := .TRANSPORT_3T_20M3 }] }

/-- The level-2 result on the terminals `A` and `B`. -/
def level2AB : ga_level2.Individual :=
  { Fitness := 3980,
    Cost := { LinehaulCost := 3900, LastMileCost := 80, PenaltyCost := 0, TotalCost := 3980 },
    ActiveTerminals := ["A", "B"],
    Routes := [{ FromCity := "Москва", ToTerminal := "B", ShipmentIDs := ["s1", "s2"], Cost := 0,
                 TransportUsed := .TRANSPORT_3T_20M3 }] }

/-- The random stream that replays the draws of `l` and then yields zeros. -/
def rngOf (l : List Nat) : Rng := { draws := fun i => l.getD i 0, pos := 0 }

/-- Settings with a budget of one generation: tournament selection, uniform
crossover, swap mutation, two individuals, stagnation window two. -/
def settingsOneGeneration : proto.GASettings :=
  { NumGenerations := 1, NumIndividuals := 2, StoppingCriterion := 2,
    SelectionType := .SELECTION_TOURNAMENT, CrossoverType := .CROSSOVER_UNIFORM,
    MutationType := .MUTATION_SWAP }

/-- Draws for `settingsOneGeneration`: both initial masks are `A only`; both
tournaments pick individual 0; the uniform crossover copies the parents; the first
child is mutated by swapping bits 0 and 1, the second is not mutated. -/
def drawsOneGeneration : List Nat :=
  [0, 2 ^ 23, 0, 2 ^ 23, 0, 0, 0, 0, 0, 0, 0, 0, 0, 0, 1, 2 ^ 52]

/-- Settings with two-point crossover on the two-bit masks of `terminals`:
tournament selection, swap mutation, two individuals, five generations, stagnation
window two. -/
def settingsTwoPoint : proto.GASettings :=
  { NumGenerations := 5, NumIndividuals := 2, StoppingCriterion := 2,
    SelectionType := .SELECTION_TOURNAMENT, CrossoverType := .CROSSOVER_TWO_POINT,
    MutationType := .MUTATION_SWAP }

/-- Draws for `settingsTwoPoint`: the initial masks are `B only` and `A only`; both
tournaments pick individual 0; the first child is mutated by swapping bits 0 and 1,
the second is not mutated. -/
def drawsTwoPoint : List Nat :=
  [2 ^ 23, 0, 0, 2 ^ 23, 0, 0, 0, 0, 0, 0, 0, 0, 1, 2 ^ 52]

/-- A matrix whose only entry is `A -> X` at `km` kilometres. -/
def farDistances (km : Int) : Distances := fun city =>
  if city = "A" then some (fun dest => if dest = "X" then some km else none) else none

/-- A terminal whose city name is the empty string. -/
def nameless : Terminal := { City := "", DistanceFromMoscowKm := 100 }

/-- A matrix whose only entry is from the empty city name to `X`, 5 km. -/
def namelessDistances : Distances := fun city =>
  if city = "" then some (fun dest => if dest = "X" then some 5 else none) else none

/-- One heavy shipment to `X`. -/
def heavyShipments : List Shipment :=
  [ { ID := "h1", WeightKg := 3000, VolumeM3 := 4, DestinationCity := "X" } ]

/-- The distances from one terminal: `X` at exactly 100 km, `Y` at 250 km. -/
def fromTerminal : DistMap := fun dest =>
  if dest = "X" then some 100 else if dest = "Y" then some 250 else none

end Sample

/-! ## Vocabulary and sample data of the cost and penalty properties -/

/-- The summed distance of the delivery routes of a group: one term per shipment,
the entry of its destination in the submap of the terminal (0 where it is missing). -/
def logic.totalDistanceKm (distances : DistMap) (shipments : List Shipment) : ℚ :=
  (shipments.map (fun s => (((distances s.DestinationCity).getD 0 : Int) : ℚ))).sum

/-- The first shipment, in input order, whose destination has no entry in the
submap of the terminal. -/
def logic.firstMissing (distances : DistMap) (shipments : List Shipment) : Option Shipment :=
  shipments.find? (fun s => (distances s.DestinationCity).isNone)

namespace Sample

/-- One shipment of exactly 2.5 t to `X`. -/
def boundaryShipments : List Shipment :=
  [ { ID := "b1", WeightKg := 2500, VolumeM3 := 3, DestinationCity := "X" } ]

/-- A heavy shipment to `X` followed by a light one to `Z`, a city without a
distance entry. -/
def shipmentsWithGap : List Shipment :=
  [ { ID := "h1", WeightKg := 3000, VolumeM3 := 4, DestinationCity := "X" },
    { ID := "g1", WeightKg := 10, VolumeM3 := 1, DestinationCity := "Z" } ]

end Sample

/-- Value `m` is the least element of `vals`. -/
def IsMinOf (vals : List ℚ) (m : ℚ) : Prop := m ∈ vals ∧ ∀ x ∈ vals, m ≤ x

/-- Value `m` is the greatest element of `vals`. -/
def IsMaxOf (vals : List ℚ) (m : ℚ) : Prop := m ∈ vals ∧ ∀ x ∈ vals, x ≤ m

/-- The range of a Go `int` (64 bits). -/
def IsInt64 (n : Int) : Prop := -9223372036854775808 ≤ n ∧ n ≤ MaxInt

/-- The value of the local variable `rate` of `CalculateLinehaulCost`, the per-km
rate the cost of `terminal` is computed with. -/
def logic.effectiveRate (terminal : Terminal) (terminals : List Terminal)
    (interCityRates : List InterCityRate) : ℚ :=
  let minRate := (logic.findMinMaxRate interCityRates).1
  let maxRate := (logic.findMinMaxRate interCityRates).2
  let minDest := (logic.findMinMaxDistance terminals).1
  let maxDest := (logic.findMinMaxDistance terminals).2
  let distance : ℚ := (terminal.DistanceFromMoscowKm : ℚ)
  if maxDest = minDest then (minRate + maxRate) / 2
  else maxRate - (maxRate - minRate) * ((distance - minDest) / (maxDest - minDest))

namespace Sample

/-- A tariff table whose only rate per km is the largest `float64`. -/
def maxRates : List InterCityRate :=
  [ { VolumeM3 := 10, WeightTons := 3, RatePerKm := MaxFloat64 } ]

end Sample

/-! ## `optimizer/logic/group_by_day.go` -/

/-- Go `shipment.Date.Weekday()` as a number, Sunday = 0 ... Saturday = 6; `Date`
counts the days from 1 January 1970, a Thursday. -/
def models.Shipment.Weekday (s : Shipment) : Nat := ((s.Date + 4) % 7).toNat

/-- The Go map `map[string][]models.Shipment` returned by the grouping, in
insertion order. -/
abbrev DayBuckets := List (String × List Shipment)

/-- Go `m[key]` with the comma-ok form: the bucket stored under `key`. -/
def bucketOf (m : DayBuckets) (key : String) : Option (List Shipment) :=
  (m.find? (fun g => decide (g.1 = key))).map (fun g => g.2)

namespace logic

/-- Go `logic.DeliveryDayMap`, the weekday of a day key (`time.Sunday` is 0). -/
def DeliveryDayMap (key : String) : Option Nat :=
  if key = "mon" then some 1
  else if key = "tue" then some 2
  else if key = "wed" then some 3
  else if key = "thu" then some 4
  else if key = "fri" then some 5
  else if key = "sat" then some 6
  else if key = "sun" then some 0
  else none

/-- Go `isBetween`. -/
def isBetween (day start stop : Nat) : Bool :=
  if start ≤ stop then decide (day ≥ start ∧ day ≤ stop)
  else decide (day ≥ start ∨ day ≤ stop)

/-- The four interval bounds `(interval1Start, interval1End, interval2Start,
interval2End)` chosen by `GroupShipmentsByDeliveryDay`. -/
def dayIntervals (day1 day2 : Nat) : Nat × Nat × Nat × Nat :=
  if day1 < day2 then (6, day1, day1 + 1, day2) else (day2 + 1, day1, 6, day2)

/-- Go `GroupShipmentsByDeliveryDay`.  A map literal with the same key twice holds
one entry. -/
def GroupShipmentsByDeliveryDay (shipments : List Shipment) (deliveryDays : List String) :
    Except Err DayBuckets :=
  match deliveryDays with
  | [day1Str, day2Str] =>
    match DeliveryDayMap day1Str, DeliveryDayMap day2Str with
    | some day1, some day2 =>
      let result : DayBuckets :=
        if day1Str = day2Str then [(day1Str, [])] else [(day1Str, []), (day2Str, [])]
      let iv := dayIntervals day1 day2
      .ok (shipments.foldl
        (fun (result : DayBuckets) shipment =>
          let shipDay := shipment.Weekday
          if isBetween shipDay iv.1 iv.2.1 then appendShipment result day1Str shipment
          else if isBetween shipDay iv.2.2.1 iv.2.2.2 then
            appendShipment result day2Str shipment
          else result)
        result)
    | _, _ => .error (.invalidDeliveryDays deliveryDays)
  | _ => .error (.wrongDayCount deliveryDays.length)

end logic

/-- Weekday `day` lies in the cyclic range `[start, stop]` of the week: counting
from `start` forward and wrapping from Saturday to Sunday, `day` is met no later
than `stop`. -/
def InCyclicRange (start stop day : Nat) : Prop :=
  (day + 7 - start % 7) % 7 ≤ (stop + 7 - start % 7) % 7

instance (start stop day : Nat) : Decidable (InCyclicRange start stop day) := by
  unfold InCyclicRange
  infer_instance

namespace Sample

/-- A shipment dated Thursday 1 January 1970. -/
def thursdayShipment : Shipment :=
  { ID := "thu", WeightKg := 1000, VolumeM3 := 2, DestinationCity := "X", Date := 0 }

/-- A light shipment dated Saturday 3 January 1970. -/
def saturdayShipment : Shipment :=
  { ID := "sat", WeightKg := 400, VolumeM3 := 1, DestinationCity := "Y", Date := 2 }

end Sample

/-! ## `strings` -/

/-- Go `unicode.IsSpace`. -/
def isSpace (c : Char) : Bool :=
  let n := c.toNat
  decide (n = 9 ∨ n = 10 ∨ n = 11 ∨ n = 12 ∨ n = 13 ∨ n = 32 ∨ n = 0x85 ∨ n = 0xA0 ∨
    n = 0x1680 ∨ (0x2000 ≤ n ∧ n ≤ 0x200A) ∨ n = 0x2028 ∨ n = 0x2029 ∨ n = 0x202F ∨
    n = 0x205F ∨ n = 0x3000)

/-- Go `strings.TrimSpace`: leading and trailing white space removed. -/
def TrimSpace (s : String) : String :=
  String.mk ((s.data.dropWhile isSpace).reverse.dropWhile isSpace).reverse

/-- Go `unicode.ToLower` on one rune, exact for the runes whose lower case is an
ASCII letter (`A`..`Z`, U+0130 and U+212A) and for uncased and lower-case runes.
Every other upper-case rune has a lower case outside ASCII and is left as it is,
which no comparison with the ASCII day keys can tell apart. -/
def toLowerRune (c : Char) : Char :=
  if 65 ≤ c.toNat ∧ c.toNat ≤ 90 then Char.ofNat (c.toNat + 32)
  else if c.toNat = 0x130 then Char.ofNat 105
  else if c.toNat = 0x212A then Char.ofNat 107
  else c

/-- Go `strings.ToLower`, rune by rune. -/
def ToLower (s : String) : String := String.mk (s.data.map toLowerRune)

/-! ## `api/proto`: the optimize request -/

namespace proto

/-- Modelled from the spec: the generated `proto.OptimizeRequest` message, with the
fields read by `ValidateOptimizeRequest` and `Optimize`; `GaSettingsLevel_1` is a
pointer and may be nil. -/
structure OptimizeRequest where
  Direction : String
  DeliveryDays : List String
  GaSettingsLevel_1 : Option GASettings
  deriving DecidableEq, Repr

end proto

/-! ## `pkg/errors` -/

namespace errors

/-- The text of an `ErrorDetail`.  Where the Go text ends with the list of allowed
values, it lists them in the unspecified iteration order of a map; the text is
kept as its kind and its arguments. -/
inductive DetailMessage where
  /-- `value '<value>' is not allowed. Allowed: ...` -/
  | valueNotAllowed (value : String)
  /-- `field is required` -/
  | fieldRequired
  /-- `exactly 2 delivery days must be provided, got <n>. Allowed values: ...` -/
  | exactlyTwoDays (got : Nat)
  /-- `day cannot be empty` -/
  | dayEmpty
  /-- `invalid day '<day>'. Allowed: ...` -/
  | invalidDay (day : String)
  /-- `duplicate delivery day: '<day>'` -/
  | duplicateDay (day : String)
  /-- `must be greater than 0` -/
  | mustBePositive
  /-- `field is required. Allowed values: ...` -/
  | enumRequired
  /-- `invalid value. Allowed: ...` -/
  | enumInvalid
  deriving DecidableEq, Repr

/-- Go `errors.ErrorDetail`. -/
structure ErrorDetail where
  Field : String
  Message : DetailMessage
  deriving DecidableEq, Repr

/-- Go `errors.ErrorResponse` without `LogTimestamp` and `RequestID`, which are read
from the clock and from a random UUID. -/
structure ErrorResponse where
  Status : Nat
  Message : String
  Details : List ErrorDetail
  deriving DecidableEq, Repr

/-- Go `NewErrInvalidArgument`. -/
def NewErrInvalidArgument (msg : String) : ErrorResponse :=
  { Status := 400, Message := msg, Details := [] }

/-- Go `NewErrInvalidArgumentWithDetails`. -/
def NewErrInvalidArgumentWithDetails (details : List ErrorDetail) : ErrorResponse :=
  { Status := 400, Message := "invalid request parameters", Details := details }

/-- Go `NewInternalServerError`. -/
def NewInternalServerError (message : String) : ErrorResponse :=
  { Status := 500, Message := message, Details := [] }

end errors

/-! ## `internal/validation` -/

namespace validation

open errors

/-- Go `AllowedDays`, as the list of its keys. -/
def AllowedDays : List String := ["mon", "tue", "wed", "thu", "fri", "sat", "sun"]

/-- Go `AllowedDirections`, as the list of its keys. -/
def AllowedDirections : List String := ["Восток", "Северо-Запад", "Юг", "Волга"]

/-- Go `AllowedSelectionTypes`, as the list of its keys. -/
def AllowedSelectionTypes : List proto.SelectionType :=
  [.SELECTION_TOURNAMENT, .SELECTION_ROULETTE, .SELECTION_RANK]

/-- Go `AllowedCrossoverTypes`, as the list of its keys. -/
def AllowedCrossoverTypes : List proto.CrossoverType :=
  [.CROSSOVER_UNIFORM, .CROSSOVER_SINGLE_POINT, .CROSSOVER_TWO_POINT]

/-- Go `AllowedMutationTypes`, as the list of its keys. -/
def AllowedMutationTypes : List proto.MutationType :=
  [.MUTATION_INVERSION, .MUTATION_SWAP]

/-- Step 1 of `ValidateOptimizeRequest`: the details for `direction`. -/
def validateDirection (direction : String) : List ErrorDetail :=
  if direction ≠ "" then
    if ¬ direction ∈ AllowedDirections then
      [{ Field := "direction", Message := .valueNotAllowed direction }]
    else []
  else []

/-- The loop over `req.DeliveryDays` in step 2 of `ValidateOptimizeRequest`: `i` is
the index of the first day of the list, `seen` the keys of the map `seen`. -/
def validateDayLoop : List String → Nat → List String → List ErrorDetail → List ErrorDetail
  | [], _, _, validationErrors => validationErrors
  | day :: rest, i, seen, validationErrors =>
    let trimmed := TrimSpace day
    if trimmed = "" then
      validateDayLoop rest (i + 1) seen
        (validationErrors ++
          [{ Field := "delivery_days[" ++ toString i ++ "]", Message := .dayEmpty }])
    else
      let lower := ToLower trimmed
      if ¬ lower ∈ AllowedDays then
        validateDayLoop rest (i + 1) (lower :: seen)
          (validationErrors ++
            [{ Field := "delivery_days[" ++ toString i ++ "]", Message := .invalidDay day }])
      else if lower ∈ seen then
        validateDayLoop rest (i + 1) (lower :: seen)
          (validationErrors ++
            [{ Field := "delivery_days[" ++ toString i ++ "]", Message := .duplicateDay day }])
      else validateDayLoop rest (i + 1) (lower :: seen) validationErrors

/-- Step 2 of `ValidateOptimizeRequest`: the details for `delivery_days`. -/
def validateDeliveryDays (deliveryDays : List String) : List ErrorDetail :=
  if deliveryDays.length = 0 then
    [{ Field := "delivery_days", Message := .fieldRequired }]
  else if deliveryDays.length ≠ 2 then
    [{ Field := "delivery_days", Message := .exactlyTwoDays deliveryDays.length }]
  else validateDayLoop deliveryDays 0 [] []

/-- Go `validateGASettings`; `pfx` is the parameter `prefix`.  The three counters are
unsigned, so `<= 0` is `= 0`. -/
def validateGASettings (settings : proto.GASettings) (pfx : String) : List ErrorDetail :=
  let errs0 : List ErrorDetail := []
  let errs1 := if settings.NumGenerations ≤ 0 then
      errs0 ++ [{ Field := pfx ++ ".num_generations", Message := .mustBePositive }]
    else errs0
  let errs2 := if settings.NumIndividuals ≤ 0 then
      errs1 ++ [{ Field := pfx ++ ".num_individuals", Message := .mustBePositive }]
    else errs1
  let errs3 := if settings.StoppingCriterion ≤ 0 then
      errs2 ++ [{ Field := pfx ++ ".stopping_criterion", Message := .mustBePositive }]
    else errs2
  let errs4 := if settings.SelectionType = .SELECTION_UNSPECIFIED then
      errs3 ++ [{ Field := pfx ++ ".selection_type", Message := .enumRequired }]
    else if ¬ settings.SelectionType ∈ AllowedSelectionTypes then
      errs3 ++ [{ Field := pfx ++ ".selection_type", Message := .enumInvalid }]
    else errs3
  let errs5 := if settings.CrossoverType = .CROSSOVER_UNSPECIFIED then
      errs4 ++ [{ Field := pfx ++ ".crossover_type", Message := .enumRequired }]
    else if ¬ settings.CrossoverType ∈ AllowedCrossoverTypes then
      errs4 ++ [{ Field := pfx ++ ".crossover_type", Message := .enumInvalid }]
    else errs4
  let errs6 := if settings.MutationType = .MUTATION_UNSPECIFIED then
      errs5 ++ [{ Field := pfx ++ ".mutation_type", Message := .enumRequired }]
    else if ¬ settings.MutationType ∈ AllowedMutationTypes then
      errs5 ++ [{ Field := pfx ++ ".mutation_type", Message := .enumInvalid }]
    else errs5
  errs6

/-- Step 3 of `ValidateOptimizeRequest`: the details for `ga_settings_level_1`. -/
def validateSettingsField (settings : Option proto.GASettings) : List ErrorDetail :=
  match settings with
  | none => [{ Field := "ga_settings_level_1", Message := .fieldRequired }]
  | some settings => validateGASettings settings "ga_settings_level_1"

/-- Go `ValidateOptimizeRequest`: `none` is the nil error. -/
def ValidateOptimizeRequest (req : Option proto.OptimizeRequest) : Option ErrorResponse :=
  match req with
  | none => some (NewErrInvalidArgument "request body is required")
  | some req =>
    let validationErrors :=
      validateDirection req.Direction ++ validateDeliveryDays req.DeliveryDays ++
        validateSettingsField req.GaSettingsLevel_1
    if validationErrors.length > 0 then some (NewErrInvalidArgumentWithDetails validationErrors)
    else none

end validation

namespace Sample

/-- Valid settings that stop at once: one generation, one individual, stagnation
window one. -/
def settingsMinimal : proto.GASettings :=
  { NumGenerations := 1, NumIndividuals := 1, StoppingCriterion := 1,
    SelectionType := .SELECTION_TOURNAMENT, CrossoverType := .CROSSOVER_UNIFORM,
    MutationType := .MUTATION_SWAP }

/-- A request for all directions with the delivery days `mon` and `tue`. -/
def request : proto.OptimizeRequest :=
  { Direction := "", DeliveryDays := ["mon", "tue"], GaSettingsLevel_1 := some settingsMinimal }

end Sample

/-! ## `optimizer/service.go`: `Optimize` -/

/-- Modelled from the spec: `models.Distance`, whose file is not part of the sources,
with the three fields `Optimize` reads. -/
structure models.Distance where
  FromCity : String
  ToCity : String
  Km : Int
  deriving DecidableEq, Repr

namespace storage

/-- Go `storage.Storage` as `Optimize` uses it: the outcome of each of the five
queries, an error being kept as its text. -/
structure Storage where
  GetAllShipments : Except String (List Shipment)
  GetAllTerminals : Except String (List Terminal)
  GetAllDistances : Except String (List Distance)
  GetAllInterCityRates : Except String (List InterCityRate)
  GetAllIntraCityRates : Except String (List IntraCityRate)

end storage

namespace proto

/-- Modelled from the spec: the generated `proto.Route` message, with the fields
`convertToProto` fills. -/
structure Route where
  FromCity : String
  ToTerminal : String
  ShipmentIds : List String
  Cost : ℚ
  TransportUsed : TransportType
  deriving DecidableEq, Repr

/-- Modelled from the spec: the generated `proto.CostBreakdown` message, with the
fields `convertCost` fills. -/
structure CostBreakdown where
  LinehaulCost : ℚ
  LastMileCost : ℚ
  PenaltyCost : ℚ
  TotalCost : ℚ
  deriving DecidableEq, Repr

/-- Modelled from the spec: the generated `proto.OptimizationResult` message, with
the fields `convertToProto` fills. -/
structure OptimizationResult where
  Routes : List Route
  Cost : CostBreakdown
  ActiveTerminals : List String
  Generation : Int
  FitnessScore : ℚ
  deriving DecidableEq, Repr

/-- Modelled from the spec: the generated `proto.OptimizeResponse` message, without
`SolutionId` and `CreatedAt`, which are a random UUID and the clock. -/
structure OptimizeResponse where
  Success : Bool
  Message : String
  Results : List OptimizationResult
  deriving DecidableEq, Repr

end proto

namespace optimizer

/-- Go `convertCost`. -/
def convertCost (cost : ga_level2.CostBreakdown) : proto.CostBreakdown :=
  { LinehaulCost := cost.LinehaulCost, LastMileCost := cost.LastMileCost,
    PenaltyCost := cost.PenaltyCost, TotalCost := cost.TotalCost }

/-- Go `Service.convertToProto`. -/
def convertToProto (level2 : ga_level2.Individual) (generation : Int) :
    proto.OptimizationResult :=
  { Routes := level2.Routes.map (fun r =>
      { FromCity := r.FromCity, ToTerminal := r.ToTerminal, ShipmentIds := r.ShipmentIDs,
        Cost := r.Cost, TransportUsed := r.TransportUsed }),
    Cost := convertCost level2.Cost,
    ActiveTerminals := level2.ActiveTerminals,
    Generation := generation,
    FitnessScore := level2.Fitness }

/-- Step 3 of `Optimize`: the nested map built from the distance rows, a later row
overwriting an earlier one for the same pair of cities. -/
def buildDistances (distances : List Distance) : Distances :=
  distances.foldl
    (fun (distancesMap : Distances) d => fun city =>
      if city = d.FromCity then
        some (fun dest => if dest = d.ToCity then some d.Km else distancesMap.sub d.FromCity dest)
      else distancesMap city)
    (fun _ => none)

/-- What steps 1 to 4 of `Optimize` hand to the loop over the delivery days. -/
structure Prepared where
  filteredTerminals : List Terminal
  interCityRates : List InterCityRate
  intraCityRates : List IntraCityRate
  distancesMap : Distances
  groupedShipments : DayBuckets

/-- Steps 1 to 4 of `Optimize`: the five loads, the direction filter, the distance
map and the grouping by delivery day. -/
def prepare (store : storage.Storage) (req : proto.OptimizeRequest) : Except Err Prepared :=
  match store.GetAllShipments with
  | .error err => .error (.loadFailed "shipments" err)
  | .ok shipments =>
    match store.GetAllTerminals with
    | .error err => .error (.loadFailed "terminals" err)
    | .ok terminals =>
      match store.GetAllDistances with
      | .error err => .error (.loadFailed "distances" err)
      | .ok distances =>
        match store.GetAllInterCityRates with
        | .error err => .error (.loadFailed "inter-city rates" err)
        | .ok interCityRates =>
          match store.GetAllIntraCityRates with
          | .error err => .error (.loadFailed "intra-city rates" err)
          | .ok intraCityRates =>
            let filteredTerminals :=
              if req.Direction ≠ "" then
                terminals.filter (fun t => decide (t.Direction = req.Direction))
              else terminals
            if req.Direction ≠ "" ∧ filteredTerminals.length = 0 then
              .error (.noTerminalsForDirection req.Direction)
            else
              match logic.GroupShipmentsByDeliveryDay shipments req.DeliveryDays with
              | .error err => .error (.groupingFailed err)
              | .ok groupedShipments =>
                .ok { filteredTerminals := filteredTerminals,
                      interCityRates := interCityRates,
                      intraCityRates := intraCityRates,
                      distancesMap := buildDistances distances,
                      groupedShipments := groupedShipments }

/-- The loop of `Optimize` over the delivery days, in the order `days` in which the
map is iterated, each day with the random stream its level-1 run draws from; the
state is `(bestResult, bestCost)`.  A nil `GaSettingsLevel_1` panics in `RunGA`. -/
def dayLoop (settings : Option proto.GASettings) (p : Prepared) :
    List ((String × List Shipment) × Rng) → Option proto.OptimizationResult × ℚ →
    Except Err (Option proto.OptimizationResult × ℚ)
  | [], st => .ok st
  | (day, rng) :: rest, st =>
    match settings with
    | none => .error (.panic "nil pointer dereference")
    | some settings =>
      match optimizeDay rng settings p.filteredTerminals day.2 p.interCityRates
          p.intraCityRates p.distancesMap with
      | .error e => .error e
      | .ok run =>
        let protoResult := convertToProto run.level2Result 0
        if run.level2Result.Fitness < st.2 then
          dayLoop settings p rest (some protoResult, run.level2Result.Fitness)
        else dayLoop settings p rest st

/-- Go `Service.Optimize`.  The map of the two day buckets is iterated in insertion
order or, when `reversed`, in the opposite order (the order is unspecified in Go);
`rng1` and `rng2` are the random streams of the first and the second day run. -/
def Optimize (store : storage.Storage) (reversed : Bool) (rng1 rng2 : Rng)
    (req : proto.OptimizeRequest) : Except Err proto.OptimizationResult :=
  match prepare store req with
  | .error e => .error e
  | .ok p =>
    let days := if reversed then p.groupedShipments.reverse else p.groupedShipments
    match dayLoop req.GaSettingsLevel_1 p (days.zip [rng1, rng2])
        (none, 1000000000000000000) with
    | .error e => .error e
    | .ok st =>
      match st.1 with
      | none => .error .noValidResult
      | some bestResult => .ok bestResult

end optimizer

/-! ## `internal/handler/optimize.go` -/

/-- Whether the error stands for a run-time panic, possibly wrapped by a caller in
the model.  A panic is not a returned error in Go. -/
def Err.isPanic : Err → Bool
  | .panic _ => true
  | .findInterFailed _ _ cause => cause.isPanic
  | .findIntraFailed _ _ cause => cause.isPanic
  | .findInterFailed64 _ _ cause => cause.isPanic
  | .findIntraFailed64 _ _ cause => cause.isPanic
  | .level1Failed cause => cause.isPanic
  | .level2Failed cause => cause.isPanic
  | .groupingFailed cause => cause.isPanic
  | _ => false

namespace handler

/-- What `sendJSON` writes: the status code and the body. -/
inductive Response where
  | failure (statusCode : Nat) (body : errors.ErrorResponse)
  | success (statusCode : Nat) (body : proto.OptimizeResponse)
  deriving DecidableEq, Repr

/-- Go `sendError`: the response keeps status, message and details of `appErr`. -/
def sendError (appErr : errors.ErrorResponse) : Response := .failure appErr.Status appErr

/-- The request after the two `strings.TrimSpace` steps of `HandleOptimize`. -/
def trimRequest (req : proto.OptimizeRequest) : proto.OptimizeRequest :=
  { req with Direction := TrimSpace req.Direction,
             DeliveryDays := req.DeliveryDays.map TrimSpace }

/-- Go `OptimizeHandler.HandleOptimize` from the decoded request on (the method test
and the JSON decoding come before).  Both `ValidateOptimizeRequest` errors are
`*errors.ErrorResponse`; every error of `Optimize` is a plain `fmt.Errorf` error, so
the type assertion fails and the generic response is sent.  `none`: the handler
panicked and wrote no response. -/
def HandleOptimize (store : storage.Storage) (reversed : Bool) (rng1 rng2 : Rng)
    (decoded : proto.OptimizeRequest) : Option Response :=
  let req := trimRequest decoded
  match validation.ValidateOptimizeRequest (some req) with
  | some customErr => some (sendError customErr)
  | none =>
    match optimizer.Optimize store reversed rng1 rng2 req with
    | .error err =>
      if err.isPanic then none
      else some (sendError (errors.NewInternalServerError "optimization failed"))
    | .ok result =>
      some (.success 200
        { Success := true, Message := "Optimization completed successfully",
          Results := [result] })

end handler

namespace Sample

/-- A store holding the sample data; no terminal has a direction. -/
def store : storage.Storage :=
  { GetAllShipments := .ok [thursdayShipment, saturdayShipment],
    GetAllTerminals := .ok terminals,
    GetAllDistances := .ok [{ FromCity := "A", ToCity := "X", Km := 10 },
                            { FromCity := "B", ToCity := "X", Km := 3 },
                            { FromCity := "B", ToCity := "Y", Km := 3 }],
    GetAllInterCityRates := .ok interCityRates,
    GetAllIntraCityRates := .ok intraCityRates }

/-- The sample store without any terminal. -/
def storeWithoutTerminals : storage.Storage := { store with GetAllTerminals := .ok [] }

/-- The no-active-terminal result as `Optimize` returns it. -/
def sentinelResult : proto.OptimizationResult :=
  { Routes := [],
    Cost := { LinehaulCost := 0, LastMileCost := 0, PenaltyCost := 0,
              TotalCost := 1000000000000 },
    ActiveTerminals := [],
    Generation := 0,
    FitnessScore := 1000000000000 }

/-- The sample store after steps 1 to 4 of `Optimize` for the delivery days `fri`,
`tue`. -/
def prepared : optimizer.Prepared :=
  { filteredTerminals := terminals,
    interCityRates := interCityRates,
    intraCityRates := intraCityRates,
    distancesMap := optimizer.buildDistances
      [{ FromCity := "A", ToCity := "X", Km := 10 },
       { FromCity := "B", ToCity := "X", Km := 3 },
       { FromCity := "B", ToCity := "Y", Km := 3 }],
    groupedShipments := [("fri", [thursdayShipment]), ("tue", [saturdayShipment])] }

/-- The level-1 winner of the day `fri`: both terminals active, score 3956. -/
def winnerFri : ga_level1.Individual :=
  { TerminalMask := 0,
    Fitness := 3956,
    Cost := { LinehaulCost := 3900, LastMileCost := 56, PenaltyCost := 0, TotalCost := 3956 },
    ActiveTerminals := ["A", "B"],
    Routes := [{ FromCity := "Москва", ToTerminal := "B", ShipmentIDs := ["thu"], Cost := 0,
                 TransportUsed := .TRANSPORT_1_5T_10M3 }] }

/-- The day run of `fri` on the stream of zeros with `settingsMinimal`. -/
def runFri : optimizer.DayRun :=
  { level1Result := { best := winnerFri, heap := { arrays := [[true, true]] },
                      evaluated := [[winnerFri]] },
    level2Result :=
      { Fitness := 3956,
        Cost := { LinehaulCost := 3900, LastMileCost := 56, PenaltyCost := 0,
                  TotalCost := 3956 },
        ActiveTerminals := ["A", "B"],
        Routes := [{ FromCity := "Москва", ToTerminal := "B", ShipmentIDs := ["thu"], Cost := 0,
                     TransportUsed := .TRANSPORT_1_5T_10M3 }] } }

/-- The level-1 winner of the day `tue`: the light shipment adds an underuse
penalty, score 21868/3. -/
def winnerTue : ga_level1.Individual :=
  { TerminalMask := 0,
    Fitness := 21868 / 3,
    Cost := { LinehaulCost := 3900, LastMileCost := 56, PenaltyCost := 10000 / 3,
              TotalCost := 21868 / 3 },
    ActiveTerminals := ["A", "B"],
    Routes := [{ FromCity := "Москва", ToTerminal := "B", ShipmentIDs := ["sat"], Cost := 0,
                 TransportUsed := .TRANSPORT_1_5T_10M3 }] }

/-- The day run of `tue` on the stream of zeros with `settingsMinimal`. -/
def runTue : optimizer.DayRun :=
  { level1Result := { best := winnerTue, heap := { arrays := [[true, true]] },
                      evaluated := [[winnerTue]] },
    level2Result :=
      { Fitness := 21868 / 3,
        Cost := { LinehaulCost := 3900, LastMileCost := 56, PenaltyCost := 10000 / 3,
                  TotalCost := 21868 / 3 },
        ActiveTerminals := ["A", "B"],
        Routes := [{ FromCity := "Москва", ToTerminal := "B", ShipmentIDs := ["sat"], Cost := 0,
                     TransportUsed := .TRANSPORT_1_5T_10M3 }] } }

/-- The store without terminals after steps 1 to 4 of `Optimize` for the delivery
days `mon`, `tue`. -/
def preparedWithoutTerminals : optimizer.Prepared :=
  { prepared with filteredTerminals := [],
                  groupedShipments := [("mon", [saturdayShipment]), ("tue", [])] }

/-- The level-1 winner when there is no terminal: the sentinel. -/
def winnerEmpty : ga_level1.Individual :=
  { TerminalMask := 0,
    Fitness := 1000000000000,
    Cost := { LinehaulCost := 0, LastMileCost := 0, PenaltyCost := 0,
              TotalCost := 1000000000000 } }

/-- A day run when there is no terminal: both levels return the sentinel. -/
def runEmpty : optimizer.DayRun :=
  { level1Result := { best := winnerEmpty, heap := { arrays := [[]] },
                      evaluated := [[winnerEmpty]] },
    level2Result :=
      { Fitness := 1000000000000,
        Cost := { LinehaulCost := 0, LastMileCost := 0, PenaltyCost := 0,
                  TotalCost := 1000000000000 } } }

end Sample

namespace Sample

/-- Settings with a budget of 1000 generations and a stagnation window of three:
tournament selection, uniform crossover, swap mutation, one individual. -/
def settingsLongRun : proto.GASettings :=
  { NumGenerations := 1000, NumIndividuals := 1, StoppingCriterion := 3,
    SelectionType := .SELECTION_TOURNAMENT, CrossoverType := .CROSSOVER_UNIFORM,
    MutationType := .MUTATION_SWAP }

end Sample

/-- Every backing array of the store holds exactly `n` bits. -/
def MaskHeap.Uniform (heap : MaskHeap) (n : Nat) : Prop := ∀ a ∈ heap.arrays, a.length = n

/-- The mask slice of `ind` is one of the backing arrays of the store. -/
def ga_level1.Individual.Allocated (ind : ga_level1.Individual) (heap : MaskHeap) : Prop :=
  ind.TerminalMask < heap.arrays.length

/-- The shape of a state of the generation loop: the store is uniform with `n` bits
per array, and every evaluated population, the current one included, has `size`
individuals whose masks are arrays of the store. -/
def ga_level1.GAState.Shaped (st : ga_level1.GAState) (n size : Nat) : Prop :=
  st.heap.Uniform n ∧
  (st.pop.Individuals.length = size ∧ ∀ ind ∈ st.pop.Individuals, ind.Allocated st.heap) ∧
  ∀ pop ∈ st.evaluated, pop.length = size ∧ ∀ ind ∈ pop, ind.Allocated st.heap

/-- Settings with an odd population: three individuals, three generations, rank
selection, single-point crossover, inversion mutation, stagnation window five. -/
def Sample.settingsOdd : proto.GASettings :=
  { NumGenerations := 3, NumIndividuals := 3, StoppingCriterion := 5,
    SelectionType := .SELECTION_RANK, CrossoverType := .CROSSOVER_SINGLE_POINT,
    MutationType := .MUTATION_INVERSION }

/-- Draws for `settingsOdd`: the initial masks are `A only`, `B only` and `A and B`;
every later draw is zero. -/
def Sample.drawsOdd : List Nat := [0, 2 ^ 23, 2 ^ 23, 0, 0, 0]

/-- A shipment dated Friday 2 January 1970. -/
def Sample.fridayShipment : Shipment :=
  { ID := "fri", WeightKg := 1000, VolumeM3 := 2, DestinationCity := "X", Date := 1 }

/-- A shipment without content whose date falls on weekday `w` (for `w < 7`). -/
def Sample.shipmentOn (w : Nat) : Shipment :=
  { ID := "", WeightKg := 0, VolumeM3 := 0, DestinationCity := "", Date := (w : Int) + 3 }

/-- A request for all directions whose first delivery day is written in capitals
and padded with blanks. -/
def Sample.requestCapitalDay : proto.OptimizeRequest :=
  { Sample.request with DeliveryDays := [" MON", "tue "] }

/-- Draws after which the only individual of the initial population has the mask
`A only`. -/
def Sample.drawsAOnly : List Nat := [0, 2 ^ 23]

/-- List `after` is `before` with the bits at the positions `i` and `j` exchanged. -/
def IsSwapOf (i j : Nat) (before after : List Bool) : Prop :=
  after.length = before.length ∧
  ∀ p, after.getD p false =
    if p = j then before.getD i false else if p = i then before.getD j false
    else before.getD p false

/-- List `after` is `before` with the positions `i` to `j` in reverse order and
every other position unchanged. -/
def IsReversalOf (i j : Nat) (before after : List Bool) : Prop :=
  after.length = before.length ∧
  ∀ p, after.getD p false =
    if i ≤ p ∧ p ≤ j then before.getD (i + j - p) false else before.getD p false

/-- A mask store with the single mask `[true, false, false]`. -/
def Sample.heapThree : MaskHeap := { arrays := [[true, false, false]] }

/-- Lists `c1`, `c2` are the lists `p1`, `p2` with the bits at the positions of `S`
exchanged between them: at a position in `S` the first child has the bit of the
second parent and the second child the bit of the first parent; at every other
position each child has the bit of its own parent. -/
def IsExchange (S : Nat → Bool) (p1 p2 c1 c2 : List Bool) : Prop :=
  c1.length = p1.length ∧ c2.length = p1.length ∧
  ∀ i < p1.length,
    c1.getD i false = (if S i then p2.getD i false else p1.getD i false) ∧
    c2.getD i false = (if S i then p1.getD i false else p2.getD i false)

/-- Whether `uniformCrossover` exchanges position `i`: draw `i` of the stream, read
as `rand.Float64()`, is not below one half. -/
def ga_level1.uniformExchange (rng : Rng) (i : Nat) : Bool :=
  !decide ((Rng.Float64 { draws := rng.draws, pos := rng.pos + i }).1 < 1 / 2)

/-- A mask store with the parents `[true, true, true, true]` and
`[false, false, false, false]`. -/
def Sample.heapParents : MaskHeap :=
  { arrays := [[true, true, true, true], [false, false, false, false]] }

/-! ## The cost functions over `float64`

The definitions above compute with exact rationals and range over a Go map in
insertion order.  Below, the same functions of `logic`, `ga_level1/fitness.go` and
`ga_level2` are embedded with every `float64` operation rounded as the processor
rounds it (each operation on its own, as on amd64), and with the iteration order of
each `range` over the map `terminalShipments` as a parameter.  A field of a record
is read as the `float64` value `F64.fin` of its rational. -/

/-- The order in which one `range` statement visits the entries of a Go map, which
the language leaves unspecified: a function that rearranges the entries found in
insertion order. -/
abbrev MapOrder := TerminalShipments → TerminalShipments

/-- An iteration order visits every entry of the map exactly once. -/
def MapOrder.IsPermutation (order : MapOrder) : Prop := ∀ m, (order m).Perm m

namespace float64

namespace logic

/-- Go `findInterCityRate`. -/
def findInterCityRate (weightTons volumeM3 : F64) (rates : List InterCityRate) :
    Except Err InterCityRate :=
  if rates.length = 0 then .error .interRatesEmpty
  else
    let sorted := sortSlice
      (fun a b => logic.rateLess a.WeightTons a.VolumeM3 b.WeightTons b.VolumeM3) rates
    match sorted.find? (fun r =>
        F64.le weightTons (.fin r.WeightTons) && F64.le volumeM3 (.fin r.VolumeM3)) with
    | some r => .ok r
    | none =>
      match sorted.getLast? with
      | some last => .ok last
      | none => .error (.panic "index out of range")

/-- Go `findIntraCityRate`. -/
def findIntraCityRate (weightTons volumeM3 : F64) (rates : List IntraCityRate) :
    Except Err IntraCityRate :=
  if rates.length = 0 then .error .intraRatesEmpty
  else
    let sorted := sortSlice
      (fun a b => logic.rateLess a.WeightTons a.VolumeM3 b.WeightTons b.VolumeM3) rates
    match sorted.find? (fun r =>
        F64.le weightTons (.fin r.WeightTons) && F64.le volumeM3 (.fin r.VolumeM3)) with
    | some r => .ok r
    | none =>
      match sorted.getLast? with
      | some last => .ok last
      | none => .error (.panic "index out of range")

/-- The running totals `(totalWeightTons, totalVolumeM3)` of a shipment list, from
the running values `acc`: each quotient `s.WeightKg / 1000.0` and each partial sum
is rounded. -/
def totalsFrom (acc : F64 × F64) (shipments : List Shipment) : F64 × F64 :=
  shipments.foldl
    (fun acc s =>
      (F64.add acc.1 (F64.div (.fin s.WeightKg) (.fin 1000)), F64.add acc.2 (.fin s.VolumeM3)))
    acc

/-- The running totals `(totalWeightTons, totalVolumeM3)` of a shipment list. -/
def totals (shipments : List Shipment) : F64 × F64 := totalsFrom (.fin 0, .fin 0) shipments

/-- The loop of step 4 of `CalculateLastMileCostForTerminal`, started with the
running `totalCost`. -/
def routeCosts (ratePerKm : ℚ) (terminalCity : String) (distances : DistMap) :
    List Shipment → F64 → Except Err F64
  | [], totalCost => .ok totalCost
  | shipment :: rest, totalCost =>
    match distances shipment.DestinationCity with
    | none => .error (.distanceNotFound terminalCity shipment.DestinationCity)
    | some distanceKm =>
      routeCosts ratePerKm terminalCity distances rest
        (F64.add totalCost (F64.mul (.fin ratePerKm) (F64.ofInt distanceKm)))

/-- Steps 3 and 4 of `CalculateLastMileCostForTerminal`. -/
def tariffCost (shipments : List Shipment) (terminalCity : String)
    (interCityRates : List InterCityRate) (intraCityRates : List IntraCityRate)
    (distances : DistMap) (totalWeightTons totalVolumeM3 : F64) : Except Err F64 :=
  match findInterCityRate totalWeightTons totalVolumeM3 interCityRates with
  | .error e => .error (.findInterFailed64 totalWeightTons totalVolumeM3 e)
  | .ok interCityRate =>
    match findIntraCityRate totalWeightTons totalVolumeM3 intraCityRates with
    | .error e => .error (.findIntraFailed64 totalWeightTons totalVolumeM3 e)
    | .ok intraCityRate =>
      match routeCosts interCityRate.RatePerKm terminalCity distances shipments (.fin 0) with
      | .error e => .error e
      | .ok totalCost => .ok (F64.add totalCost (.fin intraCityRate.RateFixed))

/-- Go `CalculateLastMileCostForTerminal`. -/
def CalculateLastMileCostForTerminal (shipments : List Shipment) (terminalCity : String)
    (interCityRates : List InterCityRate) (intraCityRates : List IntraCityRate)
    (distances : DistMap) : Except Err F64 :=
  if shipments.length = 0 then .ok (.fin 0)
  else
    let totalWeightTons := (totals shipments).1
    let totalVolumeM3 := (totals shipments).2
    if F64.lt (.fin (5 / 2)) totalWeightTons then
      match logic.allWithin100Km terminalCity distances shipments with
      | .error e => .error e
      | .ok true => .ok (.fin 7000)
      | .ok false =>
        tariffCost shipments terminalCity interCityRates intraCityRates distances
          totalWeightTons totalVolumeM3
    else
      tariffCost shipments terminalCity interCityRates intraCityRates distances
        totalWeightTons totalVolumeM3

/-- Go `findMinMaxRate`: comparisons and assignments only. -/
def findMinMaxRate (rates : List InterCityRate) : F64 × F64 :=
  let mm := rates.foldl
    (fun (acc : F64 × F64) r =>
      let min := if F64.lt (.fin r.RatePerKm) acc.1 then .fin r.RatePerKm else acc.1
      let max := if F64.lt acc.2 (.fin r.RatePerKm) then .fin r.RatePerKm else acc.2
      (min, max))
    (.fin MaxFloat64, .fin (-MaxFloat64))
  if F64.eq mm.1 (.fin MaxFloat64) then (.fin 0, .fin 0) else mm

/-- Go `findMinMaxDistance`. -/
def findMinMaxDistance (terminals : List Terminal) : F64 × F64 :=
  let mm := terminals.foldl
    (fun (acc : F64 × F64) t =>
      let dist := F64.ofInt t.DistanceFromMoscowKm
      let min := if F64.lt dist acc.1 then dist else acc.1
      let max := if F64.lt acc.2 dist then dist else acc.2
      (min, max))
    (.fin MaxFloat64, .fin (-MaxFloat64))
  if F64.eq mm.1 (.fin MaxFloat64) then (.fin 0, .fin 0) else mm

/-- The local variable `rate` of `CalculateLinehaulCost`, from the four extremes
and the terminal's distance. -/
def rateOf (minRate maxRate minDest maxDest distance : F64) : F64 :=
  if F64.eq maxDest minDest then F64.div (F64.add minRate maxRate) (.fin 2)
  else
    F64.sub maxRate
      (F64.mul (F64.sub maxRate minRate)
        (F64.div (F64.sub distance minDest) (F64.sub maxDest minDest)))

/-- Go `CalculateLinehaulCost`. -/
def CalculateLinehaulCost (terminal : Terminal) (terminals : List Terminal)
    (interCityRates : List InterCityRate) : Except Err F64 :=
  if interCityRates.length = 0 then .error .interRatesEmpty
  else if terminals.length = 0 then .error .terminalsEmpty
  else
    let minRate := (findMinMaxRate interCityRates).1
    let maxRate := (findMinMaxRate interCityRates).2
    let minDest := (findMinMaxDistance terminals).1
    let maxDest := (findMinMaxDistance terminals).2
    let distance := F64.ofInt terminal.DistanceFromMoscowKm
    .ok (F64.mul (rateOf minRate maxRate minDest maxDest distance) distance)

end logic

/-- The last-mile loop over the groups in the order the map is visited: the running
sum of `CalculateLastMileCostForTerminal`, stopping at the first error. -/
def lastMileLoop (interCityRates : List InterCityRate) (intraCityRates : List IntraCityRate)
    (distances : Distances) : TerminalShipments → F64 → Except Err F64
  | [], lastMileCost => .ok lastMileCost
  | (city, sList) :: rest, lastMileCost =>
    match logic.CalculateLastMileCostForTerminal sList city interCityRates intraCityRates
        (distances.sub city) with
    | .error e => .error e
    | .ok cost =>
      lastMileLoop interCityRates intraCityRates distances rest (F64.add lastMileCost cost)

/-- The line-haul loop over the slice `ts`: the running sum of
`CalculateLinehaulCost`, stopping at the first error. -/
def linehaulLoop (activeTerminals : List Terminal) (interCityRates : List InterCityRate) :
    List Terminal → F64 → Except Err F64
  | [], linehaulCost => .ok linehaulCost
  | t :: rest, linehaulCost =>
    match logic.CalculateLinehaulCost t activeTerminals interCityRates with
    | .error e => .error e
    | .ok cost => linehaulLoop activeTerminals interCityRates rest (F64.add linehaulCost cost)

/-- The vehicle choice for the totals `(totalWeightTons, totalVolumeM3)`: the chosen
catalog entry and whether the scan found a fitting class. -/
def chooseTransport (totalWeightTons totalVolumeM3 : F64) : logic.TransportSpec × Bool :=
  match logic.AvailableTransports.find?
      (fun tr => F64.le totalWeightTons (.fin tr.CapTons) &&
        F64.le totalVolumeM3 (.fin tr.CapM3)) with
  | some tr => (tr, true)
  | none => (logic.AvailableTransports.getLast (by simp [logic.AvailableTransports]), false)

/-- The `float64` constant `0.6`. -/
def sixTenths : F64 := F64.nearest (3 / 5)

/-- The body of the vehicle loop for one group, up to the route record: the new
value of `penalty` and the chosen transport type. -/
def groupVehicle (penalty : F64) (sList : List Shipment) : F64 × proto.TransportType :=
  let totalWeightTons := (logic.totals sList).1
  let totalVolumeM3 := (logic.totals sList).2
  let chosen := chooseTransport totalWeightTons totalVolumeM3
  let penalty1 := if chosen.2 then penalty else F64.add penalty (.fin 50000)
  let utilWeight := F64.div totalWeightTons (.fin chosen.1.CapTons)
  let utilVolume := F64.div totalVolumeM3 (.fin chosen.1.CapM3)
  let utilization := F64.Max utilWeight utilVolume
  let penalty2 :=
    if F64.lt utilization sixTenths then
      F64.add penalty1 (F64.mul (.fin 10000) (F64.sub sixTenths utilization))
    else penalty1
  (penalty2, chosen.1.Typ)

/-- Go `CostBreakdown` of either evaluator. -/
structure CostBreakdown where
  LinehaulCost : F64 := .fin 0
  LastMileCost : F64 := .fin 0
  PenaltyCost : F64 := .fin 0
  TotalCost : F64 := .fin 0
  deriving DecidableEq, Repr

/-- Go `RouteWithShipments` of either evaluator. -/
structure RouteWithShipments where
  FromCity : String
  ToTerminal : String
  ShipmentIDs : List String
  Cost : F64
  TransportUsed : proto.TransportType
  deriving DecidableEq, Repr

/-- The route record appended for the group `g`. -/
def routeOf (g : String × List Shipment) : RouteWithShipments :=
  { FromCity := "Москва", ToTerminal := g.1, ShipmentIDs := g.2.map (fun s => s.ID),
    Cost := .fin 0, TransportUsed := (groupVehicle (.fin 0) g.2).2 }

/-- The vehicle loop of either evaluator over the groups in the order the map is
visited, from the running `penalty` and `routes`. -/
def vehicleLoop : TerminalShipments → F64 → List RouteWithShipments →
    F64 × List RouteWithShipments
  | [], penalty, routes => (penalty, routes)
  | (city, sList) :: rest, penalty, routes =>
    let r := groupVehicle penalty sList
    vehicleLoop rest r.1
      (routes ++ [{ FromCity := "Москва", ToTerminal := city,
                    ShipmentIDs := sList.map (fun s => s.ID), Cost := .fin 0,
                    TransportUsed := r.2 }])

namespace ga_level1

/-- Go `ga_level1.Individual`; `TerminalMask` is the slice, an index into the mask
store. -/
structure Individual where
  TerminalMask : Nat
  Fitness : F64 := .fin 0
  Cost : CostBreakdown := {}
  ActiveTerminals : List String := []
  Routes : List RouteWithShipments := []
  deriving DecidableEq, Repr

/-- Step 2 of `CalculateFitness`: the groups and the penalty after the assignment
loop (`minDist` starts at `math.MaxInt`; an unassigned shipment adds `1e9`). -/
def assignShipments (activeTerminals : List Terminal) (distances : Distances)
    (shipments : List Shipment) : TerminalShipments × F64 :=
  shipments.foldl
    (fun (acc : TerminalShipments × F64) s =>
      let bestCity := nearestTerminal MaxInt activeTerminals distances s.DestinationCity
      if bestCity = "" then (acc.1, F64.add acc.2 (.fin 1000000000))
      else (appendShipment acc.1 bestCity s, acc.2))
    ([], .fin 0)

/-- Go `ga_level1.CalculateFitness`: the individual after scoring, or the error.
`lastMileOrder` and `vehicleOrder` are the orders in which the two `range` loops
visit `terminalShipments`. -/
def CalculateFitness (lastMileOrder vehicleOrder : MapOrder) (heap : MaskHeap)
    (ind : Individual) (allTerminals : List Terminal)
    (shipments : List Shipment) (interCityRates : List InterCityRate)
    (intraCityRates : List IntraCityRate) (distances : Distances) : Except Err Individual :=
  match ga_level1.selectActive allTerminals 0 (heap.read ind.TerminalMask) with
  | .error e => .error e
  | .ok activeTerminals =>
    if activeTerminals.length = 0 then
      .ok { ind with Cost := { TotalCost := .fin 1000000000000 },
                     Fitness := .fin 1000000000000 }
    else
      let assigned := assignShipments activeTerminals distances shipments
      match lastMileLoop interCityRates intraCityRates distances (lastMileOrder assigned.1)
          (.fin 0) with
      | .error e => .error e
      | .ok lastMileCost =>
        match linehaulLoop activeTerminals interCityRates activeTerminals (.fin 0) with
        | .error e => .error e
        | .ok linehaulCost =>
          let veh := vehicleLoop (vehicleOrder assigned.1) assigned.2 []
          let totalCost := F64.add (F64.add linehaulCost lastMileCost) veh.1
          .ok { ind with
                Cost := { LinehaulCost := linehaulCost, LastMileCost := lastMileCost,
                          PenaltyCost := veh.1, TotalCost := totalCost },
                Fitness := totalCost,
                ActiveTerminals := activeTerminals.map (fun t => t.City),
                Routes := veh.2 }

end ga_level1

namespace ga_level2

/-- Go `ga_level2.Individual`. -/
structure Individual where
  Fitness : F64 := .fin 0
  Cost : CostBreakdown := {}
  ActiveTerminals : List String := []
  Routes : List RouteWithShipments := []
  deriving DecidableEq, Repr

/-- Go `ga_level2.CalculateFitnessLevel2`.  `lastMileOrder` and `vehicleOrder` are
the orders in which the two `range` loops visit `terminalShipments`. -/
def CalculateFitnessLevel2 (lastMileOrder vehicleOrder : MapOrder)
    (activeTerminals : List Terminal) (shipments : List Shipment)
    (interCityRates : List InterCityRate) (intraCityRates : List IntraCityRate)
    (distances : Distances) : Except Err Individual :=
  match ga_level2.assignShipments activeTerminals distances shipments [] with
  | .error e => .error e
  | .ok terminalShipments =>
    match lastMileLoop interCityRates intraCityRates distances
        (lastMileOrder terminalShipments) (.fin 0) with
    | .error e => .error e
    | .ok lastMileCost =>
      match linehaulLoop activeTerminals interCityRates activeTerminals (.fin 0) with
      | .error e => .error e
      | .ok linehaulCost =>
        let veh := vehicleLoop (vehicleOrder terminalShipments) (.fin 0) []
        let totalCost := F64.add (F64.add linehaulCost lastMileCost) veh.1
        .ok { Cost := { LinehaulCost := linehaulCost, LastMileCost := lastMileCost,
                        PenaltyCost := veh.1, TotalCost := totalCost },
              Fitness := totalCost,
              ActiveTerminals := activeTerminals.map (fun t => t.City),
              Routes := veh.2 }

/-- Go `ga_level2.RunGALevel2`. -/
def RunGALevel2 (lastMileOrder vehicleOrder : MapOrder)
    (activeTerminals : List Terminal) (shipments : List Shipment)
    (interCityRates : List InterCityRate) (intraCityRates : List IntraCityRate)
    (distances : Distances) : Except Err Individual :=
  if activeTerminals.length = 0 then
    .ok { Cost := { TotalCost := .fin 1000000000000 }, Fitness := .fin 1000000000000 }
  else
    CalculateFitnessLevel2 lastMileOrder vehicleOrder activeTerminals shipments
      interCityRates intraCityRates distances

end ga_level2

end float64

/-- The value a `+=` loop leaves in a `float64` variable that starts at `0.0`: the
terms are added one by one from the left and every partial sum is rounded. -/
def F64.sum (xs : List F64) : F64 := xs.foldl F64.add (.fin 0)

namespace Sample

/-- Three shipments to `X` whose weights are the `float64` values nearest to 0.1,
0.1 and 2499.8 kg. -/
def lightPlusHeavy : List Shipment :=
  [ { ID := "l1", WeightKg := 3602879701896397 / 36028797018963968, VolumeM3 := 1,
      DestinationCity := "X" },
    { ID := "l2", WeightKg := 3602879701896397 / 36028797018963968, VolumeM3 := 1,
      DestinationCity := "X" },
    { ID := "l3", WeightKg := 2748559167114445 / 1099511627776, VolumeM3 := 1,
      DestinationCity := "X" } ]

/-- Three shipments to `X` of 40, 2240 and 220 kg: 2.5 t in all. -/
def exactlyTwoAndAHalf : List Shipment :=
  [ { ID := "e1", WeightKg := 40, VolumeM3 := 1, DestinationCity := "X" },
    { ID := "e2", WeightKg := 2240, VolumeM3 := 1, DestinationCity := "X" },
    { ID := "e3", WeightKg := 220, VolumeM3 := 1, DestinationCity := "X" } ]

end Sample

/-- The number a finite `float64` value stands for (0 for an infinity or a NaN). -/
def F64.toRat : F64 → ℚ
  | .fin q => q
  | _ => 0

/-- Value `m` is a least element of `vals` in the order of `<=` on `float64`. -/
def F64.IsMinOf (vals : List F64) (m : F64) : Prop := m ∈ vals ∧ ∀ x ∈ vals, F64.le m x = true

/-- Value `m` is a greatest element of `vals` in the order of `<=` on `float64`. -/
def F64.IsMaxOf (vals : List F64) (m : F64) : Prop := m ∈ vals ∧ ∀ x ∈ vals, F64.le x m = true

/-- The value of the local variable `rate` of `CalculateLinehaulCost`, the per-km
rate the cost of `terminal` is computed with. -/
def float64.logic.effectiveRate (terminal : Terminal) (terminals : List Terminal)
    (interCityRates : List InterCityRate) : F64 :=
  float64.logic.rateOf (float64.logic.findMinMaxRate interCityRates).1
    (float64.logic.findMinMaxRate interCityRates).2
    (float64.logic.findMinMaxDistance terminals).1
    (float64.logic.findMinMaxDistance terminals).2
    (F64.ofInt terminal.DistanceFromMoscowKm)

namespace Sample

/-- A tariff table whose rates are the `float64` values nearest to 0.1 and 0.4. -/
def decimalRates : List InterCityRate :=
  [ { VolumeM3 := 5, WeightTons := 1, RatePerKm := 3602879701896397 / 36028797018963968 },
    { VolumeM3 := 10, WeightTons := 3, RatePerKm := 3602879701896397 / 9007199254740992 } ]

end Sample

/-- The last-mile cost of the group `g`, the value the last-mile loop adds for it
(0 when the call fails and the loop stops). -/
def float64.groupLastMile (interCityRates : List InterCityRate)
    (intraCityRates : List IntraCityRate) (distances : Distances)
    (g : String × List Shipment) : F64 :=
  match float64.logic.CalculateLastMileCostForTerminal g.2 g.1 interCityRates intraCityRates
      (distances.sub g.1) with
  | .ok cost => cost
  | .error _ => .fin 0

/-- The value of `penalty` after the vehicle loop has visited `groups` in this
order, starting from `start`. -/
def float64.penaltyAfter (start : F64) (groups : TerminalShipments) : F64 :=
  groups.foldl (fun penalty g => (float64.groupVehicle penalty g.2).1) start

namespace Sample

/-- Terminal `C`, 900 km from the hub. -/
def terminalC : Terminal := { City := "C", DistanceFromMoscowKm := 900 }

/-- The terminals `A`, `B` and `C`. -/
def threeTerminals : List Terminal := [terminalA, terminalB, terminalC]

/-- Each of `A`, `B`, `C` reaches one destination: `X`, `Y`, `Z`, 10 km away. -/
def threeDistances : Distances := fun city =>
  if city = "A" then some (fun dest => if dest = "X" then some 10 else none)
  else if city = "B" then some (fun dest => if dest = "Y" then some 10 else none)
  else if city = "C" then some (fun dest => if dest = "Z" then some 10 else none)
  else none

/-- One tonne to `X`, two tonnes to `Y`, 2.4 tonnes to `Z`. -/
def threeShipments : List Shipment :=
  [ { ID := "x", WeightKg := 1000, VolumeM3 := 2, DestinationCity := "X" },
    { ID := "y", WeightKg := 2000, VolumeM3 := 2, DestinationCity := "Y" },
    { ID := "z", WeightKg := 2400, VolumeM3 := 2, DestinationCity := "Z" } ]

/-- An inter-city table with the single rate 0. -/
def freeRates : List InterCityRate :=
  [ { VolumeM3 := 100, WeightTons := 100, RatePerKm := 0 } ]

/-- An intra-city table whose fees are the `float64` values nearest to 0.1 (up to one
tonne), 0.2 (up to two) and 0.3 (up to three). -/
def decimalFees : List IntraCityRate :=
  [ { VolumeM3 := 10, WeightTons := 1, RateFixed := 3602879701896397 / 36028797018963968 },
    { VolumeM3 := 10, WeightTons := 2, RateFixed := 3602879701896397 / 18014398509481984 },
    { VolumeM3 := 10, WeightTons := 3, RateFixed := 5404319552844595 / 18014398509481984 } ]

/-- A mask store with the one mask `A, B and C`. -/
def heapAll : MaskHeap := { arrays := [[true, true, true]] }

/-- Three shipments of 50, 1350 and 100 kg: 1.5 t in all. -/
def exactlyOneAndAHalf : List Shipment :=
  [ { ID := "v1", WeightKg := 50, VolumeM3 := 1, DestinationCity := "X" },
    { ID := "v2", WeightKg := 1350, VolumeM3 := 1, DestinationCity := "X" },
    { ID := "v3", WeightKg := 100, VolumeM3 := 1, DestinationCity := "X" } ]

end Sample

deriving instance DecidableEq for Except

/-! # Properties -/

/-! ## `sort.Slice` returns a sorted permutation -/

theorem insertBack_perm {α : Type} (less : α → α → Bool) (x : α) (l : List α) :
    (insertBack less x l).Perm (x :: l) := by
  induction l with
  | nil => simp [insertBack]
  | cons y rest ih =>
    unfold insertBack
    split
    · exact (List.Perm.cons y ih).trans (List.Perm.swap x y rest)
    · exact List.Perm.refl _

theorem sortSlice_perm {α : Type} (less : α → α → Bool) (data : List α) :
    (sortSlice less data).Perm data := by
  have key : ∀ (l rev : List α),
      (l.foldl (fun rev x => insertBack less x rev) rev).Perm (l.reverse ++ rev) := by
    intro l
    induction l with
    | nil => intro rev; simp
    | cons x rest ih =>
      intro rev
      rw [List.foldl_cons]
      refine (ih _).trans ?_
      rw [List.reverse_cons, List.append_assoc]
      exact List.Perm.append_left _ (by simpa using insertBack_perm less x rev)
  unfold sortSlice
  refine (List.reverse_perm _).trans ?_
  have h := key data []
  rw [List.append_nil] at h
  exact h.trans (List.reverse_perm _)

theorem insertBack_sorted {α : Type} (less : α → α → Bool)
    (hasymm : ∀ a b, less a b = true → less b a = false)
    (hneg : ∀ a b c, less a b = false → less b c = false → less a c = false)
    (x : α) (rev : List α) (h : rev.Pairwise (fun a b => less a b = false)) :
    (insertBack less x rev).Pairwise (fun a b => less a b = false) := by
  induction rev with
  | nil => simp [insertBack]
  | cons y rest ih =>
    rw [List.pairwise_cons] at h
    unfold insertBack
    split
    · rename_i hxy
      rw [List.pairwise_cons]
      refine ⟨?_, ih h.2⟩
      intro z hz
      rcases List.mem_cons.1 ((List.Perm.mem_iff (insertBack_perm less x rest)).1 hz) with hzx | hzr
      · rw [hzx]; exact hasymm x y hxy
      · exact h.1 z hzr
    · rename_i hxy
      have hxy' : less x y = false := by simpa using hxy
      rw [List.pairwise_cons]
      refine ⟨?_, List.pairwise_cons.2 h⟩
      intro z hz
      rcases List.mem_cons.1 hz with hzy | hzr
      · rw [hzy]; exact hxy'
      · exact hneg x y z hxy' (h.1 z hzr)

/-- The result of `sortSlice` is ascending: no later element is `less` than an
earlier one. -/
theorem sortSlice_sorted {α : Type} (less : α → α → Bool)
    (hasymm : ∀ a b, less a b = true → less b a = false)
    (hneg : ∀ a b c, less a b = false → less b c = false → less a c = false)
    (data : List α) :
    (sortSlice less data).Pairwise (fun a b => less b a = false) := by
  have key : ∀ (l rev : List α), rev.Pairwise (fun a b => less a b = false) →
      (l.foldl (fun rev x => insertBack less x rev) rev).Pairwise
        (fun a b => less a b = false) := by
    intro l
    induction l with
    | nil => intro rev h; simpa using h
    | cons x rest ih =>
      intro rev h
      rw [List.foldl_cons]
      exact ih _ (insertBack_sorted less hasymm hneg x rev h)
  unfold sortSlice
  rw [List.pairwise_reverse]
  exact key data [] List.Pairwise.nil

/-! ## Tariff lookup -/

namespace logic

theorem rateLess_eq_false_iff (w1 v1 w2 v2 : ℚ) :
    rateLess w2 v2 w1 v1 = false ↔ (w1 < w2 ∨ (w1 = w2 ∧ v1 ≤ v2)) := by
  unfold rateLess
  by_cases h : w2 = w1
  · subst h
    simp
  · simp only [h, if_false, decide_eq_false_iff_not, not_lt]
    constructor
    · intro hle
      exact Or.inl (lt_of_le_of_ne hle (fun e => h e.symm))
    · rintro (hlt | ⟨he, _⟩)
      · exact le_of_lt hlt
      · exact absurd he.symm h

theorem rateLess_asymm (w1 v1 w2 v2 : ℚ) (h : rateLess w1 v1 w2 v2 = true) :
    rateLess w2 v2 w1 v1 = false := by
  rw [rateLess_eq_false_iff]
  unfold rateLess at h
  by_cases e : w1 = w2
  · simp only [e, if_true, decide_eq_true_eq] at h
    exact Or.inr ⟨e, le_of_lt h⟩
  · simp only [e, if_false, decide_eq_true_eq] at h
    exact Or.inl h

theorem rateLess_negtrans (w1 v1 w2 v2 w3 v3 : ℚ) (h12 : rateLess w1 v1 w2 v2 = false)
    (h23 : rateLess w2 v2 w3 v3 = false) : rateLess w1 v1 w3 v3 = false := by
  rw [rateLess_eq_false_iff] at *
  rcases h12 with h12 | ⟨e12, h12⟩ <;> rcases h23 with h23 | ⟨e23, h23⟩
  · exact Or.inl (lt_trans h23 h12)
  · exact Or.inl (e23 ▸ h12)
  · exact Or.inl (e12 ▸ h23)
  · exact Or.inr ⟨e23.trans e12, le_trans h23 h12⟩

/-- In a list sorted by `less`, the first element satisfying `p` is not above any
element satisfying `p`. -/
theorem find_least_of_sorted {α : Type} (less : α → α → Bool)
    (hirr : ∀ a, less a a = false) (p : α → Bool) (l : List α)
    (hs : l.Pairwise (fun a b => less b a = false)) (r : α) (hr : l.find? p = some r) :
    r ∈ l ∧ p r = true ∧ ∀ x ∈ l, p x = true → less x r = false := by
  induction l with
  | nil => simp at hr
  | cons y rest ih =>
    rw [List.pairwise_cons] at hs
    rw [List.find?_cons] at hr
    cases hp : p y with
    | true =>
      rw [hp] at hr
      have hyr : y = r := by simpa using hr
      subst hyr
      refine ⟨List.mem_cons_self _ _, hp, ?_⟩
      intro x hx _
      rcases List.mem_cons.1 hx with hxy | hxr
      · rw [hxy]; exact hirr y
      · exact hs.1 x hxr
    | false =>
      rw [hp] at hr
      obtain ⟨hmem, hpr, hall⟩ := ih hs.2 hr
      refine ⟨List.mem_cons_of_mem _ hmem, hpr, ?_⟩
      intro x hx hpx
      rcases List.mem_cons.1 hx with hxy | hxr
      · rw [hxy, hp] at hpx; exact absurd hpx (by simp)
      · exact hall x hxr hpx

/-- In a list sorted by `less`, the last element is not below any element. -/
theorem getLast_greatest_of_sorted {α : Type} (less : α → α → Bool)
    (hirr : ∀ a, less a a = false) (l : List α)
    (hs : l.Pairwise (fun a b => less b a = false)) (r : α) (hr : l.getLast? = some r) :
    r ∈ l ∧ ∀ x ∈ l, less r x = false := by
  induction l with
  | nil => simp at hr
  | cons y rest ih =>
    rw [List.pairwise_cons] at hs
    cases rest with
    | nil =>
      have hyr : y = r := by simpa using hr
      subst hyr
      refine ⟨List.mem_cons_self _ _, ?_⟩
      intro x hx
      have : x = y := by simpa using hx
      rw [this]; exact hirr y
    | cons z rest' =>
      rw [List.getLast?_cons_cons] at hr
      obtain ⟨hmem, hall⟩ := ih hs.2 hr
      refine ⟨List.mem_cons_of_mem _ hmem, ?_⟩
      intro x hx
      rcases List.mem_cons.1 hx with hxy | hxr
      · rw [hxy]; exact hs.1 r hmem
      · exact hall x hxr

/-- The scan shared by both tariff lookups, over rows of any type with a weight and
a volume bound: the first covering row of the sorted table is a least covering row
of the table, and the last row of the sorted table is a greatest row of the table. -/
theorem sorted_scan_spec {α : Type} (wt vol : α → ℚ) (weightTons volumeM3 : ℚ)
    (rates : List α) :
    (∀ r, (sortSlice (fun a b => rateLess (wt a) (vol a) (wt b) (vol b)) rates).find?
          (fun r => decide (weightTons ≤ wt r ∧ volumeM3 ≤ vol r)) = some r →
        r ∈ rates ∧ weightTons ≤ wt r ∧ volumeM3 ≤ vol r ∧
        ∀ row ∈ rates, weightTons ≤ wt row → volumeM3 ≤ vol row →
          (wt r < wt row ∨ (wt r = wt row ∧ vol r ≤ vol row))) ∧
    (∀ r, (sortSlice (fun a b => rateLess (wt a) (vol a) (wt b) (vol b)) rates).getLast? = some r →
        r ∈ rates ∧
        ∀ row ∈ rates, (wt row < wt r ∨ (wt row = wt r ∧ vol row ≤ vol r))) := by
  have hperm := sortSlice_perm (fun a b => rateLess (wt a) (vol a) (wt b) (vol b)) rates
  have hsorted := sortSlice_sorted (fun a b => rateLess (wt a) (vol a) (wt b) (vol b))
    (fun a b => rateLess_asymm _ _ _ _) (fun a b c => rateLess_negtrans _ _ _ _ _ _) rates
  have hirr : ∀ a : α, rateLess (wt a) (vol a) (wt a) (vol a) = false := by
    intro a; rw [rateLess_eq_false_iff]; exact Or.inr ⟨rfl, le_refl _⟩
  constructor
  · intro r hr
    obtain ⟨hmem, hp, hall⟩ := find_least_of_sorted _ hirr _ _ hsorted r hr
    have hp' : weightTons ≤ wt r ∧ volumeM3 ≤ vol r := by simpa using hp
    refine ⟨(List.Perm.mem_iff hperm).1 hmem, hp'.1, hp'.2, ?_⟩
    intro row hrow hw hv
    have := hall row ((List.Perm.mem_iff hperm).2 hrow) (by simp [hw, hv])
    exact (rateLess_eq_false_iff _ _ _ _).1 this
  · intro r hr
    obtain ⟨hmem, hall⟩ := getLast_greatest_of_sorted _ hirr _ hsorted r hr
    refine ⟨(List.Perm.mem_iff hperm).1 hmem, ?_⟩
    intro row hrow
    exact (rateLess_eq_false_iff _ _ _ _).1 (hall row ((List.Perm.mem_iff hperm).2 hrow))

theorem sortSlice_ne_nil {α : Type} (less : α → α → Bool) (data : List α) (h : data ≠ []) :
    sortSlice less data ≠ [] := by
  intro e
  have := (sortSlice_perm less data).length_eq
  rw [e] at this
  exact h (List.length_eq_zero.1 this.symm)

theorem findInterCityRate_least (weightTons volumeM3 : ℚ) (rates : List InterCityRate)
    (hcov : ∃ row ∈ rates, weightTons ≤ row.WeightTons ∧ volumeM3 ≤ row.VolumeM3) :
    ∃ r, findInterCityRate weightTons volumeM3 rates = .ok r ∧
      r ∈ rates ∧ weightTons ≤ r.WeightTons ∧ volumeM3 ≤ r.VolumeM3 ∧
      ∀ row ∈ rates, weightTons ≤ row.WeightTons → volumeM3 ≤ row.VolumeM3 →
        (r.WeightTons < row.WeightTons ∨
          (r.WeightTons = row.WeightTons ∧ r.VolumeM3 ≤ row.VolumeM3)) := by
  obtain ⟨row, hrow, hw, hv⟩ := hcov
  have hne : rates.length ≠ 0 := by
    intro h; rw [List.length_eq_zero] at h; rw [h] at hrow; simp at hrow
  have hspec := (sorted_scan_spec InterCityRate.WeightTons InterCityRate.VolumeM3
    weightTons volumeM3 rates).1
  have hperm := sortSlice_perm
    (fun a b : InterCityRate => rateLess a.WeightTons a.VolumeM3 b.WeightTons b.VolumeM3) rates
  unfold findInterCityRate
  simp only [hne, if_false]
  cases hf : (sortSlice (fun a b : InterCityRate =>
      rateLess a.WeightTons a.VolumeM3 b.WeightTons b.VolumeM3) rates).find?
      (fun r => decide (weightTons ≤ r.WeightTons ∧ volumeM3 ≤ r.VolumeM3)) with
  | some r => exact ⟨r, rfl, hspec r hf⟩
  | none =>
    rw [List.find?_eq_none] at hf
    have := hf row ((List.Perm.mem_iff hperm).2 hrow)
    simp [hw, hv] at this

theorem findIntraCityRate_least (weightTons volumeM3 : ℚ) (rates : List IntraCityRate)
    (hcov : ∃ row ∈ rates, weightTons ≤ row.WeightTons ∧ volumeM3 ≤ row.VolumeM3) :
    ∃ r, findIntraCityRate weightTons volumeM3 rates = .ok r ∧
      r ∈ rates ∧ weightTons ≤ r.WeightTons ∧ volumeM3 ≤ r.VolumeM3 ∧
      ∀ row ∈ rates, weightTons ≤ row.WeightTons → volumeM3 ≤ row.VolumeM3 →
        (r.WeightTons < row.WeightTons ∨
          (r.WeightTons = row.WeightTons ∧ r.VolumeM3 ≤ row.VolumeM3)) := by
  obtain ⟨row, hrow, hw, hv⟩ := hcov
  have hne : rates.length ≠ 0 := by
    intro h; rw [List.length_eq_zero] at h; rw [h] at hrow; simp at hrow
  have hspec := (sorted_scan_spec IntraCityRate.WeightTons IntraCityRate.VolumeM3
    weightTons volumeM3 rates).1
  have hperm := sortSlice_perm
    (fun a b : IntraCityRate => rateLess a.WeightTons a.VolumeM3 b.WeightTons b.VolumeM3) rates
  unfold findIntraCityRate
  simp only [hne, if_false]
  cases hf : (sortSlice (fun a b : IntraCityRate =>
      rateLess a.WeightTons a.VolumeM3 b.WeightTons b.VolumeM3) rates).find?
      (fun r => decide (weightTons ≤ r.WeightTons ∧ volumeM3 ≤ r.VolumeM3)) with
  | some r => exact ⟨r, rfl, hspec r hf⟩
  | none =>
    rw [List.find?_eq_none] at hf
    have := hf row ((List.Perm.mem_iff hperm).2 hrow)
    simp [hw, hv] at this

/-- C8: whenever some row of the table covers `(weightTons, volumeM3)`, both
`findInterCityRate` and `findIntraCityRate` return a row of the table that covers
both values and is least among the covering rows in the order weight ascending,
ties by volume ascending. -/
theorem find_rate_least_covering (weightTons volumeM3 : ℚ)
    (interCityRates : List InterCityRate) (intraCityRates : List IntraCityRate)
    (hinter : ∃ row ∈ interCityRates, weightTons ≤ row.WeightTons ∧ volumeM3 ≤ row.VolumeM3)
    (hintra : ∃ row ∈ intraCityRates, weightTons ≤ row.WeightTons ∧ volumeM3 ≤ row.VolumeM3) :
    (∃ r, findInterCityRate weightTons volumeM3 interCityRates = .ok r ∧
        r ∈ interCityRates ∧ weightTons ≤ r.WeightTons ∧ volumeM3 ≤ r.VolumeM3 ∧
        ∀ row ∈ interCityRates, weightTons ≤ row.WeightTons → volumeM3 ≤ row.VolumeM3 →
          (r.WeightTons < row.WeightTons ∨
            (r.WeightTons = row.WeightTons ∧ r.VolumeM3 ≤ row.VolumeM3))) ∧
    (∃ r, findIntraCityRate weightTons volumeM3 intraCityRates = .ok r ∧
        r ∈ intraCityRates ∧ weightTons ≤ r.WeightTons ∧ volumeM3 ≤ r.VolumeM3 ∧
        ∀ row ∈ intraCityRates, weightTons ≤ row.WeightTons → volumeM3 ≤ row.VolumeM3 →
          (r.WeightTons < row.WeightTons ∨
            (r.WeightTons = row.WeightTons ∧ r.VolumeM3 ≤ row.VolumeM3))) :=
  ⟨findInterCityRate_least weightTons volumeM3 interCityRates hinter,
   findIntraCityRate_least weightTons volumeM3 intraCityRates hintra⟩

end logic

namespace logic

theorem findInterCityRate_fallback (weightTons volumeM3 : ℚ) (rates : List InterCityRate)
    (hne : rates ≠ [])
    (hnone : ∀ row ∈ rates, ¬ (weightTons ≤ row.WeightTons ∧ volumeM3 ≤ row.VolumeM3)) :
    ∃ r, findInterCityRate weightTons volumeM3 rates = .ok r ∧
      (sortSlice (fun a b : InterCityRate =>
        rateLess a.WeightTons a.VolumeM3 b.WeightTons b.VolumeM3) rates).getLast? = some r ∧
      r ∈ rates ∧
      ∀ row ∈ rates, (row.WeightTons < r.WeightTons ∨
        (row.WeightTons = r.WeightTons ∧ row.VolumeM3 ≤ r.VolumeM3)) := by
  have hlen : rates.length ≠ 0 := fun h => hne (List.length_eq_zero.1 h)
  have hperm := sortSlice_perm
    (fun a b : InterCityRate => rateLess a.WeightTons a.VolumeM3 b.WeightTons b.VolumeM3) rates
  have hspec := (sorted_scan_spec InterCityRate.WeightTons InterCityRate.VolumeM3
    weightTons volumeM3 rates).2
  have hfind : (sortSlice (fun a b : InterCityRate =>
      rateLess a.WeightTons a.VolumeM3 b.WeightTons b.VolumeM3) rates).find?
      (fun r => decide (weightTons ≤ r.WeightTons ∧ volumeM3 ≤ r.VolumeM3)) = none := by
    rw [List.find?_eq_none]
    intro x hx
    have := hnone x ((List.Perm.mem_iff hperm).1 hx)
    simpa using this
  unfold findInterCityRate
  simp only [hlen, if_false, hfind]
  cases hl : (sortSlice (fun a b : InterCityRate =>
      rateLess a.WeightTons a.VolumeM3 b.WeightTons b.VolumeM3) rates).getLast? with
  | none =>
    rw [List.getLast?_eq_none_iff] at hl
    exact absurd hl (sortSlice_ne_nil _ rates hne)
  | some r => exact ⟨r, rfl, rfl, hspec r hl⟩

theorem findIntraCityRate_fallback (weightTons volumeM3 : ℚ) (rates : List IntraCityRate)
    (hne : rates ≠ [])
    (hnone : ∀ row ∈ rates, ¬ (weightTons ≤ row.WeightTons ∧ volumeM3 ≤ row.VolumeM3)) :
    ∃ r, findIntraCityRate weightTons volumeM3 rates = .ok r ∧
      (sortSlice (fun a b : IntraCityRate =>
        rateLess a.WeightTons a.VolumeM3 b.WeightTons b.VolumeM3) rates).getLast? = some r ∧
      r ∈ rates ∧
      ∀ row ∈ rates, (row.WeightTons < r.WeightTons ∨
        (row.WeightTons = r.WeightTons ∧ row.VolumeM3 ≤ r.VolumeM3)) := by
  have hlen : rates.length ≠ 0 := fun h => hne (List.length_eq_zero.1 h)
  have hperm := sortSlice_perm
    (fun a b : IntraCityRate => rateLess a.WeightTons a.VolumeM3 b.WeightTons b.VolumeM3) rates
  have hspec := (sorted_scan_spec IntraCityRate.WeightTons IntraCityRate.VolumeM3
    weightTons volumeM3 rates).2
  have hfind : (sortSlice (fun a b : IntraCityRate =>
      rateLess a.WeightTons a.VolumeM3 b.WeightTons b.VolumeM3) rates).find?
      (fun r => decide (weightTons ≤ r.WeightTons ∧ volumeM3 ≤ r.VolumeM3)) = none := by
    rw [List.find?_eq_none]
    intro x hx
    have := hnone x ((List.Perm.mem_iff hperm).1 hx)
    simpa using this
  unfold findIntraCityRate
  simp only [hlen, if_false, hfind]
  cases hl : (sortSlice (fun a b : IntraCityRate =>
      rateLess a.WeightTons a.VolumeM3 b.WeightTons b.VolumeM3) rates).getLast? with
  | none =>
    rw [List.getLast?_eq_none_iff] at hl
    exact absurd hl (sortSlice_ne_nil _ rates hne)
  | some r => exact ⟨r, rfl, rfl, hspec r hl⟩

/-- A non-empty table always yields a row. -/
theorem findInterCityRate_ok_of_ne_nil (weightTons volumeM3 : ℚ) (rates : List InterCityRate)
    (hne : rates ≠ []) : ∃ r, findInterCityRate weightTons volumeM3 rates = .ok r := by
  by_cases hc : ∃ row ∈ rates, weightTons ≤ row.WeightTons ∧ volumeM3 ≤ row.VolumeM3
  · obtain ⟨r, hr, _⟩ := findInterCityRate_least weightTons volumeM3 rates hc
    exact ⟨r, hr⟩
  · obtain ⟨r, hr, _⟩ := findInterCityRate_fallback weightTons volumeM3 rates hne
      (fun row hrow hcov => hc ⟨row, hrow, hcov⟩)
    exact ⟨r, hr⟩

/-- A non-empty table always yields a row. -/
theorem findIntraCityRate_ok_of_ne_nil (weightTons volumeM3 : ℚ) (rates : List IntraCityRate)
    (hne : rates ≠ []) : ∃ r, findIntraCityRate weightTons volumeM3 rates = .ok r := by
  by_cases hc : ∃ row ∈ rates, weightTons ≤ row.WeightTons ∧ volumeM3 ≤ row.VolumeM3
  · obtain ⟨r, hr, _⟩ := findIntraCityRate_least weightTons volumeM3 rates hc
    exact ⟨r, hr⟩
  · obtain ⟨r, hr, _⟩ := findIntraCityRate_fallback weightTons volumeM3 rates hne
      (fun row hrow hcov => hc ⟨row, hrow, hcov⟩)
    exact ⟨r, hr⟩

/-- C9: `findInterCityRate` and `findIntraCityRate` fail exactly on the empty table;
on a non-empty table none of whose rows covers both values they return the last row
of the table sorted by (weight, volume) ascending, a greatest row in that order. -/
theorem find_rate_error_iff_empty (weightTons volumeM3 : ℚ)
    (interCityRates : List InterCityRate) (intraCityRates : List IntraCityRate) :
    ((∃ e, findInterCityRate weightTons volumeM3 interCityRates = .error e) ↔
        interCityRates = []) ∧
    ((∃ e, findIntraCityRate weightTons volumeM3 intraCityRates = .error e) ↔
        intraCityRates = []) ∧
    (interCityRates ≠ [] →
      (∀ row ∈ interCityRates, ¬ (weightTons ≤ row.WeightTons ∧ volumeM3 ≤ row.VolumeM3)) →
      ∃ r, findInterCityRate weightTons volumeM3 interCityRates = .ok r ∧
        (sortSlice (fun a b : InterCityRate =>
          rateLess a.WeightTons a.VolumeM3 b.WeightTons b.VolumeM3)
          interCityRates).getLast? = some r ∧
        r ∈ interCityRates ∧
        ∀ row ∈ interCityRates, (row.WeightTons < r.WeightTons ∨
          (row.WeightTons = r.WeightTons ∧ row.VolumeM3 ≤ r.VolumeM3))) ∧
    (intraCityRates ≠ [] →
      (∀ row ∈ intraCityRates, ¬ (weightTons ≤ row.WeightTons ∧ volumeM3 ≤ row.VolumeM3)) →
      ∃ r, findIntraCityRate weightTons volumeM3 intraCityRates = .ok r ∧
        (sortSlice (fun a b : IntraCityRate =>
          rateLess a.WeightTons a.VolumeM3 b.WeightTons b.VolumeM3)
          intraCityRates).getLast? = some r ∧
        r ∈ intraCityRates ∧
        ∀ row ∈ intraCityRates, (row.WeightTons < r.WeightTons ∨
          (row.WeightTons = r.WeightTons ∧ row.VolumeM3 ≤ r.VolumeM3))) := by
  refine ⟨?_, ?_, findInterCityRate_fallback _ _ _, findIntraCityRate_fallback _ _ _⟩
  · constructor
    · rintro ⟨e, he⟩
      by_contra hne
      obtain ⟨r, hr⟩ := findInterCityRate_ok_of_ne_nil weightTons volumeM3 interCityRates hne
      rw [hr] at he
      cases he
    · intro h
      subst h
      exact ⟨.interRatesEmpty, by simp [findInterCityRate]⟩
  · constructor
    · rintro ⟨e, he⟩
      by_contra hne
      obtain ⟨r, hr⟩ := findIntraCityRate_ok_of_ne_nil weightTons volumeM3 intraCityRates hne
      rw [hr] at he
      cases he
    · intro h
      subst h
      exact ⟨.intraRatesEmpty, by simp [findIntraCityRate]⟩

end logic

/-! ## Last-mile cost -/

namespace logic

theorem allWithin100Km_of_near (terminalCity : String) (distances : DistMap)
    (shipments : List Shipment)
    (hd : ∀ s ∈ shipments, ∃ d, distances s.DestinationCity = some d ∧ d ≤ 100) :
    allWithin100Km terminalCity distances shipments = .ok true := by
  induction shipments with
  | nil => rfl
  | cons s rest ih =>
    obtain ⟨d, hd1, hd2⟩ := hd s (List.mem_cons_self _ _)
    unfold allWithin100Km
    rw [hd1]
    simp only [not_lt.2 hd2, if_false]
    exact ih (fun s' hs' => hd s' (List.mem_cons_of_mem _ hs'))

end logic

namespace logic

/-- C8 at a concrete input: both sample tables cover `(1 t, 2 m3)`. -/
theorem find_rate_least_covering_witness :
    (∃ r, findInterCityRate 1 2 Sample.interCityRates = .ok r ∧
        r ∈ Sample.interCityRates ∧ (1 : ℚ) ≤ r.WeightTons ∧ (2 : ℚ) ≤ r.VolumeM3 ∧
        ∀ row ∈ Sample.interCityRates, (1 : ℚ) ≤ row.WeightTons → (2 : ℚ) ≤ row.VolumeM3 →
          (r.WeightTons < row.WeightTons ∨
            (r.WeightTons = row.WeightTons ∧ r.VolumeM3 ≤ row.VolumeM3))) ∧
    (∃ r, findIntraCityRate 1 2 Sample.intraCityRates = .ok r ∧
        r ∈ Sample.intraCityRates ∧ (1 : ℚ) ≤ r.WeightTons ∧ (2 : ℚ) ≤ r.VolumeM3 ∧
        ∀ row ∈ Sample.intraCityRates, (1 : ℚ) ≤ row.WeightTons → (2 : ℚ) ≤ row.VolumeM3 →
          (r.WeightTons < row.WeightTons ∨
            (r.WeightTons = row.WeightTons ∧ r.VolumeM3 ≤ row.VolumeM3))) :=
  find_rate_least_covering 1 2 Sample.interCityRates Sample.intraCityRates
    ⟨{ VolumeM3 := 5, WeightTons := 1, RatePerKm := 2 },
      by simp [Sample.interCityRates], by norm_num, by norm_num⟩
    ⟨{ VolumeM3 := 10, WeightTons := 3, RateFixed := 50 },
      by simp [Sample.intraCityRates], by norm_num, by norm_num⟩

/-- C9 at a concrete input: no row of the sample inter-city table covers 100 t, and
the lookup on the empty table fails. -/
theorem find_rate_error_iff_empty_witness :
    (∃ r, findInterCityRate 100 100 Sample.interCityRates = .ok r ∧
        (sortSlice (fun a b : InterCityRate =>
          rateLess a.WeightTons a.VolumeM3 b.WeightTons b.VolumeM3)
          Sample.interCityRates).getLast? = some r ∧
        r ∈ Sample.interCityRates ∧
        ∀ row ∈ Sample.interCityRates, (row.WeightTons < r.WeightTons ∨
          (row.WeightTons = r.WeightTons ∧ row.VolumeM3 ≤ r.VolumeM3))) ∧
    (∃ e, findIntraCityRate 100 100 [] = .error e) :=
  ⟨(find_rate_error_iff_empty 100 100 Sample.interCityRates []).2.2.1
      (by simp [Sample.interCityRates])
      (by
        intro row hrow
        simp only [Sample.interCityRates, List.mem_cons, List.mem_singleton,
          List.not_mem_nil, or_false] at hrow
        rcases hrow with h | h <;> rw [h] <;> norm_num),
   (find_rate_error_iff_empty 100 100 Sample.interCityRates []).2.1.2 rfl⟩

end logic

/-! ## Nearest-terminal search -/

theorem nearestStep_sub (distances : Distances) (dest : String) (st : Int × String)
    (t : Terminal) :
    nearestStep distances dest st t =
      match distances.sub t.City dest with
      | some d => if d < st.1 then (d, t.City) else st
      | none => st := by
  unfold nearestStep Distances.sub
  cases distances t.City <;> rfl

theorem FirstNearest.cons_skip {distances : Distances} {dest : String} {rest : List Terminal}
    {t t' : Terminal} {d' : Int} (hfn : FirstNearest distances dest rest t' d')
    (ht : ∀ du, distances.sub t.City dest = some du → d' < du) :
    FirstNearest distances dest (t :: rest) t' d' := by
  obtain ⟨pre, post, hsplit, hent, hpre, hpost⟩ := hfn
  refine ⟨t :: pre, post, by rw [hsplit]; rfl, hent, ?_, hpost⟩
  intro u hu du hdu
  rcases List.mem_cons.1 hu with hut | hu'
  · rw [hut] at hdu; exact ht du hdu
  · exact hpre u hu' du hdu

/-- What the inner loop of the assignment step computes from the state `st`: either
no entry is below `st.1` and the state is unchanged, or the state ends at the first
nearest terminal. -/
theorem nearest_foldl_spec (distances : Distances) (dest : String) (active : List Terminal)
    (st : Int × String) :
    (active.foldl (nearestStep distances dest) st = st ∧
        ∀ u ∈ active, ∀ du, distances.sub u.City dest = some du → st.1 ≤ du) ∨
    (∃ t d, FirstNearest distances dest active t d ∧ d < st.1 ∧
        active.foldl (nearestStep distances dest) st = (d, t.City)) := by
  induction active generalizing st with
  | nil => left; simp
  | cons t rest ih =>
    rw [List.foldl_cons, nearestStep_sub]
    cases hsub : distances.sub t.City dest with
    | none =>
      simp only []
      rcases ih st with ⟨heq, hall⟩ | ⟨t', d', hfn, hlt, heq⟩
      · left
        refine ⟨heq, ?_⟩
        intro u hu du hdu
        rcases List.mem_cons.1 hu with hut | hu'
        · rw [hut, hsub] at hdu; cases hdu
        · exact hall u hu' du hdu
      · right
        refine ⟨t', d', hfn.cons_skip ?_, hlt, heq⟩
        intro du hdu
        rw [hsub] at hdu; cases hdu
    | some d =>
      simp only []
      by_cases hlt : d < st.1
      · simp only [hlt, if_true]
        rcases ih (d, t.City) with ⟨heq, hall⟩ | ⟨t', d', hfn, hlt', heq⟩
        · right
          exact ⟨t, d, ⟨[], rest, rfl, hsub, by simp, fun u hu du hdu => hall u hu du hdu⟩,
            hlt, heq⟩
        · right
          refine ⟨t', d', hfn.cons_skip ?_, lt_trans hlt' hlt, heq⟩
          intro du hdu
          rw [hsub] at hdu; cases hdu; exact hlt'
      · simp only [hlt, if_false]
        rcases ih st with ⟨heq, hall⟩ | ⟨t', d', hfn, hlt', heq⟩
        · left
          refine ⟨heq, ?_⟩
          intro u hu du hdu
          rcases List.mem_cons.1 hu with hut | hu'
          · rw [hut, hsub] at hdu; cases hdu; exact not_lt.1 hlt
          · exact hall u hu' du hdu
        · right
          refine ⟨t', d', hfn.cons_skip ?_, hlt', heq⟩
          intro du hdu
          rw [hsub] at hdu; cases hdu
          exact lt_of_lt_of_le hlt' (not_lt.1 hlt)

theorem FirstNearest.mem {distances : Distances} {dest : String} {active : List Terminal}
    {t : Terminal} {d : Int} (h : FirstNearest distances dest active t d) :
    t ∈ active ∧ distances.sub t.City dest = some d := by
  obtain ⟨pre, post, hsplit, hent, _, _⟩ := h
  exact ⟨by rw [hsplit]; simp, hent⟩

/-- The first nearest terminal is nearest: no terminal with an entry is nearer. -/
theorem FirstNearest.le {distances : Distances} {dest : String} {active : List Terminal}
    {t : Terminal} {d : Int} (h : FirstNearest distances dest active t d) :
    ∀ u ∈ active, ∀ du, distances.sub u.City dest = some du → d ≤ du := by
  obtain ⟨pre, post, hsplit, hent, hpre, hpost⟩ := h
  intro u hu du hdu
  rw [hsplit, List.mem_append, List.mem_cons] at hu
  rcases hu with hu | hu | hu
  · exact le_of_lt (hpre u hu du hdu)
  · rw [hu, hent] at hdu; cases hdu; exact le_refl _
  · exact hpost u hu du hdu

/-- The first nearest terminal is determined by the list. -/
theorem FirstNearest.unique {distances : Distances} {dest : String} {active : List Terminal}
    {t t' : Terminal} {d d' : Int} (h : FirstNearest distances dest active t d)
    (h' : FirstNearest distances dest active t' d') : t = t' ∧ d = d' := by
  have hdd : d = d' := le_antisymm (h.le t' h'.mem.1 d' h'.mem.2) (h'.le t h.mem.1 d h.mem.2)
  obtain ⟨pre, post, hsplit, hent, hpre, hpost⟩ := h
  obtain ⟨pre', post', hsplit', hent', hpre', hpost'⟩ := h'
  refine ⟨?_, hdd⟩
  have hsp : pre ++ t :: post = pre' ++ t' :: post' := hsplit.symm.trans hsplit'
  rcases List.append_eq_append_iff.1 hsp with ⟨a, ha1, ha2⟩ | ⟨c, hc1, hc2⟩
  · cases a with
    | nil => simp at ha2; exact ha2.1
    | cons x a' =>
      simp only [List.cons_append, List.cons.injEq] at ha2
      have htmem : t ∈ pre' := by rw [ha1, ← ha2.1]; simp
      have := hpre' t htmem d hent
      omega
  · cases c with
    | nil => simp at hc2; exact hc2.1.symm
    | cons x c' =>
      simp only [List.cons_append, List.cons.injEq] at hc2
      have htmem : t' ∈ pre := by rw [hc1, ← hc2.1]; simp
      have := hpre t' htmem d' hent'
      omega

theorem hasEntryBelow_iff (bound : Int) (distances : Distances) (active : List Terminal)
    (dest : String) :
    hasEntryBelow bound distances active dest = true ↔
      ∃ t ∈ active, ∃ d, distances.sub t.City dest = some d ∧ d < bound := by
  unfold hasEntryBelow
  rw [List.any_eq_true]
  constructor
  · rintro ⟨t, ht, hp⟩
    cases hsub : distances.sub t.City dest with
    | none => rw [hsub] at hp; simp at hp
    | some d => rw [hsub] at hp; exact ⟨t, ht, d, hsub, by simpa using hp⟩
  · rintro ⟨t, ht, d, hsub, hlt⟩
    exact ⟨t, ht, by rw [hsub]; simpa using hlt⟩

theorem hasEntry_iff (distances : Distances) (active : List Terminal) (dest : String) :
    hasEntry distances active dest = true ↔
      ∃ t ∈ active, ∃ d, distances.sub t.City dest = some d := by
  unfold hasEntry
  rw [List.any_eq_true]
  constructor
  · rintro ⟨t, ht, hp⟩
    exact ⟨t, ht, Option.isSome_iff_exists.1 hp⟩
  · rintro ⟨t, ht, d, hsub⟩
    exact ⟨t, ht, by rw [hsub]; rfl⟩

/-- The two outcomes of `nearestTerminal`. -/
theorem nearestTerminal_cases (bound : Int) (active : List Terminal) (distances : Distances)
    (dest : String) :
    (nearestTerminal bound active distances dest = "" ∧
        hasEntryBelow bound distances active dest = false) ∨
    (∃ t d, FirstNearest distances dest active t d ∧ d < bound ∧
        nearestTerminal bound active distances dest = t.City) := by
  unfold nearestTerminal
  rcases nearest_foldl_spec distances dest active (bound, "") with ⟨heq, hall⟩ | ⟨t, d, hfn, hlt, heq⟩
  · left
    refine ⟨by rw [heq], ?_⟩
    cases hb : hasEntryBelow bound distances active dest with
    | false => rfl
    | true =>
      obtain ⟨t, ht, d, hsub, hlt⟩ := (hasEntryBelow_iff _ _ _ _).1 hb
      have := hall t ht d hsub
      simp only at this
      omega
  · right
    exact ⟨t, d, hfn, hlt, by rw [heq]⟩

/-- With an entry below the bound, `nearestTerminal` is the city of the first
nearest terminal. -/
theorem nearestTerminal_of_entry (bound : Int) (active : List Terminal) (distances : Distances)
    (dest : String) (h : hasEntryBelow bound distances active dest = true) :
    ∃ t d, FirstNearest distances dest active t d ∧ d < bound ∧
      nearestTerminal bound active distances dest = t.City := by
  rcases nearestTerminal_cases bound active distances dest with ⟨_, hb⟩ | h'
  · rw [h] at hb; cases hb
  · exact h'

/-- A non-empty `bestCity` is the city of the first nearest terminal. -/
theorem nearestTerminal_of_ne_empty (bound : Int) (active : List Terminal)
    (distances : Distances) (dest : String)
    (h : nearestTerminal bound active distances dest ≠ "") :
    ∃ t d, FirstNearest distances dest active t d ∧ d < bound ∧
      nearestTerminal bound active distances dest = t.City := by
  rcases nearestTerminal_cases bound active distances dest with ⟨he, _⟩ | h'
  · exact absurd he h
  · exact h'

/-- Raising the starting bound does not change a non-empty answer. -/
theorem nearestTerminal_bound_mono (b1 b2 : Int) (hb : b2 ≤ b1) (active : List Terminal)
    (distances : Distances) (dest : String)
    (h : nearestTerminal b2 active distances dest ≠ "") :
    nearestTerminal b1 active distances dest = nearestTerminal b2 active distances dest := by
  obtain ⟨t, d, hfn, hlt, heq⟩ := nearestTerminal_of_ne_empty b2 active distances dest h
  have hbelow : hasEntryBelow b1 distances active dest = true :=
    (hasEntryBelow_iff _ _ _ _).2 ⟨t, hfn.mem.1, d, hfn.mem.2, lt_of_lt_of_le hlt hb⟩
  obtain ⟨t', d', hfn', _, heq'⟩ := nearestTerminal_of_entry b1 active distances dest hbelow
  rw [heq, heq', (hfn'.unique hfn).1]

/-! ## Grouping -/

theorem appendShipment_perm (m : TerminalShipments) (city : String) (s : Shipment) :
    ((appendShipment m city s).flatMap (fun g => g.2)).Perm (m.flatMap (fun g => g.2) ++ [s]) := by
  induction m with
  | nil => simp [appendShipment]
  | cons g rest ih =>
    obtain ⟨c, l⟩ := g
    unfold appendShipment
    split
    · simp only [List.flatMap_cons, List.append_assoc]
      exact List.Perm.append_left l List.perm_append_comm
    · simp only [List.flatMap_cons, List.append_assoc]
      exact List.Perm.append_left l ih

theorem appendShipment_keys (m : TerminalShipments) (city : String) (s : Shipment) :
    (appendShipment m city s).map Prod.fst =
      if city ∈ m.map Prod.fst then m.map Prod.fst else m.map Prod.fst ++ [city] := by
  induction m with
  | nil => simp [appendShipment]
  | cons g rest ih =>
    obtain ⟨c, l⟩ := g
    unfold appendShipment
    by_cases hc : c = city
    · simp [hc]
    · have hc' : ¬ city = c := fun e => hc e.symm
      simp only [hc, if_false, List.map_cons, ih, List.mem_cons, hc', false_or]
      split <;> simp

theorem appendShipment_nodup (m : TerminalShipments) (city : String) (s : Shipment)
    (h : (m.map Prod.fst).Nodup) : ((appendShipment m city s).map Prod.fst).Nodup := by
  rw [appendShipment_keys]
  split
  · exact h
  · rename_i hc
    rw [List.nodup_append]
    refine ⟨h, List.nodup_singleton _, ?_⟩
    intro a ha hb
    rw [List.mem_singleton] at hb
    exact hc (hb ▸ ha)

theorem appendShipment_mem_new (m : TerminalShipments) (city : String) (s : Shipment) :
    ∃ l, (city, l) ∈ appendShipment m city s ∧ s ∈ l := by
  induction m with
  | nil => exact ⟨[s], by simp [appendShipment], by simp⟩
  | cons g rest ih =>
    obtain ⟨c, l⟩ := g
    unfold appendShipment
    by_cases hc : c = city
    · simp only [hc, if_true]
      exact ⟨l ++ [s], List.mem_cons_self _ _, by simp⟩
    · simp only [hc, if_false]
      obtain ⟨l', hl', hs⟩ := ih
      exact ⟨l', List.mem_cons_of_mem _ hl', hs⟩

theorem appendShipment_mem_old (m : TerminalShipments) (city : String) (s : Shipment)
    (c : String) (l : List Shipment) (x : Shipment) (hg : (c, l) ∈ m) (hx : x ∈ l) :
    ∃ l', (c, l') ∈ appendShipment m city s ∧ x ∈ l' := by
  induction m with
  | nil => simp at hg
  | cons g rest ih =>
    obtain ⟨c0, l0⟩ := g
    unfold appendShipment
    by_cases hc : c0 = city
    · simp only [hc, if_true]
      rcases List.mem_cons.1 hg with hhead | htail
      · have h1 : c = c0 := (Prod.mk.inj hhead).1
        have h2 : l = l0 := (Prod.mk.inj hhead).2
        refine ⟨l0 ++ [s], ?_, ?_⟩
        · rw [h1, hc]; exact List.mem_cons_self _ _
        · rw [← h2]; simp [hx]
      · exact ⟨l, List.mem_cons_of_mem _ htail, hx⟩
    · simp only [hc, if_false]
      rcases List.mem_cons.1 hg with hhead | htail
      · exact ⟨l, by rw [hhead]; exact List.mem_cons_self _ _, hx⟩
      · obtain ⟨l', hl', hx'⟩ := ih htail
        exact ⟨l', List.mem_cons_of_mem _ hl', hx'⟩

theorem groupByKey_nil (key : Shipment → String) (acc : TerminalShipments) :
    groupByKey key [] acc = acc := rfl

theorem groupByKey_cons (key : Shipment → String) (s : Shipment) (rest : List Shipment)
    (acc : TerminalShipments) :
    groupByKey key (s :: rest) acc = groupByKey key rest (appendShipment acc (key s) s) := rfl

/-- The groups hold the old members and the new shipments, each once. -/
theorem groupByKey_perm (key : Shipment → String) (shipments : List Shipment)
    (acc : TerminalShipments) :
    ((groupByKey key shipments acc).flatMap (fun g => g.2)).Perm
      (acc.flatMap (fun g => g.2) ++ shipments) := by
  induction shipments generalizing acc with
  | nil => simp [groupByKey_nil]
  | cons s rest ih =>
    rw [groupByKey_cons]
    refine (ih _).trans ?_
    refine (List.Perm.append_right rest (appendShipment_perm acc (key s) s)).trans ?_
    simp

/-- The keys of the groups stay pairwise distinct. -/
theorem groupByKey_nodup (key : Shipment → String) (shipments : List Shipment)
    (acc : TerminalShipments) (h : (acc.map Prod.fst).Nodup) :
    ((groupByKey key shipments acc).map Prod.fst).Nodup := by
  induction shipments generalizing acc with
  | nil => simpa [groupByKey_nil] using h
  | cons s rest ih =>
    rw [groupByKey_cons]
    exact ih _ (appendShipment_nodup acc (key s) s h)

theorem groupByKey_mem_old (key : Shipment → String) (shipments : List Shipment)
    (acc : TerminalShipments) (c : String) (l : List Shipment) (x : Shipment)
    (hg : (c, l) ∈ acc) (hx : x ∈ l) :
    ∃ l', (c, l') ∈ groupByKey key shipments acc ∧ x ∈ l' := by
  induction shipments generalizing acc l with
  | nil => exact ⟨l, hg, hx⟩
  | cons s rest ih =>
    rw [groupByKey_cons]
    obtain ⟨l', hl', hx'⟩ := appendShipment_mem_old acc (key s) s c l x hg hx
    exact ih _ l' hl' hx'

/-- Every shipment ends up in the group of its key. -/
theorem groupByKey_mem (key : Shipment → String) (shipments : List Shipment)
    (acc : TerminalShipments) (s : Shipment) (hs : s ∈ shipments) :
    ∃ l, (key s, l) ∈ groupByKey key shipments acc ∧ s ∈ l := by
  induction shipments generalizing acc with
  | nil => simp at hs
  | cons s0 rest ih =>
    rw [groupByKey_cons]
    rcases List.mem_cons.1 hs with h0 | hrest
    · obtain ⟨l, hl, hsl⟩ := appendShipment_mem_new acc (key s0) s0
      rw [h0]
      exact groupByKey_mem_old key rest _ (key s0) l s0 hl hsl
    · exact ih _ hrest

/-- Every key of the groups is an old key or the key of a shipment. -/
theorem groupByKey_keys (key : Shipment → String) (shipments : List Shipment)
    (acc : TerminalShipments) (c : String)
    (hc : c ∈ (groupByKey key shipments acc).map Prod.fst) :
    c ∈ acc.map Prod.fst ∨ ∃ s ∈ shipments, key s = c := by
  induction shipments generalizing acc with
  | nil => left; simpa [groupByKey_nil] using hc
  | cons s0 rest ih =>
    rw [groupByKey_cons] at hc
    rcases ih _ hc with h | ⟨s, hs, hk⟩
    · rw [appendShipment_keys] at h
      split at h
      · exact Or.inl h
      · rcases List.mem_append.1 h with h' | h'
        · exact Or.inl h'
        · right
          exact ⟨s0, List.mem_cons_self _ _, (List.mem_singleton.1 h').symm⟩
    · exact Or.inr ⟨s, List.mem_cons_of_mem _ hs, hk⟩

namespace ga_level1

/-- The assignment loop of `CalculateFitness` groups the shipments whose `bestCity`
is non-empty by that city. -/
theorem assignShipments_groups (activeTerminals : List Terminal) (distances : Distances)
    (shipments : List Shipment) :
    (assignShipments activeTerminals distances shipments).1 =
      groupByKey (fun s => nearestTerminal MaxInt activeTerminals distances s.DestinationCity)
        (shipments.filter (fun s =>
          decide (nearestTerminal MaxInt activeTerminals distances s.DestinationCity ≠ ""))) [] := by
  unfold assignShipments
  have key : ∀ (l : List Shipment) (acc : TerminalShipments × ℚ),
      (l.foldl (fun (acc : TerminalShipments × ℚ) s =>
          if nearestTerminal MaxInt activeTerminals distances s.DestinationCity = "" then
            (acc.1, acc.2 + 1000000000)
          else (appendShipment acc.1
            (nearestTerminal MaxInt activeTerminals distances s.DestinationCity) s, acc.2)) acc).1 =
        groupByKey (fun s => nearestTerminal MaxInt activeTerminals distances s.DestinationCity)
          (l.filter (fun s =>
            decide (nearestTerminal MaxInt activeTerminals distances s.DestinationCity ≠ "")))
          acc.1 := by
    intro l
    induction l with
    | nil => intro acc; rfl
    | cons s rest ih =>
      intro acc
      rw [List.foldl_cons, ih]
      by_cases h : nearestTerminal MaxInt activeTerminals distances s.DestinationCity = ""
      · simp [h, List.filter_cons]
      · simp [h, List.filter_cons, groupByKey_cons]
  exact key shipments ([], 0)

/-- The penalty after the assignment loop: `1e9` per shipment left without a
terminal. -/
theorem assignShipments_penalty (activeTerminals : List Terminal) (distances : Distances)
    (shipments : List Shipment) :
    (assignShipments activeTerminals distances shipments).2 =
      1000000000 * ((shipments.filter (fun s =>
        decide (nearestTerminal MaxInt activeTerminals distances s.DestinationCity = ""))).length : ℚ) := by
  unfold assignShipments
  have key : ∀ (l : List Shipment) (acc : TerminalShipments × ℚ),
      (l.foldl (fun (acc : TerminalShipments × ℚ) s =>
          if nearestTerminal MaxInt activeTerminals distances s.DestinationCity = "" then
            (acc.1, acc.2 + 1000000000)
          else (appendShipment acc.1
            (nearestTerminal MaxInt activeTerminals distances s.DestinationCity) s, acc.2)) acc).2 =
        acc.2 + 1000000000 * ((l.filter (fun s =>
          decide (nearestTerminal MaxInt activeTerminals distances s.DestinationCity = ""))).length : ℚ) := by
    intro l
    induction l with
    | nil => intro acc; simp
    | cons s rest ih =>
      intro acc
      rw [List.foldl_cons, ih]
      by_cases h : nearestTerminal MaxInt activeTerminals distances s.DestinationCity = ""
      · simp [h, List.filter_cons]; ring
      · simp [h, List.filter_cons]
  have := key shipments ([], 0)
  simpa using this

end ga_level1

namespace ga_level2

/-- The assignment loop of `CalculateFitnessLevel2` succeeds exactly when every
shipment gets a non-empty `bestCity`, and then groups all shipments by that city. -/
theorem assignShipments_ok_iff (activeTerminals : List Terminal) (distances : Distances)
    (shipments : List Shipment) (acc groups : TerminalShipments) :
    assignShipments activeTerminals distances shipments acc = .ok groups ↔
      (∀ s ∈ shipments,
          nearestTerminal MaxInt32 activeTerminals distances s.DestinationCity ≠ "") ∧
        groups = groupByKey
          (fun s => nearestTerminal MaxInt32 activeTerminals distances s.DestinationCity)
          shipments acc := by
  induction shipments generalizing acc with
  | nil =>
    simp only [assignShipments, groupByKey_nil, List.not_mem_nil, false_implies, implies_true,
      true_and, Except.ok.injEq]
    exact eq_comm
  | cons s rest ih =>
    unfold assignShipments
    by_cases h : nearestTerminal MaxInt32 activeTerminals distances s.DestinationCity = ""
    · simp only [h, if_true]
      constructor
      · intro hc; cases hc
      · rintro ⟨hall, _⟩
        exact absurd h (hall s (List.mem_cons_self _ _))
    · simp only [h, if_false, ih, groupByKey_cons, List.mem_cons, forall_eq_or_imp]
      constructor
      · rintro ⟨hall, hg⟩
        exact ⟨⟨h, hall⟩, hg⟩
      · rintro ⟨⟨_, hall⟩, hg⟩
        exact ⟨hall, hg⟩

/-- The error of the assignment loop names the destination of a shipment without a
terminal. -/
theorem assignShipments_error (activeTerminals : List Terminal) (distances : Distances)
    (shipments : List Shipment) (acc : TerminalShipments) (e : Err)
    (h : assignShipments activeTerminals distances shipments acc = .error e) :
    ∃ s ∈ shipments, e = .noTerminalCovers s.DestinationCity ∧
      nearestTerminal MaxInt32 activeTerminals distances s.DestinationCity = "" := by
  induction shipments generalizing acc with
  | nil => simp [assignShipments] at h
  | cons s rest ih =>
    unfold assignShipments at h
    by_cases hb : nearestTerminal MaxInt32 activeTerminals distances s.DestinationCity = ""
    · simp only [hb, if_true] at h
      exact ⟨s, List.mem_cons_self _ _, by cases h; rfl, hb⟩
    · simp only [hb, if_false] at h
      obtain ⟨s', hs', he, hn⟩ := ih _ h
      exact ⟨s', List.mem_cons_of_mem _ hs', he, hn⟩

end ga_level2

/-! ## Vehicle choice and the shape of an evaluation -/

/-- The penalty added for a group does not depend on the penalty so far, and
neither does the chosen transport. -/
theorem groupVehicle_shift (penalty : ℚ) (sList : List Shipment) :
    groupVehicle penalty sList =
      (penalty + (groupVehicle 0 sList).1, (groupVehicle 0 sList).2) := by
  unfold groupVehicle
  simp only []
  split_ifs <;> (simp; try ring)

namespace ga_level1

/-- The vehicle loop adds one route per group, in order, and the groups' penalties. -/
theorem vehicleLoop_spec (groups : TerminalShipments) (penalty : ℚ)
    (routes : List RouteWithShipments) :
    vehicleLoop groups penalty routes =
      (penalty + (groups.map (fun g => (groupVehicle 0 g.2).1)).sum,
       routes ++ groups.map (fun g =>
         { FromCity := "Москва", ToTerminal := g.1, ShipmentIDs := g.2.map (fun s => s.ID),
           Cost := 0, TransportUsed := (groupVehicle 0 g.2).2 })) := by
  induction groups generalizing penalty routes with
  | nil => simp [vehicleLoop]
  | cons g rest ih =>
    obtain ⟨c, l⟩ := g
    unfold vehicleLoop
    simp only []
    rw [ih, groupVehicle_shift]
    simp only [List.map_cons, List.sum_cons, List.append_assoc, List.singleton_append]
    congr 1
    ring

theorem selectActive_ne_nil (allTerminals : List Terminal) (mask : List Bool) (i : Nat)
    (active : List Terminal) (h : selectActive allTerminals i mask = .ok active)
    (hbit : true ∈ mask) : active ≠ [] := by
  induction mask generalizing i active with
  | nil => simp at hbit
  | cons b rest ih =>
    unfold selectActive at h
    cases b with
    | true =>
      simp only [if_true] at h
      cases ht : allTerminals[i]? with
      | none => rw [ht] at h; cases h
      | some t =>
        rw [ht] at h
        simp only [] at h
        cases hr : selectActive allTerminals (i + 1) rest with
        | error e => rw [hr] at h; cases h
        | ok ts =>
          rw [hr] at h
          simp only [Except.ok.injEq] at h
          rw [← h]
          simp
    | false =>
      simp only [Bool.false_eq_true, if_false] at h
      have hbit' : true ∈ rest := by simpa using hbit
      exact ih (i + 1) active h hbit'

/-- The shape of a successful `CalculateFitness`: either no terminal is active and
the sentinel is stored, or both cost loops succeeded and the four results are
stored. -/
theorem CalculateFitness_ok (heap : MaskHeap) (ind : Individual) (allTerminals : List Terminal)
    (shipments : List Shipment) (interCityRates : List InterCityRate)
    (intraCityRates : List IntraCityRate) (distances : Distances) (scored : Individual)
    (h : CalculateFitness heap ind allTerminals shipments interCityRates intraCityRates
      distances = .ok scored) :
    ∃ active, selectActive allTerminals 0 (heap.read ind.TerminalMask) = .ok active ∧
      ((active = [] ∧
          scored = { ind with Cost := { TotalCost := 1000000000000 },
                              Fitness := 1000000000000 }) ∨
       (active ≠ [] ∧ ∃ lastMileCost linehaulCost,
          lastMileLoop interCityRates intraCityRates distances
            (assignShipments active distances shipments).1 0 = .ok lastMileCost ∧
          linehaulLoop active interCityRates active 0 = .ok linehaulCost ∧
          scored = { ind with
            Cost := { LinehaulCost := linehaulCost, LastMileCost := lastMileCost,
                      PenaltyCost := (vehicleLoop (assignShipments active distances shipments).1
                        (assignShipments active distances shipments).2 []).1,
                      TotalCost := linehaulCost + lastMileCost +
                        (vehicleLoop (assignShipments active distances shipments).1
                          (assignShipments active distances shipments).2 []).1 },
            Fitness := linehaulCost + lastMileCost +
              (vehicleLoop (assignShipments active distances shipments).1
                (assignShipments active distances shipments).2 []).1,
            ActiveTerminals := active.map (fun t => t.City),
            Routes := (vehicleLoop (assignShipments active distances shipments).1
              (assignShipments active distances shipments).2 []).2 })) := by
  unfold CalculateFitness at h
  cases hsel : selectActive allTerminals 0 (heap.read ind.TerminalMask) with
  | error e => rw [hsel] at h; cases h
  | ok active =>
    rw [hsel] at h
    simp only [] at h
    refine ⟨active, rfl, ?_⟩
    by_cases hlen : active.length = 0
    · left
      simp only [hlen, if_true, Except.ok.injEq] at h
      exact ⟨List.length_eq_zero.1 hlen, h.symm⟩
    · right
      simp only [hlen, if_false] at h
      refine ⟨fun e => hlen (by rw [e]; rfl), ?_⟩
      cases hlm : lastMileLoop interCityRates intraCityRates distances
          (assignShipments active distances shipments).1 0 with
      | error e => rw [hlm] at h; cases h
      | ok lastMileCost =>
        rw [hlm] at h
        simp only [] at h
        cases hlh : linehaulLoop active interCityRates active 0 with
        | error e => rw [hlh] at h; cases h
        | ok linehaulCost =>
          rw [hlh] at h
          simp only [Except.ok.injEq] at h
          exact ⟨lastMileCost, linehaulCost, rfl, rfl, h.symm⟩

end ga_level1

namespace ga_level2

/-- The vehicle loop adds one route per group, in order, and the groups' penalties. -/
theorem vehicleLoop_spec2 (groups : TerminalShipments) (penalty : ℚ)
    (routes : List RouteWithShipments) :
    vehicleLoop groups penalty routes =
      (penalty + (groups.map (fun g => (groupVehicle 0 g.2).1)).sum,
       routes ++ groups.map (fun g =>
         { FromCity := "Москва", ToTerminal := g.1, ShipmentIDs := g.2.map (fun s => s.ID),
           Cost := 0, TransportUsed := (groupVehicle 0 g.2).2 })) := by
  induction groups generalizing penalty routes with
  | nil => simp [vehicleLoop]
  | cons g rest ih =>
    obtain ⟨c, l⟩ := g
    unfold vehicleLoop
    simp only []
    rw [ih, groupVehicle_shift]
    simp only [List.map_cons, List.sum_cons, List.append_assoc, List.singleton_append]
    congr 1
    ring

/-- The shape of a successful `CalculateFitnessLevel2`. -/
theorem CalculateFitnessLevel2_ok (activeTerminals : List Terminal) (shipments : List Shipment)
    (interCityRates : List InterCityRate) (intraCityRates : List IntraCityRate)
    (distances : Distances) (scored : Individual)
    (h : CalculateFitnessLevel2 activeTerminals shipments interCityRates intraCityRates
      distances = .ok scored) :
    ∃ groups lastMileCost linehaulCost,
      assignShipments activeTerminals distances shipments [] = .ok groups ∧
      lastMileLoop interCityRates intraCityRates distances groups 0 = .ok lastMileCost ∧
      linehaulLoop activeTerminals interCityRates activeTerminals 0 = .ok linehaulCost ∧
      scored =
        { Cost := { LinehaulCost := linehaulCost, LastMileCost := lastMileCost,
                    PenaltyCost := (vehicleLoop groups 0 []).1,
                    TotalCost := linehaulCost + lastMileCost + (vehicleLoop groups 0 []).1 },
          Fitness := linehaulCost + lastMileCost + (vehicleLoop groups 0 []).1,
          ActiveTerminals := activeTerminals.map (fun t => t.City),
          Routes := (vehicleLoop groups 0 []).2 } := by
  unfold CalculateFitnessLevel2 at h
  cases hg : assignShipments activeTerminals distances shipments [] with
  | error e => rw [hg] at h; cases h
  | ok groups =>
    rw [hg] at h
    simp only [] at h
    cases hlm : lastMileLoop interCityRates intraCityRates distances groups 0 with
    | error e => rw [hlm] at h; cases h
    | ok lastMileCost =>
      rw [hlm] at h
      simp only [] at h
      cases hlh : linehaulLoop activeTerminals interCityRates activeTerminals 0 with
      | error e => rw [hlh] at h; cases h
      | ok linehaulCost =>
        rw [hlh] at h
        simp only [Except.ok.injEq] at h
        exact ⟨groups, lastMileCost, linehaulCost, rfl, hlm, rfl, h.symm⟩

end ga_level2

/-- C1: in every successful evaluation with at least one active terminal, by
`CalculateFitness` (some mask bit set), by `RunGALevel2` (non-empty terminal list)
or by `CalculateFitnessLevel2` itself, the total cost is the sum of line-haul,
last-mile and penalty cost, and the fitness equals the total cost. -/
theorem total_cost_is_sum :
    (∀ (heap : MaskHeap) (ind : ga_level1.Individual) (allTerminals : List Terminal)
        (shipments : List Shipment) (interCityRates : List InterCityRate)
        (intraCityRates : List IntraCityRate) (distances : Distances)
        (scored : ga_level1.Individual),
        true ∈ heap.read ind.TerminalMask →
        ga_level1.CalculateFitness heap ind allTerminals shipments interCityRates
          intraCityRates distances = .ok scored →
        scored.Cost.TotalCost =
            scored.Cost.LinehaulCost + scored.Cost.LastMileCost + scored.Cost.PenaltyCost ∧
          scored.Fitness = scored.Cost.TotalCost) ∧
    (∀ (activeTerminals : List Terminal) (shipments : List Shipment)
        (interCityRates : List InterCityRate) (intraCityRates : List IntraCityRate)
        (distances : Distances) (scored : ga_level2.Individual),
        activeTerminals ≠ [] →
        ga_level2.RunGALevel2 activeTerminals shipments interCityRates intraCityRates
          distances = .ok scored →
        scored.Cost.TotalCost =
            scored.Cost.LinehaulCost + scored.Cost.LastMileCost + scored.Cost.PenaltyCost ∧
          scored.Fitness = scored.Cost.TotalCost) ∧
    (∀ (activeTerminals : List Terminal) (shipments : List Shipment)
        (interCityRates : List InterCityRate) (intraCityRates : List IntraCityRate)
        (distances : Distances) (scored : ga_level2.Individual),
        ga_level2.CalculateFitnessLevel2 activeTerminals shipments interCityRates
          intraCityRates distances = .ok scored →
        scored.Cost.TotalCost =
            scored.Cost.LinehaulCost + scored.Cost.LastMileCost + scored.Cost.PenaltyCost ∧
          scored.Fitness = scored.Cost.TotalCost) := by
  have l2 : ∀ (activeTerminals : List Terminal) (shipments : List Shipment)
      (interCityRates : List InterCityRate) (intraCityRates : List IntraCityRate)
      (distances : Distances) (scored : ga_level2.Individual),
      ga_level2.CalculateFitnessLevel2 activeTerminals shipments interCityRates
        intraCityRates distances = .ok scored →
      scored.Cost.TotalCost =
          scored.Cost.LinehaulCost + scored.Cost.LastMileCost + scored.Cost.PenaltyCost ∧
        scored.Fitness = scored.Cost.TotalCost := by
    intro activeTerminals shipments interCityRates intraCityRates distances scored h
    obtain ⟨groups, lm, lh, _, _, _, hs⟩ := ga_level2.CalculateFitnessLevel2_ok _ _ _ _ _ _ h
    rw [hs]
    exact ⟨rfl, rfl⟩
  refine ⟨?_, ?_, l2⟩
  · intro heap ind allTerminals shipments interCityRates intraCityRates distances scored hbit h
    obtain ⟨active, hsel, hcase⟩ := ga_level1.CalculateFitness_ok _ _ _ _ _ _ _ _ h
    rcases hcase with ⟨hnil, _⟩ | ⟨_, lm, lh, _, _, hs⟩
    · exact absurd hnil (ga_level1.selectActive_ne_nil _ _ _ _ hsel hbit)
    · rw [hs]
      exact ⟨rfl, rfl⟩
  · intro activeTerminals shipments interCityRates intraCityRates distances scored hne h
    unfold ga_level2.RunGALevel2 at h
    have hlen : activeTerminals.length ≠ 0 := fun e => hne (List.length_eq_zero.1 e)
    simp only [hlen, if_false] at h
    exact l2 _ _ _ _ _ _ h

/-! ## Assignment and routes -/

/-- When every active terminal has a non-empty city, `bestCity` is non-empty exactly
when some entry is below the starting bound. -/
theorem nearestTerminal_ne_empty_iff (bound : Int) (active : List Terminal)
    (distances : Distances) (dest : String) (hcity : ∀ t ∈ active, t.City ≠ "") :
    nearestTerminal bound active distances dest ≠ "" ↔
      hasEntryBelow bound distances active dest = true := by
  constructor
  · intro h
    obtain ⟨t, d, hfn, hlt, _⟩ := nearestTerminal_of_ne_empty bound active distances dest h
    exact (hasEntryBelow_iff _ _ _ _).2 ⟨t, hfn.mem.1, d, hfn.mem.2, hlt⟩
  · intro h
    obtain ⟨t, d, hfn, _, heq⟩ := nearestTerminal_of_entry bound active distances dest h
    rw [heq]
    exact hcity t hfn.mem.1

/-- A non-empty `bestCity` always comes from an entry below the bound. -/
theorem hasEntryBelow_of_ne_empty (bound : Int) (active : List Terminal)
    (distances : Distances) (dest : String)
    (h : nearestTerminal bound active distances dest ≠ "") :
    hasEntryBelow bound distances active dest = true := by
  obtain ⟨t, d, hfn, hlt, _⟩ := nearestTerminal_of_ne_empty bound active distances dest h
  exact (hasEntryBelow_iff _ _ _ _).2 ⟨t, hfn.mem.1, d, hfn.mem.2, hlt⟩

theorem mem_filter_map_iff_of_nodup {α β : Type} (f : α → β) (p : α → Bool) (l : List α)
    (hnd : (l.map f).Nodup) (a : α) (ha : a ∈ l) :
    f a ∈ (l.filter p).map f ↔ p a = true := by
  constructor
  · intro h
    obtain ⟨b, hb, hfb⟩ := List.mem_map.1 h
    have hbl : b ∈ l := (List.mem_filter.1 hb).1
    have : b = a := List.inj_on_of_nodup_map hnd hbl ha hfb
    rw [← this]
    exact (List.mem_filter.1 hb).2
  · intro h
    exact List.mem_map.2 ⟨a, List.mem_filter.2 ⟨ha, h⟩, rfl⟩

theorem flatMap_route_ids {ρ : Type} (mk : String × List Shipment → ρ) (ids : ρ → List String)
    (hids : ∀ g, ids (mk g) = g.2.map (fun s => s.ID)) (groups : TerminalShipments) :
    (groups.map mk).flatMap ids = (groups.flatMap (fun g => g.2)).map (fun s => s.ID) := by
  induction groups with
  | nil => rfl
  | cons g rest ih =>
    simp only [List.map_cons, List.flatMap_cons, List.map_append, ih, hids]

namespace ga_level1

theorem flatMap_routes (groups : TerminalShipments) :
    (groups.map (fun g =>
      ({ FromCity := "Москва", ToTerminal := g.1, ShipmentIDs := g.2.map (fun s => s.ID),
         Cost := 0, TransportUsed := (groupVehicle 0 g.2).2 } : RouteWithShipments))).flatMap
      (fun r => r.ShipmentIDs) = (groups.flatMap (fun g => g.2)).map (fun s => s.ID) :=
  flatMap_route_ids
    (fun g =>
      ({ FromCity := "Москва", ToTerminal := g.1, ShipmentIDs := g.2.map (fun s => s.ID),
         Cost := 0, TransportUsed := (groupVehicle 0 g.2).2 } : RouteWithShipments))
    (fun r => r.ShipmentIDs) (fun _ => rfl) groups

/-- The routes of a successful evaluation with an active terminal, read off the
groups of the assignment loop. -/
theorem routes_of_groups (heap : MaskHeap) (ind : Individual) (allTerminals : List Terminal)
    (shipments : List Shipment) (interCityRates : List InterCityRate)
    (intraCityRates : List IntraCityRate) (distances : Distances) (active : List Terminal)
    (scored : Individual)
    (hsel : selectActive allTerminals 0 (heap.read ind.TerminalMask) = .ok active)
    (hne : active ≠ [])
    (h : CalculateFitness heap ind allTerminals shipments interCityRates intraCityRates
      distances = .ok scored) :
    scored.Routes = (assignShipments active distances shipments).1.map (fun g =>
      { FromCity := "Москва", ToTerminal := g.1, ShipmentIDs := g.2.map (fun s => s.ID),
        Cost := 0, TransportUsed := (groupVehicle 0 g.2).2 }) := by
  obtain ⟨active', hsel', hcase⟩ := CalculateFitness_ok _ _ _ _ _ _ _ _ h
  rw [hsel] at hsel'
  have hact : active = active' := by simpa using hsel'
  subst hact
  rcases hcase with ⟨hnil, _⟩ | ⟨_, lm, lh, _, _, hs⟩
  · exact absurd hnil hne
  · rw [hs, vehicleLoop_spec]
    simp

end ga_level1

namespace ga_level2

theorem flatMap_routes2 (groups : TerminalShipments) :
    (groups.map (fun g =>
      ({ FromCity := "Москва", ToTerminal := g.1, ShipmentIDs := g.2.map (fun s => s.ID),
         Cost := 0, TransportUsed := (groupVehicle 0 g.2).2 } : RouteWithShipments))).flatMap
      (fun r => r.ShipmentIDs) = (groups.flatMap (fun g => g.2)).map (fun s => s.ID) :=
  flatMap_route_ids
    (fun g =>
      ({ FromCity := "Москва", ToTerminal := g.1, ShipmentIDs := g.2.map (fun s => s.ID),
         Cost := 0, TransportUsed := (groupVehicle 0 g.2).2 } : RouteWithShipments))
    (fun r => r.ShipmentIDs) (fun _ => rfl) groups

/-- The routes of a successful evaluation, read off the groups of all shipments. -/
theorem routes_of_groups2 (activeTerminals : List Terminal) (shipments : List Shipment)
    (interCityRates : List InterCityRate) (intraCityRates : List IntraCityRate)
    (distances : Distances) (scored : Individual)
    (h : CalculateFitnessLevel2 activeTerminals shipments interCityRates intraCityRates
      distances = .ok scored) :
    (∀ s ∈ shipments,
        nearestTerminal MaxInt32 activeTerminals distances s.DestinationCity ≠ "") ∧
    scored.Routes =
      (groupByKey (fun s => nearestTerminal MaxInt32 activeTerminals distances s.DestinationCity)
        shipments []).map (fun g =>
      { FromCity := "Москва", ToTerminal := g.1, ShipmentIDs := g.2.map (fun s => s.ID),
        Cost := 0, TransportUsed := (groupVehicle 0 g.2).2 }) := by
  obtain ⟨groups, lm, lh, hg, _, _, hs⟩ := CalculateFitnessLevel2_ok _ _ _ _ _ _ h
  obtain ⟨hall, hgroups⟩ := (assignShipments_ok_iff _ _ _ _ _).1 hg
  refine ⟨hall, ?_⟩
  rw [hs, vehicleLoop_spec2, hgroups]
  simp

end ga_level2

/-- C2 (amended): let every active terminal have a non-empty city.  For a shipment
for which some active terminal has a distance entry below the evaluator's starting
bound (`math.MaxInt` in `CalculateFitness`, `1<<31 - 1` in `CalculateFitnessLevel2`),
`bestCity` is the city of the terminal nearest to the destination among all active
terminals having an entry, the first in the active order among equally near ones,
and in every successful evaluation the route to that city lists the shipment. -/
theorem nearest_terminal_assignment (activeTerminals : List Terminal) (distances : Distances)
    (s : Shipment) (hcity : ∀ t ∈ activeTerminals, t.City ≠ "") :
    (hasEntryBelow MaxInt distances activeTerminals s.DestinationCity = true →
      ∃ t d, FirstNearest distances s.DestinationCity activeTerminals t d ∧
        nearestTerminal MaxInt activeTerminals distances s.DestinationCity = t.City ∧
        ∀ (heap : MaskHeap) (ind : ga_level1.Individual) (allTerminals : List Terminal)
          (shipments : List Shipment) (interCityRates : List InterCityRate)
          (intraCityRates : List IntraCityRate) (scored : ga_level1.Individual),
          ga_level1.selectActive allTerminals 0 (heap.read ind.TerminalMask) =
            .ok activeTerminals →
          s ∈ shipments →
          ga_level1.CalculateFitness heap ind allTerminals shipments interCityRates
            intraCityRates distances = .ok scored →
          ∃ r ∈ scored.Routes, r.ToTerminal = t.City ∧ s.ID ∈ r.ShipmentIDs) ∧
    (hasEntryBelow MaxInt32 distances activeTerminals s.DestinationCity = true →
      ∃ t d, FirstNearest distances s.DestinationCity activeTerminals t d ∧
        nearestTerminal MaxInt32 activeTerminals distances s.DestinationCity = t.City ∧
        ∀ (shipments : List Shipment) (interCityRates : List InterCityRate)
          (intraCityRates : List IntraCityRate) (scored : ga_level2.Individual),
          s ∈ shipments →
          ga_level2.CalculateFitnessLevel2 activeTerminals shipments interCityRates
            intraCityRates distances = .ok scored →
          ∃ r ∈ scored.Routes, r.ToTerminal = t.City ∧ s.ID ∈ r.ShipmentIDs) := by
  constructor
  · intro hbelow
    obtain ⟨t, d, hfn, _, heq⟩ :=
      nearestTerminal_of_entry MaxInt activeTerminals distances s.DestinationCity hbelow
    refine ⟨t, d, hfn, heq, ?_⟩
    intro heap ind allTerminals shipments interCityRates intraCityRates scored hsel hs h
    have hne : activeTerminals ≠ [] := List.ne_nil_of_mem hfn.mem.1
    rw [ga_level1.routes_of_groups _ _ _ _ _ _ _ _ _ hsel hne h,
      ga_level1.assignShipments_groups]
    have hkey : nearestTerminal MaxInt activeTerminals distances s.DestinationCity ≠ "" := by
      rw [heq]; exact hcity t hfn.mem.1
    have hmem : s ∈ shipments.filter (fun s =>
        decide (nearestTerminal MaxInt activeTerminals distances s.DestinationCity ≠ "")) :=
      List.mem_filter.2 ⟨hs, by simpa using hkey⟩
    obtain ⟨l, hl, hsl⟩ := groupByKey_mem
      (fun s => nearestTerminal MaxInt activeTerminals distances s.DestinationCity) _ [] s hmem
    refine ⟨_, List.mem_map.2 ⟨_, hl, rfl⟩, ?_, ?_⟩
    · exact heq
    · exact List.mem_map.2 ⟨s, hsl, rfl⟩
  · intro hbelow
    obtain ⟨t, d, hfn, _, heq⟩ :=
      nearestTerminal_of_entry MaxInt32 activeTerminals distances s.DestinationCity hbelow
    refine ⟨t, d, hfn, heq, ?_⟩
    intro shipments interCityRates intraCityRates scored hs h
    obtain ⟨_, hroutes⟩ := ga_level2.routes_of_groups2 _ _ _ _ _ _ h
    rw [hroutes]
    obtain ⟨l, hl, hsl⟩ := groupByKey_mem
      (fun s => nearestTerminal MaxInt32 activeTerminals distances s.DestinationCity)
      shipments [] s hs
    refine ⟨_, List.mem_map.2 ⟨_, hl, rfl⟩, ?_, ?_⟩
    · exact heq
    · exact List.mem_map.2 ⟨s, hsl, rfl⟩

/-- C3 (amended): in a successful `CalculateFitness` of a fresh individual whose
active terminals have non-empty cities, the shipment ids of the routes, taken
together, are exactly the ids of the shipments for which some active terminal has a
distance entry below `math.MaxInt`, each as often as it occurs in the input; the
routes go to pairwise different terminals; with pairwise different input ids no id
occurs twice in the routes and a shipment is listed iff it has such an entry.  In a
successful `CalculateFitnessLevel2` the routes list all shipments, and every
shipment has an entry below `1<<31 - 1`. -/
theorem routes_partition_shipments :
    (∀ (heap : MaskHeap) (ind : ga_level1.Individual) (allTerminals : List Terminal)
        (shipments : List Shipment) (interCityRates : List InterCityRate)
        (intraCityRates : List IntraCityRate) (distances : Distances)
        (active : List Terminal) (scored : ga_level1.Individual),
        ind.Routes = [] →
        ga_level1.selectActive allTerminals 0 (heap.read ind.TerminalMask) = .ok active →
        (∀ t ∈ active, t.City ≠ "") →
        ga_level1.CalculateFitness heap ind allTerminals shipments interCityRates
          intraCityRates distances = .ok scored →
        (scored.Routes.flatMap (fun r => r.ShipmentIDs)).Perm
            ((shipments.filter (fun s =>
              hasEntryBelow MaxInt distances active s.DestinationCity)).map (fun s => s.ID)) ∧
          (scored.Routes.map (fun r => r.ToTerminal)).Nodup ∧
          ((shipments.map (fun s => s.ID)).Nodup →
            (scored.Routes.flatMap (fun r => r.ShipmentIDs)).Nodup ∧
            ∀ s ∈ shipments,
              (s.ID ∈ scored.Routes.flatMap (fun r => r.ShipmentIDs) ↔
                hasEntryBelow MaxInt distances active s.DestinationCity = true))) ∧
    (∀ (activeTerminals : List Terminal) (shipments : List Shipment)
        (interCityRates : List InterCityRate) (intraCityRates : List IntraCityRate)
        (distances : Distances) (scored : ga_level2.Individual),
        ga_level2.CalculateFitnessLevel2 activeTerminals shipments interCityRates
          intraCityRates distances = .ok scored →
        (scored.Routes.flatMap (fun r => r.ShipmentIDs)).Perm (shipments.map (fun s => s.ID)) ∧
          (∀ s ∈ shipments,
            hasEntryBelow MaxInt32 distances activeTerminals s.DestinationCity = true) ∧
          (scored.Routes.map (fun r => r.ToTerminal)).Nodup ∧
          ((shipments.map (fun s => s.ID)).Nodup →
            (scored.Routes.flatMap (fun r => r.ShipmentIDs)).Nodup)) := by
  constructor
  · intro heap ind allTerminals shipments interCityRates intraCityRates distances active
      scored hfresh hsel hcity h
    have hperm_nodup : ∀ (routes : List ga_level1.RouteWithShipments) (ids : List String),
        (routes.flatMap (fun r => r.ShipmentIDs)).Perm
          ((shipments.filter (fun s =>
            hasEntryBelow MaxInt distances active s.DestinationCity)).map (fun s => s.ID)) →
        ((shipments.map (fun s => s.ID)).Nodup →
          (routes.flatMap (fun r => r.ShipmentIDs)).Nodup ∧
          ∀ s ∈ shipments,
            (s.ID ∈ routes.flatMap (fun r => r.ShipmentIDs) ↔
              hasEntryBelow MaxInt distances active s.DestinationCity = true)) := by
      intro routes _ hperm hnd
      refine ⟨(List.Perm.nodup_iff hperm).2
        (List.Nodup.sublist (List.Sublist.map _ (List.filter_sublist _)) hnd), ?_⟩
      intro s hs
      rw [List.Perm.mem_iff hperm]
      exact mem_filter_map_iff_of_nodup (fun s => s.ID) _ shipments hnd s hs
    by_cases hne : active = []
    · obtain ⟨active', hsel', hcase⟩ := ga_level1.CalculateFitness_ok _ _ _ _ _ _ _ _ h
      rw [hsel] at hsel'
      have hact : active = active' := by simpa using hsel'
      subst hact
      rcases hcase with ⟨_, hs⟩ | ⟨hne', _⟩
      · have hroutes : scored.Routes = [] := by rw [hs]; exact hfresh
        have hfilter : shipments.filter (fun s =>
            hasEntryBelow MaxInt distances active s.DestinationCity) = [] := by
          rw [List.filter_eq_nil_iff]
          intro s _
          rw [hne]
          simp [hasEntryBelow]
        have hperm : (scored.Routes.flatMap (fun r => r.ShipmentIDs)).Perm
            ((shipments.filter (fun s =>
              hasEntryBelow MaxInt distances active s.DestinationCity)).map
                (fun s => s.ID)) := by
          rw [hroutes, hfilter]; exact List.Perm.refl _
        refine ⟨hperm, by rw [hroutes]; exact List.nodup_nil, hperm_nodup _ [] hperm⟩
      · exact absurd hne hne'
    · have hroutes := ga_level1.routes_of_groups _ _ _ _ _ _ _ _ _ hsel hne h
      rw [ga_level1.assignShipments_groups] at hroutes
      have hfilter : shipments.filter (fun s =>
          decide (nearestTerminal MaxInt active distances s.DestinationCity ≠ "")) =
          shipments.filter (fun s => hasEntryBelow MaxInt distances active s.DestinationCity) := by
        apply List.filter_congr
        intro s _
        have := nearestTerminal_ne_empty_iff MaxInt active distances s.DestinationCity hcity
        by_cases hb : hasEntryBelow MaxInt distances active s.DestinationCity = true
        · rw [hb]; simpa using this.2 hb
        · have hb' : hasEntryBelow MaxInt distances active s.DestinationCity = false := by
            simpa using hb
          rw [hb']
          have hn : ¬ nearestTerminal MaxInt active distances s.DestinationCity ≠ "" :=
            fun hx => hb (this.1 hx)
          simpa using hn
      rw [hfilter] at hroutes
      have hperm : (scored.Routes.flatMap (fun r => r.ShipmentIDs)).Perm
          ((shipments.filter (fun s =>
            hasEntryBelow MaxInt distances active s.DestinationCity)).map (fun s => s.ID)) := by
        rw [hroutes, ga_level1.flatMap_routes]
        refine List.Perm.map _ ?_
        have := groupByKey_perm
          (fun s => nearestTerminal MaxInt active distances s.DestinationCity)
          (shipments.filter (fun s => hasEntryBelow MaxInt distances active s.DestinationCity)) []
        simpa using this
      refine ⟨hperm, ?_, hperm_nodup _ [] hperm⟩
      rw [hroutes, List.map_map]
      exact groupByKey_nodup _ _ [] List.nodup_nil
  · intro activeTerminals shipments interCityRates intraCityRates distances scored h
    obtain ⟨hall, hroutes⟩ := ga_level2.routes_of_groups2 _ _ _ _ _ _ h
    have hperm : (scored.Routes.flatMap (fun r => r.ShipmentIDs)).Perm
        (shipments.map (fun s => s.ID)) := by
      rw [hroutes, ga_level2.flatMap_routes2]
      refine List.Perm.map _ ?_
      have := groupByKey_perm
        (fun s => nearestTerminal MaxInt32 activeTerminals distances s.DestinationCity)
        shipments []
      simpa using this
    refine ⟨hperm, ?_, ?_, ?_⟩
    · intro s hs
      exact hasEntryBelow_of_ne_empty _ _ _ _ (hall s hs)
    · rw [hroutes, List.map_map]
      exact groupByKey_nodup _ _ [] List.nodup_nil
    · intro hnd
      exact (List.Perm.nodup_iff hperm).2 hnd

/-! ## Concrete evaluations -/

namespace Sample

theorem eval_scoredA :
    ga_level1.CalculateFitness heap { TerminalMask := 0 } terminals shipments interCityRates
      intraCityRates distances = .ok scoredA := by decide!

theorem eval_scoredAB :
    ga_level1.CalculateFitness heap { TerminalMask := 2 } terminals shipments interCityRates
      intraCityRates distances = .ok scoredAB := by decide!

theorem eval_level2AB :
    ga_level2.RunGALevel2 terminals shipments interCityRates intraCityRates distances =
      .ok level2AB := by decide!

theorem cities_nonempty : ∀ t ∈ terminals, t.City ≠ "" := by decide

end Sample

/-- C1 at concrete inputs: the mask `A and B` in level 1 and the terminals `A`, `B`
in level 2. -/
theorem total_cost_is_sum_witness :
    (ga_level1.CalculateFitness Sample.heap { TerminalMask := 2 } Sample.terminals
        Sample.shipments Sample.interCityRates Sample.intraCityRates Sample.distances =
          .ok Sample.scoredAB ∧
      Sample.scoredAB.Cost.TotalCost = Sample.scoredAB.Cost.LinehaulCost +
        Sample.scoredAB.Cost.LastMileCost + Sample.scoredAB.Cost.PenaltyCost ∧
      Sample.scoredAB.Fitness = Sample.scoredAB.Cost.TotalCost) ∧
    (ga_level2.RunGALevel2 Sample.terminals Sample.shipments Sample.interCityRates
        Sample.intraCityRates Sample.distances = .ok Sample.level2AB ∧
      Sample.level2AB.Cost.TotalCost = Sample.level2AB.Cost.LinehaulCost +
        Sample.level2AB.Cost.LastMileCost + Sample.level2AB.Cost.PenaltyCost ∧
      Sample.level2AB.Fitness = Sample.level2AB.Cost.TotalCost) :=
  ⟨⟨Sample.eval_scoredAB,
      total_cost_is_sum.1 Sample.heap { TerminalMask := 2 } Sample.terminals Sample.shipments
        Sample.interCityRates Sample.intraCityRates Sample.distances Sample.scoredAB
        (by decide) Sample.eval_scoredAB⟩,
    ⟨Sample.eval_level2AB,
      total_cost_is_sum.2.1 Sample.terminals Sample.shipments Sample.interCityRates
        Sample.intraCityRates Sample.distances Sample.level2AB (by decide)
        Sample.eval_level2AB⟩⟩

/-- C2 (amended) at a concrete input: shipment `s1` to `X` with the terminals `A`
(10 km) and `B` (3 km). -/
theorem nearest_terminal_assignment_witness :
    (∀ t ∈ Sample.terminals, t.City ≠ "") ∧
    hasEntryBelow MaxInt Sample.distances Sample.terminals Sample.s1.DestinationCity = true ∧
    (∃ t d, FirstNearest Sample.distances Sample.s1.DestinationCity Sample.terminals t d ∧
      nearestTerminal MaxInt Sample.terminals Sample.distances Sample.s1.DestinationCity =
        t.City ∧
      ∃ r ∈ Sample.scoredAB.Routes, r.ToTerminal = t.City ∧ Sample.s1.ID ∈ r.ShipmentIDs) :=
  ⟨Sample.cities_nonempty, by decide,
    match (nearest_terminal_assignment Sample.terminals Sample.distances Sample.s1
        Sample.cities_nonempty).1 (by decide) with
    | ⟨t, d, hfn, heq, hroute⟩ =>
      ⟨t, d, hfn, heq,
        hroute Sample.heap { TerminalMask := 2 } Sample.terminals Sample.shipments
          Sample.interCityRates Sample.intraCityRates Sample.scoredAB (by decide)
          (by decide) Sample.eval_scoredAB⟩⟩

/-- C2 as stated fails: a shipment whose only distance entry equals the starting
value of `minDist` (`1<<31 - 1` in level 2, `math.MaxInt` in level 1) is left
without a terminal although the active terminal has an entry, and so is a shipment
whose nearest terminal has the empty string as city. -/
theorem nearest_terminal_assignment_counterexample :
    (hasEntry (Sample.farDistances MaxInt32) [Sample.terminalA] Sample.s1.DestinationCity =
        true ∧
      ga_level2.CalculateFitnessLevel2 [Sample.terminalA] [Sample.s1] Sample.interCityRates
        Sample.intraCityRates (Sample.farDistances MaxInt32) =
          .error (.noTerminalCovers "X")) ∧
    (hasEntry (Sample.farDistances MaxInt) [Sample.terminalA] Sample.s1.DestinationCity =
        true ∧
      nearestTerminal MaxInt [Sample.terminalA] (Sample.farDistances MaxInt)
        Sample.s1.DestinationCity = "") ∧
    (hasEntry Sample.namelessDistances [Sample.nameless] Sample.s1.DestinationCity = true ∧
      ga_level2.CalculateFitnessLevel2 [Sample.nameless] [Sample.s1] Sample.interCityRates
        Sample.intraCityRates Sample.namelessDistances = .error (.noTerminalCovers "X")) := by
  decide!

/-- C3 (amended) at a concrete input: under the mask `A only` the routes list `s1`,
the one shipment with an entry from `A`. -/
theorem routes_partition_shipments_witness :
    ga_level1.CalculateFitness Sample.heap { TerminalMask := 0 } Sample.terminals
        Sample.shipments Sample.interCityRates Sample.intraCityRates Sample.distances =
          .ok Sample.scoredA ∧
    (Sample.scoredA.Routes.flatMap (fun r => r.ShipmentIDs)).Perm
        ((Sample.shipments.filter (fun s =>
          hasEntryBelow MaxInt Sample.distances [Sample.terminalA] s.DestinationCity)).map
            (fun s => s.ID)) ∧
    (Sample.scoredA.Routes.map (fun r => r.ToTerminal)).Nodup :=
  ⟨Sample.eval_scoredA,
    ((routes_partition_shipments.1 Sample.heap { TerminalMask := 0 } Sample.terminals
      Sample.shipments Sample.interCityRates Sample.intraCityRates Sample.distances
      [Sample.terminalA] Sample.scoredA rfl (by decide) (by decide) Sample.eval_scoredA).1),
    ((routes_partition_shipments.1 Sample.heap { TerminalMask := 0 } Sample.terminals
      Sample.shipments Sample.interCityRates Sample.intraCityRates Sample.distances
      [Sample.terminalA] Sample.scoredA rfl (by decide) (by decide) Sample.eval_scoredA).2.1)⟩

/-- C3 as stated fails: in a successful level-1 evaluation a shipment whose only
distance entry equals `math.MaxInt`, or whose nearest terminal has the empty string
as city, has a reachable active terminal and yet occurs in no route. -/
theorem routes_partition_shipments_counterexample :
    (hasEntry (Sample.farDistances MaxInt) [Sample.terminalA] Sample.s1.DestinationCity =
        true ∧
      (ga_level1.CalculateFitness { arrays := [[true]] } { TerminalMask := 0 }
        [Sample.terminalA] [Sample.s1] Sample.interCityRates Sample.intraCityRates
        (Sample.farDistances MaxInt)).toOption.map (fun scored => scored.Routes) = some []) ∧
    (hasEntry Sample.namelessDistances [Sample.nameless] Sample.s1.DestinationCity = true ∧
      (ga_level1.CalculateFitness { arrays := [[true]] } { TerminalMask := 0 }
        [Sample.nameless] [Sample.s1] Sample.interCityRates Sample.intraCityRates
        Sample.namelessDistances).toOption.map (fun scored => scored.Routes) = some []) := by
  decide!

/-! ## The generation loop keeps the best fitness seen -/

theorem Except.ok_of_toOption_map {ε α β : Type} (x : Except ε α) (f : α → β) (b : β)
    (h : x.toOption.map f = some b) : ∃ a, x = .ok a ∧ f a = b := by
  cases x with
  | error e => simp [Except.toOption] at h
  | ok a => exact ⟨a, rfl, by simpa [Except.toOption] using h⟩

namespace ga_level1

theorem foldl_best_spec (rest : List Individual) (first : Individual) :
    rest.foldl (fun best ind => if ind.Fitness < best.Fitness then ind else best) first ∈
        first :: rest ∧
      ∀ ind ∈ first :: rest,
        (rest.foldl (fun best ind => if ind.Fitness < best.Fitness then ind else best)
          first).Fitness ≤ ind.Fitness := by
  induction rest generalizing first with
  | nil => simp
  | cons x rest ih =>
    rw [List.foldl_cons]
    obtain ⟨hmem, hle⟩ := ih (if x.Fitness < first.Fitness then x else first)
    constructor
    · rcases List.mem_cons.1 hmem with h | h
      · rw [h]
        split
        · exact List.mem_cons_of_mem _ (List.mem_cons_self _ _)
        · exact List.mem_cons_self _ _
      · exact List.mem_cons_of_mem _ (List.mem_cons_of_mem _ h)
    · intro ind hind
      have hhead := hle _ (List.mem_cons_self _ _)
      rcases List.mem_cons.1 hind with h | h
      · rw [h]
        refine le_trans hhead ?_
        split
        · rename_i hlt; exact le_of_lt hlt
        · exact le_refl _
      · rcases List.mem_cons.1 h with h' | h'
        · rw [h']
          refine le_trans hhead ?_
          split
          · exact le_refl _
          · rename_i hlt; exact not_lt.1 hlt
        · exact hle ind (List.mem_cons_of_mem _ h')

/-- `GetBest` returns a member of the population of least fitness. -/
theorem GetBest_spec (p : Population) (best : Individual) (h : p.GetBest = .ok best) :
    best ∈ p.Individuals ∧ ∀ ind ∈ p.Individuals, best.Fitness ≤ ind.Fitness := by
  unfold Population.GetBest at h
  cases hp : p.Individuals with
  | nil => rw [hp] at h; cases h
  | cons first rest =>
    rw [hp] at h
    simp only [Except.ok.injEq] at h
    rw [← h]
    exact foldl_best_spec rest first

/-- `GetBest` fails exactly on the empty population. -/
theorem GetBest_ok_of_ne_nil (p : Population) (h : p.Individuals ≠ []) :
    ∃ best, p.GetBest = .ok best := by
  unfold Population.GetBest
  cases hp : p.Individuals with
  | nil => exact absurd hp h
  | cons first rest => exact ⟨_, rfl⟩

/-- A generation replaces the population and leaves `best` alone. -/
theorem nextGeneration_best (settings : proto.GASettings) (shipments : List Shipment)
    (interCityRates : List InterCityRate) (intraCityRates : List IntraCityRate)
    (distances : Distances) (st st1 : GAState)
    (hn : nextGeneration settings shipments interCityRates intraCityRates distances st =
      .ok st1) : st1.best = st.best := by
  unfold nextGeneration at hn
  simp only [] at hn
  split at hn
  · cases hn
  · split at hn
    · cases hn
    · split at hn
      · cases hn
      · simp only [Except.ok.injEq] at hn
        rw [← hn]

/-- Along the generation loop the fitness of `best` never increases. -/
theorem gaLoop_best_le (settings : proto.GASettings) (shipments : List Shipment)
    (interCityRates : List InterCityRate) (intraCityRates : List IntraCityRate)
    (distances : Distances) (gens : Nat) (st st' : GAState)
    (h : gaLoop settings shipments interCityRates intraCityRates distances gens st = .ok st') :
    st'.best.Fitness ≤ st.best.Fitness := by
  induction gens generalizing st with
  | zero =>
    simp only [gaLoop, Except.ok.injEq] at h
    rw [← h]
  | succ n ih =>
    unfold gaLoop at h
    cases hb : st.pop.GetBest with
    | error e => rw [hb] at h; cases h
    | ok currentBest =>
      rw [hb] at h
      have hstep : (if decide (currentBest.Fitness < st.best.Fitness) = true then currentBest
          else st.best).Fitness ≤ st.best.Fitness := by
        by_cases hlt : currentBest.Fitness < st.best.Fitness
        · simp only [hlt, decide_True, if_true]; exact le_of_lt hlt
        · simp only [hlt, decide_False, Bool.false_eq_true, if_false]; exact le_refl _
      simp only [] at h
      generalize (if decide (currentBest.Fitness < st.best.Fitness) = true then currentBest
          else st.best) = best at h hstep
      generalize (if decide (currentBest.Fitness < st.best.Fitness) = true then 0
          else st.noImprove + 1) = noImprove at h
      by_cases hstop : noImprove ≥ settings.StoppingCriterion
      · simp only [hstop, if_true, Except.ok.injEq] at h
        rw [← h]
        exact hstep
      · simp only [hstop, if_false] at h
        cases hn : nextGeneration settings shipments interCityRates intraCityRates distances
            { st with best := best, noImprove := noImprove } with
        | error e => rw [hn] at h; cases h
        | ok st1 =>
          rw [hn] at h
          have h1 := ih st1 h
          rw [nextGeneration_best _ _ _ _ _ _ _ hn] at h1
          exact le_trans h1 hstep

theorem evaluateLoop_length (heap : MaskHeap) (allTerminals : List Terminal)
    (shipments : List Shipment) (interCityRates : List InterCityRate)
    (intraCityRates : List IntraCityRate) (distances : Distances)
    (inds scored : List Individual)
    (h : evaluateLoop heap allTerminals shipments interCityRates intraCityRates distances inds =
      .ok scored) : scored.length = inds.length := by
  induction inds generalizing scored with
  | nil =>
    simp only [evaluateLoop, Except.ok.injEq] at h
    rw [← h]
  | cons ind rest ih =>
    unfold evaluateLoop at h
    split at h
    · cases h
    · split at h
      · cases h
      · rename_i others hrest
        simp only [Except.ok.injEq] at h
        rw [← h, List.length_cons, List.length_cons, ih others hrest]

theorem randomIndividuals_length (nTerminals size : Nat) (heap : MaskHeap) (rng : Rng) :
    (randomIndividuals nTerminals size heap rng).1.length = size := by
  induction size generalizing heap rng with
  | zero => rfl
  | succ n ih =>
    unfold randomIndividuals
    simp only [List.length_cons, ih]

end ga_level1

/-- C5: whenever `RunGA` succeeds, the initial random population was evaluated
successfully, it has `num_individuals >= 1` members, it is the first evaluated
population, and the fitness of the returned individual is at most the fitness of
each of its members. -/
theorem RunGA_best_le_initial (rng : Rng) (settings : proto.GASettings)
    (terminals : List Terminal) (shipments : List Shipment)
    (interCityRates : List InterCityRate) (intraCityRates : List IntraCityRate)
    (distances : Distances) (result : ga_level1.GAResult)
    (hrun : ga_level1.RunGA rng settings terminals shipments interCityRates intraCityRates
      distances = .ok result) :
    ∃ initial : ga_level1.Population,
      (ga_level1.NewRandomPopulation settings.NumIndividuals terminals { arrays := [] }
          rng).1.Evaluate
        (ga_level1.NewRandomPopulation settings.NumIndividuals terminals { arrays := [] }
          rng).2.1
        shipments interCityRates intraCityRates distances = .ok initial ∧
      initial.Individuals.length = settings.NumIndividuals ∧
      1 ≤ settings.NumIndividuals ∧
      ∀ ind ∈ initial.Individuals, result.best.Fitness ≤ ind.Fitness := by
  unfold ga_level1.RunGA at hrun
  simp only [] at hrun
  cases hev : (ga_level1.NewRandomPopulation settings.NumIndividuals terminals
      { arrays := [] } rng).1.Evaluate
      (ga_level1.NewRandomPopulation settings.NumIndividuals terminals { arrays := [] } rng).2.1
      shipments interCityRates intraCityRates distances with
  | error e => rw [hev] at hrun; cases hrun
  | ok initial =>
    rw [hev] at hrun
    simp only [] at hrun
    cases hb : initial.GetBest with
    | error e => rw [hb] at hrun; cases hrun
    | ok best =>
      rw [hb] at hrun
      simp only [] at hrun
      split at hrun
      · cases hrun
      · rename_i st hloop
        simp only [Except.ok.injEq] at hrun
        have hlen : initial.Individuals.length = settings.NumIndividuals := by
          unfold ga_level1.Population.Evaluate at hev
          split at hev
          · cases hev
          · rename_i inds hinds
            simp only [Except.ok.injEq] at hev
            rw [← hev]
            simp only []
            rw [ga_level1.evaluateLoop_length _ _ _ _ _ _ _ _ hinds]
            exact ga_level1.randomIndividuals_length _ _ _ _
        obtain ⟨hmem, hle⟩ := ga_level1.GetBest_spec initial best hb
        refine ⟨initial, rfl, hlen, ?_, ?_⟩
        · rw [← hlen]
          exact List.length_pos_of_mem hmem
        · intro ind hind
          have h1 := ga_level1.gaLoop_best_le _ _ _ _ _ _ _ _ hloop
          simp only [] at h1
          rw [← hrun]
          exact le_trans h1 (hle ind hind)

/-- C5 at a concrete run: one generation of two individuals over the sample data. -/
theorem RunGA_best_le_initial_witness :
    ∃ result : ga_level1.GAResult,
      ga_level1.RunGA (Sample.rngOf Sample.drawsOneGeneration) Sample.settingsOneGeneration
        Sample.terminals Sample.shipments Sample.interCityRates Sample.intraCityRates
        Sample.distances = .ok result ∧
      result.best.Fitness = 1000001820 ∧
      ∃ initial : ga_level1.Population,
        (ga_level1.NewRandomPopulation Sample.settingsOneGeneration.NumIndividuals
            Sample.terminals { arrays := [] } (Sample.rngOf Sample.drawsOneGeneration)).1.Evaluate
          (ga_level1.NewRandomPopulation Sample.settingsOneGeneration.NumIndividuals
            Sample.terminals { arrays := [] } (Sample.rngOf Sample.drawsOneGeneration)).2.1
          Sample.shipments Sample.interCityRates Sample.intraCityRates Sample.distances =
            .ok initial ∧
        initial.Individuals.length = Sample.settingsOneGeneration.NumIndividuals ∧
        1 ≤ Sample.settingsOneGeneration.NumIndividuals ∧
        ∀ ind ∈ initial.Individuals, result.best.Fitness ≤ ind.Fitness :=
  match Except.ok_of_toOption_map
      (ga_level1.RunGA (Sample.rngOf Sample.drawsOneGeneration) Sample.settingsOneGeneration
        Sample.terminals Sample.shipments Sample.interCityRates Sample.intraCityRates
        Sample.distances)
      (fun r => r.best.Fitness) 1000001820 (by decide!) with
  | ⟨result, hrun, hfit⟩ =>
    ⟨result, hrun, hfit,
      RunGA_best_le_initial (Sample.rngOf Sample.drawsOneGeneration)
        Sample.settingsOneGeneration Sample.terminals Sample.shipments Sample.interCityRates
        Sample.intraCityRates Sample.distances result hrun⟩

/-- C4 fails on the code: with a budget of one generation the population bred in
that generation is evaluated and never compared with `best`.  In this run it holds
an individual of fitness 2530 while the returned individual has fitness
1000001820. -/
theorem RunGA_ignores_last_generation :
    (ga_level1.RunGA (Sample.rngOf Sample.drawsOneGeneration) Sample.settingsOneGeneration
        Sample.terminals Sample.shipments Sample.interCityRates Sample.intraCityRates
        Sample.distances).toOption.map
      (fun r => (r.best.Fitness, r.evaluated.map (fun pop => pop.map (fun ind => ind.Fitness)))) =
      some (1000001820, [[1000001820, 1000001820], [2530, 1000001820]]) := by
  decide!

/-- C6 fails on the code: with two-point crossover on two-bit masks the children
share the parent's slice, and the swap mutation of the first child rewrites the mask
of the individual `best` points to.  The returned individual carries fitness 2530
and active terminal `B`, scored for the mask `B only`, while its mask at return
time is `A only`, for which `CalculateFitness` yields fitness 1000001820 and active
terminal `A`. -/
theorem RunGA_returns_rewritten_mask :
    (ga_level1.RunGA (Sample.rngOf Sample.drawsTwoPoint) Sample.settingsTwoPoint
        Sample.terminals Sample.shipments Sample.interCityRates Sample.intraCityRates
        Sample.distances).toOption.map
      (fun r => (r.best.Fitness, r.best.ActiveTerminals, r.heap.read r.best.TerminalMask)) =
      some (2530, ["B"], [true, false]) ∧
    (ga_level1.CalculateFitness { arrays := [[true, false]] } { TerminalMask := 0 }
        Sample.terminals Sample.shipments Sample.interCityRates Sample.intraCityRates
        Sample.distances).toOption.map
      (fun scored => (scored.Fitness, scored.ActiveTerminals)) =
      some (1000001820, ["A"]) := by
  decide!

/-! ## Every individual the search returns was scored on the inputs of the run -/

namespace ga_level1

theorem evaluateLoop_scored (heap : MaskHeap) (allTerminals : List Terminal)
    (shipments : List Shipment) (interCityRates : List InterCityRate)
    (intraCityRates : List IntraCityRate) (distances : Distances)
    (inds scored : List Individual)
    (hfresh : ∀ ind ∈ inds, ind = { TerminalMask := ind.TerminalMask })
    (h : evaluateLoop heap allTerminals shipments interCityRates intraCityRates distances inds =
      .ok scored) :
    ∀ ind ∈ scored,
      ScoredOn allTerminals shipments interCityRates intraCityRates distances ind := by
  induction inds generalizing scored with
  | nil =>
    simp only [evaluateLoop, Except.ok.injEq] at h
    rw [← h]
    simp
  | cons ind rest ih =>
    unfold evaluateLoop at h
    split at h
    · cases h
    · rename_i first hfirst
      split at h
      · cases h
      · rename_i others hrest
        simp only [Except.ok.injEq] at h
        rw [← h]
        intro x hx
        rcases List.mem_cons.1 hx with hx | hx
        · rw [hx]
          rw [hfresh ind (List.mem_cons_self _ _)] at hfirst
          exact ⟨heap, ind.TerminalMask, hfirst⟩
        · exact ih others (fun i hi => hfresh i (List.mem_cons_of_mem _ hi)) hrest x hx

theorem randomIndividuals_fresh (nTerminals size : Nat) (heap : MaskHeap) (rng : Rng) :
    ∀ ind ∈ (randomIndividuals nTerminals size heap rng).1,
      ind = { TerminalMask := ind.TerminalMask } := by
  induction size generalizing heap rng with
  | zero => simp [randomIndividuals]
  | succ n ih =>
    unfold randomIndividuals
    intro ind hind
    rcases List.mem_cons.1 hind with h | h
    · rw [h]
    · exact ih _ _ ind h

theorem Crossover_fresh (p1 p2 : Option Individual) (method : proto.CrossoverType)
    (heap : MaskHeap) (rng : Rng) (r : (Individual × Individual) × MaskHeap × Rng)
    (h : Crossover p1 p2 method heap rng = .ok r) :
    r.1.1 = { TerminalMask := r.1.1.TerminalMask } ∧
      r.1.2 = { TerminalMask := r.1.2.TerminalMask } := by
  unfold Crossover at h
  by_cases hm : method = .CROSSOVER_UNSPECIFIED ∨ method = .UNRECOGNIZED
  · simp only [hm, if_true] at h
    cases h
  · simp only [hm, if_false] at h
    cases p1 with
    | none => cases h
    | some a =>
      cases p2 with
      | none => cases h
      | some b =>
        cases method with
        | CROSSOVER_UNSPECIFIED => exact absurd (Or.inl rfl) hm
        | UNRECOGNIZED => exact absurd (Or.inr rfl) hm
        | CROSSOVER_UNIFORM =>
          simp only [] at h
          split at h
          · cases h
          · simp only [Except.ok.injEq] at h
            rw [← h]
            exact ⟨rfl, rfl⟩
        | CROSSOVER_SINGLE_POINT =>
          simp only [] at h
          split at h
          · cases h
          · simp only [Except.ok.injEq] at h
            rw [← h]
            exact ⟨rfl, rfl⟩
        | CROSSOVER_TWO_POINT =>
          simp only [] at h
          split at h
          · cases h
          · simp only [Except.ok.injEq] at h
            rw [← h]
            exact ⟨rfl, rfl⟩

theorem breedStep_fresh (settings : proto.GASettings) (parents : List (Option Individual))
    (i : Nat) (newPop : List Individual) (heap : MaskHeap) (rng : Rng)
    (r : List Individual × MaskHeap × Rng)
    (hfresh : ∀ ind ∈ newPop, ind = { TerminalMask := ind.TerminalMask })
    (h : breedStep settings parents i newPop heap rng = .ok r) :
    ∀ ind ∈ r.1, ind = { TerminalMask := ind.TerminalMask } := by
  unfold breedStep at h
  split at h
  · split at h
    · cases h
    · rename_i c hc
      split at h
      · cases h
      · split at h
        · cases h
        · simp only [Except.ok.injEq] at h
          rw [← h]
          intro ind hind
          simp only [List.mem_append, List.mem_cons, List.mem_singleton, List.not_mem_nil,
            or_false] at hind
          obtain ⟨h1, h2⟩ := Crossover_fresh _ _ _ _ _ _ hc
          rcases hind with hind | hind | hind
          · exact hfresh ind hind
          · rw [hind]; exact h1
          · rw [hind]; exact h2
  · cases h

theorem breedLoop_fresh (settings : proto.GASettings) (parents : List (Option Individual))
    (is : List Nat) (newPop : List Individual) (heap : MaskHeap) (rng : Rng)
    (r : List Individual × MaskHeap × Rng)
    (hfresh : ∀ ind ∈ newPop, ind = { TerminalMask := ind.TerminalMask })
    (h : breedLoop settings parents is newPop heap rng = .ok r) :
    ∀ ind ∈ r.1, ind = { TerminalMask := ind.TerminalMask } := by
  induction is generalizing newPop heap rng with
  | nil =>
    simp only [breedLoop, Except.ok.injEq] at h
    rw [← h]
    exact hfresh
  | cons i rest ih =>
    unfold breedLoop at h
    split at h
    · cases h
    · rename_i r1 hr1
      exact ih _ _ _ (breedStep_fresh _ _ _ _ _ _ _ hfresh hr1) h

/-- After a generation the population consists of individuals scored on the inputs
of the run, against the same terminal list. -/
theorem nextGeneration_scored (settings : proto.GASettings) (shipments : List Shipment)
    (interCityRates : List InterCityRate) (intraCityRates : List IntraCityRate)
    (distances : Distances) (st st1 : GAState)
    (hn : nextGeneration settings shipments interCityRates intraCityRates distances st =
      .ok st1) :
    st1.pop.AllTerminals = st.pop.AllTerminals ∧
      ∀ ind ∈ st1.pop.Individuals,
        ScoredOn st.pop.AllTerminals shipments interCityRates intraCityRates distances ind := by
  unfold nextGeneration at hn
  simp only [] at hn
  split at hn
  · cases hn
  · split at hn
    · cases hn
    · rename_i sel hsel bred hbred
      split at hn
      · cases hn
      · rename_i scored hscored
        simp only [Except.ok.injEq] at hn
        rw [← hn]
        simp only []
        unfold Population.Evaluate at hscored
        simp only [] at hscored
        split at hscored
        · cases hscored
        · rename_i inds hinds
          simp only [Except.ok.injEq] at hscored
          rw [← hscored]
          refine ⟨rfl, ?_⟩
          simp only []
          have hbf := breedLoop_fresh _ _ _ _ _ _ _ (by simp) hbred
          refine evaluateLoop_scored _ _ _ _ _ _ _ _ ?_ hinds
          intro ind hind
          split at hind
          · exact hbf ind (List.mem_of_mem_take hind)
          · exact hbf ind hind

/-- The generation loop hands back a `best` scored on the inputs of the run. -/
theorem gaLoop_best_scored (settings : proto.GASettings) (terminals : List Terminal)
    (shipments : List Shipment) (interCityRates : List InterCityRate)
    (intraCityRates : List IntraCityRate) (distances : Distances) (gens : Nat)
    (st st' : GAState)
    (hterm : st.pop.AllTerminals = terminals)
    (hpop : ∀ ind ∈ st.pop.Individuals,
      ScoredOn terminals shipments interCityRates intraCityRates distances ind)
    (hbest : ScoredOn terminals shipments interCityRates intraCityRates distances st.best)
    (h : gaLoop settings shipments interCityRates intraCityRates distances gens st = .ok st') :
    ScoredOn terminals shipments interCityRates intraCityRates distances st'.best := by
  induction gens generalizing st with
  | zero =>
    simp only [gaLoop, Except.ok.injEq] at h
    rw [← h]
    exact hbest
  | succ n ih =>
    unfold gaLoop at h
    cases hb : st.pop.GetBest with
    | error e => rw [hb] at h; cases h
    | ok currentBest =>
      rw [hb] at h
      have hcur := hpop currentBest (GetBest_spec _ _ hb).1
      have hstep : ScoredOn terminals shipments interCityRates intraCityRates distances
          (if decide (currentBest.Fitness < st.best.Fitness) = true then currentBest
            else st.best) := by
        split
        · exact hcur
        · exact hbest
      simp only [] at h
      generalize (if decide (currentBest.Fitness < st.best.Fitness) = true then currentBest
          else st.best) = best at h hstep
      generalize (if decide (currentBest.Fitness < st.best.Fitness) = true then 0
          else st.noImprove + 1) = noImprove at h
      by_cases hstop : noImprove ≥ settings.StoppingCriterion
      · simp only [hstop, if_true, Except.ok.injEq] at h
        rw [← h]
        exact hstep
      · simp only [hstop, if_false] at h
        cases hn : nextGeneration settings shipments interCityRates intraCityRates distances
            { st with best := best, noImprove := noImprove } with
        | error e => rw [hn] at h; cases h
        | ok st1 =>
          rw [hn] at h
          obtain ⟨ht1, hp1⟩ := nextGeneration_scored _ _ _ _ _ _ _ hn
          simp only [] at ht1 hp1
          rw [hterm] at ht1 hp1
          refine ih st1 ht1 hp1 ?_ h
          rw [nextGeneration_best _ _ _ _ _ _ _ hn]
          exact hstep

/-- The individual `RunGA` returns was scored by `CalculateFitness`, as a fresh
individual, on the terminals, shipments, rates and distances passed to `RunGA`. -/
theorem RunGA_best_scored (rng : Rng) (settings : proto.GASettings)
    (terminals : List Terminal) (shipments : List Shipment)
    (interCityRates : List InterCityRate) (intraCityRates : List IntraCityRate)
    (distances : Distances) (result : GAResult)
    (hrun : RunGA rng settings terminals shipments interCityRates intraCityRates distances =
      .ok result) :
    ScoredOn terminals shipments interCityRates intraCityRates distances result.best := by
  unfold RunGA at hrun
  simp only [] at hrun
  split at hrun
  · cases hrun
  · rename_i initial hev
    split at hrun
    · cases hrun
    · rename_i best hb
      split at hrun
      · cases hrun
      · rename_i st hloop
        simp only [Except.ok.injEq] at hrun
        rw [← hrun]
        unfold Population.Evaluate at hev
        split at hev
        · cases hev
        · rename_i inds hinds
          simp only [Except.ok.injEq] at hev
          have hscored := evaluateLoop_scored _ _ _ _ _ _ _ _
            (randomIndividuals_fresh _ _ _ _) hinds
          have hinit : initial.AllTerminals = terminals ∧ initial.Individuals = inds := by
            rw [← hev]
            exact ⟨rfl, rfl⟩
          refine gaLoop_best_scored settings terminals _ _ _ _ _ _ _ hinit.1 ?_ ?_ hloop
          · show ∀ ind ∈ initial.Individuals, _
            rw [hinit.2]
            exact hscored
          · show ScoredOn _ _ _ _ _ best
            have := (GetBest_spec _ _ hb).1
            rw [hinit.2] at this
            exact hscored best this

end ga_level1

/-! ## Looking up the winner's terminals -/

theorem find?_of_nodup_map {α β : Type} [DecidableEq β] (f : α → β) (l : List α)
    (hnd : (l.map f).Nodup) (t : α) (ht : t ∈ l) :
    l.find? (fun x => decide (f x = f t)) = some t := by
  induction l with
  | nil => simp at ht
  | cons x rest ih =>
    rw [List.find?_cons]
    by_cases hx : f x = f t
    · have hxt : x = t := List.inj_on_of_nodup_map hnd (List.mem_cons_self _ _) ht hx
      simp [hxt]
    · simp only [hx, decide_False]
      rcases List.mem_cons.1 ht with h | h
      · exact absurd (by rw [h]) hx
      · rw [List.map_cons, List.nodup_cons] at hnd
        exact ih hnd.2 h

theorem groupByKey_congr (k1 k2 : Shipment → String) (shipments : List Shipment)
    (acc : TerminalShipments) (h : ∀ s ∈ shipments, k1 s = k2 s) :
    groupByKey k1 shipments acc = groupByKey k2 shipments acc := by
  induction shipments generalizing acc with
  | nil => rfl
  | cons s rest ih =>
    rw [groupByKey_cons, groupByKey_cons, h s (List.mem_cons_self _ _)]
    exact ih _ (fun s' hs' => h s' (List.mem_cons_of_mem _ hs'))

namespace optimizer

/-- With pairwise different cities, looking up the cities of terminals of the list
gives those terminals back. -/
theorem lookupTerminals_map_city (filteredTerminals active : List Terminal)
    (hnd : (filteredTerminals.map (fun t => t.City)).Nodup)
    (hsub : ∀ t ∈ active, t ∈ filteredTerminals) :
    lookupTerminals filteredTerminals (active.map (fun t => t.City)) = active := by
  unfold lookupTerminals
  induction active with
  | nil => rfl
  | cons t rest ih =>
    rw [List.map_cons, List.filterMap_cons,
      find?_of_nodup_map (fun t => t.City) filteredTerminals hnd t (hsub t (List.mem_cons_self _ _))]
    simp only []
    rw [ih (fun u hu => hsub u (List.mem_cons_of_mem _ hu))]

end optimizer

namespace ga_level1

theorem selectActive_subset (allTerminals : List Terminal) (mask : List Bool) (i : Nat)
    (active : List Terminal) (h : selectActive allTerminals i mask = .ok active) :
    ∀ t ∈ active, t ∈ allTerminals := by
  induction mask generalizing i active with
  | nil =>
    simp only [selectActive, Except.ok.injEq] at h
    rw [← h]
    simp
  | cons b rest ih =>
    unfold selectActive at h
    cases b with
    | true =>
      simp only [if_true] at h
      cases ht : allTerminals[i]? with
      | none => rw [ht] at h; cases h
      | some t =>
        rw [ht] at h
        simp only [] at h
        cases hr : selectActive allTerminals (i + 1) rest with
        | error e => rw [hr] at h; cases h
        | ok ts =>
          rw [hr] at h
          simp only [Except.ok.injEq] at h
          rw [← h]
          intro u hu
          rcases List.mem_cons.1 hu with hu | hu
          · rw [hu]
            exact List.mem_iff_getElem?.2 ⟨i, ht⟩
          · exact ih (i + 1) ts hr u hu
    | false =>
      simp only [Bool.false_eq_true, if_false] at h
      exact ih (i + 1) active h

end ga_level1

/-! ## What the returned individual is compared with -/

theorem mem_dropLast_or_getLast {α : Type} (l : List α) (x : α) (hx : x ∈ l) :
    x ∈ l.dropLast ∨ l.getLast? = some x := by
  induction l with
  | nil => simp at hx
  | cons y rest ih =>
    cases rest with
    | nil =>
      right
      have : x = y := by simpa using hx
      simp [this]
    | cons z rest' =>
      rcases List.mem_cons.1 hx with h | h
      · left
        rw [h]
        simp [List.dropLast]
      · rcases ih h with h' | h'
        · left
          simp only [List.dropLast_cons₂, List.mem_cons]
          exact Or.inr h'
        · right
          rw [List.getLast?_cons_cons]
          exact h'

namespace ga_level1

/-- A generation appends its evaluated population to the record. -/
theorem nextGeneration_evaluated (settings : proto.GASettings) (shipments : List Shipment)
    (interCityRates : List InterCityRate) (intraCityRates : List IntraCityRate)
    (distances : Distances) (st st1 : GAState)
    (hn : nextGeneration settings shipments interCityRates intraCityRates distances st =
      .ok st1) : st1.evaluated = st.evaluated ++ [st1.pop.Individuals] := by
  unfold nextGeneration at hn
  simp only [] at hn
  split at hn
  · cases hn
  · split at hn
    · cases hn
    · split at hn
      · cases hn
      · simp only [Except.ok.injEq] at hn
        rw [← hn]

/-- Along the generation loop `best` is at least as fit as every individual of every
evaluated population except the one evaluated last. -/
theorem gaLoop_best_le_evaluated (settings : proto.GASettings) (shipments : List Shipment)
    (interCityRates : List InterCityRate) (intraCityRates : List IntraCityRate)
    (distances : Distances) (gens : Nat) (st st' : GAState)
    (hlast : st.evaluated.getLast? = some st.pop.Individuals)
    (hinv : ∀ pop ∈ st.evaluated.dropLast, ∀ ind ∈ pop, st.best.Fitness ≤ ind.Fitness)
    (h : gaLoop settings shipments interCityRates intraCityRates distances gens st = .ok st') :
    ∀ pop ∈ st'.evaluated.dropLast, ∀ ind ∈ pop, st'.best.Fitness ≤ ind.Fitness := by
  induction gens generalizing st with
  | zero =>
    simp only [gaLoop, Except.ok.injEq] at h
    rw [← h]
    exact hinv
  | succ n ih =>
    unfold gaLoop at h
    cases hb : st.pop.GetBest with
    | error e => rw [hb] at h; cases h
    | ok currentBest =>
      rw [hb] at h
      have hcur := (GetBest_spec _ _ hb).2
      have hstep : (if decide (currentBest.Fitness < st.best.Fitness) = true then currentBest
          else st.best).Fitness ≤ st.best.Fitness ∧
          (if decide (currentBest.Fitness < st.best.Fitness) = true then currentBest
          else st.best).Fitness ≤ currentBest.Fitness := by
        by_cases hlt : currentBest.Fitness < st.best.Fitness
        · simp only [hlt, decide_True, if_true]; exact ⟨le_of_lt hlt, le_refl _⟩
        · simp only [hlt, decide_False, Bool.false_eq_true, if_false]
          exact ⟨le_refl _, not_lt.1 hlt⟩
      simp only [] at h
      generalize (if decide (currentBest.Fitness < st.best.Fitness) = true then currentBest
          else st.best) = best at h hstep
      generalize (if decide (currentBest.Fitness < st.best.Fitness) = true then 0
          else st.noImprove + 1) = noImprove at h
      by_cases hstop : noImprove ≥ settings.StoppingCriterion
      · simp only [hstop, if_true, Except.ok.injEq] at h
        rw [← h]
        intro pop hpop ind hind
        exact le_trans hstep.1 (hinv pop hpop ind hind)
      · simp only [hstop, if_false] at h
        cases hn : nextGeneration settings shipments interCityRates intraCityRates distances
            { st with best := best, noImprove := noImprove } with
        | error e => rw [hn] at h; cases h
        | ok st1 =>
          rw [hn] at h
          have hev := nextGeneration_evaluated _ _ _ _ _ _ _ hn
          have hbest := nextGeneration_best _ _ _ _ _ _ _ hn
          simp only [] at hev hbest
          refine ih st1 ?_ ?_ h
          · rw [hev]; simp
          · rw [hev, List.dropLast_concat, hbest]
            intro pop hpop ind hind
            rcases mem_dropLast_or_getLast _ _ hpop with hp | hp
            · exact le_trans hstep.1 (hinv pop hp ind hind)
            · rw [hlast] at hp
              have hpe : st.pop.Individuals = pop := Option.some.inj hp
              rw [← hpe] at hind
              exact le_trans hstep.2 (hcur ind hind)

end ga_level1

/-- The fitness of the individual `RunGA` returns is at most the fitness of every
individual of every evaluated population other than the one evaluated last. -/
theorem RunGA_best_le_all_but_last (rng : Rng) (settings : proto.GASettings)
    (terminals : List Terminal) (shipments : List Shipment)
    (interCityRates : List InterCityRate) (intraCityRates : List IntraCityRate)
    (distances : Distances) (result : ga_level1.GAResult)
    (hrun : ga_level1.RunGA rng settings terminals shipments interCityRates intraCityRates
      distances = .ok result) :
    ∀ pop ∈ result.evaluated.dropLast, ∀ ind ∈ pop, result.best.Fitness ≤ ind.Fitness := by
  unfold ga_level1.RunGA at hrun
  simp only [] at hrun
  split at hrun
  · cases hrun
  · rename_i initial hev
    split at hrun
    · cases hrun
    · rename_i best hb
      split at hrun
      · cases hrun
      · rename_i st hloop
        simp only [Except.ok.injEq] at hrun
        rw [← hrun]
        exact ga_level1.gaLoop_best_le_evaluated _ _ _ _ _ _ _ _ (by simp) (by simp) hloop

/-- The individual `RunGA` returns carries the fitness, cost breakdown, active
terminals and routes that `CalculateFitness` produced, from a freshly created
individual with some mask, on the terminals, shipments, rates and distances passed to
`RunGA`. -/
theorem RunGA_returns_scored_individual (rng : Rng) (settings : proto.GASettings)
    (terminals : List Terminal) (shipments : List Shipment)
    (interCityRates : List InterCityRate) (intraCityRates : List IntraCityRate)
    (distances : Distances) (result : ga_level1.GAResult)
    (hrun : ga_level1.RunGA rng settings terminals shipments interCityRates intraCityRates
      distances = .ok result) :
    ∃ (heap : MaskHeap) (mask : Nat),
      ga_level1.CalculateFitness heap { TerminalMask := mask } terminals shipments
        interCityRates intraCityRates distances = .ok result.best :=
  ga_level1.RunGA_best_scored rng settings terminals shipments interCityRates intraCityRates
    distances result hrun

/-! ## Last-mile cost: the tariff path and missing distances -/

namespace logic

theorem routeCosts_ok (ratePerKm : ℚ) (terminalCity : String) (distances : DistMap)
    (shipments : List Shipment) (totalCost : ℚ)
    (hall : ∀ s ∈ shipments, ∃ d, distances s.DestinationCity = some d) :
    routeCosts ratePerKm terminalCity distances shipments totalCost =
      .ok (totalCost + ratePerKm * totalDistanceKm distances shipments) := by
  induction shipments generalizing totalCost with
  | nil => simp [routeCosts, totalDistanceKm]
  | cons s rest ih =>
    obtain ⟨d, hd⟩ := hall s (List.mem_cons_self _ _)
    unfold routeCosts
    rw [hd]
    simp only []
    rw [ih _ (fun s' hs' => hall s' (List.mem_cons_of_mem _ hs'))]
    simp only [totalDistanceKm, List.map_cons, List.sum_cons, hd, Option.getD_some]
    congr 1
    ring

theorem routeCosts_missing (ratePerKm : ℚ) (terminalCity : String) (distances : DistMap)
    (shipments : List Shipment) (totalCost : ℚ) (m : Shipment)
    (hm : firstMissing distances shipments = some m) :
    routeCosts ratePerKm terminalCity distances shipments totalCost =
      .error (.distanceNotFound terminalCity m.DestinationCity) := by
  induction shipments generalizing totalCost with
  | nil => simp [firstMissing] at hm
  | cons s rest ih =>
    unfold routeCosts
    cases hd : distances s.DestinationCity with
    | none =>
      simp only [firstMissing, List.find?_cons, hd, Option.isNone_none] at hm
      cases hm
      rfl
    | some d =>
      simp only [firstMissing, List.find?_cons, hd, Option.isNone_some] at hm
      exact ih _ hm

theorem allWithin100Km_of_far (terminalCity : String) (distances : DistMap)
    (shipments : List Shipment)
    (hall : ∀ s ∈ shipments, ∃ d, distances s.DestinationCity = some d)
    (hfar : ∃ s ∈ shipments, ∃ d, distances s.DestinationCity = some d ∧ 100 < d) :
    allWithin100Km terminalCity distances shipments = .ok false := by
  induction shipments with
  | nil =>
    obtain ⟨s, hs, _⟩ := hfar
    cases hs
  | cons s rest ih =>
    obtain ⟨d, hd⟩ := hall s (List.mem_cons_self _ _)
    unfold allWithin100Km
    rw [hd]
    by_cases h100 : d > 100
    · simp only [h100, if_true]
    · simp only [h100, if_false]
      apply ih (fun s' hs' => hall s' (List.mem_cons_of_mem _ hs'))
      obtain ⟨s', hs', d', hd', hlt⟩ := hfar
      rcases List.mem_cons.1 hs' with h | h
      · subst h
        rw [hd] at hd'
        cases hd'
        exact absurd hlt h100
      · exact ⟨s', h, d', hd', hlt⟩

theorem allWithin100Km_missing (terminalCity : String) (distances : DistMap)
    (shipments : List Shipment) (m : Shipment)
    (hm : firstMissing distances shipments = some m) :
    allWithin100Km terminalCity distances shipments =
        .error (.distanceNotFound terminalCity m.DestinationCity) ∨
      allWithin100Km terminalCity distances shipments = .ok false := by
  induction shipments with
  | nil => simp [firstMissing] at hm
  | cons s rest ih =>
    unfold allWithin100Km
    cases hd : distances s.DestinationCity with
    | none =>
      simp only [firstMissing, List.find?_cons, hd, Option.isNone_none] at hm
      cases hm
      exact Or.inl rfl
    | some d =>
      simp only [firstMissing, List.find?_cons, hd, Option.isNone_some] at hm
      by_cases h100 : d > 100
      · simp only [h100, if_true]
        exact Or.inr trivial
      · simp only [h100, if_false]
        exact ih hm

theorem firstMissing_of_mem (distances : DistMap) (shipments : List Shipment)
    (s : Shipment) (hs : s ∈ shipments) (hnone : distances s.DestinationCity = none) :
    ∃ m, firstMissing distances shipments = some m ∧ m ∈ shipments ∧
      distances m.DestinationCity = none := by
  cases hf : firstMissing distances shipments with
  | none =>
    have := List.find?_eq_none.1 hf s hs
    simp [hnone] at this
  | some m =>
    refine ⟨m, rfl, List.mem_of_find?_eq_some hf, ?_⟩
    have := List.find?_some hf
    simpa using this

theorem tariffCost_ok (shipments : List Shipment) (terminalCity : String)
    (interCityRates : List InterCityRate) (intraCityRates : List IntraCityRate)
    (distances : DistMap) (w v : ℚ)
    (hall : ∀ s ∈ shipments, ∃ d, distances s.DestinationCity = some d)
    (hinter : interCityRates ≠ []) (hintra : intraCityRates ≠ []) :
    ∃ interCityRate intraCityRate,
      findInterCityRate w v interCityRates = .ok interCityRate ∧
      findIntraCityRate w v intraCityRates = .ok intraCityRate ∧
      tariffCost shipments terminalCity interCityRates intraCityRates distances w v =
        .ok (interCityRate.RatePerKm * totalDistanceKm distances shipments +
          intraCityRate.RateFixed) := by
  obtain ⟨r1, h1⟩ := findInterCityRate_ok_of_ne_nil w v interCityRates hinter
  obtain ⟨r2, h2⟩ := findIntraCityRate_ok_of_ne_nil w v intraCityRates hintra
  refine ⟨r1, r2, h1, h2, ?_⟩
  unfold tariffCost
  rw [h1, h2]
  simp only []
  rw [routeCosts_ok _ _ _ _ _ hall]
  simp

theorem tariffCost_missing (shipments : List Shipment) (terminalCity : String)
    (interCityRates : List InterCityRate) (intraCityRates : List IntraCityRate)
    (distances : DistMap) (w v : ℚ) (m : Shipment)
    (hm : firstMissing distances shipments = some m) :
    (∃ e, tariffCost shipments terminalCity interCityRates intraCityRates distances w v =
      .error e) ∧
    (interCityRates ≠ [] → intraCityRates ≠ [] →
      tariffCost shipments terminalCity interCityRates intraCityRates distances w v =
        .error (.distanceNotFound terminalCity m.DestinationCity)) := by
  unfold tariffCost
  cases h1 : findInterCityRate w v interCityRates with
  | error e =>
    refine ⟨⟨_, rfl⟩, fun hinter _ => ?_⟩
    obtain ⟨r, hr⟩ := findInterCityRate_ok_of_ne_nil w v interCityRates hinter
    rw [hr] at h1
    cases h1
  | ok r1 =>
    cases h2 : findIntraCityRate w v intraCityRates with
    | error e =>
      refine ⟨⟨_, rfl⟩, fun _ hintra => ?_⟩
      obtain ⟨r, hr⟩ := findIntraCityRate_ok_of_ne_nil w v intraCityRates hintra
      rw [hr] at h2
      cases h2
    | ok r2 =>
      simp only []
      rw [routeCosts_missing _ _ _ _ _ m hm]
      exact ⟨⟨_, rfl⟩, fun _ _ => rfl⟩

/-- C12: `CalculateLastMileCostForTerminal` returns 0 without error for the empty
shipment set; and for a set in which the destination of some shipment has no entry
in the supplied submap it returns an error, whatever the total weight, the other
distances and the tariff tables are.  With non-empty tariff tables the error is the
missing distance of the first such shipment in input order. -/
theorem last_mile_missing_distance (terminalCity : String)
    (interCityRates : List InterCityRate) (intraCityRates : List IntraCityRate)
    (distances : DistMap) :
    CalculateLastMileCostForTerminal [] terminalCity interCityRates intraCityRates
      distances = .ok 0 ∧
    ∀ (shipments : List Shipment) (s : Shipment), s ∈ shipments →
      distances s.DestinationCity = none →
      (∃ e, CalculateLastMileCostForTerminal shipments terminalCity interCityRates
        intraCityRates distances = .error e) ∧
      (interCityRates ≠ [] → intraCityRates ≠ [] →
        ∃ m, firstMissing distances shipments = some m ∧
          CalculateLastMileCostForTerminal shipments terminalCity interCityRates
            intraCityRates distances =
              .error (.distanceNotFound terminalCity m.DestinationCity)) := by
  refine ⟨rfl, ?_⟩
  intro shipments s hs hnone
  obtain ⟨m, hm, _, _⟩ := firstMissing_of_mem distances shipments s hs hnone
  have hlen : shipments.length ≠ 0 := fun h => by
    rw [List.length_eq_zero.1 h] at hs
    cases hs
  have ht := tariffCost_missing shipments terminalCity interCityRates intraCityRates
    distances (totals shipments).1 (totals shipments).2 m hm
  unfold CalculateLastMileCostForTerminal
  simp only [hlen, if_false]
  by_cases hw : (totals shipments).1 > 5 / 2
  · simp only [hw, if_true]
    rcases allWithin100Km_missing terminalCity distances shipments m hm with h | h
    · rw [h]
      exact ⟨⟨_, rfl⟩, fun _ _ => ⟨m, hm, rfl⟩⟩
    · rw [h]
      exact ⟨ht.1, fun hi hj => ⟨m, hm, ht.2 hi hj⟩⟩
  · simp only [hw, if_false]
    exact ⟨ht.1, fun hi hj => ⟨m, hm, ht.2 hi hj⟩⟩

/-- C12 at a concrete input: 3.01 t, the first destination at 100 km, the second
without an entry. -/
theorem last_mile_missing_distance_witness :
    (∃ e, CalculateLastMileCostForTerminal Sample.shipmentsWithGap "A" Sample.interCityRates
        Sample.intraCityRates Sample.fromTerminal = .error e) ∧
      (Sample.interCityRates ≠ [] → Sample.intraCityRates ≠ [] →
        ∃ m, firstMissing Sample.fromTerminal Sample.shipmentsWithGap = some m ∧
          CalculateLastMileCostForTerminal Sample.shipmentsWithGap "A" Sample.interCityRates
            Sample.intraCityRates Sample.fromTerminal =
              .error (.distanceNotFound "A" m.DestinationCity)) :=
  (last_mile_missing_distance "A" Sample.interCityRates Sample.intraCityRates
    Sample.fromTerminal).2 Sample.shipmentsWithGap
    { ID := "g1", WeightKg := 10, VolumeM3 := 1, DestinationCity := "Z" }
    (by simp [Sample.shipmentsWithGap])
    (by simp [Sample.fromTerminal])

/-- The error of the C12 witness names the route `A -> Z`. -/
theorem last_mile_gap_value :
    CalculateLastMileCostForTerminal Sample.shipmentsWithGap "A" Sample.interCityRates
      Sample.intraCityRates Sample.fromTerminal = .error (.distanceNotFound "A" "Z") := by
  decide!

end logic

/-! ## Line-haul cost -/

theorem minmax_foldl_spec {α : Type} (f : α → ℚ) (l : List α) (a b : ℚ) (mm : ℚ × ℚ)
    (h : l.foldl (fun (acc : ℚ × ℚ) x =>
        (if f x < acc.1 then f x else acc.1, if f x > acc.2 then f x else acc.2)) (a, b) = mm) :
    mm.1 ≤ a ∧ (∀ x ∈ l, mm.1 ≤ f x) ∧ (mm.1 = a ∨ ∃ x ∈ l, f x = mm.1) ∧
    b ≤ mm.2 ∧ (∀ x ∈ l, f x ≤ mm.2) ∧ (mm.2 = b ∨ ∃ x ∈ l, f x = mm.2) := by
  induction l generalizing a b with
  | nil =>
    simp only [List.foldl_nil] at h
    subst h
    simp
  | cons x rest ih =>
    rw [List.foldl_cons] at h
    obtain ⟨h1, h2, h3, h4, h5, h6⟩ := ih _ _ h
    simp only [] at h1 h3 h4 h6
    refine ⟨?_, ?_, ?_, ?_, ?_, ?_⟩
    · split_ifs at h1 <;> linarith
    · intro y hy
      rcases List.mem_cons.1 hy with hxy | hyr
      · subst hxy
        split_ifs at h1 <;> linarith
      · exact h2 y hyr
    · rcases h3 with h3 | ⟨y, hy, hy'⟩
      · split_ifs at h3
        · exact Or.inr ⟨x, List.mem_cons_self _ _, h3.symm⟩
        · exact Or.inl h3
      · exact Or.inr ⟨y, List.mem_cons_of_mem _ hy, hy'⟩
    · split_ifs at h4 <;> linarith
    · intro y hy
      rcases List.mem_cons.1 hy with hxy | hyr
      · subst hxy
        split_ifs at h4 <;> linarith
      · exact h5 y hyr
    · rcases h6 with h6 | ⟨y, hy, hy'⟩
      · split_ifs at h6
        · exact Or.inr ⟨x, List.mem_cons_self _ _, h6.symm⟩
        · exact Or.inl h6
      · exact Or.inr ⟨y, List.mem_cons_of_mem _ hy, hy'⟩

theorem MaxFloat64_pos : (0 : ℚ) < MaxFloat64 := by
  norm_num [MaxFloat64]

/-- The two extremes a scan returns when some value is below the starting minimum
and no value is below the starting maximum. -/
theorem minmax_scan_spec {α : Type} (f : α → ℚ) (l : List α)
    (hlow : ∀ x ∈ l, -MaxFloat64 ≤ f x) (hbelow : ∃ x ∈ l, f x < MaxFloat64) :
    let mm := l.foldl (fun (acc : ℚ × ℚ) x =>
        (if f x < acc.1 then f x else acc.1, if f x > acc.2 then f x else acc.2))
        (MaxFloat64, -MaxFloat64)
    mm.1 ≠ MaxFloat64 ∧ IsMinOf (l.map f) mm.1 ∧ IsMaxOf (l.map f) mm.2 := by
  intro mm
  obtain ⟨h1, h2, h3, h4, h5, h6⟩ := minmax_foldl_spec f l MaxFloat64 (-MaxFloat64) mm rfl
  obtain ⟨x0, hx0, hlt⟩ := hbelow
  have hne : mm.1 ≠ MaxFloat64 := by
    have := h2 x0 hx0
    intro h
    linarith
  refine ⟨hne, ⟨?_, ?_⟩, ⟨?_, ?_⟩⟩
  · rcases h3 with h3 | ⟨y, hy, hy'⟩
    · exact absurd h3 hne
    · exact List.mem_map.2 ⟨y, hy, hy'⟩
  · intro v hv
    obtain ⟨y, hy, rfl⟩ := List.mem_map.1 hv
    exact h2 y hy
  · rcases h6 with h6 | ⟨y, hy, hy'⟩
    · refine List.mem_map.2 ⟨x0, hx0, ?_⟩
      have := h5 x0 hx0
      have := hlow x0 hx0
      linarith
    · exact List.mem_map.2 ⟨y, hy, hy'⟩
  · intro v hv
    obtain ⟨y, hy, rfl⟩ := List.mem_map.1 hv
    exact h5 y hy

namespace logic

theorem findMinMaxRate_spec (rates : List InterCityRate)
    (hlow : ∀ r ∈ rates, -MaxFloat64 ≤ r.RatePerKm)
    (hbelow : ∃ r ∈ rates, r.RatePerKm < MaxFloat64) :
    IsMinOf (rates.map (fun r => r.RatePerKm)) (findMinMaxRate rates).1 ∧
    IsMaxOf (rates.map (fun r => r.RatePerKm)) (findMinMaxRate rates).2 := by
  obtain ⟨hne, hmin, hmax⟩ := minmax_scan_spec (fun r : InterCityRate => r.RatePerKm) rates
    hlow hbelow
  unfold findMinMaxRate
  simp only []
  rw [if_neg hne]
  exact ⟨hmin, hmax⟩

theorem CalculateLinehaulCost_eq_rate (terminal : Terminal) (terminals : List Terminal)
    (interCityRates : List InterCityRate) (h1 : interCityRates ≠ []) (h2 : terminals ≠ []) :
    CalculateLinehaulCost terminal terminals interCityRates =
      .ok (effectiveRate terminal terminals interCityRates *
        (terminal.DistanceFromMoscowKm : ℚ)) := by
  have h1' : interCityRates.length ≠ 0 := fun h => h1 (List.length_eq_zero.1 h)
  have h2' : terminals.length ≠ 0 := fun h => h2 (List.length_eq_zero.1 h)
  unfold CalculateLinehaulCost effectiveRate
  simp only [h1', h2', if_false]
  split_ifs <;> rfl

end logic

namespace logic

end logic

theorem Sample.terminals_in_range :
    ∀ t ∈ Sample.terminals, IsInt64 t.DistanceFromMoscowKm := by
  intro t ht
  simp only [Sample.terminals, List.mem_cons, List.mem_singleton,
    List.not_mem_nil, or_false] at ht
  rcases ht with h | h <;> rw [h] <;>
    simp [IsInt64, MaxInt, Sample.terminalA, Sample.terminalB]

/-! ## A scan that stops at the first match -/

/-- A successful scan splits the list at the first element satisfying `p`. -/
theorem find?_split {α : Type} (p : α → Bool) (l : List α) (r : α)
    (h : l.find? p = some r) :
    ∃ pre post, l = pre ++ r :: post ∧ p r = true ∧ ∀ c ∈ pre, p c = false := by
  induction l with
  | nil => simp at h
  | cons y rest ih =>
    rw [List.find?_cons] at h
    cases hp : p y with
    | true =>
      rw [hp] at h
      have hyr : y = r := by simpa using h
      subst hyr
      exact ⟨[], rest, rfl, hp, by simp⟩
    | false =>
      rw [hp] at h
      obtain ⟨pre, post, hsplit, hpr, hpre⟩ := ih h
      refine ⟨y :: pre, post, by rw [hsplit]; rfl, hpr, ?_⟩
      intro c hc
      rcases List.mem_cons.1 hc with hcy | hcp
      · rw [hcy]; exact hp
      · exact hpre c hcp

/-! ## Level 1: a shipment no active terminal reaches -/

theorem hasEntry_of_hasEntryBelow (bound : Int) (distances : Distances)
    (active : List Terminal) (dest : String)
    (h : hasEntryBelow bound distances active dest = true) :
    hasEntry distances active dest = true := by
  obtain ⟨t, ht, d, hd, _⟩ := (hasEntryBelow_iff _ _ _ _).1 h
  exact (hasEntry_iff _ _ _).2 ⟨t, ht, d, hd⟩

/-- Without a distance entry from any active terminal, `bestCity` stays empty. -/
theorem nearestTerminal_of_no_entry (bound : Int) (active : List Terminal)
    (distances : Distances) (dest : String) (h : hasEntry distances active dest = false) :
    nearestTerminal bound active distances dest = "" := by
  by_contra hne
  have := hasEntry_of_hasEntryBelow bound distances active dest
    (hasEntryBelow_of_ne_empty bound active distances dest hne)
  rw [h] at this
  cases this

namespace ga_level1

/-- The shipments left without a terminal are those without a distance entry and
those left without a terminal among the others. -/
theorem unassigned_count (active : List Terminal) (distances : Distances)
    (shipments : List Shipment) :
    (shipments.filter (fun s =>
        decide (nearestTerminal MaxInt active distances s.DestinationCity = ""))).length =
      ((shipments.filter (fun s => hasEntry distances active s.DestinationCity)).filter
        (fun s =>
          decide (nearestTerminal MaxInt active distances s.DestinationCity = ""))).length +
      (shipments.filter (fun s => !hasEntry distances active s.DestinationCity)).length := by
  induction shipments with
  | nil => rfl
  | cons s rest ih =>
    cases he : hasEntry distances active s.DestinationCity with
    | true =>
      by_cases hn : nearestTerminal MaxInt active distances s.DestinationCity = ""
      · simp only [List.filter_cons, he, hn, decide_True, if_true, Bool.not_true,
          Bool.false_eq_true, if_false, List.length_cons, ih]
        omega
      · simp only [List.filter_cons, he, hn, decide_False, if_true, Bool.not_true,
          Bool.false_eq_true, if_false, ih]
    | false =>
      have hn := nearestTerminal_of_no_entry MaxInt active distances s.DestinationCity he
      simp only [List.filter_cons, he, hn, decide_True, if_true, Bool.not_false,
        Bool.false_eq_true, if_false, List.length_cons, ih]
      omega

/-- The assignment loop on all shipments and on the shipments with a distance entry:
the same groups, and `1e9` more penalty per shipment without an entry. -/
theorem assignShipments_drop (active : List Terminal) (distances : Distances)
    (shipments : List Shipment) :
    assignShipments active distances shipments =
      ((assignShipments active distances
          (shipments.filter (fun s => hasEntry distances active s.DestinationCity))).1,
       (assignShipments active distances
          (shipments.filter (fun s => hasEntry distances active s.DestinationCity))).2 +
        1000000000 * ((shipments.filter
          (fun s => !hasEntry distances active s.DestinationCity)).length : ℚ)) := by
  have hgroups : (assignShipments active distances shipments).1 =
      (assignShipments active distances
        (shipments.filter (fun s => hasEntry distances active s.DestinationCity))).1 := by
    rw [assignShipments_groups, assignShipments_groups, List.filter_filter]
    congr 1
    apply List.filter_congr
    intro s _
    by_cases hn : nearestTerminal MaxInt active distances s.DestinationCity = ""
    · simp [hn]
    · have := hasEntry_of_hasEntryBelow MaxInt distances active s.DestinationCity
        (hasEntryBelow_of_ne_empty MaxInt active distances s.DestinationCity hn)
      simp [hn, this]
  have hpen : (assignShipments active distances shipments).2 =
      (assignShipments active distances
        (shipments.filter (fun s => hasEntry distances active s.DestinationCity))).2 +
        1000000000 * ((shipments.filter
          (fun s => !hasEntry distances active s.DestinationCity)).length : ℚ) := by
    rw [assignShipments_penalty, assignShipments_penalty, ← mul_add]
    congr 1
    rw [← Nat.cast_add]
    congr 1
    exact unassigned_count active distances shipments
  rw [← hgroups, ← hpen]

end ga_level1

namespace ga_level1

/-- The values of the C16 witness: without `s2` the mask `A only` scores 1820 with
penalty 0; with `s2` the penalty and the score are `1e9` higher and the only route
still lists `s1` alone. -/
theorem unreachable_shipment_values :
    Sample.shipments.filter
        (fun s => hasEntry Sample.distances [Sample.terminalA] s.DestinationCity) =
      [Sample.s1] ∧
    CalculateFitness Sample.heap { TerminalMask := 0 } Sample.terminals [Sample.s1]
        Sample.interCityRates Sample.intraCityRates Sample.distances =
      .ok { Sample.scoredA with
            Fitness := 1820,
            Cost := { LinehaulCost := 1750, LastMileCost := 70, PenaltyCost := 0,
                      TotalCost := 1820 } } ∧
    CalculateFitness Sample.heap { TerminalMask := 0 } Sample.terminals Sample.shipments
        Sample.interCityRates Sample.intraCityRates Sample.distances = .ok Sample.scoredA := by
  decide!

end ga_level1

/-! ## Level 2: a destination no active terminal covers -/

namespace ga_level2

/-- The assignment loop fails at the first shipment whose `bestCity` stays empty,
with the destination of that shipment. -/
theorem assignShipments_first_error (activeTerminals : List Terminal) (distances : Distances)
    (shipments : List Shipment) (acc : TerminalShipments) (m : Shipment)
    (hm : shipments.find? (fun s =>
      decide (nearestTerminal MaxInt32 activeTerminals distances s.DestinationCity = "")) =
        some m) :
    assignShipments activeTerminals distances shipments acc =
      .error (.noTerminalCovers m.DestinationCity) := by
  induction shipments generalizing acc with
  | nil => simp at hm
  | cons s rest ih =>
    unfold assignShipments
    by_cases hb : nearestTerminal MaxInt32 activeTerminals distances s.DestinationCity = ""
    · simp only [List.find?_cons, hb, decide_True, Option.some.injEq] at hm
      subst hm
      simp only [hb, if_true]
    · simp only [List.find?_cons, hb, decide_False] at hm
      simp only [hb, if_false]
      exact ih _ hm

/-- C17 (amended): let every active terminal have a non-empty city.  If for the
destination of some shipment no active terminal has a distance entry below
`1<<31 - 1`, `CalculateFitnessLevel2` fails with the error "no terminal covers
destination X", where X is the destination of the first such shipment in input
order; no individual is returned. -/
theorem level2_uncovered_destination (activeTerminals : List Terminal)
    (shipments : List Shipment) (interCityRates : List InterCityRate)
    (intraCityRates : List IntraCityRate) (distances : Distances)
    (hcity : ∀ t ∈ activeTerminals, t.City ≠ "")
    (s : Shipment) (hs : s ∈ shipments)
    (hno : hasEntryBelow MaxInt32 distances activeTerminals s.DestinationCity = false) :
    ∃ m, shipments.find? (fun s =>
        !hasEntryBelow MaxInt32 distances activeTerminals s.DestinationCity) = some m ∧
      CalculateFitnessLevel2 activeTerminals shipments interCityRates intraCityRates
        distances = .error (.noTerminalCovers m.DestinationCity) := by
  have hpred : (fun s : Shipment =>
      decide (nearestTerminal MaxInt32 activeTerminals distances s.DestinationCity = "")) =
      (fun s : Shipment =>
        !hasEntryBelow MaxInt32 distances activeTerminals s.DestinationCity) := by
    funext x
    have := nearestTerminal_ne_empty_iff MaxInt32 activeTerminals distances
      x.DestinationCity hcity
    by_cases hn : nearestTerminal MaxInt32 activeTerminals distances x.DestinationCity = ""
    · have hf : hasEntryBelow MaxInt32 distances activeTerminals x.DestinationCity = false := by
        cases hb : hasEntryBelow MaxInt32 distances activeTerminals x.DestinationCity with
        | false => rfl
        | true => exact absurd hn (this.2 hb)
      simp [hn, hf]
    · simp [hn, this.1 hn]
  cases hf : shipments.find? (fun s =>
      !hasEntryBelow MaxInt32 distances activeTerminals s.DestinationCity) with
  | none =>
    have := List.find?_eq_none.1 hf s hs
    simp [hno] at this
  | some m =>
    refine ⟨m, rfl, ?_⟩
    rw [← hpred] at hf
    unfold CalculateFitnessLevel2
    rw [assignShipments_first_error activeTerminals distances shipments [] m hf]

/-- C17 (amended) at a concrete input: terminal `A` reaches `X` only, and the second
shipment goes to `Y`. -/
theorem level2_uncovered_destination_witness :
    ∃ m, Sample.shipments.find? (fun s =>
        !hasEntryBelow MaxInt32 Sample.distances [Sample.terminalA] s.DestinationCity) =
          some m ∧
      CalculateFitnessLevel2 [Sample.terminalA] Sample.shipments Sample.interCityRates
        Sample.intraCityRates Sample.distances = .error (.noTerminalCovers m.DestinationCity) :=
  level2_uncovered_destination [Sample.terminalA] Sample.shipments Sample.interCityRates
    Sample.intraCityRates Sample.distances (by decide) Sample.s2 (by decide) (by decide)

/-- The error of the C17 witness names `Y`. -/
theorem level2_uncovered_value :
    CalculateFitnessLevel2 [Sample.terminalA] Sample.shipments Sample.interCityRates
      Sample.intraCityRates Sample.distances = .error (.noTerminalCovers "Y") := by
  decide!

/-- C17 as stated fails: when the only entry for `X` is `1<<31 - 1`, the first
shipment without any distance entry is `s2` (to `Y`), yet the error names `X`, the
destination of `s1`, which has an entry. -/
theorem level2_uncovered_destination_counterexample :
    hasEntry (Sample.farDistances MaxInt32) [Sample.terminalA] Sample.s1.DestinationCity =
      true ∧
    Sample.shipments.find? (fun s =>
      !hasEntry (Sample.farDistances MaxInt32) [Sample.terminalA] s.DestinationCity) =
        some Sample.s2 ∧
    Sample.s2.DestinationCity = "Y" ∧
    CalculateFitnessLevel2 [Sample.terminalA] Sample.shipments Sample.interCityRates
      Sample.intraCityRates (Sample.farDistances MaxInt32) =
        .error (.noTerminalCovers "X") := by
  decide!

end ga_level2

/-! ## No active terminal -/

namespace ga_level1

theorem selectActive_all_false (allTerminals : List Terminal) (mask : List Bool) (i : Nat)
    (h : ∀ b ∈ mask, b = false) : selectActive allTerminals i mask = .ok [] := by
  induction mask generalizing i with
  | nil => rfl
  | cons b rest ih =>
    have hb : b = false := h b (List.mem_cons_self _ _)
    subst hb
    unfold selectActive
    simp only [Bool.false_eq_true, if_false]
    exact ih (i + 1) (fun b' hb' => h b' (List.mem_cons_of_mem _ hb'))

end ga_level1

/-- C18: when no terminal is active the evaluation succeeds in the sentinel state,
whatever the shipments, tariffs, distances and terminal list are: total cost and
fitness are `1e12` and line-haul, last-mile and penalty cost are 0.  In level 1
(every bit of the mask false, the empty mask included) `CalculateFitness` changes
nothing else of the individual, so a freshly created individual has no routes and
no active terminals; in level 2 (`RunGALevel2` on the empty terminal list) the
individual returned has no routes and no active terminals. -/
theorem no_active_terminal_sentinel :
    (∀ (heap : MaskHeap) (ind : ga_level1.Individual) (allTerminals : List Terminal)
        (shipments : List Shipment) (interCityRates : List InterCityRate)
        (intraCityRates : List IntraCityRate) (distances : Distances),
        (∀ b ∈ heap.read ind.TerminalMask, b = false) →
        ga_level1.CalculateFitness heap ind allTerminals shipments interCityRates
          intraCityRates distances =
          .ok { ind with
                Cost := { LinehaulCost := 0, LastMileCost := 0, PenaltyCost := 0,
                          TotalCost := 1000000000000 },
                Fitness := 1000000000000 }) ∧
    (∀ (heap : MaskHeap) (mask : Nat) (allTerminals : List Terminal)
        (shipments : List Shipment) (interCityRates : List InterCityRate)
        (intraCityRates : List IntraCityRate) (distances : Distances),
        (∀ b ∈ heap.read mask, b = false) →
        ga_level1.CalculateFitness heap { TerminalMask := mask } allTerminals shipments
          interCityRates intraCityRates distances =
          .ok { TerminalMask := mask,
                Fitness := 1000000000000,
                Cost := { LinehaulCost := 0, LastMileCost := 0, PenaltyCost := 0,
                          TotalCost := 1000000000000 },
                ActiveTerminals := [],
                Routes := [] }) ∧
    (∀ (shipments : List Shipment) (interCityRates : List InterCityRate)
        (intraCityRates : List IntraCityRate) (distances : Distances),
        ga_level2.RunGALevel2 [] shipments interCityRates intraCityRates distances =
          .ok { Fitness := 1000000000000,
                Cost := { LinehaulCost := 0, LastMileCost := 0, PenaltyCost := 0,
                          TotalCost := 1000000000000 },
                ActiveTerminals := [],
                Routes := [] }) := by
  have key : ∀ (heap : MaskHeap) (ind : ga_level1.Individual) (allTerminals : List Terminal)
      (shipments : List Shipment) (interCityRates : List InterCityRate)
      (intraCityRates : List IntraCityRate) (distances : Distances),
      (∀ b ∈ heap.read ind.TerminalMask, b = false) →
      ga_level1.CalculateFitness heap ind allTerminals shipments interCityRates
        intraCityRates distances =
        .ok { ind with
              Cost := { LinehaulCost := 0, LastMileCost := 0, PenaltyCost := 0,
                        TotalCost := 1000000000000 },
              Fitness := 1000000000000 } := by
    intro heap ind allTerminals shipments interCityRates intraCityRates distances h
    unfold ga_level1.CalculateFitness
    rw [ga_level1.selectActive_all_false allTerminals _ 0 h]
    rfl
  refine ⟨key, ?_, ?_⟩
  · intro heap mask allTerminals shipments interCityRates intraCityRates distances h
    exact key heap { TerminalMask := mask } allTerminals shipments interCityRates
      intraCityRates distances h
  · intro shipments interCityRates intraCityRates distances
    rfl

/-- C18 at a concrete input: the mask `[false, false]` over the sample terminals. -/
theorem no_active_terminal_sentinel_witness :
    ga_level1.CalculateFitness { arrays := [[false, false]] } { TerminalMask := 0 }
        Sample.terminals Sample.shipments Sample.interCityRates Sample.intraCityRates
        Sample.distances =
      .ok { TerminalMask := 0,
            Fitness := 1000000000000,
            Cost := { LinehaulCost := 0, LastMileCost := 0, PenaltyCost := 0,
                      TotalCost := 1000000000000 },
            ActiveTerminals := [],
            Routes := [] } :=
  no_active_terminal_sentinel.2.1 { arrays := [[false, false]] } 0 Sample.terminals
    Sample.shipments Sample.interCityRates Sample.intraCityRates Sample.distances
    (by decide)

/-! ## Active terminals that cover no destination -/

/-- With a non-empty rate table and a non-empty active set the line-haul loop
succeeds. -/
theorem linehaulLoop_ok (activeTerminals : List Terminal)
    (interCityRates : List InterCityRate) (hinter : interCityRates ≠ [])
    (hne : activeTerminals ≠ []) (ts : List Terminal) (acc : ℚ) :
    ∃ c, linehaulLoop activeTerminals interCityRates ts acc = .ok c := by
  induction ts generalizing acc with
  | nil => exact ⟨acc, rfl⟩
  | cons t rest ih =>
    unfold linehaulLoop
    rw [logic.CalculateLinehaulCost_eq_rate t activeTerminals interCityRates hinter hne]
    exact ih _

namespace ga_level1

/-- When no shipment has a distance entry, the assignment loop builds no group and
charges `1e9` per shipment. -/
theorem assignShipments_none (active : List Terminal) (distances : Distances)
    (shipments : List Shipment)
    (hnone : ∀ s ∈ shipments, hasEntry distances active s.DestinationCity = false) :
    assignShipments active distances shipments =
      ([], 1000000000 * (shipments.length : ℚ)) := by
  have hkept : shipments.filter (fun s => hasEntry distances active s.DestinationCity) = [] := by
    rw [List.filter_eq_nil_iff]
    intro s hs
    rw [hnone s hs]
    simp
  have hdrop : shipments.filter (fun s => !hasEntry distances active s.DestinationCity) =
      shipments := by
    rw [List.filter_eq_self]
    intro s hs
    rw [hnone s hs]
    rfl
  rw [assignShipments_drop, hkept, hdrop]
  simp [assignShipments]

end ga_level1

/-- C19 (amended): when at least one terminal is active but no active terminal has a
distance entry for any shipment destination, no sentinel applies.  With a non-empty
inter-city table the level-1 evaluation succeeds with the line-haul cost of the
active terminals, last-mile cost 0, no routes, penalty cost `1e9` per shipment, and
total cost and fitness equal to their sum; the level-2 evaluation of a non-empty
shipment list fails with "no terminal covers destination" of the first shipment. -/
theorem uncovered_everywhere (heap : MaskHeap) (ind : ga_level1.Individual)
    (allTerminals : List Terminal) (shipments : List Shipment)
    (interCityRates : List InterCityRate) (intraCityRates : List IntraCityRate)
    (distances : Distances) (active : List Terminal)
    (hsel : ga_level1.selectActive allTerminals 0 (heap.read ind.TerminalMask) = .ok active)
    (hne : active ≠ []) (hinter : interCityRates ≠ [])
    (hnone : ∀ s ∈ shipments, hasEntry distances active s.DestinationCity = false) :
    (∃ linehaulCost, linehaulLoop active interCityRates active 0 = .ok linehaulCost ∧
      ga_level1.CalculateFitness heap ind allTerminals shipments interCityRates
        intraCityRates distances =
        .ok { ind with
              Cost := { LinehaulCost := linehaulCost, LastMileCost := 0,
                        PenaltyCost := 1000000000 * (shipments.length : ℚ),
                        TotalCost := linehaulCost + 0 +
                          1000000000 * (shipments.length : ℚ) },
              Fitness := linehaulCost + 0 + 1000000000 * (shipments.length : ℚ),
              ActiveTerminals := active.map (fun t => t.City),
              Routes := [] }) ∧
    (∀ s0 rest, shipments = s0 :: rest →
      ga_level2.CalculateFitnessLevel2 active shipments interCityRates intraCityRates
        distances = .error (.noTerminalCovers s0.DestinationCity)) := by
  have hlen : active.length ≠ 0 := fun h => hne (List.length_eq_zero.1 h)
  constructor
  · obtain ⟨lh, hlh⟩ := linehaulLoop_ok active interCityRates hinter hne active 0
    refine ⟨lh, hlh, ?_⟩
    unfold ga_level1.CalculateFitness
    rw [hsel]
    simp only [hlen, if_false]
    rw [ga_level1.assignShipments_none active distances shipments hnone]
    simp only [lastMileLoop, hlh, ga_level1.vehicleLoop]
  · intro s0 rest hsplit
    have hn := nearestTerminal_of_no_entry MaxInt32 active distances s0.DestinationCity
      (hnone s0 (by rw [hsplit]; exact List.mem_cons_self _ _))
    unfold ga_level2.CalculateFitnessLevel2
    rw [ga_level2.assignShipments_first_error active distances shipments [] s0
      (by rw [hsplit]; simp [hn])]

/-- C19 (amended) at a concrete input: the mask `A only` and the single shipment
`s2` to `Y`, which `A` has no entry for. -/
theorem uncovered_everywhere_witness :
    (∃ linehaulCost,
      linehaulLoop [Sample.terminalA] Sample.interCityRates [Sample.terminalA] 0 =
        .ok linehaulCost ∧
      ga_level1.CalculateFitness Sample.heap { TerminalMask := 0 } Sample.terminals
        [Sample.s2] Sample.interCityRates Sample.intraCityRates Sample.distances =
        .ok { ({ TerminalMask := 0 } : ga_level1.Individual) with
              Cost := { LinehaulCost := linehaulCost, LastMileCost := 0,
                        PenaltyCost := 1000000000 * (([Sample.s2] : List Shipment).length : ℚ),
                        TotalCost := linehaulCost + 0 +
                          1000000000 * (([Sample.s2] : List Shipment).length : ℚ) },
              Fitness := linehaulCost + 0 +
                1000000000 * (([Sample.s2] : List Shipment).length : ℚ),
              ActiveTerminals := [Sample.terminalA].map (fun t => t.City),
              Routes := [] }) ∧
    (∀ s0 rest, [Sample.s2] = s0 :: rest →
      ga_level2.CalculateFitnessLevel2 [Sample.terminalA] [Sample.s2] Sample.interCityRates
        Sample.intraCityRates Sample.distances = .error (.noTerminalCovers s0.DestinationCity)) :=
  uncovered_everywhere Sample.heap { TerminalMask := 0 } Sample.terminals [Sample.s2]
    Sample.interCityRates Sample.intraCityRates Sample.distances [Sample.terminalA]
    (by decide) (by decide) (by decide) (by decide)

/-- C19 as stated fails: with the mask `A only` and the single shipment `s2`, whose
destination no active terminal covers, the evaluation succeeds with total cost and
fitness `1750 + 1e9`, not `1e12`; level 2 on the same input returns an error. -/
theorem uncovered_everywhere_counterexample :
    true ∈ Sample.heap.read 0 ∧
    (∀ s ∈ [Sample.s2],
      hasEntry Sample.distances [Sample.terminalA] s.DestinationCity = false) ∧
    ga_level1.CalculateFitness Sample.heap { TerminalMask := 0 } Sample.terminals
        [Sample.s2] Sample.interCityRates Sample.intraCityRates Sample.distances =
      .ok { TerminalMask := 0,
            Fitness := 1000001750,
            Cost := { LinehaulCost := 1750, LastMileCost := 0, PenaltyCost := 1000000000,
                      TotalCost := 1000001750 },
            ActiveTerminals := ["A"],
            Routes := [] } ∧
    (1000001750 : ℚ) ≠ 1000000000000 ∧
    ga_level2.CalculateFitnessLevel2 [Sample.terminalA] [Sample.s2] Sample.interCityRates
        Sample.intraCityRates Sample.distances = .error (.noTerminalCovers "Y") := by
  refine ⟨by decide, by decide, by decide!, by norm_num, by decide!⟩

/-! ## Routes and active terminals -/

theorem zip_filter_sublist {α : Type} (l : List α) (m : List Bool) :
    (((l.zip m).filter (fun p => p.2)).map (fun p => p.1)).Sublist l := by
  induction l generalizing m with
  | nil => simp
  | cons a rest ih =>
    cases m with
    | nil => simp
    | cons b bs =>
      cases b with
      | true =>
        simp only [List.zip_cons_cons, List.filter_cons, if_true, List.map_cons]
        exact (ih bs).cons₂ a
      | false =>
        simp only [List.zip_cons_cons, List.filter_cons, Bool.false_eq_true, if_false]
        exact (ih bs).cons a

namespace ga_level1

/-- A successful selection returns the terminals whose mask bit is set, in the
order of the terminal list. -/
theorem selectActive_eq_filter (allTerminals : List Terminal) (mask : List Bool) (i : Nat)
    (active : List Terminal) (h : selectActive allTerminals i mask = .ok active) :
    active = (((allTerminals.drop i).zip mask).filter (fun p => p.2)).map (fun p => p.1) := by
  induction mask generalizing i active with
  | nil =>
    simp only [selectActive, Except.ok.injEq] at h
    rw [← h]
    simp
  | cons b rest ih =>
    unfold selectActive at h
    have htail : allTerminals.drop (i + 1) = (allTerminals.drop i).tail := by
      rw [List.tail_drop]
    cases b with
    | true =>
      simp only [if_true] at h
      cases ht : allTerminals[i]? with
      | none => rw [ht] at h; cases h
      | some t =>
        rw [ht] at h
        simp only [] at h
        cases hr : selectActive allTerminals (i + 1) rest with
        | error e => rw [hr] at h; cases h
        | ok ts =>
          rw [hr] at h
          simp only [Except.ok.injEq] at h
          have hhead : (allTerminals.drop i).head? = some t := by
            rw [List.head?_drop, ht]
          have ih' := ih (i + 1) ts hr
          rw [htail] at ih'
          cases hd : allTerminals.drop i with
          | nil => rw [hd] at hhead; cases hhead
          | cons a tl =>
            rw [hd] at hhead ih'
            simp only [List.head?_cons, Option.some.injEq] at hhead
            subst hhead
            rw [← h, ih']
            simp
    | false =>
      simp only [Bool.false_eq_true, if_false] at h
      have ih' := ih (i + 1) active h
      rw [htail] at ih'
      cases hd : allTerminals.drop i with
      | nil =>
        rw [hd] at ih'
        rw [ih']
        simp
      | cons a tl =>
        rw [hd] at ih'
        rw [ih']
        simp

end ga_level1

/-- The keys of the groups of shipments with a non-empty `bestCity` are cities of
active terminals. -/
theorem group_keys_active (bound : Int) (active : List Terminal) (distances : Distances)
    (shipments : List Shipment)
    (hall : ∀ s ∈ shipments, nearestTerminal bound active distances s.DestinationCity ≠ "")
    (c : String)
    (hc : c ∈ (groupByKey (fun s => nearestTerminal bound active distances s.DestinationCity)
      shipments []).map Prod.fst) :
    c ∈ active.map (fun t => t.City) := by
  rcases groupByKey_keys _ _ _ c hc with h | ⟨s, hs, hk⟩
  · simp at h
  · obtain ⟨t, d, hfn, _, heq⟩ := nearestTerminal_of_ne_empty bound active distances
      s.DestinationCity (hall s hs)
    rw [← hk]
    exact List.mem_map.2 ⟨t, hfn.mem.1, heq.symm⟩

/-- C20: in every successful evaluation with at least one active terminal, the
`to_terminal` of every route is one of the evaluation's `active_terminals`, and the
routes have pairwise distinct `to_terminal`.  In level 1 `active_terminals` is the
list of the cities of the terminals whose mask bit is true, in the order of the
terminal list, hence a sublist of the cities of the terminal list; in level 2 it
is the list of the cities of the active terminals passed in. -/
theorem routes_use_active_terminals :
    (∀ (heap : MaskHeap) (ind : ga_level1.Individual) (allTerminals : List Terminal)
        (shipments : List Shipment) (interCityRates : List InterCityRate)
        (intraCityRates : List IntraCityRate) (distances : Distances)
        (scored : ga_level1.Individual),
        true ∈ heap.read ind.TerminalMask →
        ga_level1.CalculateFitness heap ind allTerminals shipments interCityRates
          intraCityRates distances = .ok scored →
        (∀ r ∈ scored.Routes, r.ToTerminal ∈ scored.ActiveTerminals) ∧
        (scored.Routes.map (fun r => r.ToTerminal)).Nodup ∧
        scored.ActiveTerminals =
          ((allTerminals.zip (heap.read ind.TerminalMask)).filter (fun p => p.2)).map
            (fun p => p.1.City) ∧
        scored.ActiveTerminals.Sublist (allTerminals.map (fun t => t.City))) ∧
    (∀ (activeTerminals : List Terminal) (shipments : List Shipment)
        (interCityRates : List InterCityRate) (intraCityRates : List IntraCityRate)
        (distances : Distances) (scored : ga_level2.Individual),
        ga_level2.CalculateFitnessLevel2 activeTerminals shipments interCityRates
          intraCityRates distances = .ok scored →
        (∀ r ∈ scored.Routes, r.ToTerminal ∈ scored.ActiveTerminals) ∧
        (scored.Routes.map (fun r => r.ToTerminal)).Nodup ∧
        scored.ActiveTerminals = activeTerminals.map (fun t => t.City)) := by
  constructor
  · intro heap ind allTerminals shipments interCityRates intraCityRates distances scored
      hbit h
    obtain ⟨active, hsel, hcase⟩ := ga_level1.CalculateFitness_ok _ _ _ _ _ _ _ _ h
    have hne : active ≠ [] := ga_level1.selectActive_ne_nil allTerminals _ 0 active hsel hbit
    have hroutes := ga_level1.routes_of_groups heap ind allTerminals shipments interCityRates
      intraCityRates distances active scored hsel hne h
    have hact : scored.ActiveTerminals = active.map (fun t => t.City) := by
      rcases hcase with ⟨hnil, _⟩ | ⟨_, lm, lh, _, _, hs⟩
      · exact absurd hnil hne
      · rw [hs]
    have hkeys : scored.Routes.map (fun r => r.ToTerminal) =
        (ga_level1.assignShipments active distances shipments).1.map Prod.fst := by
      rw [hroutes, List.map_map]
      rfl
    have hfilter := ga_level1.selectActive_eq_filter allTerminals _ 0 active hsel
    rw [List.drop_zero] at hfilter
    rw [ga_level1.assignShipments_groups] at hkeys
    refine ⟨?_, ?_, ?_, ?_⟩
    · intro r hr
      rw [hact]
      apply group_keys_active MaxInt active distances
        (shipments.filter (fun s =>
          decide (nearestTerminal MaxInt active distances s.DestinationCity ≠ "")))
        (fun s hs => by simpa using (List.mem_filter.1 hs).2)
      rw [← hkeys]
      exact List.mem_map.2 ⟨r, hr, rfl⟩
    · rw [hkeys]
      exact groupByKey_nodup _ _ [] (by simp)
    · rw [hact, hfilter, List.map_map]
      rfl
    · rw [hact, hfilter]
      exact (zip_filter_sublist allTerminals _).map _
  · intro activeTerminals shipments interCityRates intraCityRates distances scored h
    obtain ⟨hall, hroutes⟩ := ga_level2.routes_of_groups2 _ _ _ _ _ _ h
    obtain ⟨groups, lm, lh, _, _, _, hs⟩ := ga_level2.CalculateFitnessLevel2_ok _ _ _ _ _ _ h
    have hact : scored.ActiveTerminals = activeTerminals.map (fun t => t.City) := by
      rw [hs]
    have hkeys : scored.Routes.map (fun r => r.ToTerminal) =
        (groupByKey (fun s => nearestTerminal MaxInt32 activeTerminals distances
          s.DestinationCity) shipments []).map Prod.fst := by
      rw [hroutes, List.map_map]
      rfl
    refine ⟨?_, ?_, hact⟩
    · intro r hr
      rw [hact]
      apply group_keys_active MaxInt32 activeTerminals distances shipments hall
      rw [← hkeys]
      exact List.mem_map.2 ⟨r, hr, rfl⟩
    · rw [hkeys]
      exact groupByKey_nodup _ _ [] (by simp)

/-- C20 at a concrete input: the level-1 score of the mask `A and B`. -/
theorem routes_use_active_terminals_witness :
    (∀ r ∈ Sample.scoredAB.Routes, r.ToTerminal ∈ Sample.scoredAB.ActiveTerminals) ∧
    (Sample.scoredAB.Routes.map (fun r => r.ToTerminal)).Nodup ∧
    Sample.scoredAB.ActiveTerminals =
      ((Sample.terminals.zip (Sample.heap.read
        ({ TerminalMask := 2 } : ga_level1.Individual).TerminalMask)).filter
          (fun p => p.2)).map (fun p => p.1.City) ∧
    Sample.scoredAB.ActiveTerminals.Sublist (Sample.terminals.map (fun t => t.City)) :=
  routes_use_active_terminals.1 Sample.heap { TerminalMask := 2 } Sample.terminals
    Sample.shipments Sample.interCityRates Sample.intraCityRates Sample.distances
    Sample.scoredAB (by decide) Sample.eval_scoredAB

/-! ## Grouping by delivery day -/

theorem Shipment.Weekday_lt (s : Shipment) : s.Weekday < 7 := by
  unfold models.Shipment.Weekday
  have h1 : 0 ≤ (s.Date + 4) % 7 := Int.emod_nonneg _ (by norm_num)
  have h2 : (s.Date + 4) % 7 < 7 := Int.emod_lt_of_pos _ (by norm_num)
  omega

theorem bucketOf_appendShipment (m : DayBuckets) (c : String) (s : Shipment) (k : String) :
    bucketOf (appendShipment m c s) k =
      if k = c then some ((bucketOf m c).getD [] ++ [s]) else bucketOf m k := by
  induction m with
  | nil =>
    by_cases hk : k = c
    · simp [appendShipment, bucketOf, hk]
    · have hk' : ¬ c = k := fun h => hk h.symm
      simp [appendShipment, bucketOf, hk, hk']
  | cons g rest ih =>
    obtain ⟨c0, l0⟩ := g
    unfold appendShipment
    by_cases h0 : c0 = c
    · subst h0
      by_cases hk : k = c0
      · subst hk
        simp [bucketOf]
      · have hk' : ¬ c0 = k := fun h => hk h.symm
        simp [bucketOf, hk, hk']
    · simp only [h0, if_false]
      by_cases hk0 : c0 = k
      · subst hk0
        simp [bucketOf, h0]
      · have e1 : bucketOf ((c0, l0) :: appendShipment rest c s) k =
            bucketOf (appendShipment rest c s) k := by
          simp [bucketOf, hk0]
        have e2 : bucketOf ((c0, l0) :: rest) k = bucketOf rest k := by
          simp [bucketOf, hk0]
        have e3 : bucketOf ((c0, l0) :: rest) c = bucketOf rest c := by
          simp [bucketOf, h0]
        rw [e1, e2, e3]
        exact ih

/-- The loop that files each shipment under `k1` if `p1` holds, else under `k2` if
`p2` holds: a bucket that exists grows by the shipments filed under its key, in
input order; no other bucket changes. -/
theorem fileLoop_bucket (k1 k2 : String) (p1 p2 : Shipment → Bool)
    (shipments : List Shipment) (m : DayBuckets) (k : String)
    (h1 : (bucketOf m k1).isSome) (h2 : (bucketOf m k2).isSome) :
    bucketOf (shipments.foldl (fun (result : DayBuckets) shipment =>
        if p1 shipment then appendShipment result k1 shipment
        else if p2 shipment then appendShipment result k2 shipment
        else result) m) k =
      (bucketOf m k).map (fun l => l ++ shipments.filter (fun s =>
        (decide (k = k1) && p1 s) || (decide (k = k2) && !p1 s && p2 s))) := by
  induction shipments generalizing m with
  | nil => cases hb : bucketOf m k <;> simp [hb]
  | cons s rest ih =>
    rw [List.foldl_cons]
    by_cases hp1 : p1 s = true
    · simp only [hp1, if_true]
      have hs1 : (bucketOf (appendShipment m k1 s) k1).isSome := by
        rw [bucketOf_appendShipment]; simp
      have hs2 : (bucketOf (appendShipment m k2 s) k2).isSome := by
        rw [bucketOf_appendShipment]; simp
      have hs2' : (bucketOf (appendShipment m k1 s) k2).isSome := by
        rw [bucketOf_appendShipment]
        split
        · simp
        · exact h2
      rw [ih _ hs1 hs2', bucketOf_appendShipment]
      by_cases hk : k = k1
      · subst hk
        obtain ⟨l, hl⟩ := Option.isSome_iff_exists.1 h1
        simp [hl, hp1, List.filter_cons]
      · cases hb : bucketOf m k with
        | none => simp [hk]
        | some l => simp [hk, hp1, List.filter_cons]
    · have hp1' : p1 s = false := by simpa using hp1
      simp only [hp1', Bool.false_eq_true, if_false]
      by_cases hp2 : p2 s = true
      · simp only [hp2, if_true]
        have hs1 : (bucketOf (appendShipment m k2 s) k1).isSome := by
          rw [bucketOf_appendShipment]
          split
          · simp
          · exact h1
        have hs2 : (bucketOf (appendShipment m k2 s) k2).isSome := by
          rw [bucketOf_appendShipment]; simp
        rw [ih _ hs1 hs2, bucketOf_appendShipment]
        by_cases hk : k = k2
        · subst hk
          obtain ⟨l, hl⟩ := Option.isSome_iff_exists.1 h2
          simp [hl, hp1', hp2, List.filter_cons]
        · cases hb : bucketOf m k with
          | none => simp [hk]
          | some l => simp [hk, hp1', hp2, List.filter_cons]
      · have hp2' : p2 s = false := by simpa using hp2
        simp only [hp2', Bool.false_eq_true, if_false]
        rw [ih _ h1 h2]
        cases hb : bucketOf m k with
        | none => simp
        | some l => simp [hp1', hp2', List.filter_cons]

namespace logic

theorem isBetween_eq_cyclic :
    ∀ day < 7, ∀ stop < 7, ∀ start < 8,
      isBetween day start stop = decide (InCyclicRange start stop day) := by
  unfold isBetween InCyclicRange
  decide

theorem DeliveryDayMap_lt (key : String) (d : Nat) (h : DeliveryDayMap key = some d) :
    d < 7 := by
  unfold DeliveryDayMap at h
  split_ifs at h <;> simp at h <;> omega

theorem DeliveryDayMap_isSome_iff (key : String) :
    (DeliveryDayMap key).isSome ↔
      key ∈ ["mon", "tue", "wed", "thu", "fri", "sat", "sun"] := by
  unfold DeliveryDayMap
  simp only [List.mem_cons, List.mem_singleton, List.not_mem_nil, or_false]
  split_ifs <;> simp_all

/-- The buckets of a successful grouping, by the two tests of the loop. -/
theorem GroupShipmentsByDeliveryDay_buckets (shipments : List Shipment) (k1 k2 : String)
    (d1 d2 : Nat) (h1 : DeliveryDayMap k1 = some d1) (h2 : DeliveryDayMap k2 = some d2) :
    ∃ result, GroupShipmentsByDeliveryDay shipments [k1, k2] = .ok result ∧
      ∀ k, bucketOf result k =
        if k = k1 ∨ k = k2 then
          some (shipments.filter (fun s =>
            (decide (k = k1) &&
              isBetween s.Weekday (dayIntervals d1 d2).1 (dayIntervals d1 d2).2.1) ||
            (decide (k = k2) &&
              !isBetween s.Weekday (dayIntervals d1 d2).1 (dayIntervals d1 d2).2.1 &&
              isBetween s.Weekday (dayIntervals d1 d2).2.2.1 (dayIntervals d1 d2).2.2.2)))
        else none := by
  unfold GroupShipmentsByDeliveryDay
  simp only [h1, h2]
  refine ⟨_, rfl, ?_⟩
  intro k
  by_cases h12 : k1 = k2
  · subst h12
    simp only [if_true, or_self]
    rw [fileLoop_bucket k1 k1 _ _ shipments [(k1, [])] k (by simp [bucketOf])
      (by simp [bucketOf])]
    by_cases hk : k = k1
    · subst hk
      simp [bucketOf]
    · have hk' : ¬ k1 = k := fun h => hk h.symm
      simp [bucketOf, hk, hk']
  · simp only [h12, if_false]
    have h21 : ¬ k2 = k1 := fun h => h12 h.symm
    rw [fileLoop_bucket k1 k2 _ _ shipments [(k1, []), (k2, [])] k (by simp [bucketOf])
      (by simp [bucketOf, h12])]
    by_cases hk : k = k1
    · subst hk
      simp [bucketOf]
    · have hk' : ¬ k1 = k := fun h => hk h.symm
      by_cases hk2 : k = k2
      · subst hk2
        simp [bucketOf, hk']
      · have hk2' : ¬ k2 = k := fun h => hk2 h.symm
        simp [bucketOf, hk, hk', hk2, hk2']

/-- C23: for valid day keys `k1`, `k2` in request order, with weekdays `d1`, `d2`
(Sunday = 0 ... Saturday = 6), the grouping succeeds and files a shipment by its
weekday: if `d1 < d2`, under `k1` when the weekday is in the cyclic range
`[Saturday, d1]` and under `k2` when it is in `[d1 + 1, d2]`; otherwise under `k1`
when it is in `[d2 + 1, d1]` and under `k2` when it is in the cyclic range
`[Saturday, d2]`; a weekday in both ranges is filed under `k1`, a weekday in neither
range is filed nowhere, and each bucket holds its shipments in input order. -/
theorem group_by_delivery_day (shipments : List Shipment) (k1 k2 : String) (d1 d2 : Nat)
    (h1 : DeliveryDayMap k1 = some d1) (h2 : DeliveryDayMap k2 = some d2) :
    ∃ result, GroupShipmentsByDeliveryDay shipments [k1, k2] = .ok result ∧
      (d1 < d2 → ∀ k, bucketOf result k =
        if k = k1 ∨ k = k2 then
          some (shipments.filter (fun s => decide (
            (k = k1 ∧ InCyclicRange 6 d1 s.Weekday) ∨
            (k = k2 ∧ ¬ InCyclicRange 6 d1 s.Weekday ∧ InCyclicRange (d1 + 1) d2 s.Weekday))))
        else none) ∧
      (¬ d1 < d2 → ∀ k, bucketOf result k =
        if k = k1 ∨ k = k2 then
          some (shipments.filter (fun s => decide (
            (k = k1 ∧ InCyclicRange (d2 + 1) d1 s.Weekday) ∨
            (k = k2 ∧ ¬ InCyclicRange (d2 + 1) d1 s.Weekday ∧ InCyclicRange 6 d2 s.Weekday))))
        else none) := by
  obtain ⟨result, hres, hb⟩ := GroupShipmentsByDeliveryDay_buckets shipments k1 k2 d1 d2 h1 h2
  have hd1 := DeliveryDayMap_lt k1 d1 h1
  have hd2 := DeliveryDayMap_lt k2 d2 h2
  refine ⟨result, hres, ?_, ?_⟩
  · intro hlt k
    rw [hb k]
    split
    · congr 1
      apply List.filter_congr
      intro s _
      have hw := Shipment.Weekday_lt s
      simp only [dayIntervals, hlt, if_true]
      rw [isBetween_eq_cyclic _ hw _ hd1 6 (by omega),
        isBetween_eq_cyclic _ hw _ hd2 (d1 + 1) (by omega)]
      by_cases a : k = k1 <;> by_cases b : k = k2 <;>
        by_cases c : InCyclicRange 6 d1 s.Weekday <;>
        by_cases d : InCyclicRange (d1 + 1) d2 s.Weekday <;> simp [a, b, c, d]
    · rfl
  · intro hlt k
    rw [hb k]
    split
    · congr 1
      apply List.filter_congr
      intro s _
      have hw := Shipment.Weekday_lt s
      simp only [dayIntervals, hlt, if_false]
      rw [isBetween_eq_cyclic _ hw _ hd1 (d2 + 1) (by omega),
        isBetween_eq_cyclic _ hw _ hd2 6 (by omega)]
      by_cases a : k = k1 <;> by_cases b : k = k2 <;>
        by_cases c : InCyclicRange (d2 + 1) d1 s.Weekday <;>
        by_cases d : InCyclicRange 6 d2 s.Weekday <;> simp [a, b, c, d]
    · rfl

/-- C23 at the spec's input: delivery days `fri`, `tue`. -/
theorem group_by_delivery_day_witness :
    ∃ result, GroupShipmentsByDeliveryDay [Sample.thursdayShipment, Sample.saturdayShipment]
        ["fri", "tue"] = .ok result ∧
      ((5 : Nat) < 2 → ∀ k, bucketOf result k =
        if k = "fri" ∨ k = "tue" then
          some ([Sample.thursdayShipment, Sample.saturdayShipment].filter (fun s => decide (
            (k = "fri" ∧ InCyclicRange 6 5 s.Weekday) ∨
            (k = "tue" ∧ ¬ InCyclicRange 6 5 s.Weekday ∧ InCyclicRange (5 + 1) 2 s.Weekday))))
        else none) ∧
      (¬ (5 : Nat) < 2 → ∀ k, bucketOf result k =
        if k = "fri" ∨ k = "tue" then
          some ([Sample.thursdayShipment, Sample.saturdayShipment].filter (fun s => decide (
            (k = "fri" ∧ InCyclicRange (2 + 1) 5 s.Weekday) ∨
            (k = "tue" ∧ ¬ InCyclicRange (2 + 1) 5 s.Weekday ∧ InCyclicRange 6 2 s.Weekday))))
        else none) :=
  group_by_delivery_day [Sample.thursdayShipment, Sample.saturdayShipment] "fri" "tue" 5 2
    (by decide) (by decide)

/-- The values of the C23 witness: the Thursday shipment is filed under `fri`, the
Saturday shipment under `tue`. -/
theorem group_fri_tue_values :
    Sample.thursdayShipment.Weekday = 4 ∧ Sample.saturdayShipment.Weekday = 6 ∧
    GroupShipmentsByDeliveryDay [Sample.thursdayShipment, Sample.saturdayShipment]
        ["fri", "tue"] =
      .ok [("fri", [Sample.thursdayShipment]), ("tue", [Sample.saturdayShipment])] := by
  decide

end logic

namespace logic

/-- C24: for every shipment list and every pair of distinct valid day keys, the
grouping succeeds with one bucket per key; each bucket is a sublist of the input
(so every element is an input shipment, in input order), no shipment is in both
buckets, and a shipment occurs in the two buckets together at most as often as in
the input. -/
theorem buckets_partition_input (shipments : List Shipment) (k1 k2 : String)
    (hne : k1 ≠ k2)
    (h1 : k1 ∈ ["mon", "tue", "wed", "thu", "fri", "sat", "sun"])
    (h2 : k2 ∈ ["mon", "tue", "wed", "thu", "fri", "sat", "sun"]) :
    ∃ result b1 b2, GroupShipmentsByDeliveryDay shipments [k1, k2] = .ok result ∧
      bucketOf result k1 = some b1 ∧ bucketOf result k2 = some b2 ∧
      b1.Sublist shipments ∧ b2.Sublist shipments ∧
      (∀ s, s ∈ b1 → s ∉ b2) ∧
      (∀ s, b1.count s + b2.count s ≤ shipments.count s) := by
  obtain ⟨d1, hd1⟩ := Option.isSome_iff_exists.1 ((DeliveryDayMap_isSome_iff k1).2 h1)
  obtain ⟨d2, hd2⟩ := Option.isSome_iff_exists.1 ((DeliveryDayMap_isSome_iff k2).2 h2)
  obtain ⟨result, hres, hb⟩ :=
    GroupShipmentsByDeliveryDay_buckets shipments k1 k2 d1 d2 hd1 hd2
  have hne' : ¬ k2 = k1 := fun h => hne h.symm
  have hb1 := hb k1
  have hb2 := hb k2
  simp only [true_or, or_true, if_true, hne, hne', decide_True, decide_False, Bool.true_and,
    Bool.false_and, Bool.or_false, Bool.false_or] at hb1 hb2
  have hdisj : ∀ s,
      s ∈ shipments.filter (fun s =>
        isBetween s.Weekday (dayIntervals d1 d2).1 (dayIntervals d1 d2).2.1) →
      s ∉ shipments.filter (fun s =>
        !isBetween s.Weekday (dayIntervals d1 d2).1 (dayIntervals d1 d2).2.1 &&
          isBetween s.Weekday (dayIntervals d1 d2).2.2.1 (dayIntervals d1 d2).2.2.2) := by
    intro s hs1 hs2
    have p1 := (List.mem_filter.1 hs1).2
    have p2 := (List.mem_filter.1 hs2).2
    simp [p1] at p2
  refine ⟨result, _, _, hres, hb1, hb2, List.filter_sublist _, List.filter_sublist _,
    hdisj, ?_⟩
  intro s
  by_cases hs : s ∈ shipments.filter (fun s =>
      isBetween s.Weekday (dayIntervals d1 d2).1 (dayIntervals d1 d2).2.1)
  · rw [List.count_eq_zero_of_not_mem (hdisj s hs), Nat.add_zero]
    exact (List.filter_sublist _).count_le s
  · rw [List.count_eq_zero_of_not_mem hs, Nat.zero_add]
    exact (List.filter_sublist _).count_le s

/-- C24 at a concrete input: delivery days `fri`, `tue`. -/
theorem buckets_partition_input_witness :
    ∃ result b1 b2,
      GroupShipmentsByDeliveryDay [Sample.thursdayShipment, Sample.saturdayShipment]
        ["fri", "tue"] = .ok result ∧
      bucketOf result "fri" = some b1 ∧ bucketOf result "tue" = some b2 ∧
      b1.Sublist [Sample.thursdayShipment, Sample.saturdayShipment] ∧
      b2.Sublist [Sample.thursdayShipment, Sample.saturdayShipment] ∧
      (∀ s, s ∈ b1 → s ∉ b2) ∧
      (∀ s, b1.count s + b2.count s ≤
        [Sample.thursdayShipment, Sample.saturdayShipment].count s) :=
  buckets_partition_input [Sample.thursdayShipment, Sample.saturdayShipment] "fri" "tue"
    (by decide) (by decide) (by decide)

/-- C25: `GroupShipmentsByDeliveryDay` returns an error if and only if the number of
day keys is not exactly 2 or some key is not one of `mon`, `tue`, `wed`, `thu`, `fri`,
`sat`, `sun`; on success the result has a bucket, possibly empty, for each supplied
key. -/
theorem group_error_iff (shipments : List Shipment) (deliveryDays : List String) :
    ((∃ e, GroupShipmentsByDeliveryDay shipments deliveryDays = .error e) ↔
      (deliveryDays.length ≠ 2 ∨
        ∃ k ∈ deliveryDays, k ∉ ["mon", "tue", "wed", "thu", "fri", "sat", "sun"])) ∧
    (∀ result, GroupShipmentsByDeliveryDay shipments deliveryDays = .ok result →
      ∀ k ∈ deliveryDays, ∃ b, bucketOf result k = some b) := by
  match deliveryDays with
  | [] => exact ⟨⟨fun _ => Or.inl (by simp), fun _ => ⟨_, rfl⟩⟩, fun _ h => by cases h⟩
  | [_] => exact ⟨⟨fun _ => Or.inl (by simp), fun _ => ⟨_, rfl⟩⟩, fun _ h => by cases h⟩
  | _ :: _ :: _ :: _ =>
    exact ⟨⟨fun _ => Or.inl (by simp), fun _ => ⟨_, rfl⟩⟩, fun _ h => by cases h⟩
  | [k1, k2] =>
    cases hd1 : DeliveryDayMap k1 with
    | none =>
      have hk1 : k1 ∉ ["mon", "tue", "wed", "thu", "fri", "sat", "sun"] := by
        intro h
        have := (DeliveryDayMap_isSome_iff k1).2 h
        rw [hd1] at this
        cases this
      have herr : GroupShipmentsByDeliveryDay shipments [k1, k2] =
          .error (.invalidDeliveryDays [k1, k2]) := by
        unfold GroupShipmentsByDeliveryDay
        simp only [hd1]
      rw [herr]
      exact ⟨⟨fun _ => Or.inr ⟨k1, by simp, hk1⟩, fun _ => ⟨_, rfl⟩⟩, fun _ h => by cases h⟩
    | some d1 =>
      cases hd2 : DeliveryDayMap k2 with
      | none =>
        have hk2 : k2 ∉ ["mon", "tue", "wed", "thu", "fri", "sat", "sun"] := by
          intro h
          have := (DeliveryDayMap_isSome_iff k2).2 h
          rw [hd2] at this
          cases this
        have herr : GroupShipmentsByDeliveryDay shipments [k1, k2] =
            .error (.invalidDeliveryDays [k1, k2]) := by
          unfold GroupShipmentsByDeliveryDay
          simp only [hd1, hd2]
        rw [herr]
        exact ⟨⟨fun _ => Or.inr ⟨k2, by simp, hk2⟩, fun _ => ⟨_, rfl⟩⟩,
          fun _ h => by cases h⟩
      | some d2 =>
        obtain ⟨result, hres, hb⟩ :=
          GroupShipmentsByDeliveryDay_buckets shipments k1 k2 d1 d2 hd1 hd2
        have hv1 := (DeliveryDayMap_isSome_iff k1).1 (by rw [hd1]; rfl)
        have hv2 := (DeliveryDayMap_isSome_iff k2).1 (by rw [hd2]; rfl)
        rw [hres]
        refine ⟨⟨?_, ?_⟩, ?_⟩
        · rintro ⟨e, he⟩
          cases he
        · rintro (hlen | ⟨k, hk, hbad⟩)
          · simp at hlen
          · simp only [List.mem_cons, List.mem_singleton, List.not_mem_nil, or_false] at hk
            rcases hk with hk | hk
            · rw [hk] at hbad; exact absurd hv1 hbad
            · rw [hk] at hbad; exact absurd hv2 hbad
        · intro result' hr k hk
          simp only [Except.ok.injEq] at hr
          subst hr
          simp only [List.mem_cons, List.mem_singleton, List.not_mem_nil, or_false] at hk
          have := hb k
          rw [if_pos hk] at this
          exact ⟨_, this⟩

/-- C25 at concrete inputs: one key, an unknown key, and two valid keys. -/
theorem group_error_iff_witness :
    (∃ e, GroupShipmentsByDeliveryDay [Sample.thursdayShipment] ["mon"] = .error e) ∧
    (∃ e, GroupShipmentsByDeliveryDay [Sample.thursdayShipment] ["mon", "Tue"] = .error e) ∧
    (∀ result, GroupShipmentsByDeliveryDay [Sample.thursdayShipment] ["mon", "tue"] =
        .ok result → ∀ k ∈ ["mon", "tue"], ∃ b, bucketOf result k = some b) :=
  ⟨(group_error_iff [Sample.thursdayShipment] ["mon"]).1.2 (Or.inl (by decide)),
   (group_error_iff [Sample.thursdayShipment] ["mon", "Tue"]).1.2
      (Or.inr ⟨"Tue", by decide, by decide⟩),
   (group_error_iff [Sample.thursdayShipment] ["mon", "tue"]).2⟩

/-- The values of the C25 witness: the two errors, and the two buckets of the valid
call, both empty because a Thursday is in neither range of `mon`, `tue`. -/
theorem group_error_values :
    GroupShipmentsByDeliveryDay [Sample.thursdayShipment] ["mon"] =
      .error (.wrongDayCount 1) ∧
    GroupShipmentsByDeliveryDay [Sample.thursdayShipment] ["mon", "Tue"] =
      .error (.invalidDeliveryDays ["mon", "Tue"]) ∧
    GroupShipmentsByDeliveryDay [Sample.thursdayShipment] ["mon", "tue"] =
      .ok [("mon", []), ("tue", [])] ∧
    GroupShipmentsByDeliveryDay [Sample.thursdayShipment] ["mon", "mon"] =
      .ok [("mon", [Sample.thursdayShipment])] := by
  decide

end logic

/-! ## Request validation -/

namespace validation

open errors

theorem ValidateOptimizeRequest_eq (req : proto.OptimizeRequest) :
    ValidateOptimizeRequest (some req) =
      if validateDirection req.Direction ++ validateDeliveryDays req.DeliveryDays ++
          validateSettingsField req.GaSettingsLevel_1 = [] then none
      else some { Status := 400, Message := "invalid request parameters",
                  Details := validateDirection req.Direction ++
                    validateDeliveryDays req.DeliveryDays ++
                    validateSettingsField req.GaSettingsLevel_1 } := by
  unfold ValidateOptimizeRequest
  simp only []
  cases h : validateDirection req.Direction ++ validateDeliveryDays req.DeliveryDays ++
      validateSettingsField req.GaSettingsLevel_1 with
  | nil => simp
  | cons d rest => simp [NewErrInvalidArgumentWithDetails]

theorem sample_request_valid : ValidateOptimizeRequest (some Sample.request) = none := by
  decide

end validation

namespace validation

open errors

theorem TrimSpace_empty : TrimSpace "" = "" := by decide

theorem ToLower_empty : ToLower "" = "" := by decide

/-- The day loop only adds details. -/
theorem validateDayLoop_prefix (days : List String) (i : Nat) (seen : List String)
    (errs : List ErrorDetail) :
    ∃ more, validateDayLoop days i seen errs = errs ++ more := by
  induction days generalizing i seen errs with
  | nil => exact ⟨[], by simp [validateDayLoop]⟩
  | cons day rest ih =>
    unfold validateDayLoop
    simp only []
    by_cases h0 : TrimSpace day = ""
    · simp only [h0, if_true]
      obtain ⟨more, hm⟩ := ih (i + 1) seen
        (errs ++ [{ Field := "delivery_days[" ++ toString i ++ "]", Message := .dayEmpty }])
      exact ⟨_, by rw [hm, List.append_assoc]⟩
    · simp only [h0, if_false]
      by_cases ha : ToLower (TrimSpace day) ∈ AllowedDays
      · simp only [ha, not_true_eq_false, if_false]
        by_cases hs : ToLower (TrimSpace day) ∈ seen
        · simp only [hs, if_true]
          obtain ⟨more, hm⟩ := ih (i + 1) (ToLower (TrimSpace day) :: seen)
            (errs ++ [{ Field := "delivery_days[" ++ toString i ++ "]",
                        Message := .duplicateDay day }])
          exact ⟨_, by rw [hm, List.append_assoc]⟩
        · simp only [hs, if_false]
          exact ih _ _ _
      · simp only [ha, not_false_eq_true, if_true]
        obtain ⟨more, hm⟩ := ih (i + 1) (ToLower (TrimSpace day) :: seen)
          (errs ++ [{ Field := "delivery_days[" ++ toString i ++ "]",
                      Message := .invalidDay day }])
        exact ⟨_, by rw [hm, List.append_assoc]⟩

theorem validateDayLoop_ne_nil (days : List String) (i : Nat) (seen : List String)
    (errs : List ErrorDetail) (h : errs ≠ []) : validateDayLoop days i seen errs ≠ [] := by
  obtain ⟨more, hm⟩ := validateDayLoop_prefix days i seen errs
  rw [hm]
  intro hnil
  exact h (List.append_eq_nil.1 hnil).1

/-- The delivery-day details of a two-day request are empty exactly when both days,
trimmed and lower-cased, are allowed keys and differ. -/
theorem validateDeliveryDays_two (a b : String) :
    validateDeliveryDays [a, b] = [] ↔
      (ToLower (TrimSpace a) ∈ AllowedDays ∧ ToLower (TrimSpace b) ∈ AllowedDays ∧
        ToLower (TrimSpace a) ≠ ToLower (TrimSpace b)) := by
  have hempty : ∀ d : String, ToLower (TrimSpace d) ∈ AllowedDays → TrimSpace d ≠ "" := by
    intro d hd h0
    rw [h0, ToLower_empty] at hd
    revert hd
    decide
  have hval : validateDeliveryDays [a, b] = validateDayLoop [a, b] 0 [] [] := by
    simp [validateDeliveryDays]
  rw [hval]
  constructor
  · intro h
    unfold validateDayLoop at h
    simp only [] at h
    by_cases ha0 : TrimSpace a = ""
    · simp only [ha0, if_true] at h
      exact absurd h (validateDayLoop_ne_nil _ _ _ _ (by simp))
    · simp only [ha0, if_false] at h
      by_cases ha : ToLower (TrimSpace a) ∈ AllowedDays
      · simp only [ha, not_true_eq_false, if_false, List.not_mem_nil] at h
        unfold validateDayLoop at h
        simp only [] at h
        by_cases hb0 : TrimSpace b = ""
        · simp only [hb0, if_true] at h
          exact absurd h (validateDayLoop_ne_nil _ _ _ _ (by simp))
        · simp only [hb0, if_false] at h
          by_cases hb : ToLower (TrimSpace b) ∈ AllowedDays
          · simp only [hb, not_true_eq_false, if_false] at h
            by_cases hab : ToLower (TrimSpace b) ∈ [ToLower (TrimSpace a)]
            · simp only [hab, if_true] at h
              exact absurd h (validateDayLoop_ne_nil _ _ _ _ (by simp))
            · refine ⟨ha, hb, fun heq => hab ?_⟩
              rw [heq]
              exact List.mem_singleton_self _
          · simp only [hb, not_false_eq_true, if_true] at h
            exact absurd h (validateDayLoop_ne_nil _ _ _ _ (by simp))
      · simp only [ha, not_false_eq_true, if_true] at h
        exact absurd h (validateDayLoop_ne_nil _ _ _ _ (by simp))
  · rintro ⟨ha, hb, hab⟩
    have ha0 := hempty a ha
    have hb0 := hempty b hb
    have hab' : ¬ ToLower (TrimSpace b) = ToLower (TrimSpace a) := fun h => hab h.symm
    simp [validateDayLoop, ha0, hb0, ha, hb, hab']

/-- The details of the day loop keep the details so far and add details whose field
is `delivery_days[j]` for an index `j` of the loop. -/
theorem validateDayLoop_fields (days : List String) (i : Nat) (seen : List String)
    (errs : List ErrorDetail) (d : ErrorDetail)
    (hd : d ∈ validateDayLoop days i seen errs) :
    d ∈ errs ∨ ∃ j, i ≤ j ∧ j < i + days.length ∧
      d.Field = "delivery_days[" ++ toString j ++ "]" := by
  induction days generalizing i seen errs with
  | nil => exact Or.inl hd
  | cons day rest ih =>
    unfold validateDayLoop at hd
    simp only [] at hd
    have step : ∀ (seen' : List String) (m : DetailMessage),
        d ∈ validateDayLoop rest (i + 1) seen'
          (errs ++ [{ Field := "delivery_days[" ++ toString i ++ "]", Message := m }]) →
        d ∈ errs ∨ ∃ j, i ≤ j ∧ j < i + (day :: rest).length ∧
          d.Field = "delivery_days[" ++ toString j ++ "]" := by
      intro seen' m h
      rcases ih _ _ _ h with h' | ⟨j, hj1, hj2, hj3⟩
      · rcases List.mem_append.1 h' with h'' | h''
        · exact Or.inl h''
        · right
          refine ⟨i, le_refl _, by simp, ?_⟩
          rw [List.mem_singleton.1 h'']
      · exact Or.inr ⟨j, by omega, by simp only [List.length_cons]; omega, hj3⟩
    by_cases h0 : TrimSpace day = ""
    · simp only [h0, if_true] at hd
      exact step _ _ hd
    · simp only [h0, if_false] at hd
      by_cases ha : ToLower (TrimSpace day) ∈ AllowedDays
      · simp only [ha, not_true_eq_false, if_false] at hd
        by_cases hs : ToLower (TrimSpace day) ∈ seen
        · simp only [hs, if_true] at hd
          exact step _ _ hd
        · simp only [hs, if_false] at hd
          rcases ih _ _ _ hd with h' | ⟨j, hj1, hj2, hj3⟩
          · exact Or.inl h'
          · exact Or.inr ⟨j, by omega, by simp only [List.length_cons]; omega, hj3⟩
      · simp only [ha, not_false_eq_true, if_true] at hd
        exact step _ _ hd

/-- Every delivery-day detail names `delivery_days` or one of its two entries. -/
theorem validateDeliveryDays_fields (days : List String) (d : ErrorDetail)
    (hd : d ∈ validateDeliveryDays days) :
    d.Field ∈ ["delivery_days", "delivery_days[0]", "delivery_days[1]"] := by
  unfold validateDeliveryDays at hd
  split_ifs at hd with h0 h2
  · rw [List.mem_singleton.1 hd]
    simp
  · rw [List.mem_singleton.1 hd]
    simp
  · have hlen : days.length = 2 := by
      by_contra h
      exact h2 h
    rcases validateDayLoop_fields days 0 [] [] d hd with h | ⟨j, _, hj, hf⟩
    · cases h
    · rw [hf]
      rw [hlen] at hj
      have : j = 0 ∨ j = 1 := by omega
      rcases this with rfl | rfl <;> decide

/-- A detail of any of the three steps makes the request fail with status 400 and
that detail. -/
theorem ValidateOptimizeRequest_of_detail (req : proto.OptimizeRequest) (d : ErrorDetail)
    (hd : d ∈ validateDirection req.Direction ++ validateDeliveryDays req.DeliveryDays ++
      validateSettingsField req.GaSettingsLevel_1) :
    ∃ resp, ValidateOptimizeRequest (some req) = some resp ∧ resp.Status = 400 ∧
      d ∈ resp.Details := by
  rw [ValidateOptimizeRequest_eq]
  have hne : validateDirection req.Direction ++ validateDeliveryDays req.DeliveryDays ++
      validateSettingsField req.GaSettingsLevel_1 ≠ [] := by
    intro h
    rw [h] at hd
    cases hd
  rw [if_neg hne]
  exact ⟨_, rfl, rfl, hd⟩

theorem lowercase_keys_pass :
    ∀ a ∈ AllowedDays, ∀ b ∈ AllowedDays, a ≠ b → validateDeliveryDays [a, b] = [] := by
  decide

/-- C26 (amended): `ValidateOptimizeRequest` accepts a request only if
`delivery_days` has exactly two entries each of which, after trimming white space
and lower-casing, is one of the keys `mon`, `tue`, `wed`, `thu`, `fri`, `sat`, `sun`,
the two normalised entries being different; every other `delivery_days` value is
rejected with status 400 and a detail whose field is `delivery_days` or
`delivery_days[i]`.  Two different lowercase keys pass the `delivery_days` check. -/
theorem delivery_days_validation (req : proto.OptimizeRequest) :
    (ValidateOptimizeRequest (some req) = none →
      ∃ a b, req.DeliveryDays = [a, b] ∧
        ToLower (TrimSpace a) ∈ AllowedDays ∧ ToLower (TrimSpace b) ∈ AllowedDays ∧
        ToLower (TrimSpace a) ≠ ToLower (TrimSpace b)) ∧
    ((¬ ∃ a b, req.DeliveryDays = [a, b] ∧
        ToLower (TrimSpace a) ∈ AllowedDays ∧ ToLower (TrimSpace b) ∈ AllowedDays ∧
        ToLower (TrimSpace a) ≠ ToLower (TrimSpace b)) →
      ∃ resp, ValidateOptimizeRequest (some req) = some resp ∧ resp.Status = 400 ∧
        ∃ d ∈ resp.Details,
          d.Field ∈ ["delivery_days", "delivery_days[0]", "delivery_days[1]"]) ∧
    (∀ a ∈ AllowedDays, ∀ b ∈ AllowedDays, a ≠ b → validateDeliveryDays [a, b] = []) := by
  have key : validateDeliveryDays req.DeliveryDays = [] →
      ∃ a b, req.DeliveryDays = [a, b] ∧
        ToLower (TrimSpace a) ∈ AllowedDays ∧ ToLower (TrimSpace b) ∈ AllowedDays ∧
        ToLower (TrimSpace a) ≠ ToLower (TrimSpace b) := by
    intro h
    match hdays : req.DeliveryDays with
    | [] => rw [hdays] at h; simp [validateDeliveryDays] at h
    | [_] => rw [hdays] at h; simp [validateDeliveryDays] at h
    | _ :: _ :: _ :: _ => rw [hdays] at h; simp [validateDeliveryDays] at h
    | [a, b] =>
      rw [hdays] at h
      exact ⟨a, b, rfl, (validateDeliveryDays_two a b).1 h⟩
  refine ⟨?_, ?_, lowercase_keys_pass⟩
  · intro h
    rw [ValidateOptimizeRequest_eq] at h
    split at h
    · rename_i hnil
      apply key
      have := List.append_eq_nil.1 hnil
      exact (List.append_eq_nil.1 this.1).2
    · cases h
  · intro hbad
    have hne : validateDeliveryDays req.DeliveryDays ≠ [] := fun h => hbad (key h)
    obtain ⟨d, hd⟩ := List.exists_mem_of_ne_nil _ hne
    obtain ⟨resp, hresp, hstatus, hmem⟩ := ValidateOptimizeRequest_of_detail req d
      (List.mem_append_left _ (List.mem_append_right _ hd))
    exact ⟨resp, hresp, hstatus, d, hmem, validateDeliveryDays_fields _ d hd⟩

/-- C26 (amended) at a concrete input: three delivery days are rejected. -/
theorem delivery_days_validation_witness :
    ∃ resp, ValidateOptimizeRequest (some { Sample.request with
        DeliveryDays := ["mon", "tue", "wed"] }) = some resp ∧ resp.Status = 400 ∧
      ∃ d ∈ resp.Details,
        d.Field ∈ ["delivery_days", "delivery_days[0]", "delivery_days[1]"] :=
  (delivery_days_validation { Sample.request with DeliveryDays := ["mon", "tue", "wed"] }).2.1
    (by
      rintro ⟨a, b, h, _⟩
      simp [Sample.request] at h)

/-- C26 as stated fails: the request with `delivery_days = ["MON", "tue"]` is
accepted although `MON` is not one of the lowercase keys (and the grouping step that
follows rejects it). -/
theorem delivery_days_validation_counterexample :
    ValidateOptimizeRequest (some { Sample.request with DeliveryDays := ["MON", "tue"] }) =
      none ∧
    ¬ "MON" ∈ ["mon", "tue", "wed", "thu", "fri", "sat", "sun"] ∧
    logic.GroupShipmentsByDeliveryDay [] ["MON", "tue"] =
      .error (.invalidDeliveryDays ["MON", "tue"]) := by
  decide

end validation

namespace validation

open errors

theorem mem_keep {α : Type} (c : Prop) [Decidable c] (errs : List α) (d x : α)
    (h : x ∈ errs) : x ∈ (if c then errs ++ [d] else errs) := by
  split
  · exact List.mem_append_left _ h
  · exact h

theorem mem_keep2 {α : Type} (c1 c2 : Prop) [Decidable c1] [Decidable c2] (errs : List α)
    (d1 d2 x : α) (h : x ∈ errs) :
    x ∈ (if c1 then errs ++ [d1] else if c2 then errs ++ [d2] else errs) := by
  split
  · exact List.mem_append_left _ h
  · split
    · exact List.mem_append_left _ h
    · exact h

theorem mem_add {α : Type} (c : Prop) [Decidable c] (errs : List α) (d : α) (h : c) :
    d ∈ (if c then errs ++ [d] else errs) := by
  rw [if_pos h]
  exact List.mem_append_right _ (List.mem_singleton_self _)

theorem mem_add2 {α : Type} (c1 c2 : Prop) [Decidable c1] [Decidable c2] (errs : List α)
    (d1 d2 : α) (h : c1 ∨ c2) :
    d1 ∈ (if c1 then errs ++ [d1] else if c2 then errs ++ [d2] else errs) ∨
    d2 ∈ (if c1 then errs ++ [d1] else if c2 then errs ++ [d2] else errs) := by
  by_cases h1 : c1
  · left
    rw [if_pos h1]
    exact List.mem_append_right _ (List.mem_singleton_self _)
  · right
    have h2 : c2 := h.resolve_left h1
    rw [if_neg h1, if_pos h2]
    exact List.mem_append_right _ (List.mem_singleton_self _)

/-- The details `validateGASettings` returns, field by field. -/
theorem validateGASettings_mem (g : proto.GASettings) (pfx : String) :
    (g.NumGenerations = 0 →
      ({ Field := pfx ++ ".num_generations", Message := .mustBePositive } : ErrorDetail) ∈
        validateGASettings g pfx) ∧
    (g.NumIndividuals = 0 →
      ({ Field := pfx ++ ".num_individuals", Message := .mustBePositive } : ErrorDetail) ∈
        validateGASettings g pfx) ∧
    (g.StoppingCriterion = 0 →
      ({ Field := pfx ++ ".stopping_criterion", Message := .mustBePositive } : ErrorDetail) ∈
        validateGASettings g pfx) ∧
    (¬ g.SelectionType ∈ AllowedSelectionTypes →
      ∃ m, ({ Field := pfx ++ ".selection_type", Message := m } : ErrorDetail) ∈
        validateGASettings g pfx) ∧
    (¬ g.CrossoverType ∈ AllowedCrossoverTypes →
      ∃ m, ({ Field := pfx ++ ".crossover_type", Message := m } : ErrorDetail) ∈
        validateGASettings g pfx) ∧
    (¬ g.MutationType ∈ AllowedMutationTypes →
      ∃ m, ({ Field := pfx ++ ".mutation_type", Message := m } : ErrorDetail) ∈
        validateGASettings g pfx) := by
  unfold validateGASettings
  simp only []
  refine ⟨?_, ?_, ?_, ?_, ?_, ?_⟩
  · intro h
    apply mem_keep2; apply mem_keep2; apply mem_keep2; apply mem_keep; apply mem_keep
    apply mem_add
    omega
  · intro h
    apply mem_keep2; apply mem_keep2; apply mem_keep2; apply mem_keep
    apply mem_add
    omega
  · intro h
    apply mem_keep2; apply mem_keep2; apply mem_keep2
    apply mem_add
    omega
  · intro h
    rcases mem_add2 (g.SelectionType = .SELECTION_UNSPECIFIED)
        (¬ g.SelectionType ∈ AllowedSelectionTypes) _
        ({ Field := pfx ++ ".selection_type", Message := .enumRequired } : ErrorDetail)
        ({ Field := pfx ++ ".selection_type", Message := .enumInvalid } : ErrorDetail)
        (Or.inr h) with hm | hm
    · exact ⟨_, mem_keep2 _ _ _ _ _ _ (mem_keep2 _ _ _ _ _ _ hm)⟩
    · exact ⟨_, mem_keep2 _ _ _ _ _ _ (mem_keep2 _ _ _ _ _ _ hm)⟩
  · intro h
    rcases mem_add2 (g.CrossoverType = .CROSSOVER_UNSPECIFIED)
        (¬ g.CrossoverType ∈ AllowedCrossoverTypes) _
        ({ Field := pfx ++ ".crossover_type", Message := .enumRequired } : ErrorDetail)
        ({ Field := pfx ++ ".crossover_type", Message := .enumInvalid } : ErrorDetail)
        (Or.inr h) with hm | hm
    · exact ⟨_, mem_keep2 _ _ _ _ _ _ hm⟩
    · exact ⟨_, mem_keep2 _ _ _ _ _ _ hm⟩
  · intro h
    rcases mem_add2 (g.MutationType = .MUTATION_UNSPECIFIED)
        (¬ g.MutationType ∈ AllowedMutationTypes) _
        ({ Field := pfx ++ ".mutation_type", Message := .enumRequired } : ErrorDetail)
        ({ Field := pfx ++ ".mutation_type", Message := .enumInvalid } : ErrorDetail)
        (Or.inr h) with hm | hm
    · exact ⟨_, hm⟩
    · exact ⟨_, hm⟩

theorem validateGASettings_nil (g : proto.GASettings) (pfx : String)
    (h1 : 0 < g.NumGenerations) (h2 : 0 < g.NumIndividuals) (h3 : 0 < g.StoppingCriterion)
    (h4 : g.SelectionType ∈ AllowedSelectionTypes)
    (h5 : g.CrossoverType ∈ AllowedCrossoverTypes)
    (h6 : g.MutationType ∈ AllowedMutationTypes) :
    validateGASettings g pfx = [] := by
  have e1 : ¬ g.NumGenerations ≤ 0 := by omega
  have e2 : ¬ g.NumIndividuals ≤ 0 := by omega
  have e3 : ¬ g.StoppingCriterion ≤ 0 := by omega
  have e4 : g.SelectionType ≠ .SELECTION_UNSPECIFIED := by
    intro h; rw [h] at h4; revert h4; decide
  have e5 : g.CrossoverType ≠ .CROSSOVER_UNSPECIFIED := by
    intro h; rw [h] at h5; revert h5; decide
  have e6 : g.MutationType ≠ .MUTATION_UNSPECIFIED := by
    intro h; rw [h] at h6; revert h6; decide
  unfold validateGASettings
  simp only [e1, e2, e3, e4, e5, e6, h4, h5, h6, if_false, not_true_eq_false]

/-- C27: `ValidateOptimizeRequest` rejects, with status 400 and a detail naming the
offending field, every request whose `direction` is non-empty and not one of the
four allowed directions, whose `ga_settings_level_1` is missing, one of whose
`num_generations`, `num_individuals`, `stopping_criterion` is 0, or one of whose
`selection_type`, `crossover_type`, `mutation_type` is unspecified or outside its
allowed set; a request with none of these faults whose `delivery_days` are two
different lowercase day keys is accepted (nil error). -/
theorem request_validation (req : proto.OptimizeRequest) :
    (req.Direction ≠ "" → ¬ req.Direction ∈ ["Восток", "Северо-Запад", "Юг", "Волга"] →
      ∃ resp, ValidateOptimizeRequest (some req) = some resp ∧ resp.Status = 400 ∧
        ∃ d ∈ resp.Details, d.Field = "direction") ∧
    (req.GaSettingsLevel_1 = none →
      ∃ resp, ValidateOptimizeRequest (some req) = some resp ∧ resp.Status = 400 ∧
        ∃ d ∈ resp.Details, d.Field = "ga_settings_level_1") ∧
    (∀ g, req.GaSettingsLevel_1 = some g →
      (g.NumGenerations = 0 →
        ∃ resp, ValidateOptimizeRequest (some req) = some resp ∧ resp.Status = 400 ∧
          ∃ d ∈ resp.Details, d.Field = "ga_settings_level_1.num_generations") ∧
      (g.NumIndividuals = 0 →
        ∃ resp, ValidateOptimizeRequest (some req) = some resp ∧ resp.Status = 400 ∧
          ∃ d ∈ resp.Details, d.Field = "ga_settings_level_1.num_individuals") ∧
      (g.StoppingCriterion = 0 →
        ∃ resp, ValidateOptimizeRequest (some req) = some resp ∧ resp.Status = 400 ∧
          ∃ d ∈ resp.Details, d.Field = "ga_settings_level_1.stopping_criterion") ∧
      (¬ g.SelectionType ∈
          [.SELECTION_TOURNAMENT, .SELECTION_ROULETTE, .SELECTION_RANK] →
        ∃ resp, ValidateOptimizeRequest (some req) = some resp ∧ resp.Status = 400 ∧
          ∃ d ∈ resp.Details, d.Field = "ga_settings_level_1.selection_type") ∧
      (¬ g.CrossoverType ∈
          [.CROSSOVER_UNIFORM, .CROSSOVER_SINGLE_POINT, .CROSSOVER_TWO_POINT] →
        ∃ resp, ValidateOptimizeRequest (some req) = some resp ∧ resp.Status = 400 ∧
          ∃ d ∈ resp.Details, d.Field = "ga_settings_level_1.crossover_type") ∧
      (¬ g.MutationType ∈ [.MUTATION_INVERSION, .MUTATION_SWAP] →
        ∃ resp, ValidateOptimizeRequest (some req) = some resp ∧ resp.Status = 400 ∧
          ∃ d ∈ resp.Details, d.Field = "ga_settings_level_1.mutation_type")) ∧
    ((req.Direction = "" ∨ req.Direction ∈ ["Восток", "Северо-Запад", "Юг", "Волга"]) →
      (∃ a b, req.DeliveryDays = [a, b] ∧ a ≠ b ∧
        a ∈ ["mon", "tue", "wed", "thu", "fri", "sat", "sun"] ∧
        b ∈ ["mon", "tue", "wed", "thu", "fri", "sat", "sun"]) →
      (∃ g, req.GaSettingsLevel_1 = some g ∧
        0 < g.NumGenerations ∧ 0 < g.NumIndividuals ∧ 0 < g.StoppingCriterion ∧
        g.SelectionType ∈ [.SELECTION_TOURNAMENT, .SELECTION_ROULETTE, .SELECTION_RANK] ∧
        g.CrossoverType ∈
          [.CROSSOVER_UNIFORM, .CROSSOVER_SINGLE_POINT, .CROSSOVER_TWO_POINT] ∧
        g.MutationType ∈ [.MUTATION_INVERSION, .MUTATION_SWAP]) →
      ValidateOptimizeRequest (some req) = none) := by
  have fromDetail : ∀ (d : ErrorDetail) (field : String), d.Field = field →
      d ∈ validateDirection req.Direction ++ validateDeliveryDays req.DeliveryDays ++
        validateSettingsField req.GaSettingsLevel_1 →
      ∃ resp, ValidateOptimizeRequest (some req) = some resp ∧ resp.Status = 400 ∧
        ∃ d ∈ resp.Details, d.Field = field := by
    intro d field hf hd
    obtain ⟨resp, h1, h2, h3⟩ := ValidateOptimizeRequest_of_detail req d hd
    exact ⟨resp, h1, h2, d, h3, hf⟩
  refine ⟨?_, ?_, ?_, ?_⟩
  · intro hne hbad
    apply fromDetail { Field := "direction", Message := .valueNotAllowed req.Direction } _ rfl
    apply List.mem_append_left
    apply List.mem_append_left
    have hbad' : ¬ req.Direction ∈ AllowedDirections := hbad
    simp [validateDirection, hne, hbad']
  · intro hnone
    apply fromDetail { Field := "ga_settings_level_1", Message := .fieldRequired } _ rfl
    apply List.mem_append_right
    rw [hnone]
    simp [validateSettingsField]
  · intro g hg
    have hfield : validateSettingsField req.GaSettingsLevel_1 =
        validateGASettings g "ga_settings_level_1" := by
      rw [hg]
      rfl
    obtain ⟨m1, m2, m3, m4, m5, m6⟩ := validateGASettings_mem g "ga_settings_level_1"
    refine ⟨?_, ?_, ?_, ?_, ?_, ?_⟩
    · intro h
      exact fromDetail _ _ rfl (List.mem_append_right _ (by rw [hfield]; exact m1 h))
    · intro h
      exact fromDetail _ _ rfl (List.mem_append_right _ (by rw [hfield]; exact m2 h))
    · intro h
      exact fromDetail _ _ rfl (List.mem_append_right _ (by rw [hfield]; exact m3 h))
    · intro h
      obtain ⟨m, hm⟩ := m4 h
      exact fromDetail _ _ rfl (List.mem_append_right _ (by rw [hfield]; exact hm))
    · intro h
      obtain ⟨m, hm⟩ := m5 h
      exact fromDetail _ _ rfl (List.mem_append_right _ (by rw [hfield]; exact hm))
    · intro h
      obtain ⟨m, hm⟩ := m6 h
      exact fromDetail _ _ rfl (List.mem_append_right _ (by rw [hfield]; exact hm))
  · rintro hdir ⟨a, b, hdays, hab, ha, hb⟩ ⟨g, hg, h1, h2, h3, h4, h5, h6⟩
    have e1 : validateDirection req.Direction = [] := by
      unfold validateDirection
      rcases hdir with h | h
      · simp [h]
      · have h' : req.Direction ∈ AllowedDirections := h
        simp [h']
    have e2 : validateDeliveryDays req.DeliveryDays = [] := by
      rw [hdays]
      exact lowercase_keys_pass a ha b hb hab
    have e3 : validateSettingsField req.GaSettingsLevel_1 = [] := by
      rw [hg]
      exact validateGASettings_nil g _ h1 h2 h3 h4 h5 h6
    rw [ValidateOptimizeRequest_eq, e1, e2, e3]
    rfl

/-- C27 at concrete inputs: an unknown direction is rejected; a crossover type
outside the declared values is rejected; the sample request is accepted. -/
theorem request_validation_witness :
    (∃ resp, ValidateOptimizeRequest (some { Sample.request with Direction := "Север" }) =
        some resp ∧ resp.Status = 400 ∧ ∃ d ∈ resp.Details, d.Field = "direction") ∧
    (∃ resp, ValidateOptimizeRequest (some { Sample.request with
          GaSettingsLevel_1 := some { Sample.settingsMinimal with
            CrossoverType := .UNRECOGNIZED } }) = some resp ∧ resp.Status = 400 ∧
        ∃ d ∈ resp.Details, d.Field = "ga_settings_level_1.crossover_type") ∧
    ValidateOptimizeRequest (some Sample.request) = none :=
  ⟨(request_validation { Sample.request with Direction := "Север" }).1
      (by decide) (by decide),
   ((request_validation { Sample.request with
        GaSettingsLevel_1 := some { Sample.settingsMinimal with
          CrossoverType := .UNRECOGNIZED } }).2.2.1
      { Sample.settingsMinimal with CrossoverType := .UNRECOGNIZED } rfl).2.2.2.2.1
      (by decide),
   (request_validation Sample.request).2.2.2 (Or.inl rfl)
      ⟨"mon", "tue", rfl, by decide, by decide, by decide⟩
      ⟨Sample.settingsMinimal, rfl, by decide, by decide, by decide, by decide, by decide,
        by decide⟩⟩

end validation

/-! ## `Optimize`: the choice between the two day runs -/

namespace optimizer

theorem sample_degenerate_run :
    Optimize Sample.storeWithoutTerminals false (Sample.rngOf []) (Sample.rngOf [])
      Sample.request = .ok Sample.sentinelResult := by
  decide!

end optimizer

namespace optimizer

/-- The state of the day loop after two successful day runs: the first run is kept
if its fitness is below `1e18`, and replaced by the second if that is strictly
lower than what is kept. -/
theorem dayLoop_two (g : proto.GASettings) (p : Prepared) (dayA dayB : String × List Shipment)
    (rngA rngB : Rng) (runA runB : DayRun)
    (hA : optimizeDay rngA g p.filteredTerminals dayA.2 p.interCityRates p.intraCityRates
      p.distancesMap = .ok runA)
    (hB : optimizeDay rngB g p.filteredTerminals dayB.2 p.interCityRates p.intraCityRates
      p.distancesMap = .ok runB) :
    dayLoop (some g) p [(dayA, rngA), (dayB, rngB)] (none, 1000000000000000000) =
      .ok (if runA.level2Result.Fitness < 1000000000000000000 then
            (if runB.level2Result.Fitness < runA.level2Result.Fitness then
              (some (convertToProto runB.level2Result 0), runB.level2Result.Fitness)
             else (some (convertToProto runA.level2Result 0), runA.level2Result.Fitness))
           else if runB.level2Result.Fitness < 1000000000000000000 then
             (some (convertToProto runB.level2Result 0), runB.level2Result.Fitness)
           else (none, 1000000000000000000)) := by
  unfold dayLoop
  simp only [hA]
  by_cases h1 : runA.level2Result.Fitness < 1000000000000000000
  · simp only [h1, if_true]
    unfold dayLoop
    simp only [hB]
    by_cases h2 : runB.level2Result.Fitness < runA.level2Result.Fitness
    · simp only [h2, if_true, dayLoop]
    · simp only [h2, if_false, dayLoop]
  · simp only [h1, if_false]
    unfold dayLoop
    simp only [hB]
    by_cases h2 : runB.level2Result.Fitness < 1000000000000000000
    · simp only [h2, if_true, dayLoop]
    · simp only [h2, if_false, dayLoop]

/-- The outcome of `Optimize` when both day runs succeed. -/
theorem Optimize_two (store : storage.Storage) (reversed : Bool) (rng1 rng2 : Rng)
    (req : proto.OptimizeRequest) (p : Prepared) (g : proto.GASettings)
    (dayA dayB : String × List Shipment) (runA runB : DayRun)
    (hprep : prepare store req = .ok p)
    (hdays : (if reversed then p.groupedShipments.reverse else p.groupedShipments) =
      [dayA, dayB])
    (hset : req.GaSettingsLevel_1 = some g)
    (hA : optimizeDay rng1 g p.filteredTerminals dayA.2 p.interCityRates p.intraCityRates
      p.distancesMap = .ok runA)
    (hB : optimizeDay rng2 g p.filteredTerminals dayB.2 p.interCityRates p.intraCityRates
      p.distancesMap = .ok runB) :
    Optimize store reversed rng1 rng2 req =
      if runA.level2Result.Fitness < 1000000000000000000 then
        (if runB.level2Result.Fitness < runA.level2Result.Fitness then
          .ok (convertToProto runB.level2Result 0)
         else .ok (convertToProto runA.level2Result 0))
      else if runB.level2Result.Fitness < 1000000000000000000 then
        .ok (convertToProto runB.level2Result 0)
      else .error .noValidResult := by
  unfold Optimize
  simp only [hprep, hdays, hset]
  have hzip : List.zip [dayA, dayB] [rng1, rng2] = [(dayA, rng1), (dayB, rng2)] := rfl
  rw [hzip, dayLoop_two g p dayA dayB rng1 rng2 runA runB hA hB]
  split_ifs <;> rfl

/-- C29: when both day runs of `Optimize` succeed, a result that `Optimize` returns
is the level-2 result of a day whose level-2 fitness is the minimum of the two:
`fitness_score` is that minimum and cost, routes and active terminals are those of
that level-2 individual.  `Optimize` does return it when the minimum is below
`1e18`. -/
theorem optimize_returns_cheaper_day (store : storage.Storage) (reversed : Bool)
    (rng1 rng2 : Rng) (req : proto.OptimizeRequest) (p : Prepared) (g : proto.GASettings)
    (dayA dayB : String × List Shipment) (runA runB : DayRun)
    (hprep : prepare store req = .ok p)
    (hdays : (if reversed then p.groupedShipments.reverse else p.groupedShipments) =
      [dayA, dayB])
    (hset : req.GaSettingsLevel_1 = some g)
    (hA : optimizeDay rng1 g p.filteredTerminals dayA.2 p.interCityRates p.intraCityRates
      p.distancesMap = .ok runA)
    (hB : optimizeDay rng2 g p.filteredTerminals dayB.2 p.interCityRates p.intraCityRates
      p.distancesMap = .ok runB) :
    ∃ w : ga_level2.Individual,
      (w = runA.level2Result ∨ w = runB.level2Result) ∧
      w.Fitness = min runA.level2Result.Fitness runB.level2Result.Fitness ∧
      (∀ res, Optimize store reversed rng1 rng2 req = .ok res →
        res.FitnessScore = w.Fitness ∧
        res.Cost = convertCost w.Cost ∧
        res.ActiveTerminals = w.ActiveTerminals ∧
        res.Routes = w.Routes.map (fun r =>
          { FromCity := r.FromCity, ToTerminal := r.ToTerminal, ShipmentIds := r.ShipmentIDs,
            Cost := r.Cost, TransportUsed := r.TransportUsed })) ∧
      (w.Fitness < 1000000000000000000 →
        Optimize store reversed rng1 rng2 req = .ok (convertToProto w 0)) := by
  have hopt := Optimize_two store reversed rng1 rng2 req p g dayA dayB runA runB hprep hdays
    hset hA hB
  have hconv : ∀ (w : ga_level2.Individual) (res : proto.OptimizationResult),
      Except.ok (ε := Err) (convertToProto w 0) = .ok res →
      res.FitnessScore = w.Fitness ∧ res.Cost = convertCost w.Cost ∧
      res.ActiveTerminals = w.ActiveTerminals ∧
      res.Routes = w.Routes.map (fun r =>
        { FromCity := r.FromCity, ToTerminal := r.ToTerminal, ShipmentIds := r.ShipmentIDs,
          Cost := r.Cost, TransportUsed := r.TransportUsed }) := by
    intro w res h
    simp only [Except.ok.injEq] at h
    rw [← h]
    exact ⟨rfl, rfl, rfl, rfl⟩
  by_cases hBA : runB.level2Result.Fitness < runA.level2Result.Fitness
  · refine ⟨runB.level2Result, Or.inr rfl, (min_eq_right (le_of_lt hBA)).symm, ?_, ?_⟩
    · intro res hres
      rw [hopt] at hres
      by_cases h1 : runA.level2Result.Fitness < 1000000000000000000
      · simp only [h1, hBA, if_true] at hres
        exact hconv _ _ hres
      · simp only [h1, if_false] at hres
        by_cases h2 : runB.level2Result.Fitness < 1000000000000000000
        · simp only [h2, if_true] at hres
          exact hconv _ _ hres
        · simp only [h2, if_false] at hres
          cases hres
    · intro hlt
      rw [hopt]
      by_cases h1 : runA.level2Result.Fitness < 1000000000000000000
      · simp only [h1, hBA, if_true]
      · simp only [h1, hlt, if_true, if_false]
  · have hAB : runA.level2Result.Fitness ≤ runB.level2Result.Fitness := not_lt.1 hBA
    refine ⟨runA.level2Result, Or.inl rfl, (min_eq_left hAB).symm, ?_, ?_⟩
    · intro res hres
      rw [hopt] at hres
      by_cases h1 : runA.level2Result.Fitness < 1000000000000000000
      · simp only [h1, hBA, if_true, if_false] at hres
        exact hconv _ _ hres
      · have h2 : ¬ runB.level2Result.Fitness < 1000000000000000000 := by
          intro h
          exact h1 (lt_of_le_of_lt hAB h)
        simp only [h1, h2, if_false] at hres
        cases hres
    · intro hlt
      rw [hopt]
      simp only [hlt, hBA, if_true, if_false]

/-- C28 (amended): when both day runs of `Optimize` succeed and each level-2 result
has the sentinel fitness `1e12`, `Optimize` does not fail: it returns the level-2
result of the day run first, with `fitness_score = 1e12`.  It fails with "no valid
result produced" exactly when neither level-2 fitness is below `1e18`. -/
theorem degenerate_days_result (store : storage.Storage) (reversed : Bool)
    (rng1 rng2 : Rng) (req : proto.OptimizeRequest) (p : Prepared) (g : proto.GASettings)
    (dayA dayB : String × List Shipment) (runA runB : DayRun)
    (hprep : prepare store req = .ok p)
    (hdays : (if reversed then p.groupedShipments.reverse else p.groupedShipments) =
      [dayA, dayB])
    (hset : req.GaSettingsLevel_1 = some g)
    (hA : optimizeDay rng1 g p.filteredTerminals dayA.2 p.interCityRates p.intraCityRates
      p.distancesMap = .ok runA)
    (hB : optimizeDay rng2 g p.filteredTerminals dayB.2 p.interCityRates p.intraCityRates
      p.distancesMap = .ok runB) :
    (runA.level2Result.Fitness = 1000000000000 →
      runB.level2Result.Fitness = 1000000000000 →
      Optimize store reversed rng1 rng2 req = .ok (convertToProto runA.level2Result 0) ∧
      (convertToProto runA.level2Result 0).FitnessScore = 1000000000000) ∧
    (Optimize store reversed rng1 rng2 req = .error .noValidResult ↔
      (1000000000000000000 ≤ runA.level2Result.Fitness ∧
        1000000000000000000 ≤ runB.level2Result.Fitness)) := by
  have hopt := Optimize_two store reversed rng1 rng2 req p g dayA dayB runA runB hprep hdays
    hset hA hB
  constructor
  · intro fA fB
    rw [hopt, fA, fB]
    refine ⟨?_, fA⟩
    norm_num
  · rw [hopt]
    by_cases h1 : runA.level2Result.Fitness < 1000000000000000000
    · simp only [h1, if_true]
      constructor
      · intro h
        split_ifs at h
      · rintro ⟨h, _⟩
        exact absurd h1 (not_lt.2 h)
    · simp only [h1, if_false]
      by_cases h2 : runB.level2Result.Fitness < 1000000000000000000
      · simp only [h2, if_true]
        constructor
        · intro h
          cases h
        · rintro ⟨_, h⟩
          exact absurd h2 (not_lt.2 h)
      · simp only [h2, if_false, true_iff]
        exact ⟨not_lt.1 h1, not_lt.1 h2⟩

end optimizer

namespace optimizer

/-- C29 at a concrete input: the delivery days `fri`, `tue` over the sample store;
the day `fri` scores 3956, the day `tue` 21868/3. -/
theorem optimize_returns_cheaper_day_witness :
    ∃ w : ga_level2.Individual,
      (w = Sample.runFri.level2Result ∨ w = Sample.runTue.level2Result) ∧
      w.Fitness = min Sample.runFri.level2Result.Fitness Sample.runTue.level2Result.Fitness ∧
      (∀ res, Optimize Sample.store false (Sample.rngOf []) (Sample.rngOf [])
          { Sample.request with DeliveryDays := ["fri", "tue"] } = .ok res →
        res.FitnessScore = w.Fitness ∧
        res.Cost = convertCost w.Cost ∧
        res.ActiveTerminals = w.ActiveTerminals ∧
        res.Routes = w.Routes.map (fun r =>
          { FromCity := r.FromCity, ToTerminal := r.ToTerminal, ShipmentIds := r.ShipmentIDs,
            Cost := r.Cost, TransportUsed := r.TransportUsed })) ∧
      (w.Fitness < 1000000000000000000 →
        Optimize Sample.store false (Sample.rngOf []) (Sample.rngOf [])
          { Sample.request with DeliveryDays := ["fri", "tue"] } = .ok (convertToProto w 0)) :=
  optimize_returns_cheaper_day Sample.store false (Sample.rngOf []) (Sample.rngOf [])
    { Sample.request with DeliveryDays := ["fri", "tue"] } Sample.prepared
    Sample.settingsMinimal ("fri", [Sample.thursdayShipment])
    ("tue", [Sample.saturdayShipment]) Sample.runFri Sample.runTue
    rfl rfl rfl (by decide!) (by decide!)

/-- The value of the C29 witness, in either iteration order of the two days: the
result of the day `fri`, fitness 3956. -/
theorem optimize_sample_values :
    Optimize Sample.store false (Sample.rngOf []) (Sample.rngOf [])
        { Sample.request with DeliveryDays := ["fri", "tue"] } =
      .ok (convertToProto Sample.runFri.level2Result 0) ∧
    Optimize Sample.store true (Sample.rngOf []) (Sample.rngOf [])
        { Sample.request with DeliveryDays := ["fri", "tue"] } =
      .ok (convertToProto Sample.runFri.level2Result 0) ∧
    (convertToProto Sample.runFri.level2Result 0).FitnessScore = 3956 := by
  decide!

/-- C28 (amended) at a concrete input: the sample store without terminals and an
empty direction; both day runs return the sentinel. -/
theorem degenerate_days_result_witness :
    (Sample.runEmpty.level2Result.Fitness = 1000000000000 →
      Sample.runEmpty.level2Result.Fitness = 1000000000000 →
      Optimize Sample.storeWithoutTerminals false (Sample.rngOf []) (Sample.rngOf [])
        Sample.request = .ok (convertToProto Sample.runEmpty.level2Result 0) ∧
      (convertToProto Sample.runEmpty.level2Result 0).FitnessScore = 1000000000000) ∧
    (Optimize Sample.storeWithoutTerminals false (Sample.rngOf []) (Sample.rngOf [])
        Sample.request = .error .noValidResult ↔
      (1000000000000000000 ≤ Sample.runEmpty.level2Result.Fitness ∧
        1000000000000000000 ≤ Sample.runEmpty.level2Result.Fitness)) :=
  degenerate_days_result Sample.storeWithoutTerminals false (Sample.rngOf [])
    (Sample.rngOf []) Sample.request Sample.preparedWithoutTerminals Sample.settingsMinimal
    ("mon", [Sample.saturdayShipment]) ("tue", []) Sample.runEmpty Sample.runEmpty
    rfl rfl rfl (by decide!) (by decide!)

/-- C28 as stated fails: with no terminal in the store and an empty direction both
day runs end in the no-active-terminal sentinel with fitness `1e12`, and `Optimize`
returns that sentinel as its result instead of failing. -/
theorem degenerate_days_result_counterexample :
    validation.ValidateOptimizeRequest (some Sample.request) = none ∧
    optimizeDay (Sample.rngOf []) Sample.settingsMinimal [] [Sample.saturdayShipment]
        Sample.interCityRates Sample.intraCityRates Sample.prepared.distancesMap =
      .ok Sample.runEmpty ∧
    optimizeDay (Sample.rngOf []) Sample.settingsMinimal [] []
        Sample.interCityRates Sample.intraCityRates Sample.prepared.distancesMap =
      .ok Sample.runEmpty ∧
    Sample.runEmpty.level2Result.Fitness = 1000000000000 ∧
    Optimize Sample.storeWithoutTerminals false (Sample.rngOf []) (Sample.rngOf [])
        Sample.request = .ok Sample.sentinelResult ∧
    Optimize Sample.storeWithoutTerminals true (Sample.rngOf []) (Sample.rngOf [])
        Sample.request = .ok Sample.sentinelResult ∧
    Sample.sentinelResult.FitnessScore = 1000000000000 := by
  decide!

end optimizer

/-! ## The response to a direction without terminals -/

namespace handler

/-- C30 (amended): for a request that passes validation and whose non-empty direction
equals the direction of no stored terminal, the handler answers with status 500 and
the message "optimization failed"; the text "no terminals found for direction:
<direction>" is in the error `Optimize` returns (when the five loads succeed), which
the handler logs and does not send. -/
theorem missing_direction_response (store : storage.Storage) (reversed : Bool)
    (rng1 rng2 : Rng) (decoded : proto.OptimizeRequest)
    (hvalid : validation.ValidateOptimizeRequest (some (trimRequest decoded)) = none)
    (hdir : (trimRequest decoded).Direction ≠ "")
    (hnone : ∀ terminals, store.GetAllTerminals = .ok terminals →
      ∀ t ∈ terminals, t.Direction ≠ (trimRequest decoded).Direction) :
    HandleOptimize store reversed rng1 rng2 decoded =
      some (.failure 500 { Status := 500, Message := "optimization failed", Details := [] }) ∧
    (∀ shipments terminals distances interCityRates intraCityRates,
      store.GetAllShipments = .ok shipments → store.GetAllTerminals = .ok terminals →
      store.GetAllDistances = .ok distances →
      store.GetAllInterCityRates = .ok interCityRates →
      store.GetAllIntraCityRates = .ok intraCityRates →
      optimizer.Optimize store reversed rng1 rng2 (trimRequest decoded) =
        .error (.noTerminalsForDirection (trimRequest decoded).Direction)) := by
  have hprep : ∃ e, optimizer.prepare store (trimRequest decoded) = .error e ∧
      e.isPanic = false ∧
      (∀ shipments terminals distances interCityRates intraCityRates,
        store.GetAllShipments = .ok shipments → store.GetAllTerminals = .ok terminals →
        store.GetAllDistances = .ok distances →
        store.GetAllInterCityRates = .ok interCityRates →
        store.GetAllIntraCityRates = .ok intraCityRates →
        e = .noTerminalsForDirection (trimRequest decoded).Direction) := by
    unfold optimizer.prepare
    cases h1 : store.GetAllShipments with
    | error err => exact ⟨_, rfl, rfl, fun _ _ _ _ _ h => by cases h⟩
    | ok shipments =>
      cases h2 : store.GetAllTerminals with
      | error err => exact ⟨_, rfl, rfl, fun _ _ _ _ _ _ h => by cases h⟩
      | ok terminals =>
        cases h3 : store.GetAllDistances with
        | error err => exact ⟨_, rfl, rfl, fun _ _ _ _ _ _ _ h => by cases h⟩
        | ok distances =>
          cases h4 : store.GetAllInterCityRates with
          | error err => exact ⟨_, rfl, rfl, fun _ _ _ _ _ _ _ _ h => by cases h⟩
          | ok interCityRates =>
            cases h5 : store.GetAllIntraCityRates with
            | error err => exact ⟨_, rfl, rfl, fun _ _ _ _ _ _ _ _ _ h => by cases h⟩
            | ok intraCityRates =>
              have hfilter : terminals.filter
                  (fun t => decide (t.Direction = (trimRequest decoded).Direction)) = [] := by
                rw [List.filter_eq_nil_iff]
                intro t ht
                simpa using hnone terminals h2 t ht
              simp only [hdir, ne_eq, not_false_eq_true, if_true, hfilter, List.length_nil,
                and_self]
              exact ⟨_, rfl, rfl, fun _ _ _ _ _ _ _ _ _ _ => rfl⟩
  obtain ⟨e, he, hpanic, hwhich⟩ := hprep
  have hopt : optimizer.Optimize store reversed rng1 rng2 (trimRequest decoded) = .error e := by
    unfold optimizer.Optimize
    rw [he]
  constructor
  · unfold HandleOptimize
    simp only [hvalid, hopt, hpanic]
    rfl
  · intro shipments terminals distances interCityRates intraCityRates h1 h2 h3 h4 h5
    rw [hopt, hwhich _ _ _ _ _ h1 h2 h3 h4 h5]

/-- C30 (amended) at the spec's input: direction `Юг`, no terminal of that
direction in the store. -/
theorem missing_direction_response_witness :
    HandleOptimize Sample.store false (Sample.rngOf []) (Sample.rngOf [])
        { Sample.request with Direction := "Юг" } =
      some (.failure 500 { Status := 500, Message := "optimization failed", Details := [] }) ∧
    (∀ shipments terminals distances interCityRates intraCityRates,
      Sample.store.GetAllShipments = .ok shipments →
      Sample.store.GetAllTerminals = .ok terminals →
      Sample.store.GetAllDistances = .ok distances →
      Sample.store.GetAllInterCityRates = .ok interCityRates →
      Sample.store.GetAllIntraCityRates = .ok intraCityRates →
      optimizer.Optimize Sample.store false (Sample.rngOf []) (Sample.rngOf [])
          (trimRequest { Sample.request with Direction := "Юг" }) =
        .error (.noTerminalsForDirection
          (trimRequest { Sample.request with Direction := "Юг" }).Direction)) :=
  missing_direction_response Sample.store false (Sample.rngOf []) (Sample.rngOf [])
    { Sample.request with Direction := "Юг" } (by decide) (by decide)
    (by
      intro terminals h t ht
      have hterm : terminals = Sample.terminals := by
        simp only [Sample.store, Except.ok.injEq] at h
        exact h.symm
      subst hterm
      revert t
      decide)

/-- C30 as stated fails: for direction `Юг` without terminals of that direction the
response has status 500, but its message is "optimization failed", not "no terminals
found for direction: Юг". -/
theorem missing_direction_response_counterexample :
    validation.ValidateOptimizeRequest
        (some (trimRequest { Sample.request with Direction := "Юг" })) = none ∧
    (∀ t ∈ Sample.terminals, t.Direction ≠ "Юг") ∧
    optimizer.Optimize Sample.store false (Sample.rngOf []) (Sample.rngOf [])
        (trimRequest { Sample.request with Direction := "Юг" }) =
      .error (.noTerminalsForDirection "Юг") ∧
    HandleOptimize Sample.store false (Sample.rngOf []) (Sample.rngOf [])
        { Sample.request with Direction := "Юг" } =
      some (.failure 500 { Status := 500, Message := "optimization failed", Details := [] }) ∧
    "optimization failed" ≠ "no terminals found for direction: Юг" := by
  decide

end handler

/-! ## Early stopping -/

namespace ga_level1

/-- The generation loop only appends to the record of evaluated populations. -/
theorem gaLoop_evaluated_prefix (settings : proto.GASettings) (shipments : List Shipment)
    (interCityRates : List InterCityRate) (intraCityRates : List IntraCityRate)
    (distances : Distances) (gens : Nat) (st st' : GAState)
    (h : gaLoop settings shipments interCityRates intraCityRates distances gens st = .ok st') :
    ∃ more, st'.evaluated = st.evaluated ++ more := by
  induction gens generalizing st with
  | zero =>
    simp only [gaLoop, Except.ok.injEq] at h
    rw [← h]
    exact ⟨[], by simp⟩
  | succ n ih =>
    unfold gaLoop at h
    cases hb : st.pop.GetBest with
    | error e => rw [hb] at h; cases h
    | ok currentBest =>
      rw [hb] at h
      simp only [] at h
      generalize (if decide (currentBest.Fitness < st.best.Fitness) = true then currentBest
          else st.best) = best at h
      generalize (if decide (currentBest.Fitness < st.best.Fitness) = true then 0
          else st.noImprove + 1) = noImprove at h
      by_cases hstop : noImprove ≥ settings.StoppingCriterion
      · simp only [hstop, if_true, Except.ok.injEq] at h
        rw [← h]
        exact ⟨[], by simp⟩
      · simp only [hstop, if_false] at h
        cases hn : nextGeneration settings shipments interCityRates intraCityRates distances
            { st with best := best, noImprove := noImprove } with
        | error e => rw [hn] at h; cases h
        | ok st1 =>
          rw [hn] at h
          have hev := nextGeneration_evaluated _ _ _ _ _ _ _ hn
          simp only [] at hev
          obtain ⟨more, hmore⟩ := ih st1 h
          exact ⟨[st1.pop.Individuals] ++ more, by rw [hmore, hev, List.append_assoc]⟩

/-- While no evaluated individual beats `best`, every pass of the loop adds one to
`noImprove`, so the loop stops once as many populations as the stagnation window
have been evaluated. -/
theorem gaLoop_stagnation (settings : proto.GASettings) (shipments : List Shipment)
    (interCityRates : List InterCityRate) (intraCityRates : List IntraCityRate)
    (distances : Distances) (gens : Nat) (st st' : GAState)
    (hlast : st.evaluated.getLast? = some st.pop.Individuals)
    (hcount : st.evaluated.length = st.noImprove + 1)
    (hopt : ∀ pop ∈ st'.evaluated, ∀ ind ∈ pop, st.best.Fitness ≤ ind.Fitness)
    (h : gaLoop settings shipments interCityRates intraCityRates distances gens st = .ok st') :
    st'.evaluated.length ≤ max st.evaluated.length settings.StoppingCriterion := by
  induction gens generalizing st with
  | zero =>
    simp only [gaLoop, Except.ok.injEq] at h
    rw [← h]
    exact le_max_left _ _
  | succ n ih =>
    obtain ⟨more0, hmore0⟩ := gaLoop_evaluated_prefix _ _ _ _ _ _ _ _ h
    unfold gaLoop at h
    cases hb : st.pop.GetBest with
    | error e => rw [hb] at h; cases h
    | ok currentBest =>
      rw [hb] at h
      have hcur := (GetBest_spec _ _ hb).1
      have hmem : st.pop.Individuals ∈ st'.evaluated := by
        rw [hmore0]
        exact List.mem_append_left _ (List.mem_of_mem_getLast? hlast)
      have hnot : ¬ currentBest.Fitness < st.best.Fitness :=
        not_lt.2 (hopt _ hmem _ hcur)
      simp only [hnot, decide_False, Bool.false_eq_true, if_false] at h
      by_cases hstop : st.noImprove + 1 ≥ settings.StoppingCriterion
      · simp only [hstop, if_true, Except.ok.injEq] at h
        rw [← h]
        exact le_max_left _ _
      · simp only [hstop, if_false] at h
        cases hn : nextGeneration settings shipments interCityRates intraCityRates distances
            { st with best := st.best, noImprove := st.noImprove + 1 } with
        | error e => rw [hn] at h; cases h
        | ok st1 =>
          rw [hn] at h
          have hev := nextGeneration_evaluated _ _ _ _ _ _ _ hn
          have hbest := nextGeneration_best _ _ _ _ _ _ _ hn
          have hno : st1.noImprove = st.noImprove + 1 := by
            unfold nextGeneration at hn
            simp only [] at hn
            split at hn
            · cases hn
            · split at hn
              · cases hn
              · split at hn
                · cases hn
                · simp only [Except.ok.injEq] at hn
                  rw [← hn]
          simp only [] at hev hbest
          have hlen1 : st1.evaluated.length = st.evaluated.length + 1 := by
            rw [hev]; simp
          have := ih st1 (by rw [hev]; simp) (by rw [hlen1, hno, hcount])
            (by rw [hbest]; exact hopt) h
          have hle : st1.evaluated.length ≤ settings.StoppingCriterion := by
            rw [hlen1, hcount]
            omega
          calc st'.evaluated.length
              ≤ max st1.evaluated.length settings.StoppingCriterion := this
            _ = settings.StoppingCriterion := max_eq_right hle
            _ ≤ max st.evaluated.length settings.StoppingCriterion := le_max_right _ _

end ga_level1

/-- C22: if no individual of any evaluated population has a fitness strictly below
the best fitness of the initial population (each is matched by an initial
individual that is at least as good), a successful `RunGA` has evaluated at most
`stopping_criterion + 1` populations, the initial one included, whatever
`num_generations` is; more precisely at most `max 1 stopping_criterion`. -/
theorem early_stop_on_stagnation (rng : Rng) (settings : proto.GASettings)
    (terminals : List Terminal) (shipments : List Shipment)
    (interCityRates : List InterCityRate) (intraCityRates : List IntraCityRate)
    (distances : Distances) (result : ga_level1.GAResult)
    (hrun : ga_level1.RunGA rng settings terminals shipments interCityRates intraCityRates
      distances = .ok result)
    (hopt : ∀ pop ∈ result.evaluated, ∀ ind ∈ pop,
      ∃ b ∈ result.evaluated.headD [], b.Fitness ≤ ind.Fitness) :
    result.evaluated.length ≤ settings.StoppingCriterion + 1 ∧
    result.evaluated.length ≤ max 1 settings.StoppingCriterion := by
  unfold ga_level1.RunGA at hrun
  simp only [] at hrun
  split at hrun
  · cases hrun
  · rename_i initial hev
    split at hrun
    · cases hrun
    · rename_i best hb
      split at hrun
      · cases hrun
      · rename_i st hloop
        simp only [Except.ok.injEq] at hrun
        obtain ⟨more, hmore⟩ := ga_level1.gaLoop_evaluated_prefix _ _ _ _ _ _ _ _ hloop
        simp only [] at hmore
        have hbest := (ga_level1.GetBest_spec _ _ hb).2
        have hres : result.evaluated = st.evaluated := by rw [← hrun]
        have hhead : result.evaluated.headD [] = initial.Individuals := by
          rw [hres, hmore]
          rfl
        have key := ga_level1.gaLoop_stagnation settings shipments interCityRates
          intraCityRates distances settings.NumGenerations _ st (by simp) (by simp)
          (by
            intro pop hpop ind hind
            rw [← hres] at hpop
            obtain ⟨b, hbmem, hble⟩ := hopt pop hpop ind hind
            rw [hhead] at hbmem
            exact le_trans (hbest b hbmem) hble) hloop
        simp only [List.length_singleton] at key
        rw [hres]
        constructor
        · have : max 1 settings.StoppingCriterion ≤ settings.StoppingCriterion + 1 := by
            rcases Nat.le_total 1 settings.StoppingCriterion with h | h
            · rw [max_eq_right h]; omega
            · rw [max_eq_left h]; omega
          exact le_trans key this
        · exact key

/-- C22 at the spec's setting: `num_generations = 1000`, `stopping_criterion = 3`
over the sample data with the stream of zeros, where every population repeats the
initial one; three populations are evaluated. -/
theorem early_stop_on_stagnation_witness :
    ∃ result : ga_level1.GAResult,
      ga_level1.RunGA (Sample.rngOf []) Sample.settingsLongRun Sample.terminals
        Sample.shipments Sample.interCityRates Sample.intraCityRates Sample.distances =
          .ok result ∧
      result.evaluated.length = 3 ∧
      result.evaluated.length ≤ Sample.settingsLongRun.StoppingCriterion + 1 ∧
      result.evaluated.length ≤ max 1 Sample.settingsLongRun.StoppingCriterion :=
  match Except.ok_of_toOption_map
      (ga_level1.RunGA (Sample.rngOf []) Sample.settingsLongRun Sample.terminals
        Sample.shipments Sample.interCityRates Sample.intraCityRates Sample.distances)
      (fun r => (r.evaluated.length,
        decide (∀ pop ∈ r.evaluated, ∀ ind ∈ pop,
          ∃ b ∈ r.evaluated.headD [], b.Fitness ≤ ind.Fitness)))
      (3, true) (by decide!) with
  | ⟨result, hrun, hval⟩ =>
    ⟨result, hrun, (Prod.mk.inj hval).1,
      early_stop_on_stagnation (Sample.rngOf []) Sample.settingsLongRun Sample.terminals
        Sample.shipments Sample.interCityRates Sample.intraCityRates Sample.distances result
        hrun (of_decide_eq_true (Prod.mk.inj hval).2)⟩

/-! ## Population size and mask length -/

theorem MaskHeap.read_length (heap : MaskHeap) (n ref : Nat) (hu : heap.Uniform n)
    (hr : ref < heap.arrays.length) : (heap.read ref).length = n := by
  unfold MaskHeap.read
  rw [List.getD_eq_getElem _ _ hr]
  exact hu _ (List.getElem_mem _)

theorem MaskHeap.alloc_spec (heap : MaskHeap) (n : Nat) (bits : List Bool)
    (hu : heap.Uniform n) (hb : bits.length = n) :
    (heap.alloc bits).2.Uniform n ∧ (heap.alloc bits).1 = heap.arrays.length ∧
      (heap.alloc bits).2.arrays.length = heap.arrays.length + 1 := by
  refine ⟨?_, rfl, by simp [MaskHeap.alloc]⟩
  intro a ha
  simp only [MaskHeap.alloc, List.mem_append, List.mem_singleton] at ha
  rcases ha with h | h
  · exact hu a h
  · rw [h]; exact hb

theorem MaskHeap.write_spec (heap : MaskHeap) (n ref : Nat) (bits : List Bool)
    (hu : heap.Uniform n) (hb : bits.length = n) :
    (heap.write ref bits).Uniform n ∧
      (heap.write ref bits).arrays.length = heap.arrays.length := by
  refine ⟨?_, by simp [MaskHeap.write]⟩
  intro a ha
  simp only [MaskHeap.write] at ha
  rcases List.mem_or_eq_of_mem_set ha with h | h
  · exact hu a h
  · rw [h]; exact hb

namespace ga_level1

theorem randomMask_length (n : Nat) (rng : Rng) : (randomMask n rng).1.length = n := by
  induction n generalizing rng with
  | zero => rfl
  | succ k ih =>
    unfold randomMask
    simp only [List.length_cons, ih]

/-- `NewRandomPopulation` allocates one array of `nTerminals` bits per individual. -/
theorem randomIndividuals_inv (nTerminals size : Nat) (heap : MaskHeap) (rng : Rng)
    (hu : heap.Uniform nTerminals) :
    (randomIndividuals nTerminals size heap rng).2.1.Uniform nTerminals ∧
    heap.arrays.length ≤ (randomIndividuals nTerminals size heap rng).2.1.arrays.length ∧
    ∀ ind ∈ (randomIndividuals nTerminals size heap rng).1,
      ind.Allocated (randomIndividuals nTerminals size heap rng).2.1 := by
  induction size generalizing heap rng with
  | zero =>
    refine ⟨hu, le_refl _, ?_⟩
    intro ind hind
    simp [randomIndividuals] at hind
  | succ k ih =>
    unfold randomIndividuals
    simp only []
    obtain ⟨ha1, ha2, ha3⟩ := MaskHeap.alloc_spec heap nTerminals (randomMask nTerminals rng).1
      hu (randomMask_length _ _)
    obtain ⟨h1, h2, h3⟩ := ih (heap.alloc (randomMask nTerminals rng).1).2
      (randomMask nTerminals rng).2 ha1
    refine ⟨h1, by omega, ?_⟩
    intro ind hind
    rcases List.mem_cons.1 hind with h | h
    · rw [h]
      unfold Individual.Allocated
      simp only []
      rw [ha2]
      omega
    · exact h3 ind h

theorem CalculateFitness_mask (heap : MaskHeap) (ind : Individual)
    (allTerminals : List Terminal) (shipments : List Shipment)
    (interCityRates : List InterCityRate) (intraCityRates : List IntraCityRate)
    (distances : Distances) (scored : Individual)
    (h : CalculateFitness heap ind allTerminals shipments interCityRates intraCityRates
      distances = .ok scored) : scored.TerminalMask = ind.TerminalMask := by
  obtain ⟨active, _, hcase⟩ := CalculateFitness_ok _ _ _ _ _ _ _ _ h
  rcases hcase with ⟨_, hs⟩ | ⟨_, _, _, _, _, hs⟩ <;> rw [hs]

/-- `Evaluate` keeps the number of individuals and every individual's mask slice. -/
theorem evaluateLoop_masks (heap : MaskHeap) (allTerminals : List Terminal)
    (shipments : List Shipment) (interCityRates : List InterCityRate)
    (intraCityRates : List IntraCityRate) (distances : Distances)
    (inds scored : List Individual)
    (h : evaluateLoop heap allTerminals shipments interCityRates intraCityRates distances inds =
      .ok scored) :
    scored.map (fun i => i.TerminalMask) = inds.map (fun i => i.TerminalMask) := by
  induction inds generalizing scored with
  | nil =>
    simp only [evaluateLoop, Except.ok.injEq] at h
    rw [← h]
  | cons ind rest ih =>
    unfold evaluateLoop at h
    cases hc : CalculateFitness heap ind allTerminals shipments interCityRates intraCityRates
        distances with
    | error e => rw [hc] at h; cases h
    | ok s =>
      rw [hc] at h
      simp only [] at h
      cases hr : evaluateLoop heap allTerminals shipments interCityRates intraCityRates
          distances rest with
      | error e => rw [hr] at h; cases h
      | ok others =>
        rw [hr] at h
        simp only [Except.ok.injEq] at h
        rw [← h]
        simp only [List.map_cons, ih others hr, CalculateFitness_mask _ _ _ _ _ _ _ _ hc]

theorem allocated_of_masks (heap : MaskHeap) (inds scored : List Individual)
    (hm : scored.map (fun i => i.TerminalMask) = inds.map (fun i => i.TerminalMask))
    (ha : ∀ ind ∈ inds, ind.Allocated heap) : ∀ ind ∈ scored, ind.Allocated heap := by
  intro ind hind
  have : ind.TerminalMask ∈ scored.map (fun i => i.TerminalMask) :=
    List.mem_map.2 ⟨ind, hind, rfl⟩
  rw [hm] at this
  obtain ⟨ind', hind', heq⟩ := List.mem_map.1 this
  have := ha ind' hind'
  unfold Individual.Allocated at this ⊢
  rw [← heq]
  exact this

theorem uniformBits_length (a b : List Bool) (rng : Rng)
    (r : (List Bool × List Bool) × Rng) (h : uniformBits a b rng = .ok r) :
    r.1.1.length = a.length ∧ r.1.2.length = a.length := by
  induction a generalizing b rng r with
  | nil =>
    simp only [uniformBits, Except.ok.injEq] at h
    rw [← h]
    exact ⟨rfl, rfl⟩
  | cons x a ih =>
    unfold uniformBits at h
    cases b with
    | nil => cases h
    | cons y b' =>
      simp only [] at h
      cases hr : uniformBits a b' (rng.Float64).2 with
      | error e => rw [hr] at h; cases h
      | ok r' =>
        rw [hr] at h
        obtain ⟨h1, h2⟩ := ih b' _ r' hr
        simp only [] at h
        split at h <;>
          · simp only [Except.ok.injEq] at h
            rw [← h]
            simp [h1, h2]

theorem swapBits_length (mask : List Bool) (i j : Nat) :
    (swapBits mask i j).length = mask.length := by
  simp [swapBits]

theorem inversionLoop_length (b a : Nat) (mask : List Bool) :
    (inversionLoop b a mask).length = mask.length := by
  induction b generalizing a mask with
  | zero => rfl
  | succ k ih =>
    unfold inversionLoop
    split
    · rw [ih, swapBits_length]
    · rfl

theorem inversion_length (mask : List Bool) (rng : Rng) :
    (inversion mask rng).1.length = mask.length := by
  unfold inversion
  split
  · rfl
  · simp only [inversionLoop_length]

theorem swap_length (mask : List Bool) (rng : Rng) :
    (swap mask rng).1.length = mask.length := by
  unfold swap
  split
  · rfl
  · simp only [swapBits_length]

/-- Mutation rewrites one array in place and keeps its length. -/
theorem Mutate_inv (ind : Individual) (prob : ℚ) (method : proto.MutationType)
    (heap : MaskHeap) (rng : Rng) (n : Nat) (r : MaskHeap × Rng)
    (hu : heap.Uniform n) (ha : ind.Allocated heap)
    (h : Mutate ind prob method heap rng = .ok r) :
    r.1.Uniform n ∧ r.1.arrays.length = heap.arrays.length := by
  have hlen := MaskHeap.read_length heap n ind.TerminalMask hu ha
  unfold Mutate at h
  simp only [] at h
  split at h
  · simp only [Except.ok.injEq] at h
    rw [← h]
    exact ⟨hu, rfl⟩
  · cases method with
    | MUTATION_UNSPECIFIED => cases h
    | UNRECOGNIZED => cases h
    | MUTATION_INVERSION =>
      simp only [Except.ok.injEq] at h
      rw [← h]
      exact MaskHeap.write_spec heap n _ _ hu (by rw [inversion_length, hlen])
    | MUTATION_SWAP =>
      simp only [Except.ok.injEq] at h
      rw [← h]
      exact MaskHeap.write_spec heap n _ _ hu (by rw [swap_length, hlen])

end ga_level1

namespace ga_level1

theorem Rng.Intn_lt (rng : Rng) (n : Nat) (h : 0 < n) : (rng.Intn n).1 < n := by
  unfold Rng.Intn
  exact Nat.mod_lt _ h

/-- The conclusion shared by the crossover lemmas: the store stays uniform, only
grows, and both children are allocated in it. -/
theorem crossover_alloc (heap : MaskHeap) (n : Nat) (bits1 bits2 : List Bool)
    (hu : heap.Uniform n) (h1 : bits1.length = n) (h2 : bits2.length = n) :
    ((heap.alloc bits1).2.alloc bits2).2.Uniform n ∧
    heap.arrays.length ≤ ((heap.alloc bits1).2.alloc bits2).2.arrays.length ∧
    (heap.alloc bits1).1 < ((heap.alloc bits1).2.alloc bits2).2.arrays.length ∧
    ((heap.alloc bits1).2.alloc bits2).1 <
      ((heap.alloc bits1).2.alloc bits2).2.arrays.length := by
  obtain ⟨a1, a2, a3⟩ := MaskHeap.alloc_spec heap n bits1 hu h1
  obtain ⟨b1, b2, b3⟩ := MaskHeap.alloc_spec (heap.alloc bits1).2 n bits2 a1 h2
  refine ⟨b1, by omega, by omega, by omega⟩

theorem uniformCrossover_inv (a b : Nat) (heap : MaskHeap) (rng : Rng) (n : Nat)
    (r : (Nat × Nat) × MaskHeap × Rng)
    (hu : heap.Uniform n) (ha : a < heap.arrays.length)
    (h : uniformCrossover a b heap rng = .ok r) :
    r.2.1.Uniform n ∧ heap.arrays.length ≤ r.2.1.arrays.length ∧
      r.1.1 < r.2.1.arrays.length ∧ r.1.2 < r.2.1.arrays.length := by
  unfold uniformCrossover at h
  cases hbits : uniformBits (heap.read a) (heap.read b) rng with
  | error e => rw [hbits] at h; cases h
  | ok bits =>
    rw [hbits] at h
    simp only [Except.ok.injEq] at h
    obtain ⟨l1, l2⟩ := uniformBits_length _ _ _ _ hbits
    have hla := MaskHeap.read_length heap n a hu ha
    rw [← h]
    exact crossover_alloc heap n _ _ hu (by rw [l1, hla]) (by rw [l2, hla])

theorem singlePointCrossover_inv (a b : Nat) (heap : MaskHeap) (rng : Rng) (n : Nat)
    (r : (Nat × Nat) × MaskHeap × Rng)
    (hu : heap.Uniform n) (ha : a < heap.arrays.length) (hb : b < heap.arrays.length)
    (h : singlePointCrossover a b heap rng = .ok r) :
    r.2.1.Uniform n ∧ heap.arrays.length ≤ r.2.1.arrays.length ∧
      r.1.1 < r.2.1.arrays.length ∧ r.1.2 < r.2.1.arrays.length := by
  have hla := MaskHeap.read_length heap n a hu ha
  have hlb := MaskHeap.read_length heap n b hu hb
  unfold singlePointCrossover at h
  simp only [] at h
  split at h
  · simp only [Except.ok.injEq] at h
    rw [← h]
    exact ⟨hu, le_refl _, ha, hb⟩
  · rename_i hlen
    have hpos : 0 < (heap.read a).length - 1 := by omega
    have hi := Rng.Intn_lt rng ((heap.read a).length - 1) hpos
    split at h
    · cases h
    · simp only [Except.ok.injEq] at h
      rw [← h]
      apply crossover_alloc heap n _ _ hu
      · simp only [List.length_append, List.length_take, List.length_drop]
        omega
      · simp only [List.length_append, List.length_take, List.length_drop]
        omega

theorem twoPointCrossover_inv (a b : Nat) (heap : MaskHeap) (rng : Rng) (n : Nat)
    (r : (Nat × Nat) × MaskHeap × Rng)
    (hu : heap.Uniform n) (ha : a < heap.arrays.length) (hb : b < heap.arrays.length)
    (h : twoPointCrossover a b heap rng = .ok r) :
    r.2.1.Uniform n ∧ heap.arrays.length ≤ r.2.1.arrays.length ∧
      r.1.1 < r.2.1.arrays.length ∧ r.1.2 < r.2.1.arrays.length := by
  have hla := MaskHeap.read_length heap n a hu ha
  have hlb := MaskHeap.read_length heap n b hu hb
  unfold twoPointCrossover at h
  simp only [] at h
  by_cases hlen : (heap.read a).length ≤ 2
  · simp only [hlen, if_true, Except.ok.injEq] at h
    rw [← h]
    exact ⟨hu, le_refl _, ha, hb⟩
  · simp only [hlen, if_false] at h
    have hpos : 0 < (heap.read a).length := by omega
    have hi := Rng.Intn_lt rng (heap.read a).length hpos
    have hj := Rng.Intn_lt (rng.Intn (heap.read a).length).2 (heap.read a).length hpos
    split_ifs at h <;>
    · simp only [Except.ok.injEq] at h
      rw [← h]
      apply crossover_alloc heap n _ _ hu
      · simp only [List.length_append, List.length_take, List.length_drop]
        omega
      · simp only [List.length_append, List.length_take, List.length_drop]
        omega

/-- Crossover, by any of the three methods, returns two allocated children of `n`
bits each and leaves the store uniform. -/
theorem Crossover_inv (p1 p2 : Option Individual) (method : proto.CrossoverType)
    (heap : MaskHeap) (rng : Rng) (n : Nat) (r : (Individual × Individual) × MaskHeap × Rng)
    (hu : heap.Uniform n)
    (h1 : ∀ p, p1 = some p → p.Allocated heap) (h2 : ∀ p, p2 = some p → p.Allocated heap)
    (h : Crossover p1 p2 method heap rng = .ok r) :
    r.2.1.Uniform n ∧ heap.arrays.length ≤ r.2.1.arrays.length ∧
      r.1.1.Allocated r.2.1 ∧ r.1.2.Allocated r.2.1 := by
  unfold Crossover at h
  by_cases hm : method = .CROSSOVER_UNSPECIFIED ∨ method = .UNRECOGNIZED
  · simp only [hm, if_true] at h
    cases h
  · simp only [hm, if_false] at h
    cases p1 with
    | none => cases h
    | some a =>
      cases p2 with
      | none => cases h
      | some b =>
        have ha := h1 a rfl
        have hb := h2 b rfl
        unfold Individual.Allocated at ha hb
        cases method with
        | CROSSOVER_UNSPECIFIED => exact absurd (Or.inl rfl) hm
        | UNRECOGNIZED => exact absurd (Or.inr rfl) hm
        | CROSSOVER_UNIFORM =>
          simp only [] at h
          split at h
          · cases h
          · rename_i masks hmasks
            simp only [Except.ok.injEq] at h
            rw [← h]
            exact uniformCrossover_inv _ _ _ _ n masks hu ha hmasks
        | CROSSOVER_SINGLE_POINT =>
          simp only [] at h
          split at h
          · cases h
          · rename_i masks hmasks
            simp only [Except.ok.injEq] at h
            rw [← h]
            exact singlePointCrossover_inv _ _ _ _ n masks hu ha hb hmasks
        | CROSSOVER_TWO_POINT =>
          simp only [] at h
          split at h
          · cases h
          · rename_i masks hmasks
            simp only [Except.ok.injEq] at h
            rw [← h]
            exact twoPointCrossover_inv _ _ _ _ n masks hu ha hb hmasks

end ga_level1

namespace ga_level1

theorem Individual.Allocated_mono (ind : Individual) (heap heap2 : MaskHeap)
    (h : ind.Allocated heap) (hle : heap.arrays.length ≤ heap2.arrays.length) :
    ind.Allocated heap2 := by
  unfold Individual.Allocated at h ⊢
  omega

theorem tournamentRound_mem (pop : List Individual) (rng : Rng) (r : Individual × Rng)
    (h : tournamentRound pop rng = .ok r) : r.1 ∈ pop := by
  unfold tournamentRound at h
  split at h
  · cases h
  · simp only [] at h
    split at h
    · rename_i t0 t1 t2 h0 h1 h2
      simp only [Except.ok.injEq] at h
      rw [← h]
      have m0 : t0 ∈ pop := List.mem_iff_getElem?.2 ⟨_, h0⟩
      have m1 : t1 ∈ pop := List.mem_iff_getElem?.2 ⟨_, h1⟩
      have m2 : t2 ∈ pop := List.mem_iff_getElem?.2 ⟨_, h2⟩
      simp only [List.foldl_cons, List.foldl_nil]
      split_ifs <;> assumption
    · cases h

theorem tournamentSelection_spec (pop : List Individual) (count : Nat) (rng : Rng)
    (sel : List (Option Individual) × Rng)
    (h : tournamentSelection pop count rng = .ok sel) :
    sel.1.length = count ∧ ∀ p, some p ∈ sel.1 → p ∈ pop := by
  induction count generalizing rng sel with
  | zero =>
    simp only [tournamentSelection, Except.ok.injEq] at h
    rw [← h]
    exact ⟨rfl, fun p hp => by cases hp⟩
  | succ k ih =>
    unfold tournamentSelection at h
    split at h
    · cases h
    · rename_i r hr
      split at h
      · cases h
      · rename_i rest hrest
        simp only [Except.ok.injEq] at h
        rw [← h]
        obtain ⟨hl, hm⟩ := ih _ _ hrest
        refine ⟨by simp only [List.length_cons, hl], ?_⟩
        intro p hp
        rcases List.mem_cons.1 hp with hp | hp
        · rw [Option.some.inj hp]
          exact tournamentRound_mem _ _ _ hr
        · exact hm p hp

theorem rouletteScan_mem (r : ℚ) (pop : List Individual) (cum : ℚ) (p : Individual)
    (h : rouletteScan r pop cum = some p) : p ∈ pop := by
  induction pop generalizing cum with
  | nil => cases h
  | cons q rest ih =>
    unfold rouletteScan at h
    split at h
    · rw [← Option.some.inj h]
      exact List.mem_cons_self _ _
    · exact List.mem_cons_of_mem _ (ih _ h)

theorem rouletteWheelSelection_spec (pop : List Individual) (count : Nat) (rng : Rng) :
    (rouletteWheelSelection pop count rng).1.length = count ∧
      ∀ p, some p ∈ (rouletteWheelSelection pop count rng).1 → p ∈ pop := by
  induction count generalizing rng with
  | zero => exact ⟨rfl, fun p hp => by cases hp⟩
  | succ k ih =>
    unfold rouletteWheelSelection
    simp only []
    obtain ⟨hl, hm⟩ := ih (rng.Float64).2
    refine ⟨by simp only [List.length_cons, hl], ?_⟩
    intro p hp
    rcases List.mem_cons.1 hp with hp | hp
    · exact rouletteScan_mem _ _ _ _ hp.symm
    · exact hm p hp

theorem rankScan_mem (r : ℚ) (n : Nat) (sorted : List Individual) (j : Nat) (rank : ℚ)
    (p : Individual) (h : rankScan r n sorted j rank = some p) : p ∈ sorted := by
  induction sorted generalizing j rank with
  | nil => cases h
  | cons q rest ih =>
    unfold rankScan at h
    split at h
    · rw [← Option.some.inj h]
      exact List.mem_cons_self _ _
    · exact List.mem_cons_of_mem _ (ih _ _ h)

theorem rankSelection_spec (pop : List Individual) (count : Nat) (rng : Rng) :
    (rankSelection pop count rng).1.length = count ∧
      ∀ p, some p ∈ (rankSelection pop count rng).1 → p ∈ pop := by
  induction count generalizing rng with
  | zero => exact ⟨rfl, fun p hp => by cases hp⟩
  | succ k ih =>
    unfold rankSelection
    simp only []
    obtain ⟨hl, hm⟩ := ih (rng.Float64).2
    refine ⟨by simp only [List.length_cons, hl], ?_⟩
    intro p hp
    rcases List.mem_cons.1 hp with hp | hp
    · exact (sortSlice_perm _ pop).mem_iff.1 (rankScan_mem _ _ _ _ _ _ hp.symm)
    · exact hm p hp

/-- Selection, by any of the three methods, fills `count` slots, each of them nil
or an individual of the population. -/
theorem SelectParents_spec (pop : List Individual) (count : Nat)
    (method : proto.SelectionType) (rng : Rng) (sel : List (Option Individual) × Rng)
    (h : SelectParents pop count method rng = .ok sel) :
    sel.1.length = count ∧ ∀ p, some p ∈ sel.1 → p ∈ pop := by
  unfold SelectParents at h
  cases method with
  | SELECTION_TOURNAMENT => exact tournamentSelection_spec _ _ _ _ h
  | SELECTION_ROULETTE =>
    simp only [Except.ok.injEq] at h
    rw [← h]
    exact rouletteWheelSelection_spec _ _ _
  | SELECTION_RANK =>
    simp only [Except.ok.injEq] at h
    rw [← h]
    exact rankSelection_spec _ _ _
  | SELECTION_UNSPECIFIED => cases h
  | UNRECOGNIZED => cases h

theorem pairIndices_length (n : Nat) : (pairIndices n).length = (n + 1) / 2 := by
  simp [pairIndices]

/-- One pass of the breeding loop appends two allocated children and leaves the
store uniform. -/
theorem breedStep_inv (settings : proto.GASettings) (parents : List (Option Individual))
    (i : Nat) (newPop : List Individual) (heap : MaskHeap) (rng : Rng) (n : Nat)
    (r : List Individual × MaskHeap × Rng)
    (hu : heap.Uniform n) (hp : ∀ p, some p ∈ parents → p.Allocated heap)
    (hnew : ∀ ind ∈ newPop, ind.Allocated heap)
    (h : breedStep settings parents i newPop heap rng = .ok r) :
    r.2.1.Uniform n ∧ heap.arrays.length ≤ r.2.1.arrays.length ∧
      (∀ ind ∈ r.1, ind.Allocated r.2.1) ∧ r.1.length = newPop.length + 2 := by
  unfold breedStep at h
  split at h
  · rename_i p1 p2 hp1 hp2
    split at h
    · cases h
    · rename_i c hc
      split at h
      · cases h
      · rename_i m1 hm1
        split at h
        · cases h
        · rename_i m2 hm2
          simp only [Except.ok.injEq] at h
          rw [← h]
          dsimp only
          have hm1p : p1 ∈ parents := List.mem_iff_getElem?.2 ⟨_, hp1⟩
          have hm2p : p2 ∈ parents := List.mem_iff_getElem?.2 ⟨_, hp2⟩
          obtain ⟨cu, cl, ca1, ca2⟩ := Crossover_inv p1 p2 _ heap rng n c hu
            (fun p e => hp p (e ▸ hm1p)) (fun p e => hp p (e ▸ hm2p)) hc
          obtain ⟨u1, l1⟩ := Mutate_inv _ _ _ _ _ n m1 cu ca1 hm1
          have ca2b : c.1.2.Allocated m1.1 :=
            Individual.Allocated_mono _ _ _ ca2 (le_of_eq l1.symm)
          obtain ⟨u2, l2⟩ := Mutate_inv _ _ _ _ _ n m2 u1 ca2b hm2
          refine ⟨u2, by omega, ?_, by simp⟩
          intro ind hind
          simp only [List.mem_append, List.mem_cons, List.mem_singleton, List.not_mem_nil,
            or_false] at hind
          rcases hind with hind | hind | hind
          · exact Individual.Allocated_mono _ _ _ (hnew ind hind) (by omega)
          · rw [hind]; exact Individual.Allocated_mono _ _ _ ca1 (by omega)
          · rw [hind]; exact Individual.Allocated_mono _ _ _ ca2 (by omega)
  · cases h

theorem breedLoop_inv (settings : proto.GASettings) (parents : List (Option Individual))
    (is : List Nat) (newPop : List Individual) (heap : MaskHeap) (rng : Rng) (n : Nat)
    (r : List Individual × MaskHeap × Rng)
    (hu : heap.Uniform n) (hp : ∀ p, some p ∈ parents → p.Allocated heap)
    (hnew : ∀ ind ∈ newPop, ind.Allocated heap)
    (h : breedLoop settings parents is newPop heap rng = .ok r) :
    r.2.1.Uniform n ∧ heap.arrays.length ≤ r.2.1.arrays.length ∧
      (∀ ind ∈ r.1, ind.Allocated r.2.1) ∧ r.1.length = newPop.length + 2 * is.length := by
  induction is generalizing newPop heap rng with
  | nil =>
    simp only [breedLoop, Except.ok.injEq] at h
    rw [← h]
    exact ⟨hu, le_refl _, hnew, by simp⟩
  | cons i rest ih =>
    unfold breedLoop at h
    split at h
    · cases h
    · rename_i r1 hr1
      obtain ⟨u1, l1, a1, n1⟩ := breedStep_inv _ _ _ _ _ _ n r1 hu hp hnew hr1
      obtain ⟨u2, l2, a2, n2⟩ := ih r1.1 r1.2.1 r1.2.2 u1
        (fun p hpm => Individual.Allocated_mono _ _ _ (hp p hpm) l1) a1 h
      refine ⟨u2, by omega, a2, ?_⟩
      rw [n2, n1, List.length_cons]
      omega

/-- Selection, breeding, truncation and evaluation keep the shape of the state. -/
theorem nextGeneration_inv (settings : proto.GASettings) (shipments : List Shipment)
    (interCityRates : List InterCityRate) (intraCityRates : List IntraCityRate)
    (distances : Distances) (st st1 : GAState) (n size : Nat)
    (hs : st.Shaped n size)
    (hn : nextGeneration settings shipments interCityRates intraCityRates distances st =
      .ok st1) : st1.Shaped n size := by
  obtain ⟨hu, ⟨hlen, halloc⟩, hev⟩ := hs
  unfold nextGeneration at hn
  simp only [] at hn
  split at hn
  · cases hn
  · rename_i sel hsel
    split at hn
    · cases hn
    · rename_i bred hbred
      split at hn
      · cases hn
      · rename_i scored hscored
        simp only [Except.ok.injEq] at hn
        obtain ⟨sl, sm⟩ := SelectParents_spec _ _ _ _ _ hsel
        obtain ⟨bu, bl, ba, bn⟩ := breedLoop_inv _ _ _ _ _ _ n bred hu
          (fun p hp => halloc p (sm p hp)) (fun ind hind => by cases hind) hbred
        rw [pairIndices_length, sl, hlen] at bn
        simp only [List.length_nil, Nat.zero_add] at bn
        unfold Population.Evaluate at hscored
        simp only [] at hscored
        split at hscored
        · cases hscored
        · rename_i inds hinds
          simp only [Except.ok.injEq] at hscored
          have hl := evaluateLoop_length _ _ _ _ _ _ _ _ hinds
          have hm := evaluateLoop_masks _ _ _ _ _ _ _ _ hinds
          have hnewlen : (if bred.1.length > st.pop.Individuals.length then
              bred.1.take st.pop.Individuals.length else bred.1).length = size := by
            rw [hlen]
            split_ifs with hgt
            · rw [List.length_take]; omega
            · omega
          have hnewalloc : ∀ ind ∈ (if bred.1.length > st.pop.Individuals.length then
              bred.1.take st.pop.Individuals.length else bred.1), ind.Allocated bred.2.1 := by
            intro ind hind
            split_ifs at hind with hgt
            · exact ba ind (List.mem_of_mem_take hind)
            · exact ba ind hind
          have hsc : scored.Individuals.length = size ∧
              ∀ ind ∈ scored.Individuals, ind.Allocated bred.2.1 := by
            rw [← hscored]
            exact ⟨by rw [hl]; exact hnewlen, allocated_of_masks _ _ _ hm hnewalloc⟩
          rw [← hn]
          refine ⟨bu, hsc, ?_⟩
          intro pop hpop
          simp only [List.mem_append, List.mem_singleton] at hpop
          rcases hpop with hpop | hpop
          · obtain ⟨pl, pa⟩ := hev pop hpop
            exact ⟨pl, fun ind hind => Individual.Allocated_mono _ _ _ (pa ind hind) bl⟩
          · rw [hpop]; exact hsc

theorem gaLoop_inv (settings : proto.GASettings) (shipments : List Shipment)
    (interCityRates : List InterCityRate) (intraCityRates : List IntraCityRate)
    (distances : Distances) (gens : Nat) (st st1 : GAState) (n size : Nat)
    (hs : st.Shaped n size)
    (h : gaLoop settings shipments interCityRates intraCityRates distances gens st = .ok st1) :
    st1.Shaped n size := by
  induction gens generalizing st with
  | zero =>
    simp only [gaLoop, Except.ok.injEq] at h
    rw [← h]
    exact hs
  | succ k ih =>
    unfold gaLoop at h
    cases hb : st.pop.GetBest with
    | error e => rw [hb] at h; cases h
    | ok currentBest =>
      rw [hb] at h
      simp only [] at h
      generalize (if decide (currentBest.Fitness < st.best.Fitness) = true then currentBest
          else st.best) = best at h
      generalize (if decide (currentBest.Fitness < st.best.Fitness) = true then 0
          else st.noImprove + 1) = noImprove at h
      have hs2 : GAState.Shaped { st with best := best, noImprove := noImprove } n size := hs
      by_cases hstop : noImprove ≥ settings.StoppingCriterion
      · simp only [hstop, if_true, Except.ok.injEq] at h
        rw [← h]
        exact hs2
      · simp only [hstop, if_false] at h
        cases hn : nextGeneration settings shipments interCityRates intraCityRates distances
            { st with best := best, noImprove := noImprove } with
        | error e => rw [hn] at h; cases h
        | ok st2 =>
          rw [hn] at h
          exact ih st2 (nextGeneration_inv _ _ _ _ _ _ st2 n size hs2 hn) h

end ga_level1

/-- C21: the initial population built by `NewRandomPopulation` has `num_individuals`
individuals whose masks have `len(terminals)` bits each; one pass of selection,
crossover, mutation, truncation and evaluation keeps that shape of the state; and
so, when `RunGA` returns, every population it evaluated (the initial one and the
one of every generation) has exactly `num_individuals` individuals, each with a
mask of exactly `len(terminals)` bits, for every selection, crossover and mutation
method and for odd and even `num_individuals`. -/
theorem population_shape_invariant (rng : Rng) (settings : proto.GASettings)
    (terminals : List Terminal) (shipments : List Shipment)
    (interCityRates : List InterCityRate) (intraCityRates : List IntraCityRate)
    (distances : Distances) (result : ga_level1.GAResult)
    (h : ga_level1.RunGA rng settings terminals shipments interCityRates intraCityRates
      distances = .ok result) :
    ((ga_level1.NewRandomPopulation settings.NumIndividuals terminals { arrays := [] }
        rng).1.Individuals.length = settings.NumIndividuals ∧
      ∀ ind ∈ (ga_level1.NewRandomPopulation settings.NumIndividuals terminals
          { arrays := [] } rng).1.Individuals,
        ((ga_level1.NewRandomPopulation settings.NumIndividuals terminals { arrays := [] }
          rng).2.1.read ind.TerminalMask).length = terminals.length) ∧
    (∀ st st1 : ga_level1.GAState,
      st.Shaped terminals.length settings.NumIndividuals →
      ga_level1.nextGeneration settings shipments interCityRates intraCityRates distances st =
        .ok st1 →
      st1.Shaped terminals.length settings.NumIndividuals ∧
        st1.pop.Individuals.length = settings.NumIndividuals ∧
        ∀ ind ∈ st1.pop.Individuals,
          (st1.heap.read ind.TerminalMask).length = terminals.length) ∧
    result.evaluated ≠ [] ∧
    ∀ pop ∈ result.evaluated, pop.length = settings.NumIndividuals ∧
      ∀ ind ∈ pop, (result.heap.read ind.TerminalMask).length = terminals.length := by
  have hempty : MaskHeap.Uniform { arrays := [] } terminals.length := by
    intro a ha
    cases ha
  obtain ⟨iu, _, ia⟩ := ga_level1.randomIndividuals_inv terminals.length
    settings.NumIndividuals { arrays := [] } rng hempty
  have il := ga_level1.randomIndividuals_length terminals.length settings.NumIndividuals
    { arrays := [] } rng
  refine ⟨⟨il, fun ind hind => MaskHeap.read_length _ _ _ iu (ia ind hind)⟩, ?_, ?_⟩
  · intro st st1 hs hn
    have hs1 := ga_level1.nextGeneration_inv _ _ _ _ _ st st1 _ _ hs hn
    exact ⟨hs1, hs1.2.1.1, fun ind hind =>
      MaskHeap.read_length _ _ _ hs1.1 (hs1.2.1.2 ind hind)⟩
  · unfold ga_level1.RunGA at h
    simp only [] at h
    cases he : (ga_level1.NewRandomPopulation settings.NumIndividuals terminals
        { arrays := [] } rng).1.Evaluate
        (ga_level1.NewRandomPopulation settings.NumIndividuals terminals
          { arrays := [] } rng).2.1 shipments interCityRates intraCityRates distances with
    | error e => rw [he] at h; cases h
    | ok pop =>
      rw [he] at h
      simp only [] at h
      cases hb : pop.GetBest with
      | error e => rw [hb] at h; cases h
      | ok best =>
        rw [hb] at h
        simp only [] at h
        split at h
        · cases h
        · rename_i st hst
          simp only [Except.ok.injEq] at h
          unfold ga_level1.Population.Evaluate at he
          split at he
          · cases he
          · rename_i inds hinds
            simp only [Except.ok.injEq] at he
            have hl := ga_level1.evaluateLoop_length _ _ _ _ _ _ _ _ hinds
            have hm := ga_level1.evaluateLoop_masks _ _ _ _ _ _ _ _ hinds
            have hpop : pop.Individuals.length = settings.NumIndividuals ∧
                ∀ ind ∈ pop.Individuals, ind.Allocated
                  (ga_level1.NewRandomPopulation settings.NumIndividuals terminals
                    { arrays := [] } rng).2.1 := by
              rw [← he]
              exact ⟨by rw [hl]; exact il, ga_level1.allocated_of_masks _ _ _ hm ia⟩
            have hs0 : ga_level1.GAState.Shaped
                { heap := (ga_level1.NewRandomPopulation settings.NumIndividuals terminals
                    { arrays := [] } rng).2.1,
                  rng := (ga_level1.NewRandomPopulation settings.NumIndividuals terminals
                    { arrays := [] } rng).2.2,
                  pop := pop, best := best, noImprove := 0,
                  evaluated := [pop.Individuals] } terminals.length settings.NumIndividuals := by
              refine ⟨iu, hpop, ?_⟩
              intro p hp
              rw [List.mem_singleton.1 hp]
              exact hpop
            have hfin := ga_level1.gaLoop_inv _ _ _ _ _ _ _ st _ _ hs0 hst
            obtain ⟨more, hmore⟩ := ga_level1.gaLoop_evaluated_prefix _ _ _ _ _ _ _ _ hst
            rw [← h]
            refine ⟨by simp only [hmore]; simp, ?_⟩
            intro p hp
            obtain ⟨pl, pa⟩ := hfin.2.2 p hp
            exact ⟨pl, fun ind hind => MaskHeap.read_length _ _ _ hfin.1 (pa ind hind)⟩

/-- C21 on an odd population: three individuals over the two sample terminals, rank
selection, single-point crossover and inversion mutation; the four children of
each generation are cut to three, and the four evaluated populations have three
two-bit masks each. -/
theorem population_shape_invariant_witness :
    ∃ result : ga_level1.GAResult,
      ga_level1.RunGA (Sample.rngOf Sample.drawsOdd) Sample.settingsOdd Sample.terminals
        Sample.shipments Sample.interCityRates Sample.intraCityRates Sample.distances =
          .ok result ∧
      result.evaluated.length = 4 ∧
      ∀ pop ∈ result.evaluated, pop.length = 3 ∧
        ∀ ind ∈ pop, (result.heap.read ind.TerminalMask).length = 2 :=
  match Except.ok_of_toOption_map
      (ga_level1.RunGA (Sample.rngOf Sample.drawsOdd) Sample.settingsOdd Sample.terminals
        Sample.shipments Sample.interCityRates Sample.intraCityRates Sample.distances)
      (fun r => r.evaluated.length) 4 (by decide!) with
  | ⟨result, hrun, hval⟩ =>
    ⟨result, hrun, hval,
      (population_shape_invariant (Sample.rngOf Sample.drawsOdd) Sample.settingsOdd
        Sample.terminals Sample.shipments Sample.interCityRates Sample.intraCityRates
        Sample.distances result hrun).2.2.2⟩

/-! ## Grouping by delivery day: the weekdays that are dropped -/

namespace logic

theorem DeliveryDayMap_cases (k : String) (d : Nat) (h : DeliveryDayMap k = some d) :
    (k = "mon" ∧ d = 1) ∨ (k = "tue" ∧ d = 2) ∨ (k = "wed" ∧ d = 3) ∨ (k = "thu" ∧ d = 4) ∨
    (k = "fri" ∧ d = 5) ∨ (k = "sat" ∧ d = 6) ∨ (k = "sun" ∧ d = 0) := by
  unfold DeliveryDayMap at h
  split_ifs at h with c1 c2 c3 c4 c5 c6 c7 <;> simp only [Option.some.injEq] at h
  · exact Or.inl ⟨c1, h.symm⟩
  · exact Or.inr (Or.inl ⟨c2, h.symm⟩)
  · exact Or.inr (Or.inr (Or.inl ⟨c3, h.symm⟩))
  · exact Or.inr (Or.inr (Or.inr (Or.inl ⟨c4, h.symm⟩)))
  · exact Or.inr (Or.inr (Or.inr (Or.inr (Or.inl ⟨c5, h.symm⟩))))
  · exact Or.inr (Or.inr (Or.inr (Or.inr (Or.inr (Or.inl ⟨c6, h.symm⟩)))))
  · exact Or.inr (Or.inr (Or.inr (Or.inr (Or.inr (Or.inr ⟨c7, h.symm⟩)))))

theorem DeliveryDayMap_inj (k1 k2 : String) (d : Nat) (h1 : DeliveryDayMap k1 = some d)
    (h2 : DeliveryDayMap k2 = some d) : k1 = k2 := by
  rcases DeliveryDayMap_cases k1 d h1 with ⟨a, b⟩ | ⟨a, b⟩ | ⟨a, b⟩ | ⟨a, b⟩ | ⟨a, b⟩ |
      ⟨a, b⟩ | ⟨a, b⟩ <;>
    rcases DeliveryDayMap_cases k2 d h2 with ⟨a', b'⟩ | ⟨a', b'⟩ | ⟨a', b'⟩ | ⟨a', b'⟩ |
      ⟨a', b'⟩ | ⟨a', b'⟩ | ⟨a', b'⟩ <;>
    first
    | (exfalso; omega)
    | (rw [a, a'])

/-- The two ranges of the loop cover every weekday except those strictly between the
later delivery day and Saturday. -/
theorem dayIntervals_cover :
    ∀ w < 7, ∀ d1 < 7, ∀ d2 < 7, d1 ≠ d2 →
      (isBetween w (dayIntervals d1 d2).1 (dayIntervals d1 d2).2.1 ||
        isBetween w (dayIntervals d1 d2).2.2.1 (dayIntervals d1 d2).2.2.2) =
      !decide (max d1 d2 < w ∧ w < 6) := by
  unfold isBetween dayIntervals
  decide

theorem Sample.shipmentOn_Weekday (w : Nat) (hw : w < 7) : (Sample.shipmentOn w).Weekday = w := by
  unfold Sample.shipmentOn models.Shipment.Weekday
  simp only []
  omega

/-- C36: for two distinct valid day keys with weekdays `d1`, `d2` (Sunday = 0 ...
Saturday = 6) the grouping succeeds, no shipment is in both buckets, and a shipment
whose weekday lies strictly between the later day `max d1 d2` and Saturday is in no
bucket, while every other shipment is in the buckets exactly as often as in the
input.  So no shipment of any input is dropped if and only if the later day is
Friday or Saturday. -/
theorem dropped_weekdays (k1 k2 : String) (d1 d2 : Nat) (hne : k1 ≠ k2)
    (h1 : DeliveryDayMap k1 = some d1) (h2 : DeliveryDayMap k2 = some d2) :
    (∀ shipments : List Shipment, ∃ result b1 b2,
      GroupShipmentsByDeliveryDay shipments [k1, k2] = .ok result ∧
      bucketOf result k1 = some b1 ∧ bucketOf result k2 = some b2 ∧
      (∀ s, s ∈ b1 → s ∉ b2) ∧
      (∀ s, b1.count s + b2.count s =
        if max d1 d2 < s.Weekday ∧ s.Weekday < 6 then 0 else shipments.count s)) ∧
    ((∀ shipments : List Shipment, ∀ result b1 b2,
        GroupShipmentsByDeliveryDay shipments [k1, k2] = .ok result →
        bucketOf result k1 = some b1 → bucketOf result k2 = some b2 →
        ∀ s ∈ shipments, s ∈ b1 ∨ s ∈ b2) ↔
      (max d1 d2 = 5 ∨ max d1 d2 = 6)) := by
  have hd1 := DeliveryDayMap_lt k1 d1 h1
  have hd2 := DeliveryDayMap_lt k2 d2 h2
  have hdne : d1 ≠ d2 := by
    intro h
    rw [h] at h1
    exact hne (DeliveryDayMap_inj k1 k2 d2 h1 h2)
  have hne' : ¬ k2 = k1 := fun h => hne h.symm
  have key : ∀ shipments : List Shipment, ∃ result,
      GroupShipmentsByDeliveryDay shipments [k1, k2] = .ok result ∧
      bucketOf result k1 = some (shipments.filter (fun s =>
        isBetween s.Weekday (dayIntervals d1 d2).1 (dayIntervals d1 d2).2.1)) ∧
      bucketOf result k2 = some (shipments.filter (fun s =>
        !isBetween s.Weekday (dayIntervals d1 d2).1 (dayIntervals d1 d2).2.1 &&
          isBetween s.Weekday (dayIntervals d1 d2).2.2.1 (dayIntervals d1 d2).2.2.2)) := by
    intro shipments
    obtain ⟨result, hres, hb⟩ :=
      GroupShipmentsByDeliveryDay_buckets shipments k1 k2 d1 d2 h1 h2
    have hb1 := hb k1
    have hb2 := hb k2
    simp only [true_or, or_true, if_true, hne, hne', decide_True, decide_False,
      Bool.true_and, Bool.false_and, Bool.or_false, Bool.false_or] at hb1 hb2
    exact ⟨result, hres, hb1, hb2⟩
  have hcount : ∀ (shipments : List Shipment) (s : Shipment),
      (shipments.filter (fun s =>
        isBetween s.Weekday (dayIntervals d1 d2).1 (dayIntervals d1 d2).2.1)).count s +
      (shipments.filter (fun s =>
        !isBetween s.Weekday (dayIntervals d1 d2).1 (dayIntervals d1 d2).2.1 &&
          isBetween s.Weekday (dayIntervals d1 d2).2.2.1 (dayIntervals d1 d2).2.2.2)).count s =
      if max d1 d2 < s.Weekday ∧ s.Weekday < 6 then 0 else shipments.count s := by
    intro shipments s
    have hc := dayIntervals_cover s.Weekday (Shipment.Weekday_lt s) d1 hd1 d2 hd2 hdne
    by_cases hA : isBetween s.Weekday (dayIntervals d1 d2).1 (dayIntervals d1 d2).2.1 = true
    · have hdrop : ¬ (max d1 d2 < s.Weekday ∧ s.Weekday < 6) := by
        intro hcon
        rw [hA, decide_eq_true hcon] at hc
        simp at hc
      have z2 : (shipments.filter (fun s =>
          !isBetween s.Weekday (dayIntervals d1 d2).1 (dayIntervals d1 d2).2.1 &&
            isBetween s.Weekday (dayIntervals d1 d2).2.2.1
              (dayIntervals d1 d2).2.2.2)).count s = 0 := by
        apply List.count_eq_zero_of_not_mem
        intro hmem
        have := (List.mem_filter.1 hmem).2
        simp [hA] at this
      rw [if_neg hdrop, z2, Nat.add_zero]
      exact List.count_filter hA
    · have hA' : isBetween s.Weekday (dayIntervals d1 d2).1 (dayIntervals d1 d2).2.1 = false := by
        simpa using hA
      have z1 : (shipments.filter (fun s =>
          isBetween s.Weekday (dayIntervals d1 d2).1 (dayIntervals d1 d2).2.1)).count s = 0 := by
        apply List.count_eq_zero_of_not_mem
        intro hmem
        exact hA (List.mem_filter.1 hmem).2
      rw [z1, Nat.zero_add]
      by_cases hB : isBetween s.Weekday (dayIntervals d1 d2).2.2.1 (dayIntervals d1 d2).2.2.2 = true
      · have hdrop : ¬ (max d1 d2 < s.Weekday ∧ s.Weekday < 6) := by
          intro hcon
          rw [hB, decide_eq_true hcon] at hc
          simp at hc
        rw [if_neg hdrop]
        exact List.count_filter (by simp [hA', hB])
      · have hB' : isBetween s.Weekday (dayIntervals d1 d2).2.2.1 (dayIntervals d1 d2).2.2.2 =
            false := by simpa using hB
        have hdrop : max d1 d2 < s.Weekday ∧ s.Weekday < 6 := by
          rw [hA', hB'] at hc
          simpa using hc
        rw [if_pos hdrop]
        apply List.count_eq_zero_of_not_mem
        intro hmem
        have := (List.mem_filter.1 hmem).2
        simp [hB'] at this
  refine ⟨?_, ?_, ?_⟩
  · intro shipments
    obtain ⟨result, hres, hb1, hb2⟩ := key shipments
    refine ⟨result, _, _, hres, hb1, hb2, ?_, hcount shipments⟩
    intro s hs1 hs2
    have p1 := (List.mem_filter.1 hs1).2
    have p2 := (List.mem_filter.1 hs2).2
    simp [p1] at p2
  · intro hall
    by_contra hlate
    have hm : max d1 d2 < 5 := by omega
    obtain ⟨result, hres, hb1, hb2⟩ := key [Sample.shipmentOn (max d1 d2 + 1)]
    have hw := Sample.shipmentOn_Weekday (max d1 d2 + 1) (by omega)
    have hin := hall _ result _ _ hres hb1 hb2 (Sample.shipmentOn (max d1 d2 + 1))
      (List.mem_singleton.2 rfl)
    have hc := hcount [Sample.shipmentOn (max d1 d2 + 1)] (Sample.shipmentOn (max d1 d2 + 1))
    rw [hw, if_pos ⟨by omega, by omega⟩] at hc
    rcases hin with hin | hin
    · have := List.count_pos_iff.2 hin
      omega
    · have := List.count_pos_iff.2 hin
      omega
  · intro hlate shipments result b1 b2 hres hb1 hb2 s hs
    obtain ⟨result', hres', hb1', hb2'⟩ := key shipments
    rw [hres] at hres'
    simp only [Except.ok.injEq] at hres'
    subst hres'
    rw [hb1] at hb1'
    rw [hb2] at hb2'
    have hc := hcount shipments s
    rw [← Option.some.inj hb1', ← Option.some.inj hb2'] at hc
    have hw := Shipment.Weekday_lt s
    rw [if_neg (by omega)] at hc
    have hpos : 0 < shipments.count s := List.count_pos_iff.2 hs
    by_cases hz : b1.count s = 0
    · right
      exact List.count_pos_iff.1 (by omega)
    · left
      exact List.count_pos_iff.1 (by omega)

/-- C36 at the spec's example: with the days `mon`, `wed` a Thursday shipment and a
Friday shipment are in neither bucket, a Saturday shipment is kept. -/
theorem dropped_weekdays_witness :
    ∃ result b1 b2,
      GroupShipmentsByDeliveryDay
        [Sample.thursdayShipment, Sample.fridayShipment, Sample.saturdayShipment]
        ["mon", "wed"] = .ok result ∧
      bucketOf result "mon" = some b1 ∧ bucketOf result "wed" = some b2 ∧
      (∀ s, s ∈ b1 → s ∉ b2) ∧
      (∀ s, b1.count s + b2.count s =
        if max 1 3 < s.Weekday ∧ s.Weekday < 6 then 0
        else [Sample.thursdayShipment, Sample.fridayShipment,
          Sample.saturdayShipment].count s) :=
  (dropped_weekdays "mon" "wed" 1 3 (by decide) (by decide) (by decide)).1
    [Sample.thursdayShipment, Sample.fridayShipment, Sample.saturdayShipment]

/-- The values of the C36 example: the Saturday shipment is filed under `mon`, the
Thursday and the Friday shipment are dropped. -/
theorem dropped_weekdays_values :
    GroupShipmentsByDeliveryDay
        [Sample.thursdayShipment, Sample.fridayShipment, Sample.saturdayShipment]
        ["mon", "wed"] = .ok [("mon", [Sample.saturdayShipment]), ("wed", [])] ∧
    Sample.thursdayShipment.Weekday = 4 ∧ Sample.fridayShipment.Weekday = 5 ∧
    Sample.saturdayShipment.Weekday = 6 := by
  decide

end logic

/-! ## Validated delivery days and the grouping step -/

namespace validation

/-- A request that passes validation has two delivery days whose normalised forms
are two different day keys. -/
theorem valid_request_days (req : proto.OptimizeRequest)
    (h : ValidateOptimizeRequest (some req) = none) :
    ∃ a b, req.DeliveryDays = [a, b] ∧
      ToLower (TrimSpace a) ∈ AllowedDays ∧ ToLower (TrimSpace b) ∈ AllowedDays ∧
      ToLower (TrimSpace a) ≠ ToLower (TrimSpace b) := by
  rw [ValidateOptimizeRequest_eq] at h
  split at h
  · rename_i hnil
    have h1 := List.append_eq_nil.1 hnil
    have h2 := (List.append_eq_nil.1 h1.1).2
    match hdays : req.DeliveryDays with
    | [] => rw [hdays] at h2; simp [validateDeliveryDays] at h2
    | [_] => rw [hdays] at h2; simp [validateDeliveryDays] at h2
    | _ :: _ :: _ :: _ => rw [hdays] at h2; simp [validateDeliveryDays] at h2
    | [a, b] =>
      rw [hdays] at h2
      exact ⟨a, b, rfl, (validateDeliveryDays_two a b).1 h2⟩
  · cases h

end validation

/-- C39 fails on the request with `delivery_days = [" MON", "tue "]`: the handler
trims it to `["MON", "tue"]`, validation accepts it because it compares the
lower-cased entry, and the grouping step, which looks up the entry as it is,
rejects it with "invalid delivery day(s)", so the handler answers 500.  What does
hold for every validated request: the grouping never fails with "exactly 2
delivery days are required", and it succeeds when the entries are already in
lower case without surrounding white space. -/
theorem validated_days_rejected_by_grouping :
    (validation.ValidateOptimizeRequest
        (some (handler.trimRequest Sample.requestCapitalDay)) = none ∧
      (handler.trimRequest Sample.requestCapitalDay).DeliveryDays = ["MON", "tue"] ∧
      logic.GroupShipmentsByDeliveryDay [Sample.thursdayShipment, Sample.saturdayShipment]
          (handler.trimRequest Sample.requestCapitalDay).DeliveryDays =
        .error (.invalidDeliveryDays ["MON", "tue"]) ∧
      optimizer.Optimize Sample.store false (Sample.rngOf []) (Sample.rngOf [])
          (handler.trimRequest Sample.requestCapitalDay) =
        .error (.groupingFailed (.invalidDeliveryDays ["MON", "tue"])) ∧
      handler.HandleOptimize Sample.store false (Sample.rngOf []) (Sample.rngOf [])
          Sample.requestCapitalDay =
        some (.failure 500
          { Status := 500, Message := "optimization failed", Details := [] })) ∧
    (∀ (req : proto.OptimizeRequest) (shipments : List Shipment),
      validation.ValidateOptimizeRequest (some req) = none →
      (∀ e, logic.GroupShipmentsByDeliveryDay shipments req.DeliveryDays = .error e →
        e = .invalidDeliveryDays req.DeliveryDays) ∧
      ((∀ d ∈ req.DeliveryDays, ToLower (TrimSpace d) = d) →
        ∃ result, logic.GroupShipmentsByDeliveryDay shipments req.DeliveryDays =
          .ok result)) := by
  refine ⟨by decide, ?_⟩
  intro req shipments hvalid
  obtain ⟨a, b, hdays, ha, hb, _⟩ := validation.valid_request_days req hvalid
  rw [hdays]
  constructor
  · intro e he
    unfold logic.GroupShipmentsByDeliveryDay at he
    simp only [] at he
    split at he
    · cases he
    · simp only [Except.error.injEq] at he
      exact he.symm
  · intro hlow
    have ea : ToLower (TrimSpace a) = a := hlow a (by simp)
    have eb : ToLower (TrimSpace b) = b := hlow b (by simp)
    rw [ea] at ha
    rw [eb] at hb
    obtain ⟨d1, hd1⟩ := Option.isSome_iff_exists.1 ((logic.DeliveryDayMap_isSome_iff a).2 ha)
    obtain ⟨d2, hd2⟩ := Option.isSome_iff_exists.1 ((logic.DeliveryDayMap_isSome_iff b).2 hb)
    obtain ⟨result, hres, _⟩ :=
      logic.GroupShipmentsByDeliveryDay_buckets shipments a b d1 d2 hd1 hd2
    exact ⟨result, hres⟩

/-! ## Line-haul cost as a sum over the active terminals -/

/-- The line-haul loop adds one `CalculateLinehaulCost` per terminal of `ts`. -/
theorem linehaulLoop_sum (activeTerminals : List Terminal)
    (interCityRates : List InterCityRate) (hinter : interCityRates ≠ [])
    (hne : activeTerminals ≠ []) (ts : List Terminal) (acc : ℚ) :
    linehaulLoop activeTerminals interCityRates ts acc =
      .ok (acc + (ts.map (fun t =>
        logic.effectiveRate t activeTerminals interCityRates *
          (t.DistanceFromMoscowKm : ℚ))).sum) := by
  induction ts generalizing acc with
  | nil => simp [linehaulLoop]
  | cons t rest ih =>
    unfold linehaulLoop
    rw [logic.CalculateLinehaulCost_eq_rate t activeTerminals interCityRates hinter hne]
    simp only []
    rw [ih, List.map_cons, List.sum_cons, add_assoc]

/-- A line-haul loop that succeeds on a non-empty list had a non-empty rate table. -/
theorem linehaulLoop_rates_ne_nil (activeTerminals : List Terminal)
    (interCityRates : List InterCityRate) (t : Terminal) (rest : List Terminal) (acc c : ℚ)
    (h : linehaulLoop activeTerminals interCityRates (t :: rest) acc = .ok c) :
    interCityRates ≠ [] := by
  intro hnil
  unfold linehaulLoop at h
  rw [hnil] at h
  simp [logic.CalculateLinehaulCost] at h

theorem linehaulLoop_active (activeTerminals : List Terminal)
    (interCityRates : List InterCityRate) (hne : activeTerminals ≠ []) (c : ℚ)
    (h : linehaulLoop activeTerminals interCityRates activeTerminals 0 = .ok c) :
    interCityRates ≠ [] ∧
    c = (activeTerminals.map (fun t =>
      logic.effectiveRate t activeTerminals interCityRates *
        (t.DistanceFromMoscowKm : ℚ))).sum := by
  obtain ⟨t, rest, hcons⟩ := List.exists_cons_of_ne_nil hne
  have hinter : interCityRates ≠ [] := by
    apply linehaulLoop_rates_ne_nil activeTerminals interCityRates t rest 0 c
    rw [← hcons]
    exact h
  refine ⟨hinter, ?_⟩
  rw [linehaulLoop_sum activeTerminals interCityRates hinter hne activeTerminals 0] at h
  simp only [Except.ok.injEq, zero_add] at h
  exact h.symm

/-- C35: in a successful evaluation with at least one active terminal (level 1 on
the terminals selected by the mask, level 2 on its terminal list) the inter-city
table is not empty, `CalculateLinehaulCost` succeeds for every active terminal, and
`linehaul_cost` is the sum of these costs over all active terminals, whether or not
a shipment was assigned to them; the value is a function of the active terminals
and the inter-city rates alone, so every successful evaluation with the same
active terminals and rates, on whatever shipments, distances and intra-city
rates, has the same `linehaul_cost`. -/
theorem linehaul_sum_over_active :
    (∀ (heap : MaskHeap) (ind : ga_level1.Individual) (allTerminals : List Terminal)
        (shipments : List Shipment) (interCityRates : List InterCityRate)
        (intraCityRates : List IntraCityRate) (distances : Distances)
        (active : List Terminal) (scored : ga_level1.Individual),
        ga_level1.selectActive allTerminals 0 (heap.read ind.TerminalMask) = .ok active →
        active ≠ [] →
        ga_level1.CalculateFitness heap ind allTerminals shipments interCityRates
          intraCityRates distances = .ok scored →
        (∀ t ∈ active, logic.CalculateLinehaulCost t active interCityRates =
          .ok (logic.effectiveRate t active interCityRates *
            (t.DistanceFromMoscowKm : ℚ))) ∧
        scored.Cost.LinehaulCost = (active.map (fun t =>
          logic.effectiveRate t active interCityRates *
            (t.DistanceFromMoscowKm : ℚ))).sum ∧
        (∀ (shipments2 : List Shipment) (intraCityRates2 : List IntraCityRate)
            (distances2 : Distances) (scored2 : ga_level1.Individual),
          ga_level1.CalculateFitness heap ind allTerminals shipments2 interCityRates
            intraCityRates2 distances2 = .ok scored2 →
          scored2.Cost.LinehaulCost = scored.Cost.LinehaulCost)) ∧
    (∀ (activeTerminals : List Terminal) (shipments : List Shipment)
        (interCityRates : List InterCityRate) (intraCityRates : List IntraCityRate)
        (distances : Distances) (scored : ga_level2.Individual),
        activeTerminals ≠ [] →
        ga_level2.CalculateFitnessLevel2 activeTerminals shipments interCityRates
          intraCityRates distances = .ok scored →
        (∀ t ∈ activeTerminals,
          logic.CalculateLinehaulCost t activeTerminals interCityRates =
            .ok (logic.effectiveRate t activeTerminals interCityRates *
              (t.DistanceFromMoscowKm : ℚ))) ∧
        scored.Cost.LinehaulCost = (activeTerminals.map (fun t =>
          logic.effectiveRate t activeTerminals interCityRates *
            (t.DistanceFromMoscowKm : ℚ))).sum ∧
        (∀ (shipments2 : List Shipment) (intraCityRates2 : List IntraCityRate)
            (distances2 : Distances) (scored2 : ga_level2.Individual),
          ga_level2.CalculateFitnessLevel2 activeTerminals shipments2 interCityRates
            intraCityRates2 distances2 = .ok scored2 →
          scored2.Cost.LinehaulCost = scored.Cost.LinehaulCost)) := by
  have l1 : ∀ (heap : MaskHeap) (ind : ga_level1.Individual) (allTerminals : List Terminal)
      (shipments : List Shipment) (interCityRates : List InterCityRate)
      (intraCityRates : List IntraCityRate) (distances : Distances)
      (active : List Terminal) (scored : ga_level1.Individual),
      ga_level1.selectActive allTerminals 0 (heap.read ind.TerminalMask) = .ok active →
      active ≠ [] →
      ga_level1.CalculateFitness heap ind allTerminals shipments interCityRates
        intraCityRates distances = .ok scored →
      interCityRates ≠ [] ∧
      scored.Cost.LinehaulCost = (active.map (fun t =>
        logic.effectiveRate t active interCityRates *
          (t.DistanceFromMoscowKm : ℚ))).sum := by
    intro heap ind allTerminals shipments interCityRates intraCityRates distances active
      scored hsel hne h
    obtain ⟨active', hsel', hcase⟩ := ga_level1.CalculateFitness_ok _ _ _ _ _ _ _ _ h
    rw [hsel] at hsel'
    simp only [Except.ok.injEq] at hsel'
    subst hsel'
    rcases hcase with ⟨hnil, _⟩ | ⟨_, lastMileCost, linehaulCost, _, hlh, hs⟩
    · exact absurd hnil hne
    · obtain ⟨hinter, hc⟩ := linehaulLoop_active active interCityRates hne linehaulCost hlh
      rw [hs]
      exact ⟨hinter, hc⟩
  have l2 : ∀ (activeTerminals : List Terminal) (shipments : List Shipment)
      (interCityRates : List InterCityRate) (intraCityRates : List IntraCityRate)
      (distances : Distances) (scored : ga_level2.Individual),
      activeTerminals ≠ [] →
      ga_level2.CalculateFitnessLevel2 activeTerminals shipments interCityRates
        intraCityRates distances = .ok scored →
      interCityRates ≠ [] ∧
      scored.Cost.LinehaulCost = (activeTerminals.map (fun t =>
        logic.effectiveRate t activeTerminals interCityRates *
          (t.DistanceFromMoscowKm : ℚ))).sum := by
    intro activeTerminals shipments interCityRates intraCityRates distances scored hne h
    obtain ⟨groups, lastMileCost, linehaulCost, _, _, hlh, hs⟩ :=
      ga_level2.CalculateFitnessLevel2_ok _ _ _ _ _ _ h
    obtain ⟨hinter, hc⟩ :=
      linehaulLoop_active activeTerminals interCityRates hne linehaulCost hlh
    rw [hs]
    exact ⟨hinter, hc⟩
  constructor
  · intro heap ind allTerminals shipments interCityRates intraCityRates distances active
      scored hsel hne h
    obtain ⟨hinter, hc⟩ := l1 _ _ _ _ _ _ _ _ _ hsel hne h
    refine ⟨fun t _ => logic.CalculateLinehaulCost_eq_rate t active interCityRates hinter hne,
      hc, ?_⟩
    intro shipments2 intraCityRates2 distances2 scored2 h2
    rw [hc, (l1 _ _ _ _ _ _ _ _ _ hsel hne h2).2]
  · intro activeTerminals shipments interCityRates intraCityRates distances scored hne h
    obtain ⟨hinter, hc⟩ := l2 _ _ _ _ _ _ hne h
    refine ⟨fun t _ =>
      logic.CalculateLinehaulCost_eq_rate t activeTerminals interCityRates hinter hne, hc, ?_⟩
    intro shipments2 intraCityRates2 distances2 scored2 h2
    rw [hc, (l2 _ _ _ _ _ _ hne h2).2]

/-- C35 on the sample data: with the mask `A and B` both shipments go to `B`, and
the line-haul cost 3900 is the cost of `A` (2500) plus the cost of `B` (1400). -/
theorem linehaul_sum_over_active_witness :
    Sample.scoredAB.Cost.LinehaulCost = (Sample.terminals.map (fun t =>
      logic.effectiveRate t Sample.terminals Sample.interCityRates *
        (t.DistanceFromMoscowKm : ℚ))).sum :=
  (linehaul_sum_over_active.1 Sample.heap { TerminalMask := 2 } Sample.terminals
    Sample.shipments Sample.interCityRates Sample.intraCityRates Sample.distances
    Sample.terminals Sample.scoredAB (by decide) (by decide) Sample.eval_scoredAB).2.1

/-- The values of the C35 example: no route goes to `A`, and `A` contributes 2500
of the 3900. -/
theorem linehaul_sum_values :
    Sample.scoredAB.Routes.map (fun r => r.ToTerminal) = ["B"] ∧
    logic.CalculateLinehaulCost Sample.terminalA Sample.terminals Sample.interCityRates =
      .ok 2500 ∧
    logic.CalculateLinehaulCost Sample.terminalB Sample.terminals Sample.interCityRates =
      .ok 1400 ∧
    Sample.scoredAB.Cost.LinehaulCost = 3900 := by
  decide!

/-! ## Evaluations that cannot fail -/

/-- A property of every member of every group survives `appendShipment`. -/
theorem appendShipment_members (P : String → Shipment → Prop) (m : TerminalShipments)
    (city : String) (s : Shipment) (hm : ∀ g ∈ m, ∀ x ∈ g.2, P g.1 x) (hs : P city s) :
    ∀ g ∈ appendShipment m city s, ∀ x ∈ g.2, P g.1 x := by
  induction m with
  | nil =>
    intro g hg x hx
    simp only [appendShipment, List.mem_singleton] at hg
    rw [hg] at hx
    simp only [List.mem_singleton] at hx
    rw [hg, hx]
    exact hs
  | cons g0 rest ih =>
    obtain ⟨c, l⟩ := g0
    unfold appendShipment
    by_cases hc : c = city
    · simp only [hc, if_true]
      intro g hg x hx
      rcases List.mem_cons.1 hg with h | h
      · rw [h] at hx ⊢
        simp only [List.mem_append, List.mem_singleton] at hx
        rcases hx with hx | hx
        · have := hm (c, l) (List.mem_cons_self _ _) x hx
          rw [hc] at this
          exact this
        · rw [hx]
          exact hs
      · exact hm g (List.mem_cons_of_mem _ h) x hx
    · simp only [hc, if_false]
      intro g hg x hx
      rcases List.mem_cons.1 hg with h | h
      · rw [h] at hx ⊢
        exact hm (c, l) (List.mem_cons_self _ _) x hx
      · exact ih (fun g hg => hm g (List.mem_cons_of_mem _ hg)) g h x hx

/-- A property the key of every shipment has holds for every member of every group. -/
theorem groupByKey_members (P : String → Shipment → Prop) (key : Shipment → String)
    (shipments : List Shipment) (acc : TerminalShipments)
    (hacc : ∀ g ∈ acc, ∀ x ∈ g.2, P g.1 x) (hs : ∀ s ∈ shipments, P (key s) s) :
    ∀ g ∈ groupByKey key shipments acc, ∀ x ∈ g.2, P g.1 x := by
  induction shipments generalizing acc with
  | nil => exact hacc
  | cons s rest ih =>
    rw [groupByKey_cons]
    exact ih _ (appendShipment_members P acc (key s) s hacc (hs s (List.mem_cons_self _ _)))
      (fun x hx => hs x (List.mem_cons_of_mem _ hx))

/-- The search returns the city of a terminal that has an entry for the destination. -/
theorem nearestTerminal_entry (bound : Int) (active : List Terminal) (distances : Distances)
    (dest : String) (h : nearestTerminal bound active distances dest ≠ "") :
    ∃ d, distances.sub (nearestTerminal bound active distances dest) dest = some d := by
  rcases nearestTerminal_cases bound active distances dest with ⟨he, _⟩ | ⟨t, d, hfn, _, ht⟩
  · exact absurd he h
  · rw [ht]
    exact ⟨d, hfn.mem.2⟩

namespace ga_level1

/-- Every shipment of a group of the level-1 assignment has a distance entry from
the terminal of the group. -/
theorem assignShipments_entries (active : List Terminal) (distances : Distances)
    (shipments : List Shipment) :
    ∀ g ∈ (assignShipments active distances shipments).1, ∀ s ∈ g.2,
      ∃ d, distances.sub g.1 s.DestinationCity = some d := by
  rw [assignShipments_groups]
  apply groupByKey_members (fun c s => ∃ d, distances.sub c s.DestinationCity = some d)
  · intro g hg
    cases hg
  · intro s hs
    have := (List.mem_filter.1 hs).2
    exact nearestTerminal_entry _ _ _ _ (of_decide_eq_true this)

theorem selectActive_ok_of_length (allTerminals : List Terminal) (mask : List Bool) (i : Nat)
    (h : i + mask.length ≤ allTerminals.length) :
    ∃ active, selectActive allTerminals i mask = .ok active := by
  induction mask generalizing i with
  | nil => exact ⟨[], rfl⟩
  | cons b rest ih =>
    rw [List.length_cons] at h
    obtain ⟨ts, hts⟩ := ih (i + 1) (by omega)
    unfold selectActive
    cases b with
    | false => simpa using ⟨ts, hts⟩
    | true =>
      have hi : i < allTerminals.length := by omega
      simp only [if_true, List.getElem?_eq_getElem hi, hts]
      exact ⟨_, rfl⟩

end ga_level1

namespace ga_level2

/-- Every shipment of a group of a successful level-2 assignment has a distance
entry from the terminal of the group. -/
theorem assignShipments_ok_entries (active : List Terminal) (distances : Distances)
    (shipments : List Shipment) (groups : TerminalShipments)
    (h : assignShipments active distances shipments [] = .ok groups) :
    ∀ g ∈ groups, ∀ s ∈ g.2, ∃ d, distances.sub g.1 s.DestinationCity = some d := by
  obtain ⟨hall, hg⟩ := (assignShipments_ok_iff active distances shipments [] groups).1 h
  rw [hg]
  apply groupByKey_members (fun c s => ∃ d, distances.sub c s.DestinationCity = some d)
  · intro g hg
    cases hg
  · intro s hs
    exact nearestTerminal_entry _ _ _ _ (hall s hs)

end ga_level2

namespace logic

theorem allWithin100Km_total (terminalCity : String) (distances : DistMap)
    (shipments : List Shipment)
    (hall : ∀ s ∈ shipments, ∃ d, distances s.DestinationCity = some d) :
    ∃ b, allWithin100Km terminalCity distances shipments = .ok b := by
  induction shipments with
  | nil => exact ⟨true, rfl⟩
  | cons s rest ih =>
    obtain ⟨d, hd⟩ := hall s (List.mem_cons_self _ _)
    unfold allWithin100Km
    rw [hd]
    simp only []
    split
    · exact ⟨false, rfl⟩
    · exact ih (fun x hx => hall x (List.mem_cons_of_mem _ hx))

/-- With both rate tables non-empty and a distance entry for every shipment the
last-mile cost of a group is computed without error. -/
theorem CalculateLastMileCostForTerminal_ok (shipments : List Shipment) (terminalCity : String)
    (interCityRates : List InterCityRate) (intraCityRates : List IntraCityRate)
    (distances : DistMap)
    (hall : ∀ s ∈ shipments, ∃ d, distances s.DestinationCity = some d)
    (hinter : interCityRates ≠ []) (hintra : intraCityRates ≠ []) :
    ∃ c, CalculateLastMileCostForTerminal shipments terminalCity interCityRates
      intraCityRates distances = .ok c := by
  unfold CalculateLastMileCostForTerminal
  by_cases hlen : shipments.length = 0
  · simp only [hlen, if_true]
    exact ⟨0, rfl⟩
  · simp only [hlen, if_false]
    obtain ⟨_, _, _, _, htar⟩ := tariffCost_ok shipments terminalCity interCityRates
      intraCityRates distances (totals shipments).1 (totals shipments).2 hall hinter hintra
    split
    · obtain ⟨b, hb⟩ := allWithin100Km_total terminalCity distances shipments hall
      rw [hb]
      cases b with
      | true => exact ⟨7000, rfl⟩
      | false => exact ⟨_, htar⟩
    · exact ⟨_, htar⟩

end logic

theorem lastMileLoop_ok (interCityRates : List InterCityRate)
    (intraCityRates : List IntraCityRate) (distances : Distances)
    (hinter : interCityRates ≠ []) (hintra : intraCityRates ≠ [])
    (groups : TerminalShipments) (acc : ℚ)
    (hall : ∀ g ∈ groups, ∀ s ∈ g.2, ∃ d, distances.sub g.1 s.DestinationCity = some d) :
    ∃ c, lastMileLoop interCityRates intraCityRates distances groups acc = .ok c := by
  induction groups generalizing acc with
  | nil => exact ⟨acc, rfl⟩
  | cons g rest ih =>
    obtain ⟨city, sList⟩ := g
    unfold lastMileLoop
    obtain ⟨c, hc⟩ := logic.CalculateLastMileCostForTerminal_ok sList city interCityRates
      intraCityRates (distances.sub city) (hall (city, sList) (List.mem_cons_self _ _))
      hinter hintra
    rw [hc]
    exact ih _ (fun g hg => hall g (List.mem_cons_of_mem _ hg))

/-- C37: with non-empty inter-city and intra-city rate tables, `CalculateFitness`
returns a scored individual for every mask exactly as long as the terminal list,
whatever the shipments and the distance matrix: every shipment of a group has a
distance entry from the terminal of the group, so the last-mile "distance not
found" branch is not reached.  Under the same precondition an error of
`CalculateFitnessLevel2` or `RunGALevel2` is "no terminal covers destination" for
the destination of one of the shipments. -/
theorem evaluation_cannot_fail (interCityRates : List InterCityRate)
    (intraCityRates : List IntraCityRate)
    (hinter : interCityRates ≠ []) (hintra : intraCityRates ≠ []) :
    (∀ (heap : MaskHeap) (ind : ga_level1.Individual) (allTerminals : List Terminal)
        (shipments : List Shipment) (distances : Distances),
        (heap.read ind.TerminalMask).length = allTerminals.length →
        (∃ scored, ga_level1.CalculateFitness heap ind allTerminals shipments interCityRates
          intraCityRates distances = .ok scored) ∧
        (∀ active, ∀ g ∈ (ga_level1.assignShipments active distances shipments).1,
          ∀ s ∈ g.2, ∃ d, distances.sub g.1 s.DestinationCity = some d)) ∧
    (∀ (activeTerminals : List Terminal) (shipments : List Shipment) (distances : Distances)
        (e : Err),
        (ga_level2.CalculateFitnessLevel2 activeTerminals shipments interCityRates
            intraCityRates distances = .error e ∨
          ga_level2.RunGALevel2 activeTerminals shipments interCityRates
            intraCityRates distances = .error e) →
        ∃ s ∈ shipments, e = .noTerminalCovers s.DestinationCity) := by
  constructor
  · intro heap ind allTerminals shipments distances hlen
    refine ⟨?_, fun active => ga_level1.assignShipments_entries active distances shipments⟩
    obtain ⟨active, hsel⟩ := ga_level1.selectActive_ok_of_length allTerminals
      (heap.read ind.TerminalMask) 0 (by omega)
    unfold ga_level1.CalculateFitness
    rw [hsel]
    simp only []
    by_cases hz : active.length = 0
    · simp only [hz, if_true]
      exact ⟨_, rfl⟩
    · simp only [hz, if_false]
      have hne : active ≠ [] := fun e => hz (by rw [e]; rfl)
      obtain ⟨lm, hlm⟩ := lastMileLoop_ok interCityRates intraCityRates distances hinter hintra
        (ga_level1.assignShipments active distances shipments).1 0
        (ga_level1.assignShipments_entries active distances shipments)
      obtain ⟨lh, hlh⟩ := linehaulLoop_ok active interCityRates hinter hne active 0
      rw [hlm, hlh]
      exact ⟨_, rfl⟩
  · have key : ∀ (activeTerminals : List Terminal) (shipments : List Shipment)
        (distances : Distances) (e : Err),
        ga_level2.CalculateFitnessLevel2 activeTerminals shipments interCityRates
          intraCityRates distances = .error e →
        ∃ s ∈ shipments, e = .noTerminalCovers s.DestinationCity := by
      intro activeTerminals shipments distances e h
      unfold ga_level2.CalculateFitnessLevel2 at h
      cases hg : ga_level2.assignShipments activeTerminals distances shipments [] with
      | error e1 =>
        rw [hg] at h
        simp only [Except.error.injEq] at h
        obtain ⟨s, hs, he, _⟩ := ga_level2.assignShipments_error _ _ _ _ _ hg
        exact ⟨s, hs, by rw [← h, he]⟩
      | ok groups =>
        rw [hg] at h
        simp only [] at h
        obtain ⟨lm, hlm⟩ := lastMileLoop_ok interCityRates intraCityRates distances hinter
          hintra groups 0 (ga_level2.assignShipments_ok_entries _ _ _ _ hg)
        rw [hlm] at h
        simp only [] at h
        have hlh : ∃ lh, linehaulLoop activeTerminals interCityRates activeTerminals 0 =
            .ok lh := by
          by_cases hne : activeTerminals = []
          · rw [hne]
            exact ⟨0, rfl⟩
          · exact linehaulLoop_ok activeTerminals interCityRates hinter hne activeTerminals 0
        obtain ⟨lh, hlh⟩ := hlh
        rw [hlh] at h
        cases h
    intro activeTerminals shipments distances e h
    rcases h with h | h
    · exact key _ _ _ _ h
    · unfold ga_level2.RunGALevel2 at h
      split at h
      · cases h
      · exact key _ _ _ _ h

/-- C37 on the sample tables: the mask `A only` is scored although `A` has no
entry for the destination of `s2`, and level 2 on `A` alone fails with "no terminal
covers destination Y". -/
theorem evaluation_cannot_fail_witness :
    (∃ scored, ga_level1.CalculateFitness Sample.heap { TerminalMask := 0 } Sample.terminals
      Sample.shipments Sample.interCityRates Sample.intraCityRates Sample.distances =
        .ok scored) ∧
    (∀ e, ga_level2.CalculateFitnessLevel2 [Sample.terminalA] Sample.shipments
        Sample.interCityRates Sample.intraCityRates Sample.distances = .error e →
      ∃ s ∈ Sample.shipments, e = .noTerminalCovers s.DestinationCity) :=
  ⟨((evaluation_cannot_fail Sample.interCityRates Sample.intraCityRates (by decide)
      (by decide)).1 Sample.heap { TerminalMask := 0 } Sample.terminals Sample.shipments
      Sample.distances (by decide)).1,
   fun e h => (evaluation_cannot_fail Sample.interCityRates Sample.intraCityRates (by decide)
      (by decide)).2 [Sample.terminalA] Sample.shipments Sample.distances e (Or.inl h)⟩

/-- The values of the C37 example. -/
theorem evaluation_sample_values :
    ga_level1.CalculateFitness Sample.heap { TerminalMask := 0 } Sample.terminals
      Sample.shipments Sample.interCityRates Sample.intraCityRates Sample.distances =
        .ok Sample.scoredA ∧
    ga_level2.CalculateFitnessLevel2 [Sample.terminalA] Sample.shipments
      Sample.interCityRates Sample.intraCityRates Sample.distances =
        .error (.noTerminalCovers "Y") := by
  decide!

/-! ## No cost component is negative -/

namespace logic

end logic

namespace optimizer

theorem lookupTerminals_city (filteredTerminals : List Terminal) (cities : List String) :
    ∀ t ∈ lookupTerminals filteredTerminals cities, t.City ∈ cities := by
  intro t ht
  unfold lookupTerminals at ht
  obtain ⟨city, hcity, hfind⟩ := List.mem_filterMap.1 ht
  have := List.find?_some hfind
  simp only [decide_eq_true_eq] at this
  rw [this]
  exact hcity

theorem lookupTerminals_ne_nil (filteredTerminals : List Terminal) (cities : List String)
    (h : ∃ t ∈ filteredTerminals, t.City ∈ cities) :
    lookupTerminals filteredTerminals cities ≠ [] := by
  obtain ⟨t, ht, hc⟩ := h
  have hsome : (filteredTerminals.find? (fun u => decide (u.City = t.City))).isSome := by
    rw [List.find?_isSome]
    exact ⟨t, ht, by simp⟩
  obtain ⟨u, hu⟩ := Option.isSome_iff_exists.1 hsome
  intro hnil
  have : u ∈ lookupTerminals filteredTerminals cities :=
    List.mem_filterMap.2 ⟨t.City, hc, hu⟩
  rw [hnil] at this
  cases this

/-- The active terminals of a scored individual that has any are cities of
terminals of the list it was scored on. -/
theorem scored_active_terminals (terminals : List Terminal) (shipments : List Shipment)
    (interCityRates : List InterCityRate) (intraCityRates : List IntraCityRate)
    (distances : Distances) (ind : ga_level1.Individual)
    (hscored : ga_level1.ScoredOn terminals shipments interCityRates intraCityRates distances
      ind)
    (hne : ind.ActiveTerminals ≠ []) :
    ∃ t ∈ terminals, t.City ∈ ind.ActiveTerminals := by
  obtain ⟨heap, mask, h⟩ := hscored
  obtain ⟨active, hsel, hcase⟩ := ga_level1.CalculateFitness_ok _ _ _ _ _ _ _ _ h
  rcases hcase with ⟨_, hs⟩ | ⟨hact, _, _, _, _, hs⟩
  · rw [hs] at hne
    exact absurd rfl hne
  · obtain ⟨t, rest, hcons⟩ := List.exists_cons_of_ne_nil hact
    refine ⟨t, ga_level1.selectActive_subset _ _ _ _ hsel t (by rw [hcons]; simp), ?_⟩
    rw [hs]
    simp only []
    rw [hcons]
    simp

/-- Level 2 on terminals none of which has an entry for the destination of some
shipment fails with "no terminal covers destination". -/
theorem RunGALevel2_uncovered (activeTerminals : List Terminal) (shipments : List Shipment)
    (interCityRates : List InterCityRate) (intraCityRates : List IntraCityRate)
    (distances : Distances) (hne : activeTerminals ≠ []) (s : Shipment) (hs : s ∈ shipments)
    (hno : ∀ t ∈ activeTerminals, distances.sub t.City s.DestinationCity = none) :
    ∃ m ∈ shipments, ga_level2.RunGALevel2 activeTerminals shipments interCityRates
      intraCityRates distances = .error (.noTerminalCovers m.DestinationCity) := by
  have hentry : hasEntry distances activeTerminals s.DestinationCity = false := by
    cases he : hasEntry distances activeTerminals s.DestinationCity with
    | false => rfl
    | true =>
      obtain ⟨t, ht, d, hd⟩ := (hasEntry_iff distances activeTerminals s.DestinationCity).1 he
      rw [hno t ht] at hd
      cases hd
  have hnear := nearestTerminal_of_no_entry MaxInt32 activeTerminals distances
    s.DestinationCity hentry
  have hsome : (shipments.find? (fun s => decide
      (nearestTerminal MaxInt32 activeTerminals distances s.DestinationCity = ""))).isSome := by
    rw [List.find?_isSome]
    exact ⟨s, hs, by simp [hnear]⟩
  obtain ⟨m, hm⟩ := Option.isSome_iff_exists.1 hsome
  refine ⟨m, List.mem_of_find?_eq_some hm, ?_⟩
  have hlen : ¬ activeTerminals.length = 0 := fun h => hne (List.length_eq_zero.1 h)
  unfold ga_level2.RunGALevel2
  simp only [hlen, if_false]
  unfold ga_level2.CalculateFitnessLevel2
  rw [ga_level2.assignShipments_first_error activeTerminals distances shipments [] m hm]

/-- A day whose level-1 winner has active terminals none of which has an entry for
the destination of some shipment of the day fails in level 2. -/
theorem optimizeDay_uncovered (rng : Rng) (settings : proto.GASettings)
    (filteredTerminals : List Terminal) (dayShipments : List Shipment)
    (interCityRates : List InterCityRate) (intraCityRates : List IntraCityRate)
    (distances : Distances) (level1Result : ga_level1.GAResult)
    (hrun : ga_level1.RunGA rng settings filteredTerminals dayShipments interCityRates
      intraCityRates distances = .ok level1Result)
    (hne : level1Result.best.ActiveTerminals ≠ [])
    (s : Shipment) (hs : s ∈ dayShipments)
    (hno : ∀ city ∈ level1Result.best.ActiveTerminals,
      distances.sub city s.DestinationCity = none) :
    ∃ m ∈ dayShipments, optimizeDay rng settings filteredTerminals dayShipments
      interCityRates intraCityRates distances =
        .error (.level2Failed (.noTerminalCovers m.DestinationCity)) := by
  have hscored := ga_level1.RunGA_best_scored rng settings filteredTerminals dayShipments
    interCityRates intraCityRates distances level1Result hrun
  have hactive := lookupTerminals_ne_nil filteredTerminals level1Result.best.ActiveTerminals
    (scored_active_terminals _ _ _ _ _ _ hscored hne)
  obtain ⟨m, hm, herr⟩ := RunGALevel2_uncovered
    (lookupTerminals filteredTerminals level1Result.best.ActiveTerminals) dayShipments
    interCityRates intraCityRates distances hactive s hs
    (fun t ht => hno t.City (lookupTerminals_city _ _ t ht))
  refine ⟨m, hm, ?_⟩
  unfold optimizeDay
  rw [hrun]
  simp only []
  rw [herr]

/-- C38: if for one of the two delivery days `RunGA` returns a winner with at least
one active terminal and some shipment of that day has no distance entry from any
of the winner's active terminals, then `Optimize` fails with the level-2 error "no
terminal covers destination" for the destination of a shipment of that day.  The
day is either the one processed first, or the one processed second after a first
day that succeeded. -/
theorem uncovered_winner_fails_request (store : storage.Storage) (reversed : Bool)
    (rng1 rng2 : Rng) (req : proto.OptimizeRequest) (p : Prepared) (g : proto.GASettings)
    (dayA dayB : String × List Shipment)
    (hprep : prepare store req = .ok p)
    (hdays : (if reversed then p.groupedShipments.reverse else p.groupedShipments) =
      [dayA, dayB])
    (hset : req.GaSettingsLevel_1 = some g) :
    (∀ (level1Result : ga_level1.GAResult) (s : Shipment),
      ga_level1.RunGA rng1 g p.filteredTerminals dayA.2 p.interCityRates p.intraCityRates
        p.distancesMap = .ok level1Result →
      level1Result.best.ActiveTerminals ≠ [] → s ∈ dayA.2 →
      (∀ city ∈ level1Result.best.ActiveTerminals,
        p.distancesMap.sub city s.DestinationCity = none) →
      ∃ m ∈ dayA.2, Optimize store reversed rng1 rng2 req =
        .error (.level2Failed (.noTerminalCovers m.DestinationCity))) ∧
    (∀ (runA : DayRun) (level1Result : ga_level1.GAResult) (s : Shipment),
      optimizeDay rng1 g p.filteredTerminals dayA.2 p.interCityRates p.intraCityRates
        p.distancesMap = .ok runA →
      ga_level1.RunGA rng2 g p.filteredTerminals dayB.2 p.interCityRates p.intraCityRates
        p.distancesMap = .ok level1Result →
      level1Result.best.ActiveTerminals ≠ [] → s ∈ dayB.2 →
      (∀ city ∈ level1Result.best.ActiveTerminals,
        p.distancesMap.sub city s.DestinationCity = none) →
      ∃ m ∈ dayB.2, Optimize store reversed rng1 rng2 req =
        .error (.level2Failed (.noTerminalCovers m.DestinationCity))) := by
  have hzip : List.zip [dayA, dayB] [rng1, rng2] = [(dayA, rng1), (dayB, rng2)] := rfl
  constructor
  · intro level1Result s hrun hne hs hno
    obtain ⟨m, hm, herr⟩ := optimizeDay_uncovered rng1 g p.filteredTerminals dayA.2
      p.interCityRates p.intraCityRates p.distancesMap level1Result hrun hne s hs hno
    refine ⟨m, hm, ?_⟩
    unfold Optimize
    simp only [hprep, hdays, hset]
    rw [hzip]
    unfold dayLoop
    simp only [herr]
  · intro runA level1Result s hA hrun hne hs hno
    obtain ⟨m, hm, herr⟩ := optimizeDay_uncovered rng2 g p.filteredTerminals dayB.2
      p.interCityRates p.intraCityRates p.distancesMap level1Result hrun hne s hs hno
    refine ⟨m, hm, ?_⟩
    unfold Optimize
    simp only [hprep, hdays, hset]
    rw [hzip]
    unfold dayLoop
    simp only [hA]
    split_ifs <;>
    · unfold dayLoop
      simp only [herr]

/-- C38 on the sample store with the days `mon`, `tue`: the Saturday shipment to `Y`
is the only shipment of the day `mon`, the level-1 winner has the mask `A only`,
and `A` has no entry for `Y`. -/
theorem uncovered_winner_fails_request_witness :
    ∃ m ∈ [Sample.saturdayShipment],
      Optimize Sample.store false (Sample.rngOf Sample.drawsAOnly) (Sample.rngOf [])
        Sample.request = .error (.level2Failed (.noTerminalCovers m.DestinationCity)) :=
  match Except.ok_of_toOption_map
      (ga_level1.RunGA (Sample.rngOf Sample.drawsAOnly) Sample.settingsMinimal
        Sample.terminals [Sample.saturdayShipment] Sample.interCityRates
        Sample.intraCityRates Sample.prepared.distancesMap)
      (fun r => r.best.ActiveTerminals) ["A"] (by decide!) with
  | ⟨level1Result, hrun, hval⟩ =>
    (uncovered_winner_fails_request Sample.store false (Sample.rngOf Sample.drawsAOnly)
      (Sample.rngOf []) Sample.request
      { Sample.prepared with
        groupedShipments := [("mon", [Sample.saturdayShipment]), ("tue", [])] }
      Sample.settingsMinimal ("mon", [Sample.saturdayShipment]) ("tue", [])
      rfl rfl rfl).1 level1Result Sample.saturdayShipment hrun
      (by rw [hval]; decide) (by decide)
      (by rw [hval]; decide)

/-- The values of the C38 example: the winner was charged the `1e9` penalty for the
shipment, and the request fails for the destination `Y`. -/
theorem uncovered_winner_values :
    (ga_level1.RunGA (Sample.rngOf Sample.drawsAOnly) Sample.settingsMinimal
        Sample.terminals [Sample.saturdayShipment] Sample.interCityRates
        Sample.intraCityRates Sample.prepared.distancesMap).toOption.map
      (fun r => (r.best.ActiveTerminals, r.best.Cost.PenaltyCost)) =
        some (["A"], 1000000000) ∧
    Optimize Sample.store false (Sample.rngOf Sample.drawsAOnly) (Sample.rngOf [])
      Sample.request = .error (.level2Failed (.noTerminalCovers "Y")) := by
  decide!

end optimizer

/-! ## Selection fills every slot -/

theorem Rng.Float64_range (rng : Rng) : 0 ≤ (rng.Float64).1 ∧ (rng.Float64).1 < 1 := by
  unfold Rng.Float64
  simp only []
  have h : (rng.next).1 % 2 ^ 53 < 2 ^ 53 := Nat.mod_lt _ (by norm_num)
  have hq : (((rng.next).1 % 2 ^ 53 : Nat) : ℚ) < (2 ^ 53 : ℚ) := by exact_mod_cast h
  constructor
  · positivity
  · rw [div_lt_one (by norm_num)]
    exact hq

namespace ga_level1

theorem foldl_weights (pop : List Individual) (acc : ℚ) :
    pop.foldl (fun total p => total + 1 / (1 + p.Fitness)) acc =
      acc + (pop.map (fun p => 1 / (1 + p.Fitness))).sum := by
  induction pop generalizing acc with
  | nil => simp
  | cons p rest ih =>
    rw [List.foldl_cons, ih, List.map_cons, List.sum_cons, add_assoc]

/-- A roulette scan that fills no slot ran past the whole cumulative weight. -/
theorem rouletteScan_none (r : ℚ) (pop : List Individual) (cum : ℚ) (hne : pop ≠ [])
    (h : rouletteScan r pop cum = none) :
    cum + (pop.map (fun p => 1 / (1 + p.Fitness))).sum < r := by
  induction pop generalizing cum with
  | nil => exact absurd rfl hne
  | cons p rest ih =>
    unfold rouletteScan at h
    split at h
    · cases h
    · rename_i hlt
      rw [List.map_cons, List.sum_cons]
      by_cases hrest : rest = []
      · rw [hrest]
        simp only [List.map_nil, List.sum_nil, add_zero]
        linarith [not_le.1 hlt]
      · have := ih _ hrest h
        linarith

theorem weights_nonneg (pop : List Individual) (hfit : ∀ p ∈ pop, 0 ≤ p.Fitness) :
    0 ≤ (pop.map (fun p => 1 / (1 + p.Fitness))).sum := by
  apply List.sum_nonneg
  intro x hx
  obtain ⟨p, hp, hpx⟩ := List.mem_map.1 hx
  rw [← hpx]
  have := hfit p hp
  positivity

/-- With non-negative fitness values no roulette slot stays nil. -/
theorem rouletteWheelSelection_no_nil (pop : List Individual) (count : Nat) (rng : Rng)
    (hne : pop ≠ []) (hfit : ∀ p ∈ pop, 0 ≤ p.Fitness) :
    none ∉ (rouletteWheelSelection pop count rng).1 := by
  induction count generalizing rng with
  | zero =>
    intro hslot
    cases hslot
  | succ k ih =>
    unfold rouletteWheelSelection
    simp only []
    intro hslot
    rcases List.mem_cons.1 hslot with h | h
    · have hlt := rouletteScan_none _ pop 0 hne h.symm
      rw [foldl_weights] at hlt
      have hw := weights_nonneg pop hfit
      obtain ⟨h0, h1⟩ := Rng.Float64_range rng
      have := mul_le_mul_of_nonneg_right (le_of_lt h1)
        (by linarith : (0 : ℚ) ≤ 0 + (pop.map (fun p => 1 / (1 + p.Fitness))).sum)
      linarith
    · exact ih _ h

/-- A rank scan over the last `l.length` ranks that fills no slot ran past their
whole weight `1 + 2 + ... + l.length`. -/
theorem rankScan_none (r : ℚ) (n : Nat) (l : List Individual) (j : Nat) (rank : ℚ)
    (hne : l ≠ []) (hn : j + l.length = n) (h : rankScan r n l j rank = none) :
    rank + ((l.length : ℚ) * ((l.length : ℚ) + 1)) / 2 < r := by
  induction l generalizing j rank with
  | nil => exact absurd rfl hne
  | cons p rest ih =>
    unfold rankScan at h
    rw [List.length_cons] at hn
    have hw : (((n : Int) - (j : Int) : Int) : ℚ) = (rest.length : ℚ) + 1 := by
      have : (n : Int) - (j : Int) = (rest.length : Int) + 1 := by omega
      rw [this]
      push_cast
      rfl
    rw [hw] at h
    split at h
    · cases h
    · rename_i hlt
      rw [List.length_cons]
      push_cast
      by_cases hrest : rest = []
      · rw [hrest]
        rw [hrest] at hlt
        simp only [List.length_nil, Nat.cast_zero] at hlt ⊢
        linarith [not_le.1 hlt]
      · have := ih (j + 1) _ hrest (by omega) h
        linarith

/-- No rank slot stays nil. -/
theorem rankSelection_no_nil (pop : List Individual) (count : Nat) (rng : Rng)
    (hne : pop ≠ []) : none ∉ (rankSelection pop count rng).1 := by
  induction count generalizing rng with
  | zero =>
    intro hslot
    cases hslot
  | succ k ih =>
    unfold rankSelection
    simp only []
    intro hslot
    rcases List.mem_cons.1 hslot with h | h
    · have hsne : sortSlice (fun a b => decide (a.Fitness < b.Fitness)) pop ≠ [] :=
        logic.sortSlice_ne_nil _ pop hne
      generalize sortSlice (fun a b => decide (a.Fitness < b.Fitness)) pop = sorted at h hsne
      have hlt := rankScan_none _ sorted.length sorted 0 0 hsne (by omega) h.symm
      obtain ⟨h0, h1⟩ := Rng.Float64_range rng
      push_cast at hlt
      have hT : (0 : ℚ) ≤ (sorted.length : ℚ) * ((sorted.length : ℚ) + 1) / 2 := by positivity
      have := mul_le_mul_of_nonneg_right (le_of_lt h1) hT
      linarith
    · exact ih _ h

/-- One tournament on a non-empty population: the three candidates are the
individuals at the next three draws reduced modulo the population size, and the
winner is a candidate that no candidate beats. -/
theorem tournamentRound_spec (pop : List Individual) (rng : Rng) (hne : pop ≠ []) :
    ∃ r t0 t1 t2, tournamentRound pop rng = .ok r ∧
      pop[rng.draws rng.pos % pop.length]? = some t0 ∧
      pop[rng.draws (rng.pos + 1) % pop.length]? = some t1 ∧
      pop[rng.draws (rng.pos + 2) % pop.length]? = some t2 ∧
      r.1 ∈ [t0, t1, t2] ∧
      r.1.Fitness ≤ t0.Fitness ∧ r.1.Fitness ≤ t1.Fitness ∧ r.1.Fitness ≤ t2.Fitness ∧
      r.2.draws = rng.draws ∧ r.2.pos = rng.pos + 3 := by
  have hlen : ¬ pop.length = 0 := fun h => hne (List.length_eq_zero.1 h)
  have hpos : 0 < pop.length := Nat.pos_of_ne_zero hlen
  have h0 := List.getElem?_eq_getElem (Nat.mod_lt (rng.draws rng.pos) hpos)
  have h1 := List.getElem?_eq_getElem (Nat.mod_lt (rng.draws (rng.pos + 1)) hpos)
  have h2 := List.getElem?_eq_getElem (Nat.mod_lt (rng.draws (rng.pos + 1 + 1)) hpos)
  unfold tournamentRound
  rw [if_neg hlen]
  simp only [Rng.Intn, Rng.next]
  rw [h0, h1, h2]
  simp only [List.foldl_cons, List.foldl_nil]
  refine ⟨_, _, _, _, rfl, rfl, rfl, rfl, ?_, ?_, ?_, ?_, rfl, rfl⟩
  · simp only []
    split_ifs <;> simp
  · simp only []
    split_ifs <;> linarith
  · simp only []
    split_ifs <;> linarith
  · simp only []
    split_ifs <;> linarith

/-- Tournament selection on a non-empty population returns `count` parents; parent
`k` is the winner of the tournament among the individuals at the draws `3k`,
`3k + 1` and `3k + 2`. -/
theorem tournamentSelection_rounds (pop : List Individual) (count : Nat) (rng : Rng)
    (hne : pop ≠ []) :
    ∃ sel, tournamentSelection pop count rng = .ok sel ∧
      ∀ k < count, ∃ p t0 t1 t2, sel.1[k]? = some (some p) ∧
        pop[rng.draws (rng.pos + 3 * k) % pop.length]? = some t0 ∧
        pop[rng.draws (rng.pos + 3 * k + 1) % pop.length]? = some t1 ∧
        pop[rng.draws (rng.pos + 3 * k + 2) % pop.length]? = some t2 ∧
        p ∈ [t0, t1, t2] ∧
        p.Fitness ≤ t0.Fitness ∧ p.Fitness ≤ t1.Fitness ∧ p.Fitness ≤ t2.Fitness := by
  induction count generalizing rng with
  | zero => exact ⟨_, rfl, fun k hk => absurd hk (Nat.not_lt_zero k)⟩
  | succ n ih =>
    obtain ⟨r, t0, t1, t2, hr, g0, g1, g2, hmem, f0, f1, f2, hd, hp⟩ :=
      tournamentRound_spec pop rng hne
    obtain ⟨rest, hrest, hrounds⟩ := ih r.2
    unfold tournamentSelection
    rw [hr]
    simp only []
    rw [hrest]
    refine ⟨_, rfl, ?_⟩
    intro k hk
    cases k with
    | zero => exact ⟨r.1, t0, t1, t2, by simp, g0, g1, g2, hmem, f0, f1, f2⟩
    | succ k =>
      obtain ⟨p, u0, u1, u2, hk0, k0, k1, k2, rest2⟩ := hrounds k (by omega)
      rw [hd, hp] at k0 k1 k2
      have e0 : rng.pos + 3 * (k + 1) = rng.pos + 3 + 3 * k := by ring
      refine ⟨p, u0, u1, u2, ?_, ?_, ?_, ?_, rest2⟩
      · simpa using hk0
      · rw [e0]; exact k0
      · rw [e0]; exact k1
      · rw [e0]; exact k2

end ga_level1

/-- C40: for a non-empty population with non-negative fitness values, every count,
each of the three selection methods and every random stream, `SelectParents`
returns exactly `count` parents, none of them nil and each an individual of the
population; in tournament selection parent `k` is one of the three individuals
sampled by the draws `3k`, `3k + 1`, `3k + 2` and has the lowest fitness of the
three. -/
theorem selection_fills_every_slot (pop : List ga_level1.Individual) (count : Nat)
    (method : proto.SelectionType) (rng : Rng)
    (hne : pop ≠ []) (hfit : ∀ p ∈ pop, 0 ≤ p.Fitness)
    (hmethod : method = .SELECTION_TOURNAMENT ∨ method = .SELECTION_ROULETTE ∨
      method = .SELECTION_RANK) :
    ∃ sel, ga_level1.SelectParents pop count method rng = .ok sel ∧
      sel.1.length = count ∧
      (∀ slot ∈ sel.1, ∃ p ∈ pop, slot = some p) ∧
      (method = .SELECTION_TOURNAMENT →
        ∀ k < count, ∃ p t0 t1 t2, sel.1[k]? = some (some p) ∧
          pop[rng.draws (rng.pos + 3 * k) % pop.length]? = some t0 ∧
          pop[rng.draws (rng.pos + 3 * k + 1) % pop.length]? = some t1 ∧
          pop[rng.draws (rng.pos + 3 * k + 2) % pop.length]? = some t2 ∧
          p ∈ [t0, t1, t2] ∧
          p.Fitness ≤ t0.Fitness ∧ p.Fitness ≤ t1.Fitness ∧ p.Fitness ≤ t2.Fitness) := by
  have fill : ∀ sel : List (Option ga_level1.Individual) × Rng,
      (∀ p, some p ∈ sel.1 → p ∈ pop) → none ∉ sel.1 →
      ∀ slot ∈ sel.1, ∃ p ∈ pop, slot = some p := by
    intro sel hmem hnil slot hslot
    cases slot with
    | none => exact absurd hslot hnil
    | some p => exact ⟨p, hmem p hslot, rfl⟩
  rcases hmethod with hm | hm | hm
  · subst hm
    obtain ⟨sel, hsel, hrounds⟩ := ga_level1.tournamentSelection_rounds pop count rng hne
    have hsp : ga_level1.SelectParents pop count .SELECTION_TOURNAMENT rng = .ok sel := hsel
    obtain ⟨hlen, hmem⟩ := ga_level1.SelectParents_spec _ _ _ _ _ hsp
    refine ⟨sel, hsp, hlen, ?_, fun _ => hrounds⟩
    apply fill sel hmem
    intro hnil
    obtain ⟨k, hk⟩ := List.mem_iff_getElem?.1 hnil
    have hklt : k < count := by
      rw [← hlen]
      by_contra hge
      rw [List.getElem?_eq_none (by omega)] at hk
      cases hk
    obtain ⟨p, _, _, _, hp, _⟩ := hrounds k hklt
    rw [hp] at hk
    cases hk
  · subst hm
    have hsp : ga_level1.SelectParents pop count .SELECTION_ROULETTE rng =
        .ok (ga_level1.rouletteWheelSelection pop count rng) := rfl
    obtain ⟨hlen, hmem⟩ := ga_level1.SelectParents_spec _ _ _ _ _ hsp
    refine ⟨_, hsp, hlen, ?_, fun h => by cases h⟩
    exact fill _ hmem (ga_level1.rouletteWheelSelection_no_nil pop count rng hne hfit)
  · subst hm
    have hsp : ga_level1.SelectParents pop count .SELECTION_RANK rng =
        .ok (ga_level1.rankSelection pop count rng) := rfl
    obtain ⟨hlen, hmem⟩ := ga_level1.SelectParents_spec _ _ _ _ _ hsp
    refine ⟨_, hsp, hlen, ?_, fun h => by cases h⟩
    exact fill _ hmem (ga_level1.rankSelection_no_nil pop count rng hne)

/-- C40 on the two scored sample individuals: roulette and rank selection with the
largest possible draw, and a tournament over the draws 1, 0, 1. -/
theorem selection_fills_every_slot_witness :
    (∃ sel, ga_level1.SelectParents [Sample.scoredA, Sample.scoredAB] 1 .SELECTION_ROULETTE
        (Sample.rngOf [2 ^ 53 - 1]) = .ok sel ∧ sel.1.length = 1 ∧
      ∀ slot ∈ sel.1, ∃ p ∈ [Sample.scoredA, Sample.scoredAB], slot = some p) ∧
    (∃ sel, ga_level1.SelectParents [Sample.scoredA, Sample.scoredAB] 1 .SELECTION_RANK
        (Sample.rngOf [2 ^ 53 - 1]) = .ok sel ∧ sel.1.length = 1 ∧
      ∀ slot ∈ sel.1, ∃ p ∈ [Sample.scoredA, Sample.scoredAB], slot = some p) ∧
    (∃ sel, ga_level1.SelectParents [Sample.scoredA, Sample.scoredAB] 1
        .SELECTION_TOURNAMENT (Sample.rngOf [1, 0, 1]) = .ok sel ∧ sel.1.length = 1 ∧
      ∀ slot ∈ sel.1, ∃ p ∈ [Sample.scoredA, Sample.scoredAB], slot = some p) :=
  ⟨match selection_fills_every_slot [Sample.scoredA, Sample.scoredAB] 1 .SELECTION_ROULETTE
      (Sample.rngOf [2 ^ 53 - 1]) (by decide) (by decide!) (Or.inr (Or.inl rfl)) with
    | ⟨sel, h1, h2, h3, _⟩ => ⟨sel, h1, h2, h3⟩,
   match selection_fills_every_slot [Sample.scoredA, Sample.scoredAB] 1 .SELECTION_RANK
      (Sample.rngOf [2 ^ 53 - 1]) (by decide) (by decide!) (Or.inr (Or.inr rfl)) with
    | ⟨sel, h1, h2, h3, _⟩ => ⟨sel, h1, h2, h3⟩,
   match selection_fills_every_slot [Sample.scoredA, Sample.scoredAB] 1
      .SELECTION_TOURNAMENT (Sample.rngOf [1, 0, 1]) (by decide) (by decide!)
      (Or.inl rfl) with
    | ⟨sel, h1, h2, h3, _⟩ => ⟨sel, h1, h2, h3⟩⟩

/-- The values of the C40 example: with the largest draw the roulette scan and the
rank scan both end at the last individual they visit, and the tournament over
`AB`, `A`, `AB` is won by `AB`, whose fitness 3980 is the lowest. -/
theorem selection_sample_values :
    (ga_level1.SelectParents [Sample.scoredA, Sample.scoredAB] 1 .SELECTION_ROULETTE
      (Sample.rngOf [2 ^ 53 - 1])).toOption.map (fun sel => sel.1) =
        some [some Sample.scoredAB] ∧
    (ga_level1.SelectParents [Sample.scoredA, Sample.scoredAB] 1 .SELECTION_RANK
      (Sample.rngOf [2 ^ 53 - 1])).toOption.map (fun sel => sel.1) =
        some [some Sample.scoredA] ∧
    (ga_level1.SelectParents [Sample.scoredA, Sample.scoredAB] 1 .SELECTION_TOURNAMENT
      (Sample.rngOf [1, 0, 1])).toOption.map (fun sel => sel.1) =
        some [some Sample.scoredAB] := by
  decide!

/-! ## Mutation permutes the mask -/

namespace ga_level1

theorem swapBits_getD (mask : List Bool) (i j : Nat) (hi : i < mask.length)
    (hj : j < mask.length) (p : Nat) :
    (swapBits mask i j).getD p false =
      if p = j then mask.getD i false else if p = i then mask.getD j false
      else mask.getD p false := by
  unfold swapBits
  simp only [List.getD_eq_getElem?_getD, List.getElem?_set, List.length_set]
  by_cases hpj : p = j
  · subst hpj
    simp [hj]
  · have hjp : ¬ j = p := fun h => hpj h.symm
    simp only [hjp, hpj, if_false]
    by_cases hpi : p = i
    · subst hpi
      simp [hi]
    · have hip : ¬ i = p := fun h => hpi h.symm
      simp only [hip, hpi, if_false]

theorem count_ge_ite (l : List Bool) (i : Nat) (h : i < l.length) (b : Bool) :
    (if (l[i] == b) = true then 1 else 0) ≤ l.count b := by
  split
  · rename_i hb
    have hmem : l[i] ∈ l := List.getElem_mem h
    have : l[i] = b := by simpa using hb
    rw [this] at hmem
    exact List.count_pos_iff.2 hmem
  · exact Nat.zero_le _

/-- Exchanging two bits gives a permutation. -/
theorem swapBits_perm (mask : List Bool) (i j : Nat) (hi : i < mask.length)
    (hj : j < mask.length) : (swapBits mask i j).Perm mask := by
  rw [List.perm_iff_count]
  intro b
  unfold swapBits
  have hj1 : j < (mask.set i (mask.getD j false)).length := by
    rw [List.length_set]; exact hj
  rw [List.count_set _ _ _ _ hj1, List.count_set _ _ _ _ hi]
  have e1 : (mask.set i (mask.getD j false))[j] = mask.getD j false := by
    rw [List.getElem_set]
    split
    · rfl
    · exact (List.getD_eq_getElem mask false hj).symm
  rw [e1, List.getD_eq_getElem mask false hj, List.getD_eq_getElem mask false hi]
  have c1 := count_ge_ite mask i hi b
  have c2 := count_ge_ite mask j hj b
  omega

theorem inversionLoop_perm (b a : Nat) (mask : List Bool) (hb : b < mask.length) :
    (inversionLoop b a mask).Perm mask := by
  induction b generalizing a mask with
  | zero => exact List.Perm.refl _
  | succ b ih =>
    unfold inversionLoop
    split
    · rename_i hab
      have hsw := swapBits_perm mask a (b + 1) (by omega) hb
      exact (ih (a + 1) (swapBits mask a (b + 1)) (by rw [hsw.length_eq]; omega)).trans hsw
    · exact List.Perm.refl _

/-- The loop of `inversion` from `a` up and `b` down reverses the positions `a` to
`b` and leaves every other position as it is. -/
theorem inversionLoop_getD (b a : Nat) (mask : List Bool) (hb : b < mask.length) (p : Nat) :
    (inversionLoop b a mask).getD p false =
      if a ≤ p ∧ p ≤ b then mask.getD (a + b - p) false else mask.getD p false := by
  induction b generalizing a mask with
  | zero =>
    unfold inversionLoop
    split
    · rename_i h
      have : a + 0 - p = p := by omega
      rw [this]
    · rfl
  | succ b ih =>
    unfold inversionLoop
    by_cases hab : a < b + 1
    · simp only [hab, if_true]
      have hlen : (swapBits mask a (b + 1)).length = mask.length := swapBits_length _ _ _
      rw [ih (a + 1) (swapBits mask a (b + 1)) (by rw [hlen]; omega)]
      rw [swapBits_getD mask a (b + 1) (by omega) hb, swapBits_getD mask a (b + 1) (by omega) hb]
      by_cases h1 : a + 1 ≤ p ∧ p ≤ b
      · have h2 : a ≤ p ∧ p ≤ b + 1 := by omega
        have h3 : ¬ (a + (b + 1) - p = b + 1) := by omega
        have h4 : ¬ (a + (b + 1) - p = a) := by omega
        have h5 : a + 1 + b - p = a + (b + 1) - p := by omega
        simp only [h1, h2, h5, h3, h4, and_self, if_true, if_false]
      · simp only [h1, if_false]
        by_cases hpb : p = b + 1
        · have h2 : a ≤ p ∧ p ≤ b + 1 := by omega
          have h5 : a + (b + 1) - p = a := by omega
          simp only [hpb, if_true] at h2 h5 ⊢
          simp only [h2, and_self, if_true, h5]
        · simp only [hpb, if_false]
          by_cases hpa : p = a
          · have h2 : a ≤ p ∧ p ≤ b + 1 := by omega
            have h5 : a + (b + 1) - p = b + 1 := by omega
            simp only [hpa, if_true] at h2 h5 ⊢
            simp only [h2, and_self, if_true, h5]
          · have h2 : ¬ (a ≤ p ∧ p ≤ b + 1) := by omega
            simp only [hpa, h2, if_false]
    · simp only [hab, if_false]
      split
      · rename_i h
        have : a + (b + 1) - p = p := by omega
        rw [this]
      · rfl

/-- Go `inversion` on the contents of a mask: a permutation that reverses the range
between the two drawn indices; a mask shorter than two bits is left as it is. -/
theorem inversion_spec (mask : List Bool) (rng : Rng) :
    (inversion mask rng).1.Perm mask ∧
    (mask.length < 2 → (inversion mask rng).1 = mask) ∧
    (2 ≤ mask.length → ∃ i j, i ≤ j ∧ j < mask.length ∧
      IsReversalOf i j mask (inversion mask rng).1) := by
  unfold inversion
  by_cases hlen : mask.length < 2
  · rw [if_pos hlen]
    exact ⟨List.Perm.refl _, fun _ => rfl, fun h => absurd hlen (by omega)⟩
  · rw [if_neg hlen]
    simp only []
    have hpos : 0 < mask.length := by omega
    have hi := Rng.Intn_lt rng mask.length hpos
    have hj := Rng.Intn_lt (rng.Intn mask.length).2 mask.length hpos
    generalize ((rng.Intn mask.length).2.Intn mask.length).1 = d2 at hj ⊢
    generalize (rng.Intn mask.length).1 = d1 at hi ⊢
    have hb : (if d1 > d2 then d1 else d2) < mask.length := by
      split_ifs <;> assumption
    refine ⟨inversionLoop_perm _ _ _ hb, fun h => absurd h hlen,
      fun _ => ⟨if d1 > d2 then d2 else d1, if d1 > d2 then d1 else d2, ?_, hb, ?_, ?_⟩⟩
    · split_ifs <;> omega
    · exact inversionLoop_length _ _ _
    · intro p
      exact inversionLoop_getD _ _ _ hb p

/-- Go `swap` on the contents of a mask: a permutation that exchanges the bits at the
two drawn indices; a mask shorter than two bits is left as it is. -/
theorem swap_spec (mask : List Bool) (rng : Rng) :
    (swap mask rng).1.Perm mask ∧
    (mask.length < 2 → (swap mask rng).1 = mask) ∧
    (2 ≤ mask.length → ∃ i j, i < mask.length ∧ j < mask.length ∧
      IsSwapOf i j mask (swap mask rng).1) := by
  unfold swap
  by_cases hlen : mask.length < 2
  · rw [if_pos hlen]
    exact ⟨List.Perm.refl _, fun _ => rfl, fun h => absurd hlen (by omega)⟩
  · rw [if_neg hlen]
    simp only []
    have hpos : 0 < mask.length := by omega
    have hi := Rng.Intn_lt rng mask.length hpos
    have hj := Rng.Intn_lt (rng.Intn mask.length).2 mask.length hpos
    refine ⟨swapBits_perm _ _ _ hi hj, fun h => absurd h hlen,
      fun _ => ⟨(rng.Intn mask.length).1, ((rng.Intn mask.length).2.Intn mask.length).1,
        hi, hj, swapBits_length _ _ _, ?_⟩⟩
    intro p
    exact swapBits_getD _ _ _ hi hj p

end ga_level1

theorem MaskHeap.read_write (heap : MaskHeap) (ref : Nat) (bits : List Bool) :
    (heap.write ref bits).read ref = if ref < heap.arrays.length then bits else [] := by
  unfold MaskHeap.write MaskHeap.read
  simp only [List.getD_eq_getElem?_getD, List.getElem?_set]
  by_cases h : ref < heap.arrays.length <;> simp [h]

/-- Writing back a rewriting of the contents of a slice that keeps the empty list
empty, and reading the slice again, gives the rewritten contents. -/
theorem MaskHeap.read_write_of (heap : MaskHeap) (ref : Nat) (f : List Bool → List Bool)
    (hnil : f [] = []) : (heap.write ref (f (heap.read ref))).read ref = f (heap.read ref) := by
  rw [MaskHeap.read_write]
  by_cases h : ref < heap.arrays.length
  · rw [if_pos h]
  · rw [if_neg h]
    have : heap.read ref = [] := by
      unfold MaskHeap.read
      rw [List.getD_eq_getElem?_getD, List.getElem?_eq_none (by omega)]
      rfl
    rw [this, hnil]

/-- C34: `Mutate` with either method returns, and the mask of the individual
afterwards is a permutation of the mask before, of the same length and with the same
number of true bits.  The mask is unchanged when the draw exceeds the probability
or the mask has fewer than two bits; otherwise swap exchanges the bits at two
indices of the mask, and inversion reverses the range between two indices and
leaves every bit outside it unchanged. -/
theorem mutation_permutes_mask (ind : ga_level1.Individual) (prob : ℚ)
    (method : proto.MutationType) (heap : MaskHeap) (rng : Rng)
    (hm : method = .MUTATION_INVERSION ∨ method = .MUTATION_SWAP) :
    ∃ r, ga_level1.Mutate ind prob method heap rng = .ok r ∧
      (r.1.read ind.TerminalMask).Perm (heap.read ind.TerminalMask) ∧
      (r.1.read ind.TerminalMask).length = (heap.read ind.TerminalMask).length ∧
      (r.1.read ind.TerminalMask).count true = (heap.read ind.TerminalMask).count true ∧
      ((rng.Float64).1 > prob ∨ (heap.read ind.TerminalMask).length < 2 →
        r.1.read ind.TerminalMask = heap.read ind.TerminalMask) ∧
      (¬ (rng.Float64).1 > prob → 2 ≤ (heap.read ind.TerminalMask).length →
        (method = .MUTATION_SWAP →
          ∃ i j, i < (heap.read ind.TerminalMask).length ∧
            j < (heap.read ind.TerminalMask).length ∧
            IsSwapOf i j (heap.read ind.TerminalMask) (r.1.read ind.TerminalMask)) ∧
        (method = .MUTATION_INVERSION →
          ∃ i j, i ≤ j ∧ j < (heap.read ind.TerminalMask).length ∧
            IsReversalOf i j (heap.read ind.TerminalMask) (r.1.read ind.TerminalMask))) := by
  by_cases hf : (rng.Float64).1 > prob
  · refine ⟨(heap, (rng.Float64).2), ?_, List.Perm.refl _, rfl, rfl, fun _ => rfl,
      fun h => absurd hf h⟩
    unfold ga_level1.Mutate
    simp only [hf, if_true]
  · rcases hm with hm | hm
    · subst hm
      obtain ⟨hperm, hshort, hrev⟩ :=
        ga_level1.inversion_spec (heap.read ind.TerminalMask) (rng.Float64).2
      have hread := MaskHeap.read_write_of heap ind.TerminalMask
        (fun m => (ga_level1.inversion m (rng.Float64).2).1) (by simp [ga_level1.inversion])
      simp only [] at hread
      refine ⟨(heap.write ind.TerminalMask
          (ga_level1.inversion (heap.read ind.TerminalMask) (rng.Float64).2).1,
        (ga_level1.inversion (heap.read ind.TerminalMask) (rng.Float64).2).2), ?_, ?_, ?_, ?_,
        ?_, ?_⟩
      · unfold ga_level1.Mutate
        simp only [hf, if_false]
      · simp only [hread]
        exact hperm
      · simp only [hread]
        exact hperm.length_eq
      · simp only [hread]
        exact hperm.count_eq true
      · simp only [hread]
        rintro (h | h)
        · exact absurd h hf
        · exact hshort h
      · dsimp only
        rw [hread]
        intro _ hlen
        exact ⟨fun h => (by cases h), fun _ => hrev hlen⟩
    · subst hm
      obtain ⟨hperm, hshort, hsw⟩ :=
        ga_level1.swap_spec (heap.read ind.TerminalMask) (rng.Float64).2
      have hread := MaskHeap.read_write_of heap ind.TerminalMask
        (fun m => (ga_level1.swap m (rng.Float64).2).1) (by simp [ga_level1.swap])
      simp only [] at hread
      refine ⟨(heap.write ind.TerminalMask
          (ga_level1.swap (heap.read ind.TerminalMask) (rng.Float64).2).1,
        (ga_level1.swap (heap.read ind.TerminalMask) (rng.Float64).2).2), ?_, ?_, ?_, ?_,
        ?_, ?_⟩
      · unfold ga_level1.Mutate
        simp only [hf, if_false]
      · simp only [hread]
        exact hperm
      · simp only [hread]
        exact hperm.length_eq
      · simp only [hread]
        exact hperm.count_eq true
      · simp only [hread]
        rintro (h | h)
        · exact absurd h hf
        · exact hshort h
      · dsimp only
        rw [hread]
        intro _ hlen
        exact ⟨fun _ => hsw hlen, fun h => by cases h⟩

/-- C34 on the mask `[true, false, false]`: an inversion with the draws 0 and 2 and a
swap with the draws 0 and 1. -/
theorem mutation_permutes_mask_witness :
    (∃ r, ga_level1.Mutate { TerminalMask := 0 } (1 / 10) .MUTATION_INVERSION
        Sample.heapThree (Sample.rngOf [0, 0, 2]) = .ok r ∧
      (r.1.read 0).Perm (Sample.heapThree.read 0) ∧
      (r.1.read 0).count true = (Sample.heapThree.read 0).count true) ∧
    (∃ r, ga_level1.Mutate { TerminalMask := 0 } (1 / 10) .MUTATION_SWAP
        Sample.heapThree (Sample.rngOf [0, 0, 1]) = .ok r ∧
      (r.1.read 0).Perm (Sample.heapThree.read 0) ∧
      (r.1.read 0).count true = (Sample.heapThree.read 0).count true) :=
  ⟨match mutation_permutes_mask { TerminalMask := 0 } (1 / 10) .MUTATION_INVERSION
      Sample.heapThree (Sample.rngOf [0, 0, 2]) (Or.inl rfl) with
    | ⟨r, h1, h2, _, h4, _⟩ => ⟨r, h1, h2, h4⟩,
   match mutation_permutes_mask { TerminalMask := 0 } (1 / 10) .MUTATION_SWAP
      Sample.heapThree (Sample.rngOf [0, 0, 1]) (Or.inr rfl) with
    | ⟨r, h1, h2, _, h4, _⟩ => ⟨r, h1, h2, h4⟩⟩

/-- The values of the C34 example: the inversion of the whole mask gives
`[false, false, true]`, the swap of the bits 0 and 1 gives `[false, true, false]`. -/
theorem mutation_sample_values :
    (ga_level1.Mutate { TerminalMask := 0 } (1 / 10) .MUTATION_INVERSION Sample.heapThree
      (Sample.rngOf [0, 0, 2])).toOption.map (fun r => r.1.read 0) =
        some [false, false, true] ∧
    (ga_level1.Mutate { TerminalMask := 0 } (1 / 10) .MUTATION_SWAP Sample.heapThree
      (Sample.rngOf [0, 0, 1])).toOption.map (fun r => r.1.read 0) =
        some [false, true, false] := by
  decide!

/-! ## Crossover exchanges bits between the parents -/

theorem MaskHeap.read_alloc (heap : MaskHeap) (bits : List Bool) :
    (heap.alloc bits).2.read (heap.alloc bits).1 = bits := by
  simp [MaskHeap.alloc, MaskHeap.read, List.getD_eq_getElem?_getD]

theorem MaskHeap.read_alloc_two (heap : MaskHeap) (bits1 bits2 : List Bool) :
    ((heap.alloc bits1).2.alloc bits2).2.read (heap.alloc bits1).1 = bits1 ∧
    ((heap.alloc bits1).2.alloc bits2).2.read ((heap.alloc bits1).2.alloc bits2).1 = bits2 := by
  constructor
  · simp only [MaskHeap.alloc, MaskHeap.read, List.getD_eq_getElem?_getD]
    rw [List.getElem?_append_left (by simp), List.getElem?_append_right (le_refl _)]
    simp
  · exact MaskHeap.read_alloc _ _

namespace ga_level1

theorem uniformExchange_zero (rng : Rng) :
    uniformExchange rng 0 = !decide ((rng.Float64).1 < 1 / 2) := rfl

theorem uniformExchange_succ (rng : Rng) (i : Nat) :
    uniformExchange (rng.Float64).2 i = uniformExchange rng (i + 1) := by
  unfold uniformExchange
  have : rng.pos + 1 + i = rng.pos + (i + 1) := by omega
  simp only [Rng.Float64, Rng.next, this]

/-- The loop of `uniformCrossover` on equally long masks: position `i` is exchanged
exactly when draw `i` is not below one half. -/
theorem uniformBits_spec (a b : List Bool) (rng : Rng) (hlen : a.length = b.length) :
    ∃ r, uniformBits a b rng = .ok r ∧ IsExchange (uniformExchange rng) a b r.1.1 r.1.2 := by
  induction a generalizing b rng with
  | nil =>
    refine ⟨_, rfl, rfl, rfl, ?_⟩
    intro i hi
    cases hi
  | cons x a ih =>
    cases b with
    | nil => simp at hlen
    | cons y b =>
      simp only [List.length_cons, Nat.add_right_cancel_iff] at hlen
      obtain ⟨r, hr, h1, h2, h3⟩ := ih b (rng.Float64).2 hlen
      unfold uniformBits
      simp only [hr]
      by_cases hdraw : (rng.Float64).1 < 1 / 2
      · rw [if_pos hdraw]
        have hd2 : ¬ ((2 : ℚ)⁻¹ ≤ (rng.Float64).1) := by
          rw [not_le]
          simpa using hdraw
        refine ⟨_, rfl, by simp [h1], by simp [h2], ?_⟩
        intro i hi
        cases i with
        | zero =>
          rw [uniformExchange_zero]
          simp [hd2]
        | succ i =>
          have := h3 i (by simpa using hi)
          rw [uniformExchange_succ] at this
          simpa using this
      · rw [if_neg hdraw]
        have hd2 : (2 : ℚ)⁻¹ ≤ (rng.Float64).1 := by simpa using hdraw
        refine ⟨_, rfl, by simp [h1], by simp [h2], ?_⟩
        intro i hi
        cases i with
        | zero =>
          rw [uniformExchange_zero]
          simp [hd2]
        | succ i =>
          have := h3 i (by simpa using hi)
          rw [uniformExchange_succ] at this
          simpa using this

/-- A tail exchange: the first `k` bits of one list followed by the rest of the
other. -/
theorem take_drop_getD (a b : List Bool) (k : Nat) (hk : k ≤ a.length) (p : Nat) :
    (a.take k ++ b.drop k).getD p false =
      if k ≤ p then b.getD p false else a.getD p false := by
  simp only [List.getD_eq_getElem?_getD, List.getElem?_append, List.length_take,
    List.getElem?_take, List.getElem?_drop]
  have hmin : min k a.length = k := by omega
  rw [hmin]
  by_cases hp : p < k
  · have : ¬ k ≤ p := by omega
    simp [hp, this]
  · have hkp : k ≤ p := by omega
    have : k + (p - k) = p := by omega
    simp [hp, hkp, this]

/-- A middle exchange: the bits `i` to `j - 1` come from the other list. -/
theorem take_mid_drop_getD (a b : List Bool) (i j : Nat) (hij : i ≤ j) (hja : j ≤ a.length)
    (hjb : j ≤ b.length) (p : Nat) :
    (a.take i ++ (b.take j).drop i ++ a.drop j).getD p false =
      if i ≤ p ∧ p < j then b.getD p false else a.getD p false := by
  simp only [List.getD_eq_getElem?_getD, List.getElem?_append, List.length_take,
    List.length_append, List.length_drop, List.getElem?_take, List.getElem?_drop]
  have h1 : min i a.length = i := by omega
  have h2 : min j b.length = j := by omega
  rw [h1, h2]
  by_cases hpi : p < i
  · have c1 : p < i + (j - i) := by omega
    have c2 : ¬ (i ≤ p ∧ p < j) := by omega
    simp [hpi, c1, c2]
  · by_cases hpj : p < j
    · have c1 : p < i + (j - i) := by omega
      have c2 : i ≤ p ∧ p < j := by omega
      have c3 : i + (p - i) = p := by omega
      simp [hpi, c1, c2, c3, hpj]
    · have c1 : ¬ p < i + (j - i) := by omega
      have c2 : ¬ (i ≤ p ∧ p < j) := by omega
      have c3 : j + (p - (i + (j - i))) = p := by omega
      simp [c1, c2, c3]

theorem uniformCrossover_spec (a b : Nat) (heap : MaskHeap) (rng : Rng)
    (hlen : (heap.read a).length = (heap.read b).length) :
    ∃ r, uniformCrossover a b heap rng = .ok r ∧
      IsExchange (uniformExchange rng) (heap.read a) (heap.read b)
        (r.2.1.read r.1.1) (r.2.1.read r.1.2) := by
  obtain ⟨r0, hr0, hex⟩ := uniformBits_spec (heap.read a) (heap.read b) rng hlen
  unfold uniformCrossover
  rw [hr0]
  refine ⟨_, rfl, ?_⟩
  dsimp only
  rw [(MaskHeap.read_alloc_two heap r0.1.1 r0.1.2).1, (MaskHeap.read_alloc_two heap r0.1.1 r0.1.2).2]
  exact hex

theorem singlePointCrossover_spec (a b : Nat) (heap : MaskHeap) (rng : Rng)
    (hlen : (heap.read a).length = (heap.read b).length) :
    ∃ r, singlePointCrossover a b heap rng = .ok r ∧
      ((heap.read a).length ≤ 1 →
        r.2.1.read r.1.1 = heap.read a ∧ r.2.1.read r.1.2 = heap.read b) ∧
      (1 < (heap.read a).length →
        ∃ k, 1 ≤ k ∧ k ≤ (heap.read a).length - 1 ∧
          IsExchange (fun i => decide (k ≤ i)) (heap.read a) (heap.read b)
            (r.2.1.read r.1.1) (r.2.1.read r.1.2)) := by
  unfold singlePointCrossover
  by_cases hn : (heap.read a).length ≤ 1
  · rw [if_pos hn]
    exact ⟨_, rfl, fun _ => ⟨rfl, rfl⟩, fun h => absurd hn (by omega)⟩
  · rw [if_neg hn]
    have hk := Rng.Intn_lt rng ((heap.read a).length - 1) (by omega)
    have hguard : ¬ ((rng.Intn ((heap.read a).length - 1)).1 + 1 > (heap.read b).length) := by
      omega
    simp only []
    rw [if_neg hguard]
    refine ⟨_, rfl, fun h => absurd h hn, fun _ =>
      ⟨(rng.Intn ((heap.read a).length - 1)).1 + 1, by omega, by omega, ?_⟩⟩
    dsimp only
    rw [(MaskHeap.read_alloc_two heap _ _).1, (MaskHeap.read_alloc_two heap _ _).2]
    refine ⟨?_, ?_, ?_⟩
    · simp only [List.length_append, List.length_take, List.length_drop]
      omega
    · simp only [List.length_append, List.length_take, List.length_drop]
      omega
    · intro i _
      rw [take_drop_getD _ _ _ (by omega), take_drop_getD _ _ _ (by omega)]
      by_cases hki : (rng.Intn ((heap.read a).length - 1)).1 + 1 ≤ i <;> simp [hki]

theorem twoPointCrossover_spec (a b : Nat) (heap : MaskHeap) (rng : Rng)
    (hlen : (heap.read a).length = (heap.read b).length) :
    ∃ r, twoPointCrossover a b heap rng = .ok r ∧
      ((heap.read a).length ≤ 2 →
        r.2.1.read r.1.1 = heap.read a ∧ r.2.1.read r.1.2 = heap.read b) ∧
      (2 < (heap.read a).length →
        ∃ i j, i ≤ j ∧ j < (heap.read a).length ∧
          IsExchange (fun p => decide (i ≤ p ∧ p < j)) (heap.read a) (heap.read b)
            (r.2.1.read r.1.1) (r.2.1.read r.1.2)) := by
  unfold twoPointCrossover
  by_cases hn : (heap.read a).length ≤ 2
  · simp only []
    rw [if_pos hn]
    exact ⟨_, rfl, fun _ => ⟨rfl, rfl⟩, fun h => absurd hn (by omega)⟩
  · simp only []
    rw [if_neg hn]
    have hd1 := Rng.Intn_lt rng (heap.read a).length (by omega)
    have hd2 := Rng.Intn_lt (rng.Intn (heap.read a).length).2 (heap.read a).length (by omega)
    generalize ((rng.Intn (heap.read a).length).2.Intn (heap.read a).length).1 = d2 at hd2 ⊢
    generalize (rng.Intn (heap.read a).length).1 = d1 at hd1 ⊢
    have hi : (if d1 > d2 then d2 else d1) ≤ (if d1 > d2 then d1 else d2) := by
      split_ifs <;> omega
    have hj : (if d1 > d2 then d1 else d2) < (heap.read a).length := by
      split_ifs <;> omega
    have hguard : ¬ ((if d1 > d2 then d1 else d2) > (heap.read b).length) := by omega
    rw [if_neg hguard]
    refine ⟨_, rfl, fun h => absurd h hn, fun _ =>
      ⟨if d1 > d2 then d2 else d1, if d1 > d2 then d1 else d2, hi, hj, ?_⟩⟩
    dsimp only
    rw [(MaskHeap.read_alloc_two heap _ _).1, (MaskHeap.read_alloc_two heap _ _).2]
    generalize (if d1 > d2 then d2 else d1) = i at hi ⊢
    generalize (if d1 > d2 then d1 else d2) = j at hi hj hguard ⊢
    refine ⟨?_, ?_, ?_⟩
    · simp only [List.length_append, List.length_take, List.length_drop]
      omega
    · simp only [List.length_append, List.length_take, List.length_drop]
      omega
    · intro p _
      rw [take_mid_drop_getD _ _ _ _ hi (by omega) (by omega),
        take_mid_drop_getD _ _ _ _ hi (by omega) (by omega)]
      by_cases hp : i ≤ p ∧ p < j <;> simp [hp]

end ga_level1

/-- C33: for two parents whose masks have the same length `n`, `Crossover` returns
two children with every method, and the children are the parents with the bits at
a set `S` of positions exchanged between them: for uniform crossover `S` holds the
positions whose draw is not below one half; for single-point crossover `S = [k, n)`
with `1 <= k <= n - 1`, the children being the parents' masks when `n <= 1`; for
two-point crossover `S = [i, j)` with `0 <= i <= j < n`, the children being the
parents' masks when `n <= 2`. -/
theorem crossover_exchanges_bits (p1 p2 : ga_level1.Individual) (heap : MaskHeap) (rng : Rng)
    (hlen : (heap.read p1.TerminalMask).length = (heap.read p2.TerminalMask).length) :
    (∃ r, ga_level1.Crossover (some p1) (some p2) .CROSSOVER_UNIFORM heap rng = .ok r ∧
      IsExchange (ga_level1.uniformExchange rng)
        (heap.read p1.TerminalMask) (heap.read p2.TerminalMask)
        (r.2.1.read r.1.1.TerminalMask) (r.2.1.read r.1.2.TerminalMask)) ∧
    (∃ r, ga_level1.Crossover (some p1) (some p2) .CROSSOVER_SINGLE_POINT heap rng = .ok r ∧
      ((heap.read p1.TerminalMask).length ≤ 1 →
        r.2.1.read r.1.1.TerminalMask = heap.read p1.TerminalMask ∧
        r.2.1.read r.1.2.TerminalMask = heap.read p2.TerminalMask) ∧
      (1 < (heap.read p1.TerminalMask).length →
        ∃ k, 1 ≤ k ∧ k ≤ (heap.read p1.TerminalMask).length - 1 ∧
          IsExchange (fun i => decide (k ≤ i))
            (heap.read p1.TerminalMask) (heap.read p2.TerminalMask)
            (r.2.1.read r.1.1.TerminalMask) (r.2.1.read r.1.2.TerminalMask))) ∧
    (∃ r, ga_level1.Crossover (some p1) (some p2) .CROSSOVER_TWO_POINT heap rng = .ok r ∧
      ((heap.read p1.TerminalMask).length ≤ 2 →
        r.2.1.read r.1.1.TerminalMask = heap.read p1.TerminalMask ∧
        r.2.1.read r.1.2.TerminalMask = heap.read p2.TerminalMask) ∧
      (2 < (heap.read p1.TerminalMask).length →
        ∃ i j, i ≤ j ∧ j < (heap.read p1.TerminalMask).length ∧
          IsExchange (fun p => decide (i ≤ p ∧ p < j))
            (heap.read p1.TerminalMask) (heap.read p2.TerminalMask)
            (r.2.1.read r.1.1.TerminalMask) (r.2.1.read r.1.2.TerminalMask))) := by
  refine ⟨?_, ?_, ?_⟩
  · obtain ⟨r, hr, hex⟩ :=
      ga_level1.uniformCrossover_spec p1.TerminalMask p2.TerminalMask heap rng hlen
    refine ⟨(({ TerminalMask := r.1.1 }, { TerminalMask := r.1.2 }), r.2.1, r.2.2), ?_, hex⟩
    unfold ga_level1.Crossover
    rw [if_neg (by decide)]
    simp only [hr]
  · obtain ⟨r, hr, hex⟩ :=
      ga_level1.singlePointCrossover_spec p1.TerminalMask p2.TerminalMask heap rng hlen
    refine ⟨(({ TerminalMask := r.1.1 }, { TerminalMask := r.1.2 }), r.2.1, r.2.2), ?_, hex⟩
    unfold ga_level1.Crossover
    rw [if_neg (by decide)]
    simp only [hr]
  · obtain ⟨r, hr, hex⟩ :=
      ga_level1.twoPointCrossover_spec p1.TerminalMask p2.TerminalMask heap rng hlen
    refine ⟨(({ TerminalMask := r.1.1 }, { TerminalMask := r.1.2 }), r.2.1, r.2.2), ?_, hex⟩
    unfold ga_level1.Crossover
    rw [if_neg (by decide)]
    simp only [hr]

/-- C33 on the parents `[true, true, true, true]` and `[false, false, false, false]`:
the two-point crossover with the draws 1 and 3. -/
theorem crossover_exchanges_bits_witness :
    ∃ r, ga_level1.Crossover (some { TerminalMask := 0 }) (some { TerminalMask := 1 })
        .CROSSOVER_TWO_POINT Sample.heapParents (Sample.rngOf [1, 3]) = .ok r ∧
      ((Sample.heapParents.read 0).length ≤ 2 →
        r.2.1.read r.1.1.TerminalMask = Sample.heapParents.read 0 ∧
        r.2.1.read r.1.2.TerminalMask = Sample.heapParents.read 1) ∧
      (2 < (Sample.heapParents.read 0).length →
        ∃ i j, i ≤ j ∧ j < (Sample.heapParents.read 0).length ∧
          IsExchange (fun p => decide (i ≤ p ∧ p < j))
            (Sample.heapParents.read 0) (Sample.heapParents.read 1)
            (r.2.1.read r.1.1.TerminalMask) (r.2.1.read r.1.2.TerminalMask)) :=
  (crossover_exchanges_bits { TerminalMask := 0 } { TerminalMask := 1 } Sample.heapParents
    (Sample.rngOf [1, 3]) (by decide)).2.2

/-- The values of the C33 example, one run per method: uniform with the draws 0, 1/2,
0, 1/2 exchanges the positions 1 and 3; single-point with the draw 1 cuts at
`k = 2`; two-point with the draws 1 and 3 exchanges the positions 1 and 2. -/
theorem crossover_sample_values :
    (ga_level1.Crossover (some { TerminalMask := 0 }) (some { TerminalMask := 1 })
      .CROSSOVER_UNIFORM Sample.heapParents
      (Sample.rngOf [0, 2 ^ 52, 0, 2 ^ 52])).toOption.map
        (fun r => (r.2.1.read r.1.1.TerminalMask, r.2.1.read r.1.2.TerminalMask)) =
      some ([true, false, true, false], [false, true, false, true]) ∧
    (ga_level1.Crossover (some { TerminalMask := 0 }) (some { TerminalMask := 1 })
      .CROSSOVER_SINGLE_POINT Sample.heapParents (Sample.rngOf [1])).toOption.map
        (fun r => (r.2.1.read r.1.1.TerminalMask, r.2.1.read r.1.2.TerminalMask)) =
      some ([true, true, false, false], [false, false, true, true]) ∧
    (ga_level1.Crossover (some { TerminalMask := 0 }) (some { TerminalMask := 1 })
      .CROSSOVER_TWO_POINT Sample.heapParents (Sample.rngOf [1, 3])).toOption.map
        (fun r => (r.2.1.read r.1.1.TerminalMask, r.2.1.read r.1.2.TerminalMask)) =
      some ([true, false, false, true], [false, true, true, false]) := by
  decide!

/-! ## `float64` rounding -/

namespace F64

theorem bitsAux_spec (fuel n : Nat) (h1 : 1 ≤ n) (h2 : n ≤ fuel) :
    2 ^ bitsAux fuel n ≤ n ∧ n < 2 ^ (bitsAux fuel n + 1) := by
  induction fuel generalizing n with
  | zero => omega
  | succ fuel ih =>
    unfold bitsAux
    by_cases hn : n < 2
    · rw [if_pos hn]
      constructor
      · simpa using h1
      · simpa using hn
    · rw [if_neg hn]
      obtain ⟨ha, hb⟩ := ih (n / 2) (by omega) (by omega)
      constructor
      · rw [pow_succ]
        omega
      · rw [pow_succ]
        omega

/-- The leading-bit position brackets the number between two powers of two. -/
theorem natLog2_spec (n : Nat) (h : 1 ≤ n) :
    2 ^ natLog2 n ≤ n ∧ n < 2 ^ (natLog2 n + 1) :=
  bitsAux_spec n n h (le_refl n)

theorem pow2_eq_zpow (k : Int) : pow2 k = (2 : ℚ) ^ k := by
  unfold pow2
  by_cases hk : 0 ≤ k
  · rw [if_pos hk]
    obtain ⟨n, rfl⟩ := Int.eq_ofNat_of_zero_le hk
    simp
  · rw [if_neg hk]
    obtain ⟨n, hn⟩ := Int.exists_eq_neg_ofNat (le_of_lt (not_le.1 hk))
    subst hn
    simp

theorem pow2_pos (k : Int) : 0 < pow2 k := by
  rw [pow2_eq_zpow]
  positivity

theorem pow2_add (a b : Int) : pow2 (a + b) = pow2 a * pow2 b := by
  rw [pow2_eq_zpow, pow2_eq_zpow, pow2_eq_zpow, zpow_add₀ (by norm_num)]

theorem pow2_le_pow2 (a b : Int) (h : a ≤ b) : pow2 a ≤ pow2 b := by
  rw [pow2_eq_zpow, pow2_eq_zpow]
  exact zpow_le_zpow_right₀ (by norm_num) h

theorem pow2_lt_pow2 (a b : Int) (h : a < b) : pow2 a < pow2 b := by
  rw [pow2_eq_zpow, pow2_eq_zpow]
  exact zpow_lt_zpow_right₀ (by norm_num) h

theorem bracket_quotient (A B : ℚ) (la lb : Nat) (hB0 : 0 < B)
    (hA : (2 : ℚ) ^ la ≤ A) (hA' : A < (2 : ℚ) ^ (la + 1))
    (hB : (2 : ℚ) ^ lb ≤ B) (hB' : B < (2 : ℚ) ^ (lb + 1)) :
    (2 : ℚ) ^ ((la : Int) - (lb : Int) - 1) ≤ A / B ∧
      A / B < (2 : ℚ) ^ ((la : Int) - (lb : Int) + 1) := by
  have hA0 : 0 < A := lt_of_lt_of_le (by positivity) hA
  constructor
  · have e : ((la : Int) - (lb : Int) - 1) = (la : Int) - ((lb + 1 : Nat) : Int) := by
      push_cast
      ring
    rw [e, zpow_sub₀ (by norm_num), zpow_natCast, zpow_natCast,
      div_le_div_iff₀ (by positivity) hB0]
    calc (2 : ℚ) ^ la * B ≤ A * B := mul_le_mul_of_nonneg_right hA (le_of_lt hB0)
      _ ≤ A * 2 ^ (lb + 1) := mul_le_mul_of_nonneg_left (le_of_lt hB') (le_of_lt hA0)
  · have e : ((la : Int) - (lb : Int) + 1) = ((la + 1 : Nat) : Int) - (lb : Int) := by
      push_cast
      ring
    rw [e, zpow_sub₀ (by norm_num), zpow_natCast, zpow_natCast,
      div_lt_div_iff₀ hB0 (by positivity)]
    calc A * (2 : ℚ) ^ lb ≤ A * B := mul_le_mul_of_nonneg_left hB (le_of_lt hA0)
      _ < 2 ^ (la + 1) * B := mul_lt_mul_of_pos_right hA' hB0

/-- The binary exponent brackets a positive rational between two powers of two. -/
theorem floorLog2_spec (q : ℚ) (hq : 0 < q) :
    pow2 (floorLog2 q) ≤ q ∧ q < pow2 (floorLog2 q + 1) := by
  have hnum : 0 < q.num := Rat.num_pos.2 hq
  have ha1 : 1 ≤ q.num.natAbs := by omega
  have hb1 : 1 ≤ q.den := q.den_pos
  obtain ⟨ha, ha'⟩ := natLog2_spec q.num.natAbs ha1
  obtain ⟨hb, hb'⟩ := natLog2_spec q.den hb1
  have hqa : (q.num.natAbs : ℚ) / (q.den : ℚ) = q := by
    have h1 : ((q.num.natAbs : Nat) : ℚ) = (q.num : ℚ) := by
      rw [Nat.cast_natAbs, abs_of_pos hnum]
    rw [h1]
    exact Rat.num_div_den q
  have hdpos : (0 : ℚ) < (q.den : ℚ) := by exact_mod_cast hb1
  obtain ⟨hlow, hup⟩ := bracket_quotient (q.num.natAbs : ℚ) (q.den : ℚ)
    (natLog2 q.num.natAbs) (natLog2 q.den) hdpos (by exact_mod_cast ha) (by exact_mod_cast ha')
    (by exact_mod_cast hb) (by exact_mod_cast hb')
  rw [hqa] at hlow hup
  unfold floorLog2
  by_cases hk : pow2 ((natLog2 q.num.natAbs : Int) - (natLog2 q.den : Int)) ≤ q
  · rw [if_pos hk]
    refine ⟨hk, ?_⟩
    rw [pow2_eq_zpow]
    exact hup
  · rw [if_neg hk]
    rw [pow2_eq_zpow]
    refine ⟨hlow, ?_⟩
    have e : ((natLog2 q.num.natAbs : Int) - (natLog2 q.den : Int) - 1 + 1) =
        (natLog2 q.num.natAbs : Int) - (natLog2 q.den : Int) := by ring
    rw [e]
    exact not_le.1 hk

/-- The binary exponent is the only `k` with `2 ^ k <= q < 2 ^ (k + 1)`. -/
theorem floorLog2_eq (q : ℚ) (k : Int) (hq : 0 < q) (h1 : pow2 k ≤ q) (h2 : q < pow2 (k + 1)) :
    floorLog2 q = k := by
  obtain ⟨h3, h4⟩ := floorLog2_spec q hq
  by_contra hne
  rcases lt_or_gt_of_ne hne with h | h
  · have : pow2 (floorLog2 q + 1) ≤ pow2 k := pow2_le_pow2 _ _ (by omega)
    linarith
  · have : pow2 (k + 1) ≤ pow2 (floorLog2 q) := pow2_le_pow2 _ _ (by omega)
    linarith

theorem floorLog2_mono (q1 q2 : ℚ) (h1 : 0 < q1) (h : q1 ≤ q2) :
    floorLog2 q1 ≤ floorLog2 q2 := by
  obtain ⟨h3, _⟩ := floorLog2_spec q1 h1
  obtain ⟨_, h6⟩ := floorLog2_spec q2 (lt_of_lt_of_le h1 h)
  by_contra hlt
  have : pow2 (floorLog2 q2 + 1) ≤ pow2 (floorLog2 q1) := pow2_le_pow2 _ _ (by omega)
  linarith

end F64

namespace F64

theorem rne_bounds (x : ℚ) : ⌊x⌋ ≤ rne x ∧ rne x ≤ ⌊x⌋ + 1 := by
  unfold rne
  split_ifs <;> omega

theorem rne_intCast (n : Int) : rne (n : ℚ) = n := by
  unfold rne
  simp

theorem rne_mono (x y : ℚ) (h : x ≤ y) : rne x ≤ rne y := by
  have hf : ⌊x⌋ ≤ ⌊y⌋ := Int.floor_mono h
  rcases lt_or_eq_of_le hf with hlt | heq
  · have := (rne_bounds x).2
    have := (rne_bounds y).1
    omega
  · unfold rne
    rw [heq]
    have hd : x - (⌊y⌋ : ℚ) ≤ y - (⌊y⌋ : ℚ) := by linarith
    split_ifs <;> first | omega | (exfalso; linarith)

theorem rne_le_of_le (x : ℚ) (n : Int) (h : x ≤ n) : rne x ≤ n := by
  have := rne_mono x n h
  rwa [rne_intCast] at this

theorem le_rne_of_le (x : ℚ) (n : Int) (h : (n : ℚ) ≤ x) : n ≤ rne x := by
  have := rne_mono n x h
  rwa [rne_intCast] at this

theorem ulp_pos (q : ℚ) : 0 < ulp q := pow2_pos _

theorem grid_nonneg (q : ℚ) (hq : 0 < q) : 0 ≤ grid q := by
  unfold grid
  have h0 : (0 : ℚ) ≤ q / ulp q := le_of_lt (div_pos hq (ulp_pos q))
  have : (0 : Int) ≤ rne (q / ulp q) := le_rne_of_le _ 0 (by simpa using h0)
  have h1 : (0 : ℚ) ≤ (rne (q / ulp q) : ℚ) := by exact_mod_cast this
  exact mul_nonneg h1 (le_of_lt (ulp_pos q))

/-- The grid value of a positive number is at most the next power of two. -/
theorem grid_le_pow2 (q : ℚ) (hq : 0 < q) :
    grid q ≤ pow2 (max (floorLog2 q) (-1022) + 1) := by
  have hlt : q < pow2 (max (floorLog2 q) (-1022) + 1) :=
    lt_of_lt_of_le (floorLog2_spec q hq).2 (pow2_le_pow2 _ _ (by omega))
  have hu : ulp q = pow2 (max (floorLog2 q) (-1022) - 52) := rfl
  have hsplit : pow2 (max (floorLog2 q) (-1022) + 1) = pow2 53 * ulp q := by
    rw [hu, ← pow2_add]
    congr 1
    ring
  have h53 : pow2 53 = ((2 ^ 53 : Int) : ℚ) := by
    rw [pow2_eq_zpow]
    norm_num
  have hx : q / ulp q ≤ ((2 ^ 53 : Int) : ℚ) := by
    rw [div_le_iff₀ (ulp_pos q), ← h53, ← hsplit]
    exact le_of_lt hlt
  have := rne_le_of_le _ _ hx
  unfold grid
  rw [hsplit, h53]
  exact mul_le_mul_of_nonneg_right (by exact_mod_cast this) (le_of_lt (ulp_pos q))

/-- The grid value of a number in the normal range is at least its leading power of
two. -/
theorem pow2_le_grid (q : ℚ) (hq : 0 < q) (hn : -1022 ≤ floorLog2 q) :
    pow2 (floorLog2 q) ≤ grid q := by
  have hmax : max (floorLog2 q) (-1022) = floorLog2 q := max_eq_left hn
  have hu : ulp q = pow2 (floorLog2 q - 52) := by
    unfold ulp
    rw [hmax]
  have hsplit : pow2 (floorLog2 q) = pow2 52 * ulp q := by
    rw [hu, ← pow2_add]
    congr 1
    ring
  have h52 : pow2 52 = ((2 ^ 52 : Int) : ℚ) := by
    rw [pow2_eq_zpow]
    norm_num
  have hx : ((2 ^ 52 : Int) : ℚ) ≤ q / ulp q := by
    rw [le_div_iff₀ (ulp_pos q), ← h52, ← hsplit]
    exact (floorLog2_spec q hq).1
  have := le_rne_of_le _ _ hx
  unfold grid
  rw [hsplit, h52]
  exact mul_le_mul_of_nonneg_right (by exact_mod_cast this) (le_of_lt (ulp_pos q))

theorem grid_mono (q1 q2 : ℚ) (h1 : 0 < q1) (h : q1 ≤ q2) : grid q1 ≤ grid q2 := by
  have h2 : 0 < q2 := lt_of_lt_of_le h1 h
  have hfl := floorLog2_mono q1 q2 h1 h
  rcases lt_or_eq_of_le (max_le_max hfl (le_refl (-1022 : Int))) with hlt | heq
  · have hn : -1022 ≤ floorLog2 q2 := by
      by_contra hc
      have : max (floorLog2 q2) (-1022) = -1022 := max_eq_right (by omega)
      rw [this] at hlt
      have := le_max_right (floorLog2 q1) (-1022)
      omega
    have hmax : max (floorLog2 q2) (-1022) = floorLog2 q2 := max_eq_left hn
    rw [hmax] at hlt
    calc grid q1 ≤ pow2 (max (floorLog2 q1) (-1022) + 1) := grid_le_pow2 q1 h1
      _ ≤ pow2 (floorLog2 q2) := pow2_le_pow2 _ _ (by omega)
      _ ≤ grid q2 := pow2_le_grid q2 h2 hn
  · have hu : ulp q1 = ulp q2 := by
      unfold ulp
      rw [heq]
    unfold grid
    rw [hu]
    have hx : q1 / ulp q2 ≤ q2 / ulp q2 := div_le_div_of_nonneg_right h (le_of_lt (ulp_pos q2))
    have := rne_mono _ _ hx
    exact mul_le_mul_of_nonneg_right (by exact_mod_cast this) (le_of_lt (ulp_pos q2))

theorem nearestPos_mono (q1 q2 : ℚ) (h1 : 0 < q1) (h : q1 ≤ q2) :
    le (nearestPos q1) (nearestPos q2) = true := by
  have hg := grid_mono q1 q2 h1 h
  unfold nearestPos
  by_cases hb : grid q2 < pow2 1024
  · rw [if_pos hb, if_pos (lt_of_le_of_lt hg hb)]
    simpa [le] using hg
  · rw [if_neg hb]
    split_ifs <;> rfl

theorem nearestPos_nonneg (q : ℚ) (hq : 0 < q) : le (fin 0) (nearestPos q) = true := by
  unfold nearestPos
  split_ifs
  · simpa [le] using grid_nonneg q hq
  · rfl

theorem nearestPos_ne_nan (q : ℚ) : nearestPos q ≠ nan ∧ nearestPos q ≠ negInf := by
  unfold nearestPos
  split_ifs <;> exact ⟨by simp, by simp⟩

theorem le_neg_neg (a b : F64) (h : le a b = true) : le (neg b) (neg a) = true := by
  cases a <;> cases b <;> simp_all [le, neg]

theorem le_trans_zero (a b : F64) (ha : le a (fin 0) = true) (hb : le (fin 0) b = true) :
    le a b = true := by
  cases a <;> cases b <;> simp_all [le]
  linarith

/-- Rounding is monotone. -/
theorem nearest_mono (q1 q2 : ℚ) (h : q1 ≤ q2) : le (nearest q1) (nearest q2) = true := by
  have hzero : nearest 0 = fin 0 := by simp [nearest]
  have hnonneg : ∀ q : ℚ, 0 ≤ q → le (fin 0) (nearest q) = true := by
    intro q hq
    rcases lt_or_eq_of_le hq with hpos | hz
    · unfold nearest
      rw [if_neg (ne_of_gt hpos), if_pos hpos]
      exact nearestPos_nonneg q hpos
    · rw [← hz, hzero]
      simp [le]
  have hnonpos : ∀ q : ℚ, q < 0 → le (nearest q) (fin 0) = true := by
    intro q hq
    unfold nearest
    rw [if_neg (ne_of_lt hq), if_neg (not_lt.2 (le_of_lt hq))]
    have := le_neg_neg _ _ (nearestPos_nonneg (-q) (by linarith))
    simpa [neg] using this
  by_cases hq1 : q1 < 0
  · by_cases hq2 : q2 < 0
    · unfold nearest
      rw [if_neg (ne_of_lt hq1), if_neg (not_lt.2 (le_of_lt hq1)), if_neg (ne_of_lt hq2),
        if_neg (not_lt.2 (le_of_lt hq2))]
      exact le_neg_neg _ _ (nearestPos_mono (-q2) (-q1) (by linarith) (by linarith))
    · exact le_trans_zero _ _ (hnonpos q1 hq1) (hnonneg q2 (not_lt.1 hq2))
  · rcases lt_or_eq_of_le (not_lt.1 hq1) with hpos | hz
    · unfold nearest
      rw [if_neg (ne_of_gt hpos), if_pos hpos, if_neg (ne_of_gt (lt_of_lt_of_le hpos h)),
        if_pos (lt_of_lt_of_le hpos h)]
      exact nearestPos_mono q1 q2 hpos h
    · rw [← hz, hzero]
      exact hnonneg q2 (by rw [← hz] at h; exact h)

end F64

namespace F64

theorem nearest_zero : nearest 0 = fin 0 := by simp [nearest]

theorem nearest_ne_nan (q : ℚ) : nearest q ≠ nan := by
  unfold nearest
  split_ifs
  · simp
  · exact (nearestPos_ne_nan q).1
  · have h := nearestPos_ne_nan (-q)
    cases hp : nearestPos (-q) <;> simp_all [neg]

/-- A number between two `float64` values rounds to a finite value between them. -/
theorem nearest_between (lo hi q : ℚ) (hlo : IsValue lo) (hhi : IsValue hi)
    (h1 : lo ≤ q) (h2 : q ≤ hi) : ∃ r, nearest q = fin r ∧ lo ≤ r ∧ r ≤ hi := by
  have a := nearest_mono lo q h1
  have b := nearest_mono q hi h2
  unfold IsValue at hlo hhi
  rw [hlo] at a
  rw [hhi] at b
  cases hq : nearest q with
  | fin r =>
    rw [hq] at a b
    exact ⟨r, rfl, by simpa [le] using a, by simpa [le] using b⟩
  | posInf => rw [hq] at b; simp [le] at b
  | negInf => rw [hq] at a; simp [le] at a
  | nan => exact absurd hq (nearest_ne_nan q)

/-- Rounding is monotone on the finite results. -/
theorem nearest_mono_fin (q1 q2 r1 r2 : ℚ) (h1 : nearest q1 = fin r1) (h2 : nearest q2 = fin r2)
    (h : q1 ≤ q2) : r1 ≤ r2 := by
  have := nearest_mono q1 q2 h
  rw [h1, h2] at this
  simpa [le] using this

theorem isValue_zero : IsValue 0 := nearest_zero

theorem isValue_one : IsValue 1 := by decide!

theorem isValue_pow63 : IsValue (2 ^ 63) ∧ IsValue (-(2 ^ 63)) := by decide!

theorem isValue_pow64 : IsValue (2 ^ 64) := by decide!

theorem isValue_MaxFloat64 : IsValue MaxFloat64 ∧ IsValue (-MaxFloat64) := by decide!

theorem MaxFloat64_lt_pow2 : MaxFloat64 < pow2 1024 := by decide!

/-- A `float64` value rounds to itself: for a positive one the grid value is the
number. -/
theorem grid_of_isValue (r : ℚ) (hr : IsValue r) (h0 : 0 < r) :
    grid r = r ∧ r < pow2 1024 := by
  unfold IsValue nearest at hr
  rw [if_neg (ne_of_gt h0), if_pos h0] at hr
  unfold nearestPos at hr
  split_ifs at hr with hb
  · have : grid r = r := by simpa using hr
    exact ⟨this, by rw [this] at hb; exact hb⟩

theorem isValue_of_grid (r : ℚ) (h0 : 0 < r) (hg : grid r = r) (hb : r < pow2 1024) :
    IsValue r := by
  unfold IsValue nearest
  rw [if_neg (ne_of_gt h0), if_pos h0]
  unfold nearestPos
  rw [hg, if_pos hb]

/-- Doubling a `float64` value is exact unless it overflows. -/
theorem isValue_double (r : ℚ) (hr : IsValue r) (h0 : 0 ≤ r) (h : r + r ≤ MaxFloat64) :
    IsValue (r + r) := by
  rcases lt_or_eq_of_le h0 with hpos | hz
  · obtain ⟨hg, _⟩ := grid_of_isValue r hr hpos
    have h2pos : 0 < r + r := by linarith
    obtain ⟨ha, hb⟩ := floorLog2_spec r hpos
    have hfl : floorLog2 (r + r) = floorLog2 r + 1 := by
      apply floorLog2_eq _ _ h2pos
      · rw [pow2_add]
        have : pow2 1 = 2 := by decide!
        rw [this]
        linarith
      · rw [pow2_add]
        have : pow2 1 = 2 := by decide!
        rw [this]
        linarith
    have hm : (rne (r / ulp r) : ℚ) = r / ulp r := by
      unfold grid at hg
      field_simp [ne_of_gt (ulp_pos r)]
      exact hg
    apply isValue_of_grid _ h2pos _ (lt_of_le_of_lt h MaxFloat64_lt_pow2)
    by_cases hn : -1022 ≤ floorLog2 r
    · have hu : ulp (r + r) = 2 * ulp r := by
        unfold ulp
        rw [hfl, max_eq_left hn, max_eq_left (by omega)]
        have e : floorLog2 r + 1 - 52 = 1 + (floorLog2 r - 52) := by ring
        rw [e, pow2_add]
        have : pow2 1 = 2 := by decide!
        rw [this]
      have hx : (r + r) / ulp (r + r) = ((rne (r / ulp r) : Int) : ℚ) := by
        rw [hu, hm]
        field_simp [ne_of_gt (ulp_pos r)]
        ring
      unfold grid
      rw [hx, rne_intCast, hm, hu]
      field_simp [ne_of_gt (ulp_pos r)]
      ring
    · have hu : ulp (r + r) = ulp r := by
        unfold ulp
        rw [hfl, max_eq_right (by omega), max_eq_right (by omega)]
      have hx : (r + r) / ulp (r + r) = ((2 * rne (r / ulp r) : Int) : ℚ) := by
        rw [hu]
        push_cast
        rw [hm]
        field_simp [ne_of_gt (ulp_pos r)]
        ring
      unfold grid
      rw [hx, rne_intCast, hu]
      push_cast
      rw [hm]
      field_simp [ne_of_gt (ulp_pos r)]
      ring
  · rw [← hz]
    simpa using isValue_zero

/-- The grid value of a positive integer is an integer. -/
theorem grid_intCast (n : Int) (hn : 0 < n) : ∃ m : Int, grid (n : ℚ) = (m : ℚ) := by
  have hq : (0 : ℚ) < (n : ℚ) := by exact_mod_cast hn
  have hfl : 0 ≤ floorLog2 (n : ℚ) := by
    by_contra hc
    have h1 : (n : ℚ) < pow2 (floorLog2 (n : ℚ) + 1) := (floorLog2_spec _ hq).2
    have h2 : pow2 (floorLog2 (n : ℚ) + 1) ≤ pow2 0 := pow2_le_pow2 _ _ (by omega)
    have h3 : pow2 0 = 1 := by decide!
    have h4 : (1 : ℚ) ≤ (n : ℚ) := by exact_mod_cast hn
    linarith
  have hmax : max (floorLog2 (n : ℚ)) (-1022) = floorLog2 (n : ℚ) := max_eq_left (by omega)
  by_cases h52 : 52 ≤ floorLog2 (n : ℚ)
  · obtain ⟨k, hk⟩ := Int.eq_ofNat_of_zero_le (show 0 ≤ floorLog2 (n : ℚ) - 52 by omega)
    refine ⟨rne ((n : ℚ) / ulp (n : ℚ)) * 2 ^ k, ?_⟩
    unfold grid
    have hu : ulp (n : ℚ) = ((2 ^ k : Nat) : ℚ) := by
      unfold ulp
      rw [hmax, hk, pow2_eq_zpow, zpow_natCast]
      norm_cast
    rw [hu]
    push_cast
    rfl
  · obtain ⟨k, hk⟩ := Int.eq_ofNat_of_zero_le (show 0 ≤ 52 - floorLog2 (n : ℚ) by omega)
    refine ⟨n, ?_⟩
    have hu : ulp (n : ℚ) = 1 / ((2 ^ k : Nat) : ℚ) := by
      unfold ulp
      rw [hmax]
      have e : floorLog2 (n : ℚ) - 52 = -(k : Int) := by omega
      rw [e, pow2_eq_zpow, zpow_neg, zpow_natCast]
      norm_cast
      simp
    have hx : (n : ℚ) / ulp (n : ℚ) = ((n * 2 ^ k : Int) : ℚ) := by
      rw [hu]
      push_cast
      field_simp
    unfold grid
    rw [hx, rne_intCast, hu]
    push_cast
    field_simp

/-- Go `float64(n)` of a 64-bit integer is a finite integer of absolute value at
most `2 ^ 63`. -/
theorem ofInt_spec (n : Int) (h : IsInt64 n) :
    ∃ m : Int, ofInt n = fin (m : ℚ) ∧ -(2 : ℚ) ^ 63 ≤ (m : ℚ) ∧ (m : ℚ) ≤ 2 ^ 63 := by
  have hlo : -(2 : ℚ) ^ 63 ≤ (n : ℚ) := by
    have := h.1
    have h' : (-9223372036854775808 : ℚ) ≤ (n : ℚ) := by exact_mod_cast this
    norm_num at h' ⊢
    exact h'
  have hhi : (n : ℚ) ≤ 2 ^ 63 := by
    have := h.2
    unfold MaxInt at this
    have h' : (n : ℚ) ≤ 9223372036854775807 := by exact_mod_cast this
    norm_num at h' ⊢
    linarith
  obtain ⟨r, hr, hr1, hr2⟩ := nearest_between _ _ _ isValue_pow63.2 isValue_pow63.1 hlo hhi
  have hint : ∃ m : Int, r = (m : ℚ) := by
    unfold nearest at hr
    by_cases hz : (n : ℚ) = 0
    · rw [if_pos hz] at hr
      exact ⟨0, by simpa using (F64.fin.inj hr).symm⟩
    · rw [if_neg hz] at hr
      by_cases hp : (0 : ℚ) < (n : ℚ)
      · rw [if_pos hp] at hr
        obtain ⟨m, hm⟩ := grid_intCast n (by exact_mod_cast hp)
        unfold nearestPos at hr
        split_ifs at hr
        exact ⟨m, by rw [← hm]; exact (F64.fin.inj hr).symm⟩
      · rw [if_neg hp] at hr
        have hneg : (0 : ℚ) < -(n : ℚ) := by
          rcases lt_or_gt_of_ne hz with h1 | h1
          · linarith
          · exact absurd h1 hp
        have hcast : -(n : ℚ) = ((-n : Int) : ℚ) := by push_cast; rfl
        obtain ⟨m, hm⟩ := grid_intCast (-n) (by exact_mod_cast (hcast ▸ hneg))
        unfold nearestPos at hr
        rw [hcast] at hr
        split_ifs at hr
        · refine ⟨-m, ?_⟩
          simp only [neg, F64.fin.injEq] at hr
          rw [← hr, hm]
          push_cast
          rfl
        · simp [neg] at hr
  obtain ⟨m, hm⟩ := hint
  subst hm
  exact ⟨m, hr, hr1, hr2⟩

end F64

/-! ## Last-mile cost over `float64` -/

namespace float64

namespace logic

theorem totalsFrom_sums (shipments : List Shipment) (acc : F64 × F64) :
    totalsFrom acc shipments =
      ((shipments.map (fun s => F64.div (.fin s.WeightKg) (.fin 1000))).foldl F64.add acc.1,
       (shipments.map (fun s => F64.fin s.VolumeM3)).foldl F64.add acc.2) := by
  unfold totalsFrom
  rw [List.foldl_map, List.foldl_map]
  induction shipments generalizing acc with
  | nil => rfl
  | cons s rest ih =>
    rw [List.foldl_cons, List.foldl_cons, List.foldl_cons, ih]

/-- The running totals are the rounded running sums of `weight_kg / 1000.0` and of
`volume_m3`. -/
theorem totals_sums (shipments : List Shipment) :
    totals shipments =
      (F64.sum (shipments.map (fun s => F64.div (.fin s.WeightKg) (.fin 1000))),
       F64.sum (shipments.map (fun s => F64.fin s.VolumeM3))) := by
  unfold totals F64.sum
  rw [totalsFrom_sums]

theorem lookupInter_ok (weightTons volumeM3 : F64) (rates : List InterCityRate)
    (hne : rates ≠ []) : ∃ r, findInterCityRate weightTons volumeM3 rates = .ok r := by
  have hlen : rates.length ≠ 0 := fun h => hne (List.length_eq_zero.1 h)
  unfold findInterCityRate
  simp only [hlen, if_false]
  split
  · exact ⟨_, rfl⟩
  · cases hl : (sortSlice (fun a b : InterCityRate =>
        logic.rateLess a.WeightTons a.VolumeM3 b.WeightTons b.VolumeM3) rates).getLast? with
    | none =>
      rw [List.getLast?_eq_none_iff] at hl
      exact absurd hl (logic.sortSlice_ne_nil _ rates hne)
    | some r => exact ⟨r, rfl⟩

theorem lookupIntra_ok (weightTons volumeM3 : F64) (rates : List IntraCityRate)
    (hne : rates ≠ []) : ∃ r, findIntraCityRate weightTons volumeM3 rates = .ok r := by
  have hlen : rates.length ≠ 0 := fun h => hne (List.length_eq_zero.1 h)
  unfold findIntraCityRate
  simp only [hlen, if_false]
  split
  · exact ⟨_, rfl⟩
  · cases hl : (sortSlice (fun a b : IntraCityRate =>
        logic.rateLess a.WeightTons a.VolumeM3 b.WeightTons b.VolumeM3) rates).getLast? with
    | none =>
      rw [List.getLast?_eq_none_iff] at hl
      exact absurd hl (logic.sortSlice_ne_nil _ rates hne)
    | some r => exact ⟨r, rfl⟩

/-- With every distance present the route loop leaves the rounded running sum of
`rate_per_km * float64(distance)`. -/
theorem routeCosts_sum (ratePerKm : ℚ) (terminalCity : String) (distances : DistMap)
    (shipments : List Shipment) (totalCost : F64)
    (hall : ∀ s ∈ shipments, ∃ d, distances s.DestinationCity = some d) :
    routeCosts ratePerKm terminalCity distances shipments totalCost =
      .ok ((shipments.map (fun s =>
        F64.mul (.fin ratePerKm) (F64.ofInt ((distances s.DestinationCity).getD 0)))).foldl
          F64.add totalCost) := by
  induction shipments generalizing totalCost with
  | nil => rfl
  | cons s rest ih =>
    obtain ⟨d, hd⟩ := hall s (List.mem_cons_self _ _)
    unfold routeCosts
    rw [hd]
    simp only []
    rw [ih _ (fun s' hs' => hall s' (List.mem_cons_of_mem _ hs'))]
    simp only [List.map_cons, List.foldl_cons, hd, Option.getD_some]

theorem tariffCost_sum (shipments : List Shipment) (terminalCity : String)
    (interCityRates : List InterCityRate) (intraCityRates : List IntraCityRate)
    (distances : DistMap) (w v : F64)
    (hall : ∀ s ∈ shipments, ∃ d, distances s.DestinationCity = some d)
    (hinter : interCityRates ≠ []) (hintra : intraCityRates ≠ []) :
    ∃ interCityRate intraCityRate,
      findInterCityRate w v interCityRates = .ok interCityRate ∧
      findIntraCityRate w v intraCityRates = .ok intraCityRate ∧
      tariffCost shipments terminalCity interCityRates intraCityRates distances w v =
        .ok (F64.add
          (F64.sum (shipments.map (fun s =>
            F64.mul (.fin interCityRate.RatePerKm)
              (F64.ofInt ((distances s.DestinationCity).getD 0)))))
          (.fin intraCityRate.RateFixed)) := by
  obtain ⟨r1, h1⟩ := lookupInter_ok w v interCityRates hinter
  obtain ⟨r2, h2⟩ := lookupIntra_ok w v intraCityRates hintra
  refine ⟨r1, r2, h1, h2, ?_⟩
  unfold tariffCost
  rw [h1, h2]
  simp only []
  rw [routeCosts_sum _ _ _ _ _ hall]
  rfl

end logic

end float64

/-- C10 (amended): for a non-empty shipment set whose running `float64` total of
`weight_kg / 1000.0` (every quotient and every partial sum rounded) is greater than
2.5 and whose every destination has a distance of at most 100 km in the supplied
submap, `CalculateLastMileCostForTerminal` returns exactly 7000, whatever the tariff
tables contain. -/
theorem short_haul_on_rounded_total (shipments : List Shipment) (terminalCity : String)
    (interCityRates : List InterCityRate) (intraCityRates : List IntraCityRate)
    (distances : DistMap)
    (hne : shipments ≠ [])
    (hw : F64.lt (.fin (5 / 2))
      (F64.sum (shipments.map (fun s => F64.div (.fin s.WeightKg) (.fin 1000)))) = true)
    (hd : ∀ s ∈ shipments, ∃ d, distances s.DestinationCity = some d ∧ d ≤ 100) :
    float64.logic.CalculateLastMileCostForTerminal shipments terminalCity interCityRates
      intraCityRates distances = .ok (.fin 7000) := by
  have hlen : shipments.length ≠ 0 := fun h => hne (List.length_eq_zero.1 h)
  unfold float64.logic.CalculateLastMileCostForTerminal
  simp only [hlen, if_false]
  rw [float64.logic.totals_sums]
  simp only [hw, if_true]
  rw [logic.allWithin100Km_of_near terminalCity distances shipments hd]

/-- C10 (amended) at a concrete input: 3 t to a destination exactly 100 km away,
with empty tariff tables. -/
theorem short_haul_on_rounded_total_witness :
    float64.logic.CalculateLastMileCostForTerminal Sample.heavyShipments "A" [] []
      Sample.fromTerminal = .ok (.fin 7000) :=
  short_haul_on_rounded_total Sample.heavyShipments "A" [] [] Sample.fromTerminal
    (by simp [Sample.heavyShipments])
    (by decide!)
    (by
      intro s hs
      have : s.DestinationCity = "X" := by
        simp only [Sample.heavyShipments, List.mem_singleton] at hs
        rw [hs]
      exact ⟨100, by simp [Sample.fromTerminal, this], le_refl _⟩)

/-- C10 as stated fails on three shipments of 0.1, 0.1 and 2499.8 kg (the nearest
`float64` values) to a destination 100 km away: the weights are `float64` values,
their exact total exceeds 2.5 t and every destination is within 100 km, yet the
running total the code computes is exactly 2.5, the test `> 2.5` fails and the
tariff price `5 * 100 * 3 + 50 = 1550` is returned instead of 7000. -/
theorem short_haul_on_rounded_total_counterexample :
    (∀ s ∈ Sample.lightPlusHeavy, F64.IsValue s.WeightKg) ∧
    (Sample.lightPlusHeavy.map (fun s => s.WeightKg / 1000)).sum > 5 / 2 ∧
    (∀ s ∈ Sample.lightPlusHeavy, Sample.fromTerminal s.DestinationCity = some 100) ∧
    F64.sum (Sample.lightPlusHeavy.map (fun s => F64.div (.fin s.WeightKg) (.fin 1000))) =
      .fin (5 / 2) ∧
    float64.logic.CalculateLastMileCostForTerminal Sample.lightPlusHeavy "A"
      Sample.interCityRates Sample.intraCityRates Sample.fromTerminal = .ok (.fin 1550) := by
  decide!

/-- C11 (amended): for a non-empty shipment set whose every destination has an
entry in the supplied submap, with non-empty tariff tables, if the running `float64`
total of `weight_kg / 1000.0` is not greater than 2.5, or some destination is
farther than 100 km, `CalculateLastMileCostForTerminal` returns the rounded running
sum of `inter.rate_per_km * float64(distance)`, one term per shipment in input
order, plus `intra.rate_fixed`, added once; `inter` and `intra` are the rows the two
lookups return for the running totals of weight and volume. -/
theorem tariff_on_rounded_total (shipments : List Shipment) (terminalCity : String)
    (interCityRates : List InterCityRate) (intraCityRates : List IntraCityRate)
    (distances : DistMap)
    (hne : shipments ≠ [])
    (hall : ∀ s ∈ shipments, ∃ d, distances s.DestinationCity = some d)
    (hinter : interCityRates ≠ []) (hintra : intraCityRates ≠ [])
    (hcase : F64.lt (.fin (5 / 2))
        (F64.sum (shipments.map (fun s => F64.div (.fin s.WeightKg) (.fin 1000)))) = false ∨
      ∃ s ∈ shipments, ∃ d, distances s.DestinationCity = some d ∧ 100 < d) :
    ∃ inter intra,
      float64.logic.findInterCityRate
        (F64.sum (shipments.map (fun s => F64.div (.fin s.WeightKg) (.fin 1000))))
        (F64.sum (shipments.map (fun s => F64.fin s.VolumeM3))) interCityRates = .ok inter ∧
      float64.logic.findIntraCityRate
        (F64.sum (shipments.map (fun s => F64.div (.fin s.WeightKg) (.fin 1000))))
        (F64.sum (shipments.map (fun s => F64.fin s.VolumeM3))) intraCityRates = .ok intra ∧
      float64.logic.CalculateLastMileCostForTerminal shipments terminalCity interCityRates
        intraCityRates distances =
          .ok (F64.add
            (F64.sum (shipments.map (fun s =>
              F64.mul (.fin inter.RatePerKm)
                (F64.ofInt ((distances s.DestinationCity).getD 0)))))
            (.fin intra.RateFixed)) := by
  have hlen : shipments.length ≠ 0 := fun h => hne (List.length_eq_zero.1 h)
  obtain ⟨r1, r2, h1, h2, h3⟩ := float64.logic.tariffCost_sum shipments terminalCity
    interCityRates intraCityRates distances (float64.logic.totals shipments).1
    (float64.logic.totals shipments).2 hall hinter hintra
  have ht := float64.logic.totals_sums shipments
  rw [ht] at h1 h2
  refine ⟨r1, r2, h1, h2, ?_⟩
  unfold float64.logic.CalculateLastMileCostForTerminal
  simp only [hlen, if_false]
  by_cases hw : F64.lt (.fin (5 / 2)) (float64.logic.totals shipments).1 = true
  · simp only [hw, if_true]
    rcases hcase with hle | hfar
    · rw [ht] at hw
      rw [hw] at hle
      cases hle
    · rw [logic.allWithin100Km_of_far terminalCity distances shipments hall hfar]
      exact h3
  · simp only [hw, if_false]
    exact h3

/-- C11 (amended) at a concrete input: one shipment of exactly 2.5 t to a destination
100 km away is priced by the tariff. -/
theorem tariff_on_rounded_total_witness :
    ∃ inter intra,
      float64.logic.findInterCityRate
        (F64.sum (Sample.boundaryShipments.map (fun s => F64.div (.fin s.WeightKg) (.fin 1000))))
        (F64.sum (Sample.boundaryShipments.map (fun s => F64.fin s.VolumeM3)))
        Sample.interCityRates = .ok inter ∧
      float64.logic.findIntraCityRate
        (F64.sum (Sample.boundaryShipments.map (fun s => F64.div (.fin s.WeightKg) (.fin 1000))))
        (F64.sum (Sample.boundaryShipments.map (fun s => F64.fin s.VolumeM3)))
        Sample.intraCityRates = .ok intra ∧
      float64.logic.CalculateLastMileCostForTerminal Sample.boundaryShipments "A"
        Sample.interCityRates Sample.intraCityRates Sample.fromTerminal =
          .ok (F64.add
            (F64.sum (Sample.boundaryShipments.map (fun s =>
              F64.mul (.fin inter.RatePerKm)
                (F64.ofInt ((Sample.fromTerminal s.DestinationCity).getD 0)))))
            (.fin intra.RateFixed)) :=
  tariff_on_rounded_total Sample.boundaryShipments "A" Sample.interCityRates
    Sample.intraCityRates Sample.fromTerminal
    (by simp [Sample.boundaryShipments])
    (by
      intro s hs
      have : s.DestinationCity = "X" := by
        simp only [Sample.boundaryShipments, List.mem_singleton] at hs
        rw [hs]
      exact ⟨100, by simp [Sample.fromTerminal, this]⟩)
    (by simp [Sample.interCityRates])
    (by simp [Sample.intraCityRates])
    (Or.inl (by decide!))

/-- The value of the C11 witness, 550, and of the C10 witness, 7000. -/
theorem rounded_last_mile_values :
    float64.logic.CalculateLastMileCostForTerminal Sample.boundaryShipments "A"
      Sample.interCityRates Sample.intraCityRates Sample.fromTerminal = .ok (.fin 550) ∧
    float64.logic.CalculateLastMileCostForTerminal Sample.heavyShipments "A"
      Sample.interCityRates Sample.intraCityRates Sample.fromTerminal = .ok (.fin 7000) := by
  decide!

/-- C11 as stated fails on three shipments of 40, 2240 and 220 kg to a destination
100 km away: the weights are `float64` values, their total is exactly 2.5 t,
which the claim prices by the tariff at
`5 * (100 + 100 + 100) + 50 = 1550`, but the running total the code computes is
`2.5000000000000004`, the test `> 2.5` succeeds and 7000 is returned. -/
theorem tariff_on_rounded_total_counterexample :
    (∀ s ∈ Sample.exactlyTwoAndAHalf, F64.IsValue s.WeightKg) ∧
    (Sample.exactlyTwoAndAHalf.map (fun s => s.WeightKg / 1000)).sum = 5 / 2 ∧
    (∀ s ∈ Sample.exactlyTwoAndAHalf, Sample.fromTerminal s.DestinationCity = some 100) ∧
    logic.findInterCityRate (5 / 2) 3 Sample.interCityRates =
      .ok { VolumeM3 := 10, WeightTons := 3, RatePerKm := 5 } ∧
    logic.findIntraCityRate (5 / 2) 3 Sample.intraCityRates =
      .ok { VolumeM3 := 10, WeightTons := 3, RateFixed := 50 } ∧
    F64.sum (Sample.exactlyTwoAndAHalf.map (fun s => F64.div (.fin s.WeightKg) (.fin 1000))) =
      .fin (5 / 2 + 1 / 2 ^ 51) ∧
    float64.logic.CalculateLastMileCostForTerminal Sample.exactlyTwoAndAHalf "A"
      Sample.interCityRates Sample.intraCityRates Sample.fromTerminal = .ok (.fin 7000) := by
  decide!

/-! ## Line-haul cost over `float64` -/

/-- A scan for the extremes over `float64` keys that are all finite returns the
extremes of the scan over their values. -/
theorem minmax_fold_fin {α : Type} (f : α → ℚ) (g : α → F64) (l : List α)
    (hg : ∀ x ∈ l, g x = .fin (f x)) (a b : ℚ) :
    l.foldl (fun (acc : F64 × F64) x =>
        (if F64.lt (g x) acc.1 then g x else acc.1, if F64.lt acc.2 (g x) then g x else acc.2))
      (.fin a, .fin b) =
    (.fin (l.foldl (fun (acc : ℚ × ℚ) x =>
        (if f x < acc.1 then f x else acc.1, if f x > acc.2 then f x else acc.2)) (a, b)).1,
     .fin (l.foldl (fun (acc : ℚ × ℚ) x =>
        (if f x < acc.1 then f x else acc.1, if f x > acc.2 then f x else acc.2)) (a, b)).2) := by
  induction l generalizing a b with
  | nil => rfl
  | cons x rest ih =>
    rw [List.foldl_cons, List.foldl_cons, hg x (List.mem_cons_self _ _)]
    have e : ((if F64.lt (F64.fin (f x)) (F64.fin a) then F64.fin (f x) else F64.fin a,
        if F64.lt (F64.fin b) (F64.fin (f x)) then F64.fin (f x) else F64.fin b) : F64 × F64) =
        (F64.fin (if f x < a then f x else a), F64.fin (if f x > b then f x else b)) := by
      simp only [F64.lt, decide_eq_true_eq, gt_iff_lt]
      split_ifs <;> rfl
    simp only []
    rw [e]
    exact ih (fun y hy => hg y (List.mem_cons_of_mem _ hy)) _ _

/-- The scan for the extreme rates compares finite values only: it returns the
extremes the scan over the rationals returns. -/
theorem findMinMaxRate_rounded_eq (rates : List InterCityRate) :
    float64.logic.findMinMaxRate rates =
      (.fin (logic.findMinMaxRate rates).1, .fin (logic.findMinMaxRate rates).2) := by
  unfold float64.logic.findMinMaxRate logic.findMinMaxRate
  simp only []
  rw [minmax_fold_fin (fun r : InterCityRate => r.RatePerKm) (fun r => F64.fin r.RatePerKm)
    rates (fun _ _ => rfl)]
  simp only [F64.eq, decide_eq_true_eq]
  split_ifs <;> rfl

namespace float64

namespace logic

/-- The extremes of the converted distances of a non-empty set of 64-bit distances:
finite integers, the least and the greatest of the converted values. -/
theorem findMinMaxDistance_fin (terminals : List Terminal) (hne : terminals ≠ [])
    (hint : ∀ t ∈ terminals, IsInt64 t.DistanceFromMoscowKm) :
    ∃ a b : ℚ, findMinMaxDistance terminals = (.fin a, .fin b) ∧
      IsMinOf (terminals.map (fun t => (F64.ofInt t.DistanceFromMoscowKm).toRat)) a ∧
      IsMaxOf (terminals.map (fun t => (F64.ofInt t.DistanceFromMoscowKm).toRat)) b := by
  have hg : ∀ t ∈ terminals, F64.ofInt t.DistanceFromMoscowKm =
      .fin (F64.ofInt t.DistanceFromMoscowKm).toRat := by
    intro t ht
    obtain ⟨m, hm, _, _⟩ := F64.ofInt_spec _ (hint t ht)
    rw [hm]
    rfl
  have hrange : ∀ t ∈ terminals,
      -MaxFloat64 < (F64.ofInt t.DistanceFromMoscowKm).toRat ∧
      (F64.ofInt t.DistanceFromMoscowKm).toRat < MaxFloat64 := by
    intro t ht
    obtain ⟨m, hm, h1, h2⟩ := F64.ofInt_spec _ (hint t ht)
    rw [hm]
    have h3 : (2 : ℚ) ^ 63 < MaxFloat64 := by norm_num [MaxFloat64]
    simp only [F64.toRat]
    constructor <;> linarith
  obtain ⟨t0, ht0⟩ := List.exists_mem_of_ne_nil terminals hne
  obtain ⟨hne', hmin, hmax⟩ := minmax_scan_spec
    (fun t : Terminal => (F64.ofInt t.DistanceFromMoscowKm).toRat) terminals
    (fun t ht => le_of_lt (hrange t ht).1) ⟨t0, ht0, (hrange t0 ht0).2⟩
  refine ⟨_, _, ?_, hmin, hmax⟩
  unfold findMinMaxDistance
  simp only []
  rw [minmax_fold_fin (fun t : Terminal => (F64.ofInt t.DistanceFromMoscowKm).toRat)
    (fun t => F64.ofInt t.DistanceFromMoscowKm) terminals hg]
  simp only [F64.eq, decide_eq_true_eq]
  rw [if_neg hne']

theorem linehaul_eq_rate (terminal : Terminal) (terminals : List Terminal)
    (interCityRates : List InterCityRate) (h1 : interCityRates ≠ []) (h2 : terminals ≠ []) :
    CalculateLinehaulCost terminal terminals interCityRates =
      .ok (F64.mul (effectiveRate terminal terminals interCityRates)
        (F64.ofInt terminal.DistanceFromMoscowKm)) := by
  have h1' : interCityRates.length ≠ 0 := fun h => h1 (List.length_eq_zero.1 h)
  have h2' : terminals.length ≠ 0 := fun h => h2 (List.length_eq_zero.1 h)
  unfold CalculateLinehaulCost effectiveRate
  simp only [h1', h2', if_false]

end logic

end float64

/-- The values of the C13 witness: `A` is priced at 5 per km, `B` at 2 per km. -/
theorem rounded_linehaul_values :
    float64.logic.CalculateLinehaulCost Sample.terminalA Sample.terminals
      Sample.interCityRates = .ok (.fin 2500) ∧
    float64.logic.CalculateLinehaulCost Sample.terminalB Sample.terminals
      Sample.interCityRates = .ok (.fin 1400) := by
  decide!

namespace F64

theorem sub_fin (x y : ℚ) : sub (fin x) (fin y) = nearest (x - y) := by
  simp [sub, neg, add, sub_eq_add_neg]

theorem div_fin (x y : ℚ) (hy : y ≠ 0) : div (fin x) (fin y) = nearest (x / y) := by
  simp [div, hy]

/-- A number between two `float64` values rounds to the finite value `toRat` reads
off, which lies between them. -/
theorem nearest_toRat (lo hi q : ℚ) (hlo : IsValue lo) (hhi : IsValue hi)
    (h1 : lo ≤ q) (h2 : q ≤ hi) :
    nearest q = fin (nearest q).toRat ∧ lo ≤ (nearest q).toRat ∧ (nearest q).toRat ≤ hi := by
  obtain ⟨r, hr, hr1, hr2⟩ := nearest_between lo hi q hlo hhi h1 h2
  rw [hr]
  exact ⟨rfl, hr1, hr2⟩

theorem toRat_nearest_mono (lo hi q1 q2 : ℚ) (hlo : IsValue lo) (hhi : IsValue hi)
    (h1 : lo ≤ q1) (h : q1 ≤ q2) (h2 : q2 ≤ hi) :
    (nearest q1).toRat ≤ (nearest q2).toRat := by
  obtain ⟨e1, _, _⟩ := nearest_toRat lo hi q1 hlo hhi h1 (le_trans h h2)
  obtain ⟨e2, _, _⟩ := nearest_toRat lo hi q2 hlo hhi (le_trans h1 h) h2
  exact nearest_mono_fin _ _ _ _ e1 e2 h

theorem toRat_nearest_of_isValue (q : ℚ) (h : IsValue q) : (nearest q).toRat = q := by
  unfold IsValue at h
  rw [h]
  rfl

end F64

/-- The weight of the interpolation: for integers `a <= d <= b`, `a < b`, within
the 64-bit range, the `float64` quotient `(d - a) / (b - a)` is a finite value
between 0 and 1, and it grows with `d`. -/
theorem interpolation_weight (a b d : ℚ) (ha : ∃ m : Int, a = (m : ℚ))
    (hb : ∃ m : Int, b = (m : ℚ)) (hab : a ≠ b) (had : a ≤ d) (hdb : d ≤ b)
    (hlo : -(2 : ℚ) ^ 63 ≤ a) (hhi : b ≤ 2 ^ 63) :
    F64.div (F64.sub (.fin d) (.fin a)) (F64.sub (.fin b) (.fin a)) =
      .fin (F64.nearest ((F64.nearest (d - a)).toRat / (F64.nearest (b - a)).toRat)).toRat ∧
    0 ≤ (F64.nearest ((F64.nearest (d - a)).toRat / (F64.nearest (b - a)).toRat)).toRat ∧
    (F64.nearest ((F64.nearest (d - a)).toRat / (F64.nearest (b - a)).toRat)).toRat ≤ 1 ∧
    (∀ d' : ℚ, d ≤ d' → d' ≤ b →
      (F64.nearest ((F64.nearest (d - a)).toRat / (F64.nearest (b - a)).toRat)).toRat ≤
      (F64.nearest ((F64.nearest (d' - a)).toRat / (F64.nearest (b - a)).toRat)).toRat) := by
  have hone : (1 : ℚ) ≤ b - a := by
    obtain ⟨m, hm⟩ := ha
    obtain ⟨n, hn⟩ := hb
    have hlt : a < b := lt_of_le_of_ne (le_trans had hdb) hab
    rw [hm, hn] at hlt ⊢
    have : m < n := by exact_mod_cast hlt
    have : m + 1 ≤ n := by omega
    have : ((m + 1 : Int) : ℚ) ≤ (n : ℚ) := by exact_mod_cast this
    push_cast at this
    linarith
  have h64 : b - a ≤ (2 : ℚ) ^ 64 := by
    have : (2 : ℚ) ^ 64 = 2 ^ 63 + 2 ^ 63 := by norm_num
    linarith
  have xs : ∀ e : ℚ, a ≤ e → e ≤ b →
      F64.nearest (e - a) = .fin (F64.nearest (e - a)).toRat ∧
      0 ≤ (F64.nearest (e - a)).toRat ∧
      (F64.nearest (e - a)).toRat ≤ (F64.nearest (b - a)).toRat := by
    intro e h1 h2
    obtain ⟨e1, e2, _⟩ := F64.nearest_toRat 0 (2 ^ 64) (e - a) F64.isValue_zero
      F64.isValue_pow64 (by linarith) (by linarith)
    exact ⟨e1, e2, F64.toRat_nearest_mono 0 (2 ^ 64) _ _ F64.isValue_zero F64.isValue_pow64
      (by linarith) (by linarith) h64⟩
  obtain ⟨ey, hy1, _⟩ := F64.nearest_toRat 1 (2 ^ 64) (b - a) F64.isValue_one
    F64.isValue_pow64 hone h64
  have hypos : 0 < (F64.nearest (b - a)).toRat := by linarith
  have ts : ∀ e : ℚ, a ≤ e → e ≤ b →
      0 ≤ (F64.nearest (e - a)).toRat / (F64.nearest (b - a)).toRat ∧
      (F64.nearest (e - a)).toRat / (F64.nearest (b - a)).toRat ≤ 1 := by
    intro e h1 h2
    obtain ⟨_, e2, e3⟩ := xs e h1 h2
    exact ⟨div_nonneg e2 (le_of_lt hypos), (div_le_one hypos).2 e3⟩
  obtain ⟨ex, _, _⟩ := xs d had hdb
  obtain ⟨t0, t1⟩ := ts d had hdb
  obtain ⟨et, ht0, ht1⟩ := F64.nearest_toRat 0 1 _ F64.isValue_zero F64.isValue_one t0 t1
  refine ⟨?_, ht0, ht1, ?_⟩
  · rw [F64.sub_fin, F64.sub_fin, ex, ey, F64.div_fin _ _ (ne_of_gt hypos)]
    exact et
  · intro d' hd hd'
    obtain ⟨_, t1'⟩ := ts d' (le_trans had hd) hd'
    apply F64.toRat_nearest_mono 0 1 _ _ F64.isValue_zero F64.isValue_one t0 _ t1'
    apply div_le_div_of_nonneg_right _ (le_of_lt hypos)
    exact F64.toRat_nearest_mono 0 (2 ^ 64) _ _ F64.isValue_zero F64.isValue_pow64
      (by linarith) (by linarith) (by linarith)

/-- The interpolated rate for a weight `t` between 0 and 1 and rates
`0 <= lo <= hi`: a finite value between 0 and `hi` that falls as `t` grows, and
equal to `hi` when `lo = hi`. -/
theorem interpolated_rate (lo hi t : ℚ) (hhi : F64.IsValue hi)
    (h0 : 0 ≤ lo) (hle : lo ≤ hi) (ht0 : 0 ≤ t) (ht1 : t ≤ 1) :
    F64.sub (.fin hi) (F64.mul (F64.sub (.fin hi) (.fin lo)) (.fin t)) =
      .fin (F64.nearest (hi - (F64.nearest ((F64.nearest (hi - lo)).toRat * t)).toRat)).toRat ∧
    0 ≤ (F64.nearest (hi - (F64.nearest ((F64.nearest (hi - lo)).toRat * t)).toRat)).toRat ∧
    (F64.nearest (hi - (F64.nearest ((F64.nearest (hi - lo)).toRat * t)).toRat)).toRat ≤ hi ∧
    (∀ t' : ℚ, t ≤ t' → t' ≤ 1 →
      (F64.nearest (hi - (F64.nearest ((F64.nearest (hi - lo)).toRat * t')).toRat)).toRat ≤
      (F64.nearest (hi - (F64.nearest ((F64.nearest (hi - lo)).toRat * t)).toRat)).toRat) ∧
    (lo = hi →
      (F64.nearest (hi - (F64.nearest ((F64.nearest (hi - lo)).toRat * t)).toRat)).toRat = hi) := by
  obtain ⟨ec, hc0, hc1⟩ := F64.nearest_toRat 0 hi (hi - lo) F64.isValue_zero hhi
    (by linarith) (by linarith)
  have ps : ∀ u : ℚ, 0 ≤ u → u ≤ 1 →
      0 ≤ (F64.nearest (hi - lo)).toRat * u ∧ (F64.nearest (hi - lo)).toRat * u ≤ hi := by
    intro u hu0 hu1
    exact ⟨mul_nonneg hc0 hu0, le_trans (mul_le_of_le_one_right hc0 hu1) hc1⟩
  have pv : ∀ u : ℚ, 0 ≤ u → u ≤ 1 →
      F64.nearest ((F64.nearest (hi - lo)).toRat * u) =
        .fin (F64.nearest ((F64.nearest (hi - lo)).toRat * u)).toRat ∧
      0 ≤ (F64.nearest ((F64.nearest (hi - lo)).toRat * u)).toRat ∧
      (F64.nearest ((F64.nearest (hi - lo)).toRat * u)).toRat ≤ hi := by
    intro u hu0 hu1
    obtain ⟨p0, p1⟩ := ps u hu0 hu1
    exact F64.nearest_toRat 0 hi _ F64.isValue_zero hhi p0 p1
  obtain ⟨ep, hp0, hp1⟩ := pv t ht0 ht1
  obtain ⟨er, hr0, hr1⟩ := F64.nearest_toRat 0 hi
    (hi - (F64.nearest ((F64.nearest (hi - lo)).toRat * t)).toRat) F64.isValue_zero hhi
    (by linarith) (by linarith)
  refine ⟨?_, hr0, hr1, ?_, ?_⟩
  · rw [F64.sub_fin, ec]
    show F64.sub (.fin hi) (F64.nearest ((F64.nearest (hi - lo)).toRat * t)) = _
    rw [ep, F64.sub_fin]
    exact er
  · intro t' htt ht1'
    obtain ⟨_, hp0', hp1'⟩ := pv t' (le_trans ht0 htt) ht1'
    apply F64.toRat_nearest_mono 0 hi _ _ F64.isValue_zero hhi (by linarith) _ (by linarith)
    have := F64.toRat_nearest_mono 0 hi _ _ F64.isValue_zero hhi
      (ps t ht0 ht1).1 (mul_le_mul_of_nonneg_left htt hc0) (ps t' (le_trans ht0 htt) ht1').2
    linarith
  · intro heq
    rw [heq, sub_self, F64.nearest_zero]
    simp only [F64.toRat, zero_mul, F64.nearest_zero, sub_zero]
    exact F64.toRat_nearest_of_isValue hi hhi

/-- The midpoint rate of two rates `0 <= lo <= hi` whose doubles do not overflow:
a finite value between `lo` and `hi`. -/
theorem midpoint_rate (lo hi : ℚ) (hlo : F64.IsValue lo) (hhi : F64.IsValue hi)
    (h0 : 0 ≤ lo) (hle : lo ≤ hi) (hmax : hi + hi ≤ MaxFloat64) :
    F64.div (F64.add (.fin lo) (.fin hi)) (.fin 2) =
      .fin (F64.nearest ((F64.nearest (lo + hi)).toRat / 2)).toRat ∧
    lo ≤ (F64.nearest ((F64.nearest (lo + hi)).toRat / 2)).toRat ∧
    (F64.nearest ((F64.nearest (lo + hi)).toRat / 2)).toRat ≤ hi := by
  have v1 := F64.isValue_double lo hlo h0 (by linarith)
  have v2 := F64.isValue_double hi hhi (by linarith) hmax
  obtain ⟨es, hs0, hs1⟩ := F64.nearest_toRat (lo + lo) (hi + hi) (lo + hi) v1 v2
    (by linarith) (by linarith)
  obtain ⟨er, hr0, hr1⟩ := F64.nearest_toRat lo hi ((F64.nearest (lo + hi)).toRat / 2) hlo hhi
    (by linarith) (by linarith)
  refine ⟨?_, hr0, hr1⟩
  show F64.div (F64.nearest (lo + hi)) (.fin 2) = _
  rw [es, F64.div_fin _ _ (by norm_num)]
  exact er

/-- The rate as a function of the converted distance `d`, for rates
`0 <= lo <= hi` whose doubles do not overflow and integer extremes `a <= b` of the
distances: finite, between 0 and `hi`, falling as `d` grows, equal to the common
rate when `lo = hi`, and at least `lo` when `a = b`. -/
theorem rateOf_profile (lo hi a b : ℚ) (hlo : F64.IsValue lo) (hhi : F64.IsValue hi)
    (h0 : 0 ≤ lo) (hle : lo ≤ hi) (hmax : hi + hi ≤ MaxFloat64)
    (ha : ∃ m : Int, a = (m : ℚ)) (hb : ∃ m : Int, b = (m : ℚ))
    (hr1 : -(2 : ℚ) ^ 63 ≤ a) (hr2 : b ≤ 2 ^ 63) :
    ∃ rate : ℚ → ℚ,
      (∀ d, a ≤ d → d ≤ b →
        float64.logic.rateOf (.fin lo) (.fin hi) (.fin a) (.fin b) (.fin d) = .fin (rate d) ∧
        0 ≤ rate d ∧ rate d ≤ hi ∧ (lo = hi → rate d = lo) ∧ (a = b → lo ≤ rate d)) ∧
      (∀ d d', a ≤ d → d ≤ d' → d' ≤ b → rate d' ≤ rate d) := by
  by_cases hab : a = b
  · obtain ⟨em, hm0, hm1⟩ := midpoint_rate lo hi hlo hhi h0 hle hmax
    refine ⟨fun _ => (F64.nearest ((F64.nearest (lo + hi)).toRat / 2)).toRat, ?_, ?_⟩
    · intro d _ _
      refine ⟨?_, by linarith, hm1, fun heq => ?_, fun _ => hm0⟩
      · unfold float64.logic.rateOf
        have : F64.eq (.fin b) (.fin a) = true := by simp [F64.eq, hab]
        rw [if_pos this]
        exact em
      · simp only []
        linarith
    · intro d d' _ _ _
      exact le_refl _
  · refine ⟨fun d => (F64.nearest (hi - (F64.nearest ((F64.nearest (hi - lo)).toRat *
        (F64.nearest ((F64.nearest (d - a)).toRat / (F64.nearest (b - a)).toRat)).toRat)).toRat)).toRat,
      ?_, ?_⟩
    · intro d had hdb
      obtain ⟨et, ht0, ht1, _⟩ := interpolation_weight a b d ha hb hab had hdb hr1 hr2
      obtain ⟨er, hr0, hr1', _, hflat⟩ := interpolated_rate lo hi _ hhi h0 hle ht0 ht1
      refine ⟨?_, hr0, hr1', fun heq => ?_, fun h => absurd h hab⟩
      · unfold float64.logic.rateOf
        have : ¬ F64.eq (.fin b) (.fin a) = true := by
          simp only [F64.eq, decide_eq_true_eq]
          exact fun h => hab h.symm
        rw [if_neg this, et]
        exact er
      · simp only []
        rw [hflat heq, heq]
    · intro d d' had hdd hdb
      obtain ⟨_, ht0, ht1, hmono⟩ := interpolation_weight a b d ha hb hab had
        (le_trans hdd hdb) hr1 hr2
      obtain ⟨_, _, ht1', _⟩ := interpolation_weight a b d' ha hb hab (le_trans had hdd) hdb
        hr1 hr2
      obtain ⟨_, _, _, hrm, _⟩ := interpolated_rate lo hi _ hhi h0 hle ht0 ht1
      exact hrm _ (hmono d' hdd hdb) ht1'

/-- C14 (amended): for a non-empty table of `float64` rates that are not negative
and at most half of `math.MaxFloat64`, and a non-empty terminal set, the per-km
rate `CalculateLinehaulCost` applies to a terminal of the set is a finite value
between 0 and the greatest rate of the table; it is non-increasing in the distance
of the terminal; when the least and greatest rates are equal every terminal is
priced at that rate; and when all terminals have the same converted distance the
rate is at least the least rate.  (Between terminals at different distances the
rounded interpolation can fall below the least rate.) -/
theorem rounded_rate_bounds (terminals : List Terminal)
    (interCityRates : List InterCityRate)
    (h1 : interCityRates ≠ []) (h2 : terminals ≠ [])
    (hval : ∀ r ∈ interCityRates, F64.IsValue r.RatePerKm)
    (hpos : ∀ r ∈ interCityRates, 0 ≤ r.RatePerKm)
    (hhalf : ∀ r ∈ interCityRates, r.RatePerKm + r.RatePerKm ≤ MaxFloat64)
    (hint : ∀ t ∈ terminals, IsInt64 t.DistanceFromMoscowKm) :
    ∃ minRate maxRate,
      IsMinOf (interCityRates.map (fun r => r.RatePerKm)) minRate ∧
      IsMaxOf (interCityRates.map (fun r => r.RatePerKm)) maxRate ∧
      (∀ t ∈ terminals, ∃ rate : ℚ,
        float64.logic.effectiveRate t terminals interCityRates = .fin rate ∧
        float64.logic.CalculateLinehaulCost t terminals interCityRates =
          .ok (F64.mul (.fin rate) (F64.ofInt t.DistanceFromMoscowKm)) ∧
        0 ≤ rate ∧ rate ≤ maxRate ∧
        ((∀ u ∈ terminals, F64.ofInt u.DistanceFromMoscowKm =
            F64.ofInt t.DistanceFromMoscowKm) → minRate ≤ rate)) ∧
      (∀ t1 ∈ terminals, ∀ t2 ∈ terminals,
        t1.DistanceFromMoscowKm ≤ t2.DistanceFromMoscowKm →
        F64.le (float64.logic.effectiveRate t2 terminals interCityRates)
          (float64.logic.effectiveRate t1 terminals interCityRates) = true) ∧
      (minRate = maxRate →
        ∀ t ∈ terminals,
          float64.logic.effectiveRate t terminals interCityRates = .fin minRate) := by
  have hM := MaxFloat64_pos
  have hlow : ∀ r ∈ interCityRates, -MaxFloat64 ≤ r.RatePerKm := fun r hr => by
    have := hpos r hr
    linarith
  have hbelow : ∃ r ∈ interCityRates, r.RatePerKm < MaxFloat64 := by
    obtain ⟨r0, hr0⟩ := List.exists_mem_of_ne_nil interCityRates h1
    refine ⟨r0, hr0, ?_⟩
    have := hhalf r0 hr0
    have := hpos r0 hr0
    linarith
  obtain ⟨hr1, hr2⟩ := logic.findMinMaxRate_spec interCityRates hlow hbelow
  obtain ⟨rlo, hrlo, elo⟩ := List.mem_map.1 hr1.1
  obtain ⟨rhi, hrhi, ehi⟩ := List.mem_map.1 hr2.1
  have vlo : F64.IsValue (logic.findMinMaxRate interCityRates).1 := elo ▸ hval rlo hrlo
  have vhi : F64.IsValue (logic.findMinMaxRate interCityRates).2 := ehi ▸ hval rhi hrhi
  have plo : 0 ≤ (logic.findMinMaxRate interCityRates).1 := elo ▸ hpos rlo hrlo
  have hle : (logic.findMinMaxRate interCityRates).1 ≤ (logic.findMinMaxRate interCityRates).2 :=
    hr1.2 _ hr2.1
  have hmax : (logic.findMinMaxRate interCityRates).2 + (logic.findMinMaxRate interCityRates).2 ≤
      MaxFloat64 := ehi ▸ hhalf rhi hrhi
  obtain ⟨a, b, hab, ha, hb⟩ := float64.logic.findMinMaxDistance_fin terminals h2 hint
  have conv : ∀ t ∈ terminals, ∃ m : Int,
      F64.ofInt t.DistanceFromMoscowKm = .fin (m : ℚ) ∧
      (F64.ofInt t.DistanceFromMoscowKm).toRat = (m : ℚ) ∧
      -(2 : ℚ) ^ 63 ≤ (m : ℚ) ∧ (m : ℚ) ≤ 2 ^ 63 := by
    intro t ht
    obtain ⟨m, hm, hm1, hm2⟩ := F64.ofInt_spec _ (hint t ht)
    exact ⟨m, hm, by rw [hm]; rfl, hm1, hm2⟩
  obtain ⟨ta, hta, eta⟩ := List.mem_map.1 ha.1
  obtain ⟨tb, htb, etb⟩ := List.mem_map.1 hb.1
  obtain ⟨ma, _, ema, hma1, _⟩ := conv ta hta
  obtain ⟨mb, _, emb, _, hmb2⟩ := conv tb htb
  have haint : ∃ m : Int, a = (m : ℚ) := ⟨ma, by rw [← eta, ema]⟩
  have hbint : ∃ m : Int, b = (m : ℚ) := ⟨mb, by rw [← etb, emb]⟩
  have harange : -(2 : ℚ) ^ 63 ≤ a := by rw [← eta, ema]; exact hma1
  have hbrange : b ≤ (2 : ℚ) ^ 63 := by rw [← etb, emb]; exact hmb2
  obtain ⟨rate, hrate, hmono⟩ := rateOf_profile _ _ a b vlo vhi plo hle hmax haint hbint
    harange hbrange
  have eff : ∀ t ∈ terminals,
      float64.logic.effectiveRate t terminals interCityRates =
        .fin (rate (F64.ofInt t.DistanceFromMoscowKm).toRat) ∧
      a ≤ (F64.ofInt t.DistanceFromMoscowKm).toRat ∧
      (F64.ofInt t.DistanceFromMoscowKm).toRat ≤ b := by
    intro t ht
    obtain ⟨m, hm, em, _, _⟩ := conv t ht
    have hmem : (F64.ofInt t.DistanceFromMoscowKm).toRat ∈
        terminals.map (fun t => (F64.ofInt t.DistanceFromMoscowKm).toRat) :=
      List.mem_map.2 ⟨t, ht, rfl⟩
    have h3 := ha.2 _ hmem
    have h4 := hb.2 _ hmem
    refine ⟨?_, h3, h4⟩
    unfold float64.logic.effectiveRate
    rw [findMinMaxRate_rounded_eq, hab]
    simp only []
    have e : F64.ofInt t.DistanceFromMoscowKm =
        .fin (F64.ofInt t.DistanceFromMoscowKm).toRat := by rw [hm]; rfl
    rw [e]
    exact (hrate _ h3 h4).1
  refine ⟨_, _, hr1, hr2, ?_, ?_, ?_⟩
  · intro t ht
    obtain ⟨e, h3, h4⟩ := eff t ht
    obtain ⟨_, r0, r1, _, rmid⟩ := hrate _ h3 h4
    refine ⟨_, e, ?_, r0, r1, ?_⟩
    · rw [float64.logic.linehaul_eq_rate t terminals interCityRates h1 h2, e]
    · intro hsame
      apply rmid
      have e1 : (F64.ofInt ta.DistanceFromMoscowKm).toRat =
          (F64.ofInt t.DistanceFromMoscowKm).toRat := by rw [hsame ta hta]
      have e2 : (F64.ofInt tb.DistanceFromMoscowKm).toRat =
          (F64.ofInt t.DistanceFromMoscowKm).toRat := by rw [hsame tb htb]
      rw [← eta, ← etb, e1, e2]
  · intro t1 ht1 t2 ht2 hd
    obtain ⟨e1, h3, _⟩ := eff t1 ht1
    obtain ⟨e2, _, h4⟩ := eff t2 ht2
    obtain ⟨m1, hm1, em1, _, _⟩ := conv t1 ht1
    obtain ⟨m2, hm2, em2, _, _⟩ := conv t2 ht2
    have hc : ((t1.DistanceFromMoscowKm : Int) : ℚ) ≤ ((t2.DistanceFromMoscowKm : Int) : ℚ) := by
      exact_mod_cast hd
    have hdd : (F64.ofInt t1.DistanceFromMoscowKm).toRat ≤
        (F64.ofInt t2.DistanceFromMoscowKm).toRat := by
      rw [em1, em2]
      exact F64.nearest_mono_fin _ _ _ _ hm1 hm2 hc
    rw [e1, e2]
    simpa [F64.le] using hmono _ _ h3 hdd h4
  · intro heq t ht
    obtain ⟨e, h3, h4⟩ := eff t ht
    obtain ⟨_, _, _, rflat, _⟩ := hrate _ h3 h4
    rw [e, rflat heq]

/-- C14 (amended) at a concrete input: the sample table and terminals. -/
theorem rounded_rate_bounds_witness :
    ∃ minRate maxRate,
      IsMinOf (Sample.interCityRates.map (fun r => r.RatePerKm)) minRate ∧
      IsMaxOf (Sample.interCityRates.map (fun r => r.RatePerKm)) maxRate ∧
      (∀ t ∈ Sample.terminals, ∃ rate : ℚ,
        float64.logic.effectiveRate t Sample.terminals Sample.interCityRates = .fin rate ∧
        float64.logic.CalculateLinehaulCost t Sample.terminals Sample.interCityRates =
          .ok (F64.mul (.fin rate) (F64.ofInt t.DistanceFromMoscowKm)) ∧
        0 ≤ rate ∧ rate ≤ maxRate ∧
        ((∀ u ∈ Sample.terminals, F64.ofInt u.DistanceFromMoscowKm =
            F64.ofInt t.DistanceFromMoscowKm) → minRate ≤ rate)) ∧
      (∀ t1 ∈ Sample.terminals, ∀ t2 ∈ Sample.terminals,
        t1.DistanceFromMoscowKm ≤ t2.DistanceFromMoscowKm →
        F64.le (float64.logic.effectiveRate t2 Sample.terminals Sample.interCityRates)
          (float64.logic.effectiveRate t1 Sample.terminals Sample.interCityRates) = true) ∧
      (minRate = maxRate →
        ∀ t ∈ Sample.terminals,
          float64.logic.effectiveRate t Sample.terminals Sample.interCityRates =
            .fin minRate) :=
  rounded_rate_bounds Sample.terminals Sample.interCityRates
    (by simp [Sample.interCityRates]) (by simp [Sample.terminals])
    (by decide!) (by decide!) (by decide!) Sample.terminals_in_range

/-- The rates of the C14 witness: 5 per km for `A` at 500 km, 2 per km for `B` at
700 km. -/
theorem rounded_rate_values :
    float64.logic.effectiveRate Sample.terminalA Sample.terminals Sample.interCityRates =
      .fin 5 ∧
    float64.logic.effectiveRate Sample.terminalB Sample.terminals Sample.interCityRates =
      .fin 2 := by
  decide!

/-- C14 as stated fails in two ways.  With the rates 0.1 and 0.4 (the nearest
`float64` values) and terminals at 500 and 700 km, the rate of the terminal at 700
km is `0.09999999999999998`, below the least rate of the table.  And on a table
whose only rate is `math.MaxFloat64` the rate applied to the only terminal is 0. -/
theorem rounded_rate_bounds_counterexample :
    ((∀ r ∈ Sample.decimalRates, F64.IsValue r.RatePerKm) ∧
      IsMinOf (Sample.decimalRates.map (fun r => r.RatePerKm))
        (3602879701896397 / 36028797018963968) ∧
      Sample.terminalB ∈ Sample.terminals ∧
      float64.logic.effectiveRate Sample.terminalB Sample.terminals Sample.decimalRates =
        .fin (900719925474099 / 9007199254740992) ∧
      (900719925474099 / 9007199254740992 : ℚ) < 3602879701896397 / 36028797018963968) ∧
    (IsMinOf (Sample.maxRates.map (fun r => r.RatePerKm)) MaxFloat64 ∧
      IsMaxOf (Sample.maxRates.map (fun r => r.RatePerKm)) MaxFloat64 ∧
      float64.logic.effectiveRate Sample.terminalA [Sample.terminalA] Sample.maxRates =
        .fin 0 ∧
      (0 : ℚ) < MaxFloat64) := by
  refine ⟨⟨by decide!, ?_, by decide, by decide!, by norm_num⟩,
    ⟨by simp [IsMinOf, Sample.maxRates], by simp [IsMaxOf, Sample.maxRates], by decide!,
      MaxFloat64_pos⟩⟩
  constructor
  · simp [Sample.decimalRates]
  · intro x hx
    simp only [Sample.decimalRates, List.map_cons, List.map_nil, List.mem_cons,
      List.mem_singleton, List.not_mem_nil, or_false] at hx
    rcases hx with h | h <;> (rw [h]; try norm_num)

/-! ## The evaluators over `float64` and an arbitrary iteration order -/

namespace float64

theorem groupVehicle_type (penalty : F64) (sList : List Shipment) :
    (groupVehicle penalty sList).2 = (groupVehicle (.fin 0) sList).2 := rfl

/-- The vehicle loop adds one route per group, in the order visited, and leaves the
running penalty. -/
theorem vehicleLoop_visits (groups : TerminalShipments) (penalty : F64)
    (routes : List RouteWithShipments) :
    vehicleLoop groups penalty routes =
      (penaltyAfter penalty groups, routes ++ groups.map routeOf) := by
  induction groups generalizing penalty routes with
  | nil => simp [vehicleLoop, penaltyAfter]
  | cons g rest ih =>
    obtain ⟨c, l⟩ := g
    unfold vehicleLoop
    simp only []
    rw [ih]
    simp only [penaltyAfter, List.foldl_cons, List.map_cons, List.append_assoc,
      List.singleton_append, routeOf, groupVehicle_type penalty l]

/-- A successful last-mile loop leaves the rounded running sum of the groups'
costs, in the order visited, and every call succeeded. -/
theorem lastMileLoop_visits (interCityRates : List InterCityRate)
    (intraCityRates : List IntraCityRate) (distances : Distances)
    (groups : TerminalShipments) (acc v : F64)
    (h : lastMileLoop interCityRates intraCityRates distances groups acc = .ok v) :
    v = (groups.map (groupLastMile interCityRates intraCityRates distances)).foldl F64.add acc ∧
    ∀ g ∈ groups, ∃ c, logic.CalculateLastMileCostForTerminal g.2 g.1 interCityRates
      intraCityRates (distances.sub g.1) = .ok c := by
  induction groups generalizing acc with
  | nil =>
    simp only [lastMileLoop, Except.ok.injEq] at h
    exact ⟨by rw [← h]; rfl, by simp⟩
  | cons g rest ih =>
    obtain ⟨city, sList⟩ := g
    unfold lastMileLoop at h
    cases hc : logic.CalculateLastMileCostForTerminal sList city interCityRates intraCityRates
        (distances.sub city) with
    | error e => rw [hc] at h; cases h
    | ok cost =>
      rw [hc] at h
      simp only [] at h
      obtain ⟨h1, h2⟩ := ih _ h
      have hg : groupLastMile interCityRates intraCityRates distances (city, sList) = cost := by
        unfold groupLastMile
        simp only [hc]
      refine ⟨by rw [h1, List.map_cons, List.foldl_cons, hg], ?_⟩
      intro g hgm
      rcases List.mem_cons.1 hgm with e | e
      · rw [e]
        exact ⟨cost, hc⟩
      · exact h2 g e

/-- When every call succeeds the last-mile loop succeeds. -/
theorem lastMileLoop_total (interCityRates : List InterCityRate)
    (intraCityRates : List IntraCityRate) (distances : Distances)
    (groups : TerminalShipments) (acc : F64)
    (h : ∀ g ∈ groups, ∃ c, logic.CalculateLastMileCostForTerminal g.2 g.1 interCityRates
      intraCityRates (distances.sub g.1) = .ok c) :
    ∃ v, lastMileLoop interCityRates intraCityRates distances groups acc = .ok v := by
  induction groups generalizing acc with
  | nil => exact ⟨acc, rfl⟩
  | cons g rest ih =>
    obtain ⟨city, sList⟩ := g
    obtain ⟨c, hc⟩ := h (city, sList) (List.mem_cons_self _ _)
    unfold lastMileLoop
    simp only [] at hc
    rw [hc]
    exact ih _ (fun g hg => h g (List.mem_cons_of_mem _ hg))

/-- With both rate tables non-empty and a distance entry for every shipment the
last-mile cost of a group is computed without error. -/
theorem lastMile_call_ok (shipments : List Shipment) (terminalCity : String)
    (interCityRates : List InterCityRate) (intraCityRates : List IntraCityRate)
    (distances : DistMap)
    (hall : ∀ s ∈ shipments, ∃ d, distances s.DestinationCity = some d)
    (hinter : interCityRates ≠ []) (hintra : intraCityRates ≠ []) :
    ∃ c, logic.CalculateLastMileCostForTerminal shipments terminalCity interCityRates
      intraCityRates distances = .ok c := by
  unfold logic.CalculateLastMileCostForTerminal
  by_cases hlen : shipments.length = 0
  · simp only [hlen, if_true]
    exact ⟨_, rfl⟩
  · simp only [hlen, if_false]
    obtain ⟨_, _, _, _, htar⟩ := logic.tariffCost_sum shipments terminalCity interCityRates
      intraCityRates distances (logic.totals shipments).1 (logic.totals shipments).2 hall
      hinter hintra
    split
    · obtain ⟨b, hb⟩ := logic.allWithin100Km_total terminalCity distances shipments hall
      rw [hb]
      cases b with
      | true => exact ⟨_, rfl⟩
      | false => exact ⟨_, htar⟩
    · exact ⟨_, htar⟩

end float64

/-- The level-1 assignment loop builds the same groups whatever the arithmetic of
the penalty. -/
theorem assigned_groups_eq (activeTerminals : List Terminal) (distances : Distances)
    (shipments : List Shipment) :
    (float64.ga_level1.assignShipments activeTerminals distances shipments).1 =
      (ga_level1.assignShipments activeTerminals distances shipments).1 := by
  unfold float64.ga_level1.assignShipments ga_level1.assignShipments
  have key : ∀ (l : List Shipment) (a : TerminalShipments × F64) (b : TerminalShipments × ℚ),
      a.1 = b.1 →
      (l.foldl (fun (acc : TerminalShipments × F64) s =>
          if nearestTerminal MaxInt activeTerminals distances s.DestinationCity = "" then
            (acc.1, F64.add acc.2 (.fin 1000000000))
          else (appendShipment acc.1
            (nearestTerminal MaxInt activeTerminals distances s.DestinationCity) s, acc.2)) a).1 =
      (l.foldl (fun (acc : TerminalShipments × ℚ) s =>
          if nearestTerminal MaxInt activeTerminals distances s.DestinationCity = "" then
            (acc.1, acc.2 + 1000000000)
          else (appendShipment acc.1
            (nearestTerminal MaxInt activeTerminals distances s.DestinationCity) s, acc.2)) b).1 := by
    intro l
    induction l with
    | nil => intro a b h; exact h
    | cons s rest ih =>
      intro a b h
      rw [List.foldl_cons, List.foldl_cons]
      apply ih
      split_ifs
      · exact h
      · simp only []
        rw [h]
  exact key shipments _ _ rfl

/-- When every shipment finds a terminal the level-1 assignment adds no penalty. -/
theorem assigned_penalty_zero (activeTerminals : List Terminal) (distances : Distances)
    (shipments : List Shipment)
    (hall : ∀ s ∈ shipments,
      nearestTerminal MaxInt activeTerminals distances s.DestinationCity ≠ "") :
    (float64.ga_level1.assignShipments activeTerminals distances shipments).2 = .fin 0 := by
  unfold float64.ga_level1.assignShipments
  have key : ∀ (l : List Shipment) (a : TerminalShipments × F64),
      (∀ s ∈ l, nearestTerminal MaxInt activeTerminals distances s.DestinationCity ≠ "") →
      (l.foldl (fun (acc : TerminalShipments × F64) s =>
          if nearestTerminal MaxInt activeTerminals distances s.DestinationCity = "" then
            (acc.1, F64.add acc.2 (.fin 1000000000))
          else (appendShipment acc.1
            (nearestTerminal MaxInt activeTerminals distances s.DestinationCity) s, acc.2)) a).2 =
        a.2 := by
    intro l
    induction l with
    | nil => intro a _; rfl
    | cons s rest ih =>
      intro a h
      rw [List.foldl_cons, ih _ (fun x hx => h x (List.mem_cons_of_mem _ hx)),
        if_neg (h s (List.mem_cons_self _ _))]
  exact key shipments _ hall

/-- The shape of a successful level-1 evaluation: either no terminal is active and
the sentinel is stored, or both cost loops succeeded, each `range` loop having
visited the groups in its own order. -/
theorem rounded_level1_shape (lastMileOrder vehicleOrder : MapOrder) (heap : MaskHeap)
    (ind : float64.ga_level1.Individual) (allTerminals : List Terminal)
    (shipments : List Shipment) (interCityRates : List InterCityRate)
    (intraCityRates : List IntraCityRate) (distances : Distances)
    (scored : float64.ga_level1.Individual)
    (h : float64.ga_level1.CalculateFitness lastMileOrder vehicleOrder heap ind allTerminals
      shipments interCityRates intraCityRates distances = .ok scored) :
    ∃ active, ga_level1.selectActive allTerminals 0 (heap.read ind.TerminalMask) = .ok active ∧
      ((active = [] ∧
          scored = { ind with Cost := { TotalCost := .fin 1000000000000 },
                              Fitness := .fin 1000000000000 }) ∨
       (active ≠ [] ∧ ∃ lastMileCost linehaulCost,
          float64.lastMileLoop interCityRates intraCityRates distances
            (lastMileOrder
              (float64.ga_level1.assignShipments active distances shipments).1) (.fin 0) =
                .ok lastMileCost ∧
          float64.linehaulLoop active interCityRates active (.fin 0) = .ok linehaulCost ∧
          scored = { ind with
            Cost := { LinehaulCost := linehaulCost, LastMileCost := lastMileCost,
                      PenaltyCost := float64.penaltyAfter
                        (float64.ga_level1.assignShipments active distances shipments).2
                        (vehicleOrder
                          (float64.ga_level1.assignShipments active distances shipments).1),
                      TotalCost := F64.add (F64.add linehaulCost lastMileCost)
                        (float64.penaltyAfter
                          (float64.ga_level1.assignShipments active distances shipments).2
                          (vehicleOrder
                            (float64.ga_level1.assignShipments active distances shipments).1)) },
            Fitness := F64.add (F64.add linehaulCost lastMileCost)
              (float64.penaltyAfter
                (float64.ga_level1.assignShipments active distances shipments).2
                (vehicleOrder
                  (float64.ga_level1.assignShipments active distances shipments).1)),
            ActiveTerminals := active.map (fun t => t.City),
            Routes := (vehicleOrder
              (float64.ga_level1.assignShipments active distances shipments).1).map
                float64.routeOf })) := by
  unfold float64.ga_level1.CalculateFitness at h
  cases hsel : ga_level1.selectActive allTerminals 0 (heap.read ind.TerminalMask) with
  | error e => rw [hsel] at h; cases h
  | ok active =>
    rw [hsel] at h
    simp only [] at h
    refine ⟨active, rfl, ?_⟩
    by_cases hlen : active.length = 0
    · left
      simp only [hlen, if_true, Except.ok.injEq] at h
      exact ⟨List.length_eq_zero.1 hlen, h.symm⟩
    · right
      simp only [hlen, if_false] at h
      refine ⟨fun e => hlen (by rw [e]; rfl), ?_⟩
      cases hlm : float64.lastMileLoop interCityRates intraCityRates distances
          (lastMileOrder (float64.ga_level1.assignShipments active distances shipments).1)
          (.fin 0) with
      | error e => rw [hlm] at h; cases h
      | ok lastMileCost =>
        rw [hlm] at h
        simp only [] at h
        cases hlh : float64.linehaulLoop active interCityRates active (.fin 0) with
        | error e => rw [hlh] at h; cases h
        | ok linehaulCost =>
          rw [hlh] at h
          simp only [Except.ok.injEq, float64.vehicleLoop_visits, List.nil_append] at h
          exact ⟨lastMileCost, linehaulCost, rfl, rfl, h.symm⟩

/-- The result of a level-2 evaluation from the groups, the line-haul cost and the
two orders of visit. -/
theorem rounded_level2_shape (lastMileOrder vehicleOrder : MapOrder)
    (activeTerminals : List Terminal) (shipments : List Shipment)
    (interCityRates : List InterCityRate) (intraCityRates : List IntraCityRate)
    (distances : Distances) (scored : float64.ga_level2.Individual) :
    float64.ga_level2.CalculateFitnessLevel2 lastMileOrder vehicleOrder activeTerminals
        shipments interCityRates intraCityRates distances = .ok scored ↔
    ∃ groups lastMileCost linehaulCost,
      ga_level2.assignShipments activeTerminals distances shipments [] = .ok groups ∧
      float64.lastMileLoop interCityRates intraCityRates distances (lastMileOrder groups)
        (.fin 0) = .ok lastMileCost ∧
      float64.linehaulLoop activeTerminals interCityRates activeTerminals (.fin 0) =
        .ok linehaulCost ∧
      scored =
        { Cost := { LinehaulCost := linehaulCost, LastMileCost := lastMileCost,
                    PenaltyCost := float64.penaltyAfter (.fin 0) (vehicleOrder groups),
                    TotalCost := F64.add (F64.add linehaulCost lastMileCost)
                      (float64.penaltyAfter (.fin 0) (vehicleOrder groups)) },
          Fitness := F64.add (F64.add linehaulCost lastMileCost)
            (float64.penaltyAfter (.fin 0) (vehicleOrder groups)),
          ActiveTerminals := activeTerminals.map (fun t => t.City),
          Routes := (vehicleOrder groups).map float64.routeOf } := by
  unfold float64.ga_level2.CalculateFitnessLevel2
  constructor
  · intro h
    cases hg : ga_level2.assignShipments activeTerminals distances shipments [] with
    | error e => rw [hg] at h; cases h
    | ok groups =>
      rw [hg] at h
      simp only [] at h
      cases hlm : float64.lastMileLoop interCityRates intraCityRates distances
          (lastMileOrder groups) (.fin 0) with
      | error e => rw [hlm] at h; cases h
      | ok lastMileCost =>
        rw [hlm] at h
        simp only [] at h
        cases hlh : float64.linehaulLoop activeTerminals interCityRates activeTerminals
            (.fin 0) with
        | error e => rw [hlh] at h; cases h
        | ok linehaulCost =>
          rw [hlh] at h
          simp only [Except.ok.injEq, float64.vehicleLoop_visits, List.nil_append] at h
          exact ⟨groups, lastMileCost, linehaulCost, rfl, hlm, rfl, h.symm⟩
  · rintro ⟨groups, lastMileCost, linehaulCost, hg, hlm, hlh, hs⟩
    rw [hg]
    simp only []
    rw [hlm]
    simp only []
    rw [hlh]
    simp only [float64.vehicleLoop_visits, List.nil_append]
    rw [hs]

/-! ## Vehicle choice over `float64` -/

/-- The two outcomes of the catalog scan: the first fitting class, or the last class
when none fits. -/
theorem chooseTransport_rounded (w v : F64) :
    (∃ pre post, logic.AvailableTransports = pre ++ (float64.chooseTransport w v).1 :: post ∧
        (F64.le w (.fin (float64.chooseTransport w v).1.CapTons) = true ∧
          F64.le v (.fin (float64.chooseTransport w v).1.CapM3) = true) ∧
        (∀ c ∈ pre, ¬ (F64.le w (.fin c.CapTons) = true ∧ F64.le v (.fin c.CapM3) = true)) ∧
        (float64.chooseTransport w v).2 = true) ∨
    ((∀ c ∈ logic.AvailableTransports,
          ¬ (F64.le w (.fin c.CapTons) = true ∧ F64.le v (.fin c.CapM3) = true)) ∧
        (float64.chooseTransport w v).1 =
          { Typ := .TRANSPORT_20T_86M3, CapTons := 20, CapM3 := 86 } ∧
        (float64.chooseTransport w v).2 = false) := by
  unfold float64.chooseTransport
  cases hf : logic.AvailableTransports.find?
      (fun tr => F64.le w (.fin tr.CapTons) && F64.le v (.fin tr.CapM3)) with
  | some tr =>
    left
    obtain ⟨pre, post, hsplit, hp, hpre⟩ := find?_split _ _ _ hf
    refine ⟨pre, post, hsplit, by simpa using hp, ?_, rfl⟩
    intro c hc
    have := hpre c hc
    simpa using this
  | none =>
    right
    refine ⟨?_, ?_, rfl⟩
    · intro c hc
      have := List.find?_eq_none.1 hf c hc
      simpa using this
    · simp [logic.AvailableTransports]

/-- C15 (amended): for a group whose running `float64` totals of `weight_kg / 1000.0`
and of `volume_m3` are `w` and `v`, the vehicle step records the first class of the
catalog `1.5 t/10 m3, 3 t/20 m3, 5 t/36 m3, 10 t/45 m3, 20 t/86 m3` with
`w <= cap_tons` and `v <= cap_m3`, so no earlier (smaller) class passes that test;
if no class passes it records the class `20 t/86 m3` and adds 50000 to the penalty;
with `utilization = math.Max(w / cap_tons, v / cap_m3)` of the recorded class it
adds `10000 * (0.6 - utilization)` exactly when `utilization < 0.6`, where `0.6` is
the nearest `float64` and every operation is rounded.  Both evaluators record that
class in the route of the group, one route per group in the order in which the
vehicle loop visits the map, and the penalty cost is the running penalty after the
groups have been visited in that order. -/
theorem vehicle_choice_rounded :
    (logic.AvailableTransports.map (fun c => (c.CapTons, c.CapM3)) =
      [(3 / 2, 10), (3, 20), (5, 36), (10, 45), (20, 86)]) ∧
    float64.sixTenths = .fin (5404319552844595 / 9007199254740992) ∧
    (∀ (penalty : F64) (sList : List Shipment),
      ∃ (tr : logic.TransportSpec) (afterOverflow : F64),
        (float64.groupVehicle penalty sList).2 = tr.Typ ∧
        ((∃ pre post, logic.AvailableTransports = pre ++ tr :: post ∧
            (F64.le (F64.sum (sList.map (fun s => F64.div (.fin s.WeightKg) (.fin 1000))))
                (.fin tr.CapTons) = true ∧
              F64.le (F64.sum (sList.map (fun s => F64.fin s.VolumeM3)))
                (.fin tr.CapM3) = true) ∧
            (∀ c ∈ pre,
              ¬ (F64.le (F64.sum (sList.map (fun s => F64.div (.fin s.WeightKg) (.fin 1000))))
                  (.fin c.CapTons) = true ∧
                F64.le (F64.sum (sList.map (fun s => F64.fin s.VolumeM3)))
                  (.fin c.CapM3) = true)) ∧
            afterOverflow = penalty) ∨
          ((∀ c ∈ logic.AvailableTransports,
              ¬ (F64.le (F64.sum (sList.map (fun s => F64.div (.fin s.WeightKg) (.fin 1000))))
                  (.fin c.CapTons) = true ∧
                F64.le (F64.sum (sList.map (fun s => F64.fin s.VolumeM3)))
                  (.fin c.CapM3) = true)) ∧
            tr = { Typ := .TRANSPORT_20T_86M3, CapTons := 20, CapM3 := 86 } ∧
            afterOverflow = F64.add penalty (.fin 50000))) ∧
        (float64.groupVehicle penalty sList).1 =
          (if F64.lt
              (F64.Max
                (F64.div (F64.sum (sList.map (fun s => F64.div (.fin s.WeightKg) (.fin 1000))))
                  (.fin tr.CapTons))
                (F64.div (F64.sum (sList.map (fun s => F64.fin s.VolumeM3))) (.fin tr.CapM3)))
              float64.sixTenths = true then
            F64.add afterOverflow
              (F64.mul (.fin 10000)
                (F64.sub float64.sixTenths
                  (F64.Max
                    (F64.div
                      (F64.sum (sList.map (fun s => F64.div (.fin s.WeightKg) (.fin 1000))))
                      (.fin tr.CapTons))
                    (F64.div (F64.sum (sList.map (fun s => F64.fin s.VolumeM3)))
                      (.fin tr.CapM3)))))
          else afterOverflow)) ∧
    (∀ (lastMileOrder vehicleOrder : MapOrder) (heap : MaskHeap)
        (ind : float64.ga_level1.Individual) (allTerminals : List Terminal)
        (shipments : List Shipment) (interCityRates : List InterCityRate)
        (intraCityRates : List IntraCityRate) (distances : Distances)
        (active : List Terminal) (scored : float64.ga_level1.Individual),
        vehicleOrder.IsPermutation →
        ga_level1.selectActive allTerminals 0 (heap.read ind.TerminalMask) = .ok active →
        active ≠ [] →
        float64.ga_level1.CalculateFitness lastMileOrder vehicleOrder heap ind allTerminals
          shipments interCityRates intraCityRates distances = .ok scored →
        scored.Routes =
          (vehicleOrder (float64.ga_level1.assignShipments active distances shipments).1).map
            float64.routeOf ∧
        scored.Routes.Perm
          ((float64.ga_level1.assignShipments active distances shipments).1.map
            float64.routeOf) ∧
        scored.Cost.PenaltyCost = float64.penaltyAfter
          (float64.ga_level1.assignShipments active distances shipments).2
          (vehicleOrder (float64.ga_level1.assignShipments active distances shipments).1)) ∧
    (∀ (lastMileOrder vehicleOrder : MapOrder) (activeTerminals : List Terminal)
        (shipments : List Shipment) (interCityRates : List InterCityRate)
        (intraCityRates : List IntraCityRate) (distances : Distances)
        (scored : float64.ga_level2.Individual),
        vehicleOrder.IsPermutation →
        float64.ga_level2.CalculateFitnessLevel2 lastMileOrder vehicleOrder activeTerminals
          shipments interCityRates intraCityRates distances = .ok scored →
        ∃ groups, ga_level2.assignShipments activeTerminals distances shipments [] =
            .ok groups ∧
          scored.Routes = (vehicleOrder groups).map float64.routeOf ∧
          scored.Routes.Perm (groups.map float64.routeOf) ∧
          scored.Cost.PenaltyCost = float64.penaltyAfter (.fin 0) (vehicleOrder groups)) := by
  refine ⟨by simp [logic.AvailableTransports], by decide!, ?_, ?_, ?_⟩
  · intro penalty sList
    have hspec := chooseTransport_rounded (float64.logic.totals sList).1
      (float64.logic.totals sList).2
    have hval : float64.groupVehicle penalty sList =
        ((if F64.lt
            (F64.Max
              (F64.div (float64.logic.totals sList).1
                (.fin (float64.chooseTransport (float64.logic.totals sList).1
                  (float64.logic.totals sList).2).1.CapTons))
              (F64.div (float64.logic.totals sList).2
                (.fin (float64.chooseTransport (float64.logic.totals sList).1
                  (float64.logic.totals sList).2).1.CapM3)))
            float64.sixTenths = true then
          F64.add
            (if (float64.chooseTransport (float64.logic.totals sList).1
                (float64.logic.totals sList).2).2 then penalty
              else F64.add penalty (.fin 50000))
            (F64.mul (.fin 10000)
              (F64.sub float64.sixTenths
                (F64.Max
                  (F64.div (float64.logic.totals sList).1
                    (.fin (float64.chooseTransport (float64.logic.totals sList).1
                      (float64.logic.totals sList).2).1.CapTons))
                  (F64.div (float64.logic.totals sList).2
                    (.fin (float64.chooseTransport (float64.logic.totals sList).1
                      (float64.logic.totals sList).2).1.CapM3)))))
          else
            (if (float64.chooseTransport (float64.logic.totals sList).1
                (float64.logic.totals sList).2).2 then penalty
              else F64.add penalty (.fin 50000))),
          (float64.chooseTransport (float64.logic.totals sList).1
            (float64.logic.totals sList).2).1.Typ) := rfl
    rw [float64.logic.totals_sums] at hspec hval
    simp only [] at hspec hval
    rcases hspec with ⟨pre, post, hsplit, hfit, hpre, hfound⟩ | ⟨hnone, hlast, hfound⟩
    · refine ⟨_, penalty, by rw [hval], Or.inl ⟨pre, post, hsplit, hfit, hpre, rfl⟩, ?_⟩
      rw [hval, hfound]
      simp only [if_true]
    · refine ⟨_, F64.add penalty (.fin 50000), by rw [hval],
        Or.inr ⟨hnone, hlast, rfl⟩, ?_⟩
      rw [hval, hfound]
      simp only [Bool.false_eq_true, if_false]
  · intro lastMileOrder vehicleOrder heap ind allTerminals shipments interCityRates
      intraCityRates distances active scored hperm hsel hne h
    obtain ⟨active', hsel', hcase⟩ := rounded_level1_shape _ _ _ _ _ _ _ _ _ _ h
    rw [hsel] at hsel'
    have hact : active = active' := by simpa using hsel'
    subst hact
    rcases hcase with ⟨hnil, _⟩ | ⟨_, lm, lh, _, _, hs⟩
    · exact absurd hnil hne
    · rw [hs]
      exact ⟨rfl, (hperm _).map _, rfl⟩
  · intro lastMileOrder vehicleOrder activeTerminals shipments interCityRates intraCityRates
      distances scored hperm h
    obtain ⟨groups, lm, lh, hg, _, _, hs⟩ := (rounded_level2_shape _ _ _ _ _ _ _ _).1 h
    refine ⟨groups, hg, ?_⟩
    rw [hs]
    exact ⟨rfl, (hperm _).map _, rfl⟩

/-- C15 (amended) at a concrete group: 50, 1350 and 100 kg, whose running total is
`1.5000000000000002` t. -/
theorem vehicle_choice_rounded_witness :
    ∃ (tr : logic.TransportSpec) (afterOverflow : F64),
      (float64.groupVehicle (.fin 0) Sample.exactlyOneAndAHalf).2 = tr.Typ ∧
      ((∃ pre post, logic.AvailableTransports = pre ++ tr :: post ∧
          (F64.le (F64.sum (Sample.exactlyOneAndAHalf.map
                (fun s => F64.div (.fin s.WeightKg) (.fin 1000))))
              (.fin tr.CapTons) = true ∧
            F64.le (F64.sum (Sample.exactlyOneAndAHalf.map (fun s => F64.fin s.VolumeM3)))
              (.fin tr.CapM3) = true) ∧
          (∀ c ∈ pre,
            ¬ (F64.le (F64.sum (Sample.exactlyOneAndAHalf.map
                  (fun s => F64.div (.fin s.WeightKg) (.fin 1000))))
                (.fin c.CapTons) = true ∧
              F64.le (F64.sum (Sample.exactlyOneAndAHalf.map (fun s => F64.fin s.VolumeM3)))
                (.fin c.CapM3) = true)) ∧
          afterOverflow = .fin 0) ∨
        ((∀ c ∈ logic.AvailableTransports,
            ¬ (F64.le (F64.sum (Sample.exactlyOneAndAHalf.map
                  (fun s => F64.div (.fin s.WeightKg) (.fin 1000))))
                (.fin c.CapTons) = true ∧
              F64.le (F64.sum (Sample.exactlyOneAndAHalf.map (fun s => F64.fin s.VolumeM3)))
                (.fin c.CapM3) = true)) ∧
          tr = { Typ := .TRANSPORT_20T_86M3, CapTons := 20, CapM3 := 86 } ∧
          afterOverflow = F64.add (.fin 0) (.fin 50000))) ∧
      (float64.groupVehicle (.fin 0) Sample.exactlyOneAndAHalf).1 =
        (if F64.lt
            (F64.Max
              (F64.div (F64.sum (Sample.exactlyOneAndAHalf.map
                  (fun s => F64.div (.fin s.WeightKg) (.fin 1000))))
                (.fin tr.CapTons))
              (F64.div (F64.sum (Sample.exactlyOneAndAHalf.map (fun s => F64.fin s.VolumeM3)))
                (.fin tr.CapM3)))
            float64.sixTenths = true then
          F64.add afterOverflow
            (F64.mul (.fin 10000)
              (F64.sub float64.sixTenths
                (F64.Max
                  (F64.div
                    (F64.sum (Sample.exactlyOneAndAHalf.map
                      (fun s => F64.div (.fin s.WeightKg) (.fin 1000))))
                    (.fin tr.CapTons))
                  (F64.div
                    (F64.sum (Sample.exactlyOneAndAHalf.map (fun s => F64.fin s.VolumeM3)))
                    (.fin tr.CapM3)))))
        else afterOverflow) :=
  vehicle_choice_rounded.2.2.1 (.fin 0) Sample.exactlyOneAndAHalf

/-- Four vehicle choices over `float64`: 2 t and 4 m3 take the class `3 t/20 m3`
without penalty; 1 t and 2 m3 take `1.5 t/10 m3`; 30 t take the class `20 t/86 m3`
with the overflow penalty of 50000; 0.5 t take `1.5 t/10 m3` with an underuse
penalty. -/
theorem rounded_vehicle_values :
    float64.groupVehicle (.fin 0) Sample.shipments = (.fin 0, .TRANSPORT_3T_20M3) ∧
    float64.groupVehicle (.fin 0) [Sample.s1] = (.fin 0, .TRANSPORT_1_5T_10M3) ∧
    float64.groupVehicle (.fin 0)
        [{ ID := "big", WeightKg := 30000, VolumeM3 := 4, DestinationCity := "X" }] =
      (.fin 50000, .TRANSPORT_20T_86M3) ∧
    (float64.groupVehicle (.fin 0)
        [{ ID := "small", WeightKg := 500, VolumeM3 := 1, DestinationCity := "X" }]).2 =
      .TRANSPORT_1_5T_10M3 := by
  decide!

/-- C15 as stated fails on a group of 50, 1350 and 100 kg with 3 m3: the weights
are `float64` values and their total is exactly 1.5 t, so the class `1.5 t/10 m3`
has `cap_tons >= weight_tons` and `cap_m3 >= volume_m3` and its utilization is 1;
but the running total the code computes is `1.5000000000000002`, so it records the
class `3 t/20 m3` and adds the underuse penalty `999.9999999999986`. -/
theorem vehicle_choice_rounded_counterexample :
    (∀ s ∈ Sample.exactlyOneAndAHalf, F64.IsValue s.WeightKg ∧ F64.IsValue s.VolumeM3) ∧
    (Sample.exactlyOneAndAHalf.map (fun s => s.WeightKg / 1000)).sum = 3 / 2 ∧
    (Sample.exactlyOneAndAHalf.map (fun s => s.VolumeM3)).sum = 3 ∧
    groupVehicle 0 Sample.exactlyOneAndAHalf = (0, .TRANSPORT_1_5T_10M3) ∧
    F64.sum (Sample.exactlyOneAndAHalf.map (fun s => F64.div (.fin s.WeightKg) (.fin 1000))) =
      .fin (6755399441055745 / 4503599627370496) ∧
    float64.groupVehicle (.fin 0) Sample.exactlyOneAndAHalf =
      (.fin (2199023255551997 / 2199023255552), .TRANSPORT_3T_20M3) := by
  decide!

/-! ## Level 2 on the winner's terminals, and the order of map iteration -/

theorem perm_nil_of_isPermutation (order : MapOrder) (h : order.IsPermutation) :
    order [] = [] := List.Perm.eq_nil (h [])

/-- Two successful level-2 evaluations of the same terminals and inputs, each with
its own orders of visit, computed on the groups `groups`. -/
theorem rounded_level2_pair (o1 o2 p1 p2 : MapOrder) (ho2 : o2.IsPermutation)
    (hp2 : p2.IsPermutation)
    (activeTerminals : List Terminal) (shipments : List Shipment)
    (interCityRates : List InterCityRate) (intraCityRates : List IntraCityRate)
    (distances : Distances) (x y : float64.ga_level2.Individual)
    (hx : float64.ga_level2.CalculateFitnessLevel2 o1 o2 activeTerminals shipments
      interCityRates intraCityRates distances = .ok x)
    (hy : float64.ga_level2.CalculateFitnessLevel2 p1 p2 activeTerminals shipments
      interCityRates intraCityRates distances = .ok y) :
    ∃ groups, ga_level2.assignShipments activeTerminals distances shipments [] = .ok groups ∧
      y.Cost.LinehaulCost = x.Cost.LinehaulCost ∧
      y.ActiveTerminals = x.ActiveTerminals ∧
      y.Routes.Perm x.Routes ∧
      x.Cost.LastMileCost = F64.sum ((o1 groups).map
        (float64.groupLastMile interCityRates intraCityRates distances)) ∧
      y.Cost.LastMileCost = F64.sum ((p1 groups).map
        (float64.groupLastMile interCityRates intraCityRates distances)) ∧
      x.Cost.PenaltyCost = float64.penaltyAfter (.fin 0) (o2 groups) ∧
      y.Cost.PenaltyCost = float64.penaltyAfter (.fin 0) (p2 groups) ∧
      (o1 groups = p1 groups → o2 groups = p2 groups → y = x) := by
  obtain ⟨g1, lm1, lh1, hg1, hlm1, hlh1, hs1⟩ := (rounded_level2_shape _ _ _ _ _ _ _ _).1 hx
  obtain ⟨g2, lm2, lh2, hg2, hlm2, hlh2, hs2⟩ := (rounded_level2_shape _ _ _ _ _ _ _ _).1 hy
  rw [hg1] at hg2
  have hg : g1 = g2 := by simpa using hg2
  subst hg
  rw [hlh1] at hlh2
  have hlh : lh1 = lh2 := by simpa using hlh2
  subst hlh
  obtain ⟨e1, _⟩ := float64.lastMileLoop_visits _ _ _ _ _ _ hlm1
  obtain ⟨e2, _⟩ := float64.lastMileLoop_visits _ _ _ _ _ _ hlm2
  refine ⟨g1, hg1, by rw [hs1, hs2], by rw [hs1, hs2], ?_, by rw [hs1, e1]; rfl,
    by rw [hs2, e2]; rfl, by rw [hs1], by rw [hs2], ?_⟩
  · rw [hs1, hs2]
    exact (((hp2 g1).trans (ho2 g1).symm)).map _
  · intro h1 h2
    rw [hs1, hs2, e1, e2, h1, h2]

/-- C32 (amended): no seed fixes the order in which a `range` loop visits the map
`terminalShipments`, so two level-2 evaluations of the same active terminals,
shipments, tariffs and distances may visit the groups in different orders.  If one
of them succeeds so does the other, with the same line-haul cost, the same active
terminals and the same routes up to their order; last-mile cost and penalty are the
rounded running sums of the same per-group amounts, each taken in the order of its
own loop; and the two results are identical when the loops visit the groups in the
same orders.  With non-empty tariff tables, if one evaluation fails the other fails
with the same error. -/
theorem level2_up_to_map_order (o1 o2 p1 p2 : MapOrder)
    (ho1 : o1.IsPermutation) (ho2 : o2.IsPermutation)
    (hp1 : p1.IsPermutation) (hp2 : p2.IsPermutation)
    (activeTerminals : List Terminal) (shipments : List Shipment)
    (interCityRates : List InterCityRate) (intraCityRates : List IntraCityRate)
    (distances : Distances) :
    (∀ x, float64.ga_level2.RunGALevel2 o1 o2 activeTerminals shipments interCityRates
        intraCityRates distances = .ok x →
      ∃ y groups, float64.ga_level2.RunGALevel2 p1 p2 activeTerminals shipments
          interCityRates intraCityRates distances = .ok y ∧
        y.Cost.LinehaulCost = x.Cost.LinehaulCost ∧
        y.ActiveTerminals = x.ActiveTerminals ∧
        y.Routes.Perm x.Routes ∧
        x.Cost.LastMileCost = F64.sum ((o1 groups).map
          (float64.groupLastMile interCityRates intraCityRates distances)) ∧
        y.Cost.LastMileCost = F64.sum ((p1 groups).map
          (float64.groupLastMile interCityRates intraCityRates distances)) ∧
        x.Cost.PenaltyCost = float64.penaltyAfter (.fin 0) (o2 groups) ∧
        y.Cost.PenaltyCost = float64.penaltyAfter (.fin 0) (p2 groups) ∧
        (o1 groups = p1 groups → o2 groups = p2 groups → y = x)) ∧
    (interCityRates ≠ [] → intraCityRates ≠ [] →
      ∀ e, float64.ga_level2.RunGALevel2 o1 o2 activeTerminals shipments interCityRates
          intraCityRates distances = .error e →
        float64.ga_level2.RunGALevel2 p1 p2 activeTerminals shipments interCityRates
          intraCityRates distances = .error e) := by
  constructor
  · intro x hx
    unfold float64.ga_level2.RunGALevel2 at hx ⊢
    by_cases hlen : activeTerminals.length = 0
    · rw [if_pos hlen] at hx
      rw [if_pos hlen]
      injection hx with hx'
      subst hx'
      refine ⟨_, [], rfl, ?_⟩
      rw [perm_nil_of_isPermutation o1 ho1, perm_nil_of_isPermutation o2 ho2,
        perm_nil_of_isPermutation p1 hp1, perm_nil_of_isPermutation p2 hp2]
      exact ⟨rfl, rfl, List.Perm.refl _, rfl, rfl, rfl, rfl, fun _ _ => rfl⟩
    · rw [if_neg hlen] at hx
      rw [if_neg hlen]
      obtain ⟨g, lm, lh, hg, hlm, hlh, hs⟩ := (rounded_level2_shape _ _ _ _ _ _ _ _).1 hx
      obtain ⟨_, hcalls⟩ := float64.lastMileLoop_visits _ _ _ _ _ _ hlm
      obtain ⟨lm', hlm'⟩ := float64.lastMileLoop_total interCityRates intraCityRates distances
        (p1 g) (.fin 0)
        (fun c hc => hcalls c ((ho1 g).mem_iff.2 ((hp1 g).mem_iff.1 hc)))
      have hy := (rounded_level2_shape p1 p2 activeTerminals shipments interCityRates
        intraCityRates distances _).2 ⟨g, lm', lh, hg, hlm', hlh, rfl⟩
      obtain ⟨groups, _, h1, h2, h3, h4, h5, h6, h7, h8⟩ := rounded_level2_pair o1 o2 p1 p2
        ho2 hp2 activeTerminals shipments interCityRates intraCityRates distances x _ hx hy
      exact ⟨_, groups, hy, h1, h2, h3, h4, h5, h6, h7, h8⟩
  · intro hinter hintra e he
    unfold float64.ga_level2.RunGALevel2 at he ⊢
    by_cases hlen : activeTerminals.length = 0
    · rw [if_pos hlen] at he
      cases he
    · rw [if_neg hlen] at he
      rw [if_neg hlen]
      unfold float64.ga_level2.CalculateFitnessLevel2 at he ⊢
      cases hg : ga_level2.assignShipments activeTerminals distances shipments [] with
      | error e' =>
        rw [hg] at he
        exact he
      | ok g =>
        rw [hg] at he
        simp only [] at he ⊢
        have hcalls : ∀ c ∈ g, ∃ v, float64.logic.CalculateLastMileCostForTerminal c.2 c.1
            interCityRates intraCityRates (distances.sub c.1) = .ok v := fun c hc =>
          float64.lastMile_call_ok c.2 c.1 interCityRates intraCityRates (distances.sub c.1)
            (ga_level2.assignShipments_ok_entries activeTerminals distances shipments g hg c hc)
            hinter hintra
        obtain ⟨lm, hlm⟩ := float64.lastMileLoop_total interCityRates intraCityRates distances
          (o1 g) (.fin 0) (fun c hc => hcalls c ((ho1 g).mem_iff.1 hc))
        obtain ⟨lm', hlm'⟩ := float64.lastMileLoop_total interCityRates intraCityRates
          distances (p1 g) (.fin 0) (fun c hc => hcalls c ((hp1 g).mem_iff.1 hc))
        rw [hlm] at he
        rw [hlm']
        simp only [] at he ⊢
        cases hlh : float64.linehaulLoop activeTerminals interCityRates activeTerminals
            (.fin 0) with
        | error e' =>
          rw [hlh] at he
          exact he
        | ok lh =>
          rw [hlh] at he
          cases he

/-- C32 on the three-terminal sample: the loops of the two evaluations run in
opposite orders. -/
theorem level2_up_to_map_order_witness :
    (MapOrder.IsPermutation id ∧ MapOrder.IsPermutation List.reverse) ∧
    (∀ x, float64.ga_level2.RunGALevel2 id id Sample.threeTerminals Sample.threeShipments
        Sample.freeRates Sample.decimalFees Sample.threeDistances = .ok x →
      ∃ y groups, float64.ga_level2.RunGALevel2 List.reverse List.reverse
          Sample.threeTerminals Sample.threeShipments Sample.freeRates Sample.decimalFees
          Sample.threeDistances = .ok y ∧
        y.Cost.LinehaulCost = x.Cost.LinehaulCost ∧
        y.ActiveTerminals = x.ActiveTerminals ∧
        y.Routes.Perm x.Routes ∧
        x.Cost.LastMileCost = F64.sum ((id groups).map
          (float64.groupLastMile Sample.freeRates Sample.decimalFees Sample.threeDistances)) ∧
        y.Cost.LastMileCost = F64.sum ((List.reverse groups).map
          (float64.groupLastMile Sample.freeRates Sample.decimalFees Sample.threeDistances)) ∧
        x.Cost.PenaltyCost = float64.penaltyAfter (.fin 0) (id groups) ∧
        y.Cost.PenaltyCost = float64.penaltyAfter (.fin 0) (List.reverse groups) ∧
        (id groups = List.reverse groups → id groups = List.reverse groups → y = x)) ∧
    (Sample.freeRates ≠ [] → Sample.decimalFees ≠ [] →
      ∀ e, float64.ga_level2.RunGALevel2 id id Sample.threeTerminals Sample.threeShipments
          Sample.freeRates Sample.decimalFees Sample.threeDistances = .error e →
        float64.ga_level2.RunGALevel2 List.reverse List.reverse Sample.threeTerminals
          Sample.threeShipments Sample.freeRates Sample.decimalFees Sample.threeDistances =
            .error e) :=
  ⟨⟨fun m => List.Perm.refl m, fun m => List.reverse_perm m⟩,
    level2_up_to_map_order id id List.reverse List.reverse
      (fun m => List.Perm.refl m) (fun m => List.Perm.refl m)
      (fun m => List.reverse_perm m) (fun m => List.reverse_perm m)
      Sample.threeTerminals Sample.threeShipments Sample.freeRates Sample.decimalFees
      Sample.threeDistances⟩

/-- C32 as written fails: two level-2 evaluations of the same three terminals and
the same shipments, tariffs and distances, whose `range` loops visit the three
groups in opposite orders, return the routes in opposite orders and last-mile costs
(and totals) that differ: 0.6000000000000001, the sum `(0.1 + 0.2) + 0.3`, against 0.6,
the sum `(0.3 + 0.2) + 0.1`. -/
theorem level2_up_to_map_order_counterexample :
    (MapOrder.IsPermutation id ∧ MapOrder.IsPermutation List.reverse) ∧
    ((float64.ga_level2.RunGALevel2 id id Sample.threeTerminals Sample.threeShipments
        Sample.freeRates Sample.decimalFees Sample.threeDistances).toOption.map
      (fun x => (x.Routes.map (fun r => r.ToTerminal), x.Cost.LastMileCost,
        x.Cost.TotalCost))) =
      some (["A", "B", "C"], .fin (1351079888211149 / 2251799813685248),
        .fin (1351079888211149 / 2251799813685248)) ∧
    ((float64.ga_level2.RunGALevel2 List.reverse List.reverse Sample.threeTerminals
        Sample.threeShipments Sample.freeRates Sample.decimalFees
        Sample.threeDistances).toOption.map
      (fun x => (x.Routes.map (fun r => r.ToTerminal), x.Cost.LastMileCost,
        x.Cost.TotalCost))) =
      some (["C", "B", "A"], .fin (5404319552844595 / 9007199254740992),
        .fin (5404319552844595 / 9007199254740992)) := by
  refine ⟨⟨fun m => List.Perm.refl m, fun m => List.reverse_perm m⟩, ?_, ?_⟩
  · decide!
  · decide!

/-- C7 (amended): an individual scored by level 1 on terminals with pairwise
different cities, and the level-2 evaluation of its active terminals when that
succeeds.  Both evaluators work on the same groups of shipments and record the same
line-haul cost, the same active terminals and the same routes up to their order.
Last-mile cost and penalty are on each side the rounded running sums of the same
per-group amounts, taken in the order in which that side's `range` loop visits its
own map; so the two breakdowns and fitnesses are equal whenever last-mile cost and
penalty agree, in particular when the loops of the two evaluators visit the groups
in the same orders. -/
theorem level2_agrees_up_to_order (o1 o2 p1 p2 : MapOrder)
    (ho1 : o1.IsPermutation) (ho2 : o2.IsPermutation)
    (hp1 : p1.IsPermutation) (hp2 : p2.IsPermutation)
    (heap : MaskHeap) (mask : Nat)
    (terminals : List Terminal) (shipments : List Shipment)
    (interCityRates : List InterCityRate) (intraCityRates : List IntraCityRate)
    (distances : Distances)
    (scored : float64.ga_level1.Individual) (l2 : float64.ga_level2.Individual)
    (hunique : (terminals.map (fun t => t.City)).Nodup)
    (hscored : float64.ga_level1.CalculateFitness o1 o2 heap { TerminalMask := mask }
      terminals shipments interCityRates intraCityRates distances = .ok scored)
    (hl2 : float64.ga_level2.RunGALevel2 p1 p2
      (optimizer.lookupTerminals terminals scored.ActiveTerminals) shipments interCityRates
      intraCityRates distances = .ok l2) :
    ∃ groups : TerminalShipments,
      l2.Cost.LinehaulCost = scored.Cost.LinehaulCost ∧
      l2.ActiveTerminals = scored.ActiveTerminals ∧
      l2.Routes.Perm scored.Routes ∧
      scored.Routes = (o2 groups).map float64.routeOf ∧
      l2.Routes = (p2 groups).map float64.routeOf ∧
      scored.Cost.LastMileCost = F64.sum ((o1 groups).map
        (float64.groupLastMile interCityRates intraCityRates distances)) ∧
      l2.Cost.LastMileCost = F64.sum ((p1 groups).map
        (float64.groupLastMile interCityRates intraCityRates distances)) ∧
      scored.Cost.PenaltyCost = float64.penaltyAfter (.fin 0) (o2 groups) ∧
      l2.Cost.PenaltyCost = float64.penaltyAfter (.fin 0) (p2 groups) ∧
      scored.Fitness = scored.Cost.TotalCost ∧
      l2.Fitness = l2.Cost.TotalCost ∧
      (l2.Cost.LastMileCost = scored.Cost.LastMileCost →
        l2.Cost.PenaltyCost = scored.Cost.PenaltyCost →
        l2.Cost = scored.Cost ∧ l2.Fitness = scored.Fitness) ∧
      (o1 groups = p1 groups → o2 groups = p2 groups →
        l2.Cost = scored.Cost ∧ l2.Fitness = scored.Fitness) := by
  obtain ⟨active, hsel, hcase⟩ := rounded_level1_shape _ _ _ _ _ _ _ _ _ _ hscored
  rcases hcase with ⟨_, hs⟩ | ⟨hne, lm1, lh1, hlm1, hlh1, hs⟩
  · have hact : scored.ActiveTerminals = [] := by rw [hs]
    rw [hact] at hl2
    simp only [optimizer.lookupTerminals, List.filterMap_nil, float64.ga_level2.RunGALevel2,
      List.length_nil, if_true, Except.ok.injEq] at hl2
    refine ⟨[], ?_⟩
    rw [← hl2, hs, perm_nil_of_isPermutation o1 ho1, perm_nil_of_isPermutation o2 ho2,
      perm_nil_of_isPermutation p1 hp1, perm_nil_of_isPermutation p2 hp2]
    exact ⟨rfl, rfl, List.Perm.refl _, rfl, rfl, rfl, rfl, rfl, rfl, rfl, rfl,
      fun _ _ => ⟨rfl, rfl⟩, fun _ _ => ⟨rfl, rfl⟩⟩
  · have hact : scored.ActiveTerminals = active.map (fun t => t.City) := by rw [hs]
    rw [hact, optimizer.lookupTerminals_map_city terminals active hunique
      (ga_level1.selectActive_subset _ _ _ _ hsel)] at hl2
    have hlen : active.length ≠ 0 := fun e => hne (List.length_eq_zero.1 e)
    simp only [float64.ga_level2.RunGALevel2, hlen, if_false] at hl2
    obtain ⟨groups2, lm2, lh2, hg, hlm2, hlh2, hs2⟩ :=
      (rounded_level2_shape _ _ _ _ _ _ _ _).1 hl2
    obtain ⟨hall, hgroups2⟩ := (ga_level2.assignShipments_ok_iff _ _ _ _ _).1 hg
    have hmono : ∀ s ∈ shipments,
        nearestTerminal MaxInt active distances s.DestinationCity =
          nearestTerminal MaxInt32 active distances s.DestinationCity := fun s hs' =>
      nearestTerminal_bound_mono MaxInt MaxInt32 (by decide) active distances _ (hall s hs')
    have hall64 : ∀ s ∈ shipments,
        nearestTerminal MaxInt active distances s.DestinationCity ≠ "" := fun s hs' => by
      rw [hmono s hs']; exact hall s hs'
    have hgroups1 : (float64.ga_level1.assignShipments active distances shipments).1 =
        groups2 := by
      rw [assigned_groups_eq, ga_level1.assignShipments_groups, hgroups2]
      have hf : shipments.filter (fun s =>
          decide (nearestTerminal MaxInt active distances s.DestinationCity ≠ "")) =
          shipments := by
        rw [List.filter_eq_self]
        intro s hs'
        simpa using hall64 s hs'
      rw [hf]
      exact groupByKey_congr _ _ _ _ hmono
    have hpen : (float64.ga_level1.assignShipments active distances shipments).2 = .fin 0 :=
      assigned_penalty_zero active distances shipments hall64
    rw [hgroups1] at hlm1
    rw [hgroups1, hpen] at hs
    have hlh : lh1 = lh2 := by
      rw [hlh1] at hlh2
      exact Except.ok.inj hlh2
    subst hlh
    obtain ⟨e1, _⟩ := float64.lastMileLoop_visits _ _ _ _ _ _ hlm1
    obtain ⟨e2, _⟩ := float64.lastMileLoop_visits _ _ _ _ _ _ hlm2
    refine ⟨groups2, by rw [hs, hs2], by rw [hs, hs2], ?_, by rw [hs], by rw [hs2],
      by rw [hs, e1]; rfl, by rw [hs2, e2]; rfl, by rw [hs], by rw [hs2], by rw [hs],
      by rw [hs2], ?_, ?_⟩
    · rw [hs, hs2]
      exact (((hp2 groups2).trans (ho2 groups2).symm)).map _
    · rw [hs, hs2]
      simp only []
      intro h1 h2
      rw [h1, h2]
      exact ⟨rfl, rfl⟩
    · intro h1 h2
      rw [hs, hs2, e1, e2, h1, h2]
      exact ⟨rfl, rfl⟩

/-- C7 on the three-terminal sample: level 1 scores the mask `A, B and C` with its
loops in one order, level 2 runs on the three active terminals with its loops in
the opposite order. -/
theorem level2_agrees_up_to_order_witness :
    (MapOrder.IsPermutation id ∧ MapOrder.IsPermutation List.reverse) ∧
    (Sample.threeTerminals.map (fun t => t.City)).Nodup ∧
    ∃ (scored : float64.ga_level1.Individual) (l2 : float64.ga_level2.Individual),
      float64.ga_level1.CalculateFitness id id Sample.heapAll { TerminalMask := 0 }
        Sample.threeTerminals Sample.threeShipments Sample.freeRates Sample.decimalFees
        Sample.threeDistances = .ok scored ∧
      float64.ga_level2.RunGALevel2 List.reverse List.reverse
        (optimizer.lookupTerminals Sample.threeTerminals scored.ActiveTerminals)
        Sample.threeShipments Sample.freeRates Sample.decimalFees Sample.threeDistances =
          .ok l2 ∧
      ∃ groups : TerminalShipments,
        l2.Cost.LinehaulCost = scored.Cost.LinehaulCost ∧
        l2.ActiveTerminals = scored.ActiveTerminals ∧
        l2.Routes.Perm scored.Routes ∧
        scored.Routes = (id groups).map float64.routeOf ∧
        l2.Routes = (List.reverse groups).map float64.routeOf ∧
        scored.Cost.LastMileCost = F64.sum ((id groups).map
          (float64.groupLastMile Sample.freeRates Sample.decimalFees Sample.threeDistances)) ∧
        l2.Cost.LastMileCost = F64.sum ((List.reverse groups).map
          (float64.groupLastMile Sample.freeRates Sample.decimalFees Sample.threeDistances)) ∧
        scored.Cost.PenaltyCost = float64.penaltyAfter (.fin 0) (id groups) ∧
        l2.Cost.PenaltyCost = float64.penaltyAfter (.fin 0) (List.reverse groups) ∧
        scored.Fitness = scored.Cost.TotalCost ∧
        l2.Fitness = l2.Cost.TotalCost ∧
        (l2.Cost.LastMileCost = scored.Cost.LastMileCost →
          l2.Cost.PenaltyCost = scored.Cost.PenaltyCost →
          l2.Cost = scored.Cost ∧ l2.Fitness = scored.Fitness) ∧
        (id groups = List.reverse groups → id groups = List.reverse groups →
          l2.Cost = scored.Cost ∧ l2.Fitness = scored.Fitness) :=
  ⟨⟨fun m => List.Perm.refl m, fun m => List.reverse_perm m⟩, by decide,
    match Except.ok_of_toOption_map
        (float64.ga_level1.CalculateFitness id id Sample.heapAll { TerminalMask := 0 }
          Sample.threeTerminals Sample.threeShipments Sample.freeRates Sample.decimalFees
          Sample.threeDistances)
        (fun s => s.ActiveTerminals) ["A", "B", "C"] (by decide!) with
    | ⟨scored, hscored, hact⟩ =>
      match Except.ok_of_toOption_map
          (float64.ga_level2.RunGALevel2 List.reverse List.reverse
            (optimizer.lookupTerminals Sample.threeTerminals ["A", "B", "C"])
            Sample.threeShipments Sample.freeRates Sample.decimalFees Sample.threeDistances)
          (fun x => x.ActiveTerminals) ["A", "B", "C"] (by decide!) with
      | ⟨l2, hl2, _⟩ =>
        ⟨scored, l2, hscored, by rw [hact]; exact hl2,
          level2_agrees_up_to_order id id List.reverse List.reverse
            (fun m => List.Perm.refl m) (fun m => List.Perm.refl m)
            (fun m => List.reverse_perm m) (fun m => List.reverse_perm m)
            Sample.heapAll 0 Sample.threeTerminals Sample.threeShipments Sample.freeRates
            Sample.decimalFees Sample.threeDistances scored l2 (by decide) hscored
            (by rw [hact]; exact hl2)⟩⟩

/-- C7 as written fails: level 1 scores the mask `A, B and C` of the sample with
last-mile cost, total and fitness 0.6000000000000001, its loop adding the three
groups' fees as `(0.1 + 0.2) + 0.3`; level 2 on the three active terminals, its loop
visiting its own map in the opposite order, gets 0.6, the sum `(0.3 + 0.2) + 0.1`.
Every other mask leaves a shipment without terminal and scores at least `1e9`, so no
other individual has a lower fitness in level 1. -/
theorem level2_agrees_up_to_order_counterexample :
    (MapOrder.IsPermutation id ∧ MapOrder.IsPermutation List.reverse) ∧
    (Sample.threeTerminals.map (fun t => t.City)).Nodup ∧
    ((float64.ga_level1.CalculateFitness id id Sample.heapAll { TerminalMask := 0 }
        Sample.threeTerminals Sample.threeShipments Sample.freeRates Sample.decimalFees
        Sample.threeDistances).toOption.map
      (fun s => (s.ActiveTerminals, s.Cost.LastMileCost, s.Cost.TotalCost, s.Fitness))) =
      some (["A", "B", "C"], .fin (1351079888211149 / 2251799813685248),
        .fin (1351079888211149 / 2251799813685248),
        .fin (1351079888211149 / 2251799813685248)) ∧
    ((float64.ga_level2.RunGALevel2 List.reverse id
        (optimizer.lookupTerminals Sample.threeTerminals ["A", "B", "C"])
        Sample.threeShipments Sample.freeRates Sample.decimalFees
        Sample.threeDistances).toOption.map
      (fun x => (x.ActiveTerminals, x.Cost.LastMileCost, x.Cost.TotalCost, x.Fitness))) =
      some (["A", "B", "C"], .fin (5404319552844595 / 9007199254740992),
        .fin (5404319552844595 / 9007199254740992),
        .fin (5404319552844595 / 9007199254740992)) ∧
    (∀ m ∈ [[false, false, false], [true, false, false], [false, true, false],
        [true, true, false], [false, false, true], [true, false, true],
        [false, true, true]],
      (float64.ga_level1.CalculateFitness id id { arrays := [m] } { TerminalMask := 0 }
        Sample.threeTerminals Sample.threeShipments Sample.freeRates Sample.decimalFees
        Sample.threeDistances).toOption.map
        (fun s => F64.le (.fin 1000000000) s.Fitness) = some true) := by
  refine ⟨⟨fun m => List.Perm.refl m, fun m => List.reverse_perm m⟩, by decide, ?_, ?_, ?_⟩
  · decide!
  · decide!
  · decide!
